import Mathlib

/-!
# ComFluSoM, Material Point Method core (`Library/MPM/MPM.h`, `Library/MPM/MPM_PARTICLE.h`)

A shallow embedding of the MPM solver and of theorems about it.

Conventions of the embedding.

* There are two readings of `double`.  In the first it is exact rational
  arithmetic (`ℚ`); `Vector3d` and `Matrix3d` are the Eigen fixed-size types over
  that scalar.  Rounding, infinities and NaN are outside this reading, and a
  quotient by zero has the value `0` in it, whereas the program gets an infinity
  or a NaN.
* In the second reading `double` is IEEE 754 binary64 (`Double`: round to
  nearest, ties to even, with signed zeros, infinities and NaN), and the
  definitions whose names end in `64` follow the program operation by
  operation.  It shows where the identities of exact arithmetic fail in the
  program, and it carries the branch selection of the Mohr-Coulomb return
  mapping.
* `size_t` is an unsigned 64-bit integer and `int` a signed 32-bit integer; the
  implicit conversions of the program are written out (`toSizeT`, `toInt`).
* `abort()` and an access outside a `std::vector` are results of type `Fault`.
* The `omp parallel for` loops are run in index order.  Their bodies only add
  into node accumulators (atomically) or touch one particle or one node; in
  exact arithmetic the theorems on `ParticleToNode` show that the order does not
  matter, in binary64 the accumulated sums depend on it.
* `SHAPE.h` and `MPM_NODE.h` are not among the sources.  The kernels of `SHAPE.h`
  and the boundary-condition methods of `MPM_NODE` are parameters; the fields of
  `MPM_NODE` are those `MPM.h` reads and writes.
-/

namespace ComFluSoM

/-! ## Scalars, vectors, machine integers -/

/-- Eigen `Vector3d` over the exact scalar. -/
abbrev Vector3d := Fin 3 → ℚ

/-- Eigen `Matrix3d` over the exact scalar. -/
abbrev Matrix3d := Matrix (Fin 3) (Fin 3) ℚ

/-- Ways in which a run stops: the `abort()` sites of the two files, and an
access outside the bounds of a `std::vector` or an integer remainder by zero
(undefined behaviour in C++). -/
inductive Fault where
  | undefinedConstitutiveModel
  | dimensionHigherThan3
  | undefinedShapeFunction
  | massProblem
  | wrongOrderOfS
  | undefinedReturn
  | outOfRange
  | moduloByZero
  | divisionByZero
  deriving DecidableEq, Repr

/-- Conversion of an integer value to `size_t` (reduction modulo `2^64`). -/
def toSizeT (z : ℤ) : ℕ := (z % 2 ^ 64).toNat

/-- Conversion of an integer value to `int` (two's complement, 32 bits). -/
def toInt (z : ℤ) : ℤ := (z + 2 ^ 31) % 2 ^ 32 - 2 ^ 31

/-- C `trunc` followed by the cast `(int)`: rounding toward zero.  The value is
taken to be representable. -/
def trunc (q : ℚ) : ℤ := if 0 ≤ q then ⌊q⌋ else ⌈q⌉

/-- C `ceil` followed by the cast `(int)`.  The value is taken to be
representable. -/
def ceil (q : ℚ) : ℤ := ⌈q⌉

/-- Values of the loop variable of `for (int i=lo; i<=hi; ++i)`, in order. -/
def intRange (lo hi : ℤ) : List ℤ :=
  (List.range (hi + 1 - lo).toNat).map fun (t : ℕ) => lo + (t : ℤ)

/-- `std::sort` on a vector of `size_t`. -/
def sort (l : List ℕ) : List ℕ := l.insertionSort (· ≤ ·)

/-- The idiom `v.erase(unique(v.begin(), v.end()), v.end())`: of every run of
equal neighbours one element is kept. -/
def unique : List ℕ → List ℕ
  | [] => []
  | [a] => [a]
  | a :: b :: t => if a = b then unique (b :: t) else a :: unique (b :: t)

/-! ## MPM_NODE -/

/-- Modelled from the spec: the class `MPM_NODE` (`MPM_NODE.h` is not among the
sources).  The fields are the members `MPM.h` uses: the accumulators `M`, `Mv`,
`F`, the resolved velocity `V`, the position `X`, the index `ID`, and the
boundary-condition registrations `BCTypes`, `Norms`, `Mu`. -/
@[ext]
structure MPM_NODE where
  ID : ℕ
  Level : ℕ
  X : Vector3d
  M : ℚ
  Mv : Vector3d
  F : Vector3d
  V : Vector3d
  Mu : ℚ
  BCTypes : List ℤ
  Norms : List Vector3d

/-- Modelled from the spec: `MPM_NODE::Reset` (`MPM_NODE.h` is not among the
sources), "reset mass/momentum/force to zero". -/
def MPM_NODE.Reset (nd : MPM_NODE) : MPM_NODE :=
  { nd with M := 0, Mv := 0, F := 0 }

/-- The boundary-condition methods of `MPM_NODE` that `CalVOnNode` calls; their
bodies are in `MPM_NODE.h`, so they are parameters of the embedding. -/
structure NODE_BC where
  NonSlippingBC : MPM_NODE → MPM_NODE
  SlippingBC : Vector3d → MPM_NODE → MPM_NODE
  FrictionBC : ℚ → Vector3d → MPM_NODE → MPM_NODE

/-! ## MPM_PARTICLE -/

/-- The class `MPM_PARTICLE`, field by field. -/
structure MPM_PARTICLE where
  /-- The member `Type` (a reserved word of Lean). -/
  Type_ : ℤ
  ID : ℤ
  Tag : ℤ
  M : ℚ
  Vol : ℚ
  Vol0 : ℚ
  Arc : ℚ
  Mu : ℚ
  La : ℚ
  Young : ℚ
  Poisson : ℚ
  C : ℚ
  Phi : ℚ
  Psi : ℚ
  P : ℚ
  PSize0 : Vector3d
  PSize : Vector3d
  X : Vector3d
  X0 : Vector3d
  DeltaX : Vector3d
  V : Vector3d
  Vf : Vector3d
  B : Vector3d
  Fh0 : Vector3d
  Fh : Vector3d
  Nor : Vector3d
  S : Matrix3d
  L : Matrix3d
  F : Matrix3d
  Dp : Matrix3d
  Dpi : Matrix3d
  FixV : Bool
  Removed : Bool
  Lnei : List ℤ
  Lni : List ℕ
  LnN : List ℚ
  LnGN : List Vector3d

/-- A particle all of whose numeric members are zero; it stands for the
indeterminate initial content of the members a constructor does not assign. -/
def MPM_PARTICLE.zero : MPM_PARTICLE :=
  { Type_ := 0, ID := 0, Tag := 0, M := 0, Vol := 0, Vol0 := 0, Arc := 0, Mu := 0,
    La := 0, Young := 0, Poisson := 0, C := 0, Phi := 0, Psi := 0, P := 0,
    PSize0 := 0, PSize := 0, X := 0, X0 := 0, DeltaX := 0, V := 0, Vf := 0, B := 0,
    Fh0 := 0, Fh := 0, Nor := 0, S := 0, L := 0, F := 0, Dp := 0, Dpi := 0,
    FixV := false, Removed := false, Lnei := [], Lni := [], LnN := [], LnGN := [] }

/-- The default constructor `MPM_PARTICLE::MPM_PARTICLE()`; `raw` holds the
content of the members it leaves unassigned. -/
def MPM_PARTICLE.MPM_PARTICLE0 (raw : MPM_PARTICLE) : MPM_PARTICLE :=
  { raw with
    Type_ := -1, ID := 0, Tag := 0, M := 0, X := 0, X0 := 0, V := 0, Vf := 0, B := 0,
    Fh := 0, Fh0 := 0, Nor := 0, S := 0, F := 1, Lnei := [], Lni := [], LnN := [],
    LnGN := [], FixV := false, Removed := false }

/-- `MPM_PARTICLE::Elastic`: `S += 2.*Mu*de + La*de.trace()*Matrix3d::Identity()`,
in exact arithmetic (`MPM_PARTICLE64.Elastic` rounds every operation). -/
def MPM_PARTICLE.Elastic (p : MPM_PARTICLE) (de : Matrix3d) : MPM_PARTICLE :=
  { p with S := p.S + ((2 * p.Mu) • de + (p.La * de.trace) • (1 : Matrix3d)) }

/-! ## SHAPE.h -/

/-- Names of the weight functions of `SHAPE.h` the constructor can store in the
function pointer `N`. -/
inductive ShapeName where
  | ShapeL1D | ShapeL2D | ShapeL3D
  | ShapeQ1D | ShapeQ2D | ShapeQ3D
  | ShapeC1D | ShapeC2D | ShapeC3D
  | ShapeGIMP1D | ShapeGIMP2D | ShapeGIMP3D
  deriving DecidableEq, Repr

/-- Names of the gradient functions of `SHAPE.h` the constructor can store in
the function pointer `GN`. -/
inductive GradName where
  | GradShapeL1D | GradShapeL2D | GradShapeL3D
  | GradShapeQ1D | GradShapeQ2D | GradShapeQ3D
  | GradShapeC1D | GradShapeC2D | GradShapeC3D
  | GradShapeGIMP1D | GradShapeGIMP2D | GradShapeGIMP3D
  deriving DecidableEq, Repr

/-- The kernels of `SHAPE.h`, which is not among the sources: the weight
functions, the gradient functions, and `GIMP3D`, which returns weight and
gradient through its two reference arguments.  Arguments are
`(x, xc, l, lp)`: particle position, node position, cell size, particle
half-width. -/
structure SHAPE where
  N : ShapeName → Vector3d → Vector3d → Vector3d → Vector3d → ℚ
  GN : GradName → Vector3d → Vector3d → Vector3d → Vector3d → Vector3d
  GIMP3D : Vector3d → Vector3d → Vector3d → Vector3d → ℚ × Vector3d

/-! ## MPM -/

/-- The class `MPM`.  The function pointers `N` and `GN` hold the name of the
kernel they point to. -/
structure MPM where
  N : ShapeName
  GN : GradName
  LAn : List ℕ
  Lp : List MPM_PARTICLE
  Ln : List MPM_NODE
  Periodic : Fin 3 → Bool
  Nx : ℕ
  Ny : ℕ
  Nz : ℕ
  Ncz : ℕ
  Ncy : ℕ
  Nnode : ℕ
  Nproc : ℕ
  D : ℕ
  Ntype : ℕ
  CMType : ℕ
  Nrange : ℚ
  Dt : ℚ
  Dc : ℚ
  C : ℚ
  Dx : Vector3d
  /-- The list `Lbp` of pointers to boundary particles; a pointer is the index in
  `Lp` of the particle it points to. -/
  Lbp : List ℕ := []

/-- The chain of `if`/`else if` of the constructor that stores the kernels:
for shape-function type `ntype` and dimension `D` it gives the targets of `N`
and `GN` and the value of `Nrange`. -/
def selectShape (ntype D : ℕ) : Except Fault (ShapeName × GradName × ℚ) :=
  if ntype = 0 then
    if D = 1 then .ok (.ShapeL1D, .GradShapeL1D, 1)
    else if D = 2 then .ok (.ShapeL2D, .GradShapeL2D, 1)
    else if D = 3 then .ok (.ShapeL3D, .GradShapeL3D, 1)
    else .error .dimensionHigherThan3
  else if ntype = 1 then
    if D = 1 then .ok (.ShapeQ1D, .GradShapeQ1D, 3 / 2)
    else if D = 2 then .ok (.ShapeQ2D, .GradShapeL2D, 3 / 2)
    else if D = 3 then .ok (.ShapeQ3D, .GradShapeQ3D, 3 / 2)
    else .error .dimensionHigherThan3
  else if ntype = 2 then
    if D = 1 then .ok (.ShapeC1D, .GradShapeC1D, 2)
    else if D = 2 then .ok (.ShapeC2D, .GradShapeC2D, 2)
    else if D = 3 then .ok (.ShapeC3D, .GradShapeC3D, 2)
    else .error .dimensionHigherThan3
  else if ntype = 3 then
    if D = 1 then .ok (.ShapeGIMP1D, .GradShapeGIMP1D, 1)
    else if D = 2 then .ok (.ShapeGIMP2D, .GradShapeGIMP2D, 1)
    else if D = 3 then .ok (.ShapeGIMP3D, .GradShapeGIMP3D, 1)
    else .error .dimensionHigherThan3
  else .error .undefinedShapeFunction

/-- The dimension the constructor derives from the grid size: `D = 3`, then
`if (Nz==0) { D = 2; if (Ny==0) D = 1; }`. -/
def dimOf (ny nz : ℕ) : ℕ := if nz = 0 then (if ny = 0 then 1 else 2) else 3

set_option linter.dupNamespace false in
/-- The constructor `MPM::MPM(ntype, cmtype, nx, ny, nz, dx)`.  The products are
taken in `size_t`. -/
def MPM.MPM (ntype cmtype nx ny nz : ℕ) (dx : Vector3d) : Except Fault MPM :=
  if cmtype = 0 ∨ cmtype = 1 ∨ cmtype = 2 then
    match selectShape ntype (dimOf ny nz) with
    | .error e => .error e
    | .ok (n, gn, nrange) =>
      .ok { N := n, GN := gn, LAn := [], Lp := [], Ln := [],
            Periodic := fun _ => false,
            Nx := nx, Ny := ny, Nz := nz,
            Ncz := ((nx + 1) * (ny + 1)) % 2 ^ 64,
            Ncy := (nx + 1) % 2 ^ 64,
            Nnode := ((nx + 1) * (ny + 1) * (nz + 1)) % 2 ^ 64,
            Nproc := 1, D := dimOf ny nz, Ntype := ntype, CMType := cmtype,
            Nrange := nrange, Dt := 1, Dc := 0, C := 0, Dx := dx }
  else .error .undefinedConstitutiveModel

/-- The flat index `int id = i+j*Ncy+k*Ncz` of `CalNGN` as it is stored in a
`vector<size_t>`: the sum is formed in `size_t`, narrowed to `int`, and widened
to `size_t` again by `push_back`. -/
def nodeId (s : MPM) (i j k : ℤ) : ℕ :=
  toSizeT (toInt (toSizeT (i + j * s.Ncy + k * s.Ncz)))

/-- Lower corner `minx` of the candidate box of `CalNGN`: on the axes `d < D`
it is `(int) trunc(X(d) - PSize(d) - 1.)`, on the others `0`. -/
def minx (s : MPM) (p0 : MPM_PARTICLE) (d : Fin 3) : ℤ :=
  if d.val < s.D then trunc (p0.X d - p0.PSize d - 1) else 0

/-- Upper corner `maxx` of the candidate box of `CalNGN`: on the axes `d < D`
it is `(int) ceil(X(d) + PSize(d) + 1.)`, on the others `0`. -/
def maxx (s : MPM) (p0 : MPM_PARTICLE) (d : Fin 3) : ℤ :=
  if d.val < s.D then ceil (p0.X d + p0.PSize d + 1) else 0

/-- The candidate nodes of `CalNGN` in the order of its three nested loops
(`i` outermost, `k` innermost). -/
def candidates (s : MPM) (p0 : MPM_PARTICLE) : List (ℤ × ℤ × ℤ) :=
  (intRange (minx s p0 0) (maxx s p0 0)).flatMap fun i =>
    (intRange (minx s p0 1) (maxx s p0 1)).flatMap fun j =>
      (intRange (minx s p0 2) (maxx s p0 2)).map fun k => (i, j, k)

/-- Position `Vector3d xn (i,j,k)` of a candidate node. -/
def nodePos (c : ℤ × ℤ × ℤ) : Vector3d := ![(c.1 : ℚ), (c.2.1 : ℚ), (c.2.2 : ℚ)]

/-- The body of the loop of `CalNGN` for one candidate: the kernel `GIMP3D` is
evaluated, and the node is kept with its id, weight and gradient if `n>0.`. -/
def hit (sh : SHAPE) (s : MPM) (p0 : MPM_PARTICLE) (c : ℤ × ℤ × ℤ) :
    Option (ℕ × ℚ × Vector3d) :=
  let r := sh.GIMP3D p0.X (nodePos c) s.Dx p0.PSize
  if 0 < r.1 then some (nodeId s c.1 c.2.1 c.2.2, r.1, r.2) else none

/-- `MPM::CalNGN`: the three lists are emptied and refilled by parallel
`push_back`. -/
def CalNGN (sh : SHAPE) (s : MPM) (p0 : MPM_PARTICLE) : MPM_PARTICLE :=
  let hits := (candidates s p0).filterMap (hit sh s p0)
  { p0 with
    Lni := hits.map fun h => h.1
    LnN := hits.map fun h => h.2.1
    LnGN := hits.map fun h => h.2.2 }

/-- The triples `(Lni[l], LnN[l], LnGN[l])` a loop `for l < Lni.size()` reads when
the three lists have the same length, as they have after `CalNGN`. -/
def entries (p : MPM_PARTICLE) : List (ℕ × ℚ × Vector3d) :=
  List.zip p.Lni (List.zip p.LnN p.LnGN)

/-- Force increment of `ParticleToNode` for one influence entry:
`df = n*fex + vsp*gn` with `vsp = -Vol*S` and `fex = M*B + Fh`. -/
def forceInc (p : MPM_PARTICLE) (n : ℚ) (gn : Vector3d) : Vector3d :=
  n • (p.M • p.B + p.Fh) + ((-p.Vol) • p.S).mulVec gn

/-- The inner loop of `ParticleToNode` over the influence entries of particle
`p`: the check `nm<0.` that aborts, then the atomic additions into node `id`.
The additions are exact here (`scatterEntries64` rounds each of them). -/
def scatterEntries (Dt : ℚ) (p : MPM_PARTICLE) :
    List (ℕ × ℚ × Vector3d) → List MPM_NODE → Except Fault (List MPM_NODE)
  | [], Ln => .ok Ln
  | (id, n, gn) :: es, Ln =>
    let df := forceInc p n gn
    let nm := n * p.M
    if nm < 0 then .error .massProblem
    else
      match Ln[id]? with
      | none => .error .outOfRange
      | some nd =>
        scatterEntries Dt p es
          (Ln.set id { nd with M := nd.M + nm, Mv := nd.Mv + nm • p.V + Dt • df, F := nd.F + df })

/-- The first loop of `ParticleToNode`: `Ln[LAn[n]]->Reset()`. -/
def resetNodes : List ℕ → List MPM_NODE → Except Fault (List MPM_NODE)
  | [], Ln => .ok Ln
  | id :: ids, Ln =>
    match Ln[id]? with
    | none => .error .outOfRange
    | some nd => resetNodes ids (Ln.set id nd.Reset)

/-- The particle loop of `ParticleToNode`: `CalNGN(Lp[p])`, then the scatter of
the particle.  The result holds the particles with their new influence lists and
the nodes. -/
def scatterParticles (sh : SHAPE) (s : MPM) :
    List MPM_PARTICLE → List MPM_NODE → Except Fault (List MPM_PARTICLE × List MPM_NODE)
  | [], Ln => .ok ([], Ln)
  | p :: ps, Ln =>
    match scatterEntries s.Dt (CalNGN sh s p) (entries (CalNGN sh s p)) Ln with
    | .error e => .error e
    | .ok Ln1 =>
      match scatterParticles sh s ps Ln1 with
      | .error e => .error e
      | .ok (ps1, Ln2) => .ok (CalNGN sh s p :: ps1, Ln2)

/-- The per-worker lists `lan[n]`, `n < Nproc`, before they are sorted:
worker `n` appends the `Lni` of the particles `p` with
`omp_get_thread_num() = n`, here `sched p = n`, in increasing `p`. -/
def workerLists (Nproc : ℕ) (sched : ℕ → ℕ) (Lp : List MPM_PARTICLE) : List (List ℕ) :=
  (List.range Nproc).map fun n =>
    (Lp.enum.filter fun q => sched q.1 = n).flatMap fun q => q.2.Lni

/-- The active-node list built at the end of `ParticleToNode`: every `lan[n]` is
sorted and made unique, the lists are appended to the emptied `LAn`, and `LAn`
is sorted and made unique. -/
def buildLAn (Nproc : ℕ) (sched : ℕ → ℕ) (Lp : List MPM_PARTICLE) : List ℕ :=
  unique (sort ((workerLists Nproc sched Lp).map fun l => unique (sort l)).flatten)

/-- `MPM::ParticleToNode`.  `sched p` is the number of the thread that runs
iteration `p` of the loop filling `lan`. -/
def ParticleToNode (sh : SHAPE) (sched : ℕ → ℕ) (s : MPM) : Except Fault MPM :=
  match resetNodes s.LAn s.Ln with
  | .error e => .error e
  | .ok Ln0 =>
    match scatterParticles sh s s.Lp Ln0 with
    | .error e => .error e
    | .ok (Lp1, Ln1) =>
      .ok { s with Lp := Lp1, Ln := Ln1, LAn := buildLAn s.Nproc sched Lp1 }

/-- Eigen `norm()`: the square root, a function of the C library, of the
squared norm. -/
def norm (sqrt : ℚ → ℚ) (v : Vector3d) : ℚ := sqrt (Matrix.dotProduct v v)

/-- Eigen `normalized()`: the vector divided by its norm if its squared norm is
positive, the vector itself otherwise. -/
def normalized (sqrt : ℚ → ℚ) (v : Vector3d) : Vector3d :=
  if 0 < Matrix.dotProduct v v then fun i => v i / sqrt (Matrix.dotProduct v v) else v

/-- One iteration `i` of the boundary-condition loop of `CalVOnNode`. -/
def applyBC (bc : NODE_BC) (Dt : ℚ) (nd : MPM_NODE) (i : ℕ) : Except Fault MPM_NODE :=
  match nd.BCTypes[i]? with
  | none => .error .outOfRange
  | some t =>
    if t = 1 then .ok (bc.NonSlippingBC nd)
    else if t = 2 then
      match nd.Norms[i]? with
      | none => .error .outOfRange
      | some nrm => .ok (bc.SlippingBC nrm nd)
    else if t = 3 then
      match nd.Norms[i]? with
      | none => .error .outOfRange
      | some nrm => .ok (bc.FrictionBC Dt nrm nd)
    else .ok nd

/-- The boundary-condition loop of `CalVOnNode` over the indices `is`. -/
def applyBCs (bc : NODE_BC) (Dt : ℚ) : List ℕ → MPM_NODE → Except Fault MPM_NODE
  | [], nd => .ok nd
  | i :: is, nd =>
    match applyBC bc Dt nd i with
    | .error e => .error e
    | .ok nd1 => applyBCs bc Dt is nd1

/-- The body of the loop of `CalVOnNode` for one node.  The boundary-condition
loop runs over `i < BCTypes.size()`; the methods of `MPM_NODE` it calls do not
register boundary conditions, so the bound is the one on entry. -/
def resolveNode (bc : NODE_BC) (sqrt : ℚ → ℚ) (Dt Dc : ℚ) (nd : MPM_NODE) :
    Except Fault MPM_NODE :=
  if nd.M = 0 then .ok { nd with V := 0 }
  else
    let fdamp : Vector3d := (Dc * norm sqrt nd.F) • normalized sqrt nd.Mv
    let nd1 : MPM_NODE := { nd with F := nd.F - fdamp, Mv := nd.Mv - Dt • fdamp }
    match applyBCs bc Dt (List.range nd1.BCTypes.length) nd1 with
    | .error e => .error e
    | .ok nd2 =>
      let nd3 : MPM_NODE := { nd2 with V := fun i => nd2.Mv i / nd2.M }
      if nd3.M < 1 / 10 ^ 12 then .ok { nd3 with V := 0 } else .ok nd3

/-- The loop of `CalVOnNode` over the active-node list. -/
def resolveNodes (bc : NODE_BC) (sqrt : ℚ → ℚ) (Dt Dc : ℚ) :
    List ℕ → List MPM_NODE → Except Fault (List MPM_NODE)
  | [], Ln => .ok Ln
  | id :: ids, Ln =>
    match Ln[id]? with
    | none => .error .outOfRange
    | some nd =>
      match resolveNode bc sqrt Dt Dc nd with
      | .error e => .error e
      | .ok nd1 => resolveNodes bc sqrt Dt Dc ids (Ln.set id nd1)

/-- `MPM::CalVOnNode`. -/
def CalVOnNode (bc : NODE_BC) (sqrt : ℚ → ℚ) (s : MPM) : Except Fault MPM :=
  match resolveNodes bc sqrt s.Dt s.Dc s.LAn s.Ln with
  | .error e => .error e
  | .ok Ln1 => .ok { s with Ln := Ln1 }

/-- Change of one node of `Ln`, as done through `Ln[n]->...`. -/
def updNode (s : MPM) (n : ℕ) (f : MPM_NODE → MPM_NODE) : Except Fault MPM :=
  match s.Ln[n]? with
  | none => .error .outOfRange
  | some nd => .ok { s with Ln := s.Ln.set n (f nd) }

/-- `MPM::SetNonSlippingBC(size_t n)`. -/
def SetNonSlippingBC (s : MPM) (n : ℕ) : Except Fault MPM :=
  updNode s n fun nd => { nd with BCTypes := nd.BCTypes ++ [1] }

/-- `MPM::SetSlippingBC(size_t n, Vector3d& norm)`. -/
def SetSlippingBC (s : MPM) (n : ℕ) (nrm : Vector3d) : Except Fault MPM :=
  updNode s n fun nd => { nd with BCTypes := nd.BCTypes ++ [2], Norms := nd.Norms ++ [nrm] }

/-- `MPM::SetFrictionBC(size_t n, double mu, Vector3d& norm)`. -/
def SetFrictionBC (s : MPM) (n : ℕ) (mu : ℚ) (nrm : Vector3d) : Except Fault MPM :=
  updNode s n fun nd =>
    { nd with BCTypes := nd.BCTypes ++ [3], Norms := nd.Norms ++ [nrm], Mu := mu }

/-- The index `int n = i+j*Ncy+k*Ncz` of the `(i,j,k)` overloads, as it reaches
`Ln[n]`. -/
def flatIndex (s : MPM) (i j k : ℕ) : ℕ :=
  toSizeT (toInt (toSizeT ((i : ℤ) + j * s.Ncy + k * s.Ncz)))

/-- `MPM::SetNonSlippingBC(size_t i, size_t j, size_t k)`. -/
def SetNonSlippingBC3 (s : MPM) (i j k : ℕ) : Except Fault MPM :=
  SetNonSlippingBC s (flatIndex s i j k)

/-- `MPM::SetSlippingBC(size_t i, size_t j, size_t k, Vector3d& norm)`. -/
def SetSlippingBC3 (s : MPM) (i j k : ℕ) (nrm : Vector3d) : Except Fault MPM :=
  SetSlippingBC s (flatIndex s i j k) nrm

/-- `MPM::SetFrictionBC(size_t i, size_t j, size_t k, double mu, Vector3d& norm)`. -/
def SetFrictionBC3 (s : MPM) (i j k : ℕ) (mu : ℚ) (nrm : Vector3d) : Except Fault MPM :=
  SetFrictionBC s (flatIndex s i j k) mu nrm

/-- The pairs `(Lni[l], LnN[l])` the loop of `NodeToParticle` reads; a list
`LnN` shorter than `Lni` is read outside its bounds. -/
def gatherEntries (p : MPM_PARTICLE) : Except Fault (List (ℕ × ℚ)) :=
  if p.LnN.length < p.Lni.length then .error .outOfRange
  else .ok (List.zip p.Lni p.LnN)

/-- The inner loop of `NodeToParticle` for a particle whose velocity is not
fixed: for `n>0.` the node is read, `V += n*(F/M)*Dt` and `X += n*V_node*Dt`.
The quotient `F/M` is exact, and `0` for `M = 0`, where the program gets an
infinity or a NaN (`gatherLoop64` follows the program there). -/
def gatherLoop (Dt : ℚ) (Ln : List MPM_NODE) :
    List (ℕ × ℚ) → MPM_PARTICLE → Except Fault MPM_PARTICLE
  | [], p => .ok p
  | (id, n) :: es, p =>
    if 0 < n then
      match Ln[id]? with
      | none => .error .outOfRange
      | some nd =>
        gatherLoop Dt Ln es
          { p with V := p.V + (n * Dt) • (fun i => nd.F i / nd.M), X := p.X + (n * Dt) • nd.V }
    else gatherLoop Dt Ln es p

/-- The body of the loop of `NodeToParticle` for one particle. -/
def gatherParticle (Dt : ℚ) (Ln : List MPM_NODE) (p : MPM_PARTICLE) :
    Except Fault MPM_PARTICLE :=
  let p0 : MPM_PARTICLE := { p with DeltaX := 0 }
  if p0.FixV then .ok { p0 with V := p0.Vf, X := p0.X + Dt • p0.Vf }
  else
    match gatherEntries p0 with
    | .error e => .error e
    | .ok es => gatherLoop Dt Ln es p0

/-- The particle loop of `NodeToParticle`. -/
def gatherParticles (Dt : ℚ) (Ln : List MPM_NODE) :
    List MPM_PARTICLE → Except Fault (List MPM_PARTICLE)
  | [] => .ok []
  | p :: ps =>
    match gatherParticle Dt Ln p with
    | .error e => .error e
    | .ok p1 =>
      match gatherParticles Dt Ln ps with
      | .error e => .error e
      | .ok ps1 => .ok (p1 :: ps1)

/-- `MPM::NodeToParticle`. -/
def NodeToParticle (s : MPM) : Except Fault MPM :=
  match gatherParticles s.Dt s.Ln s.Lp with
  | .error e => .error e
  | .ok Lp1 => .ok { s with Lp := Lp1 }

/-- Acceleration `Ln[id]->F/Ln[id]->M` read at node `id` (zero if there is no
such node, and zero for a node of mass `0`, where the program gets an infinity
or a NaN). -/
def nodeAcc (Ln : List MPM_NODE) (id : ℕ) : Vector3d :=
  match Ln[id]? with
  | some nd => fun i => nd.F i / nd.M
  | none => 0

/-- Velocity `Ln[id]->V` read at node `id` (zero if there is no such node). -/
def nodeVel (Ln : List MPM_NODE) (id : ℕ) : Vector3d :=
  match Ln[id]? with
  | some nd => nd.V
  | none => 0

/-! ## Library functions used by the constitutive models -/

/-- The functions `sin`, `cos` and `sqrt` of the C library, parameters of the
embedding. -/
structure LIBM where
  sin : ℚ → ℚ
  cos : ℚ → ℚ
  sqrt : ℚ → ℚ

/-- Eigen `inverse()` of a fixed-size 3×3 matrix: the transposed cofactor matrix
divided by the determinant. -/
def inverse (A : Matrix3d) : Matrix3d := (A.det)⁻¹ • A.adjugate

/-- Eigen `cross` of two `Vector3d`. -/
def cross (a b : Vector3d) : Vector3d :=
  ![a 1 * b 2 - a 2 * b 1, a 2 * b 0 - a 0 * b 2, a 0 * b 1 - a 1 * b 0]

/-! ## MPM_PARTICLE: construction and constitutive laws -/

/-- The constructor `MPM_PARTICLE::MPM_PARTICLE(type, x, m, young, poisson)`;
`raw` holds the content of the members it leaves unassigned. -/
def MPM_PARTICLE.MPM_PARTICLE5 (raw : MPM_PARTICLE) (type : ℤ) (x : Vector3d)
    (m young poisson : ℚ) : MPM_PARTICLE :=
  { raw with
    Type_ := type, ID := 0, Tag := 0, M := m, X := x, X0 := x, V := 0, Vf := 0, B := 0,
    Fh := 0, Nor := 0, S := 0, F := 1, Lnei := [], Lni := [], LnN := [], LnGN := [],
    FixV := false, Removed := false, Young := young, Poisson := poisson,
    Mu := 1 / 2 * young / (1 + poisson),
    La := young * poisson / (1 + poisson) / (1 - 2 * poisson),
    Dp := fun i j =>
      if i = j then
        young * poisson / (1 + poisson) / (1 - 2 * poisson) + 2 * (1 / 2 * young / (1 + poisson))
      else young * poisson / (1 + poisson) / (1 - 2 * poisson),
    Dpi := inverse fun i j =>
      if i = j then
        young * poisson / (1 + poisson) / (1 - 2 * poisson) + 2 * (1 / 2 * young / (1 + poisson))
      else young * poisson / (1 + poisson) / (1 - 2 * poisson) }

/-- `MPM_PARTICLE::Newtonian`:
`S += 2.*Mu*(de - de.trace()/3.*Matrix3d::Identity()) - P*Matrix3d::Identity()`. -/
def MPM_PARTICLE.Newtonian (p : MPM_PARTICLE) (de : Matrix3d) : MPM_PARTICLE :=
  { p with
    S := p.S + ((2 * p.Mu) • (de - (de.trace / 3) • (1 : Matrix3d)) - p.P • (1 : Matrix3d)) }

/-- `MPM_PARTICLE::EOSMorris`: `P = C*C*M/Vol`. -/
def MPM_PARTICLE.EOSMorris (p : MPM_PARTICLE) (C : ℚ) : MPM_PARTICLE :=
  { p with P := C * C * p.M / p.Vol }

/-- `MPM_PARTICLE::EOSMonaghan`: `P = C*C*M/Vol0/7.*(pow(Vol0/Vol,7.)-1.)`. -/
def MPM_PARTICLE.EOSMonaghan (p : MPM_PARTICLE) (C : ℚ) : MPM_PARTICLE :=
  { p with P := C * C * p.M / p.Vol0 / 7 * ((p.Vol0 / p.Vol) ^ 7 - 1) }

/-- The yield value of `MohrCoulomb` (Eq.28 of the code) at principal stresses
`sg`: `(s1-s3) + (s1+s3)*sin(Phi) - 2.*C*cos(Phi)`. -/
def yieldF (m : LIBM) (p : MPM_PARTICLE) (sg : Vector3d) : ℚ :=
  (sg 0 - sg 2) + (sg 0 + sg 2) * m.sin p.Phi - 2 * p.C * m.cos p.Phi

/-- The return mapping of `MohrCoulomb` in principal-stress space, entered when
`f>0.`: from the trial principal stresses `sb` and the yield value `f` it gives
the corrected principal stresses `sc`, or aborts with "undefined".  The
arithmetic is exact: a quotient by zero (`1 - sin`, `k - 1`, `b1ᵀ*Dp*a1`, `t1f`,
`t2f`) is `0` here, whereas the program gets an infinity or a NaN, for which
every test is false; `returnMap64` follows the program there. -/
def returnMap (m : LIBM) (p : MPM_PARTICLE) (sb : Vector3d) (f : ℚ) : Except Fault Vector3d :=
  let k : ℚ := (1 + m.sin p.Phi) / (1 - m.sin p.Phi)
  let a1 : Vector3d := ![k, 0, -1]
  let mm : ℚ := (1 + m.sin p.Psi) / (1 - m.sin p.Psi)
  let b1 : Vector3d := ![mm, 0, -1]
  let rp : Vector3d := fun i => (p.Dp.mulVec b1) i / Matrix.dotProduct b1 (p.Dp.mulVec a1)
  let sa : Vector3d := fun _ => 1 * (2 * p.C * m.sqrt k / (k - 1))
  let rl1 : Vector3d := ![1, 1, k]
  let rl2 : Vector3d := ![1, k, k]
  let rgl1 : Vector3d := ![1, 1, mm]
  let rgl2 : Vector3d := ![1, mm, mm]
  let t1 : ℚ := Matrix.dotProduct rgl1 (p.Dpi.mulVec (sb - sa)) /
    Matrix.dotProduct rgl1 (p.Dpi.mulVec rl1)
  let t2 : ℚ := Matrix.dotProduct rgl2 (p.Dpi.mulVec (sb - sa)) /
    Matrix.dotProduct rgl2 (p.Dpi.mulVec rl2)
  let p12 : ℚ := Matrix.dotProduct (cross rp rl1) (sb - sa)
  let p13 : ℚ := Matrix.dotProduct (cross rp rl2) (sb - sa)
  if 0 < t1 ∧ 0 < t2 then .ok sa
  else if 0 ≤ p12 ∧ p13 ≤ 0 then .ok (sb - f • rp)
  else if p12 < 0 ∧ p13 < 0 then .ok (t1 • rl1 + sa)
  else if 0 < p12 ∧ 0 < p13 then .ok (t2 • rl2 + sa)
  else .error .undefinedReturn

/-- `MPM_PARTICLE::MohrCoulomb`.  `eig` is Eigen's `SelfAdjointEigenSolver`: for
a matrix it gives the vector `eigenvalues()` and the matrix `eigenvectors()`
(one eigenvector per column). -/
def MPM_PARTICLE.MohrCoulomb (m : LIBM) (eig : Matrix3d → Vector3d × Matrix3d)
    (p : MPM_PARTICLE) (de : Matrix3d) : Except Fault MPM_PARTICLE :=
  let p1 := p.Elastic de
  let s1 := (eig p1.S).1 2
  let s2 := (eig p1.S).1 1
  let s3 := (eig p1.S).1 0
  let sb : Vector3d := ![s1, s2, s3]
  if s1 < s2 ∨ s1 < s3 ∨ s2 < s3 then .error .wrongOrderOfS
  else
    let f := yieldF m p1 sb
    if 0 < f then
      let v0 : Matrix3d := fun i j => (eig p1.S).2 i (Fin.rev j)
      match returnMap m p1 sb f with
      | .error e => .error e
      | .ok sc => .ok { p1 with S := v0 * Matrix.diagonal sc * inverse v0 }
    else .ok p1

/-! ## MPM: constitutive update -/

/-- The pairs `(Lni[l], LnGN[l])` the loop of `CalVGradLocal` reads; a list
`LnGN` shorter than `Lni` is read outside its bounds. -/
def gradEntries (p : MPM_PARTICLE) : Except Fault (List (ℕ × Vector3d)) :=
  if p.LnGN.length < p.Lni.length then .error .outOfRange
  else .ok (List.zip p.Lni p.LnGN)

/-- The loop of `CalVGradLocal`: `L += gn*Ln[id]->V.transpose()`. -/
def gradLoop (Ln : List MPM_NODE) : List (ℕ × Vector3d) → Matrix3d → Except Fault Matrix3d
  | [], L => .ok L
  | (id, gn) :: es, L =>
    match Ln[id]? with
    | none => .error .outOfRange
    | some nd => gradLoop Ln es (L + Matrix.vecMulVec gn nd.V)

/-- `MPM::CalVGradLocal` for one particle. -/
def CalVGradLocal (Ln : List MPM_NODE) (p : MPM_PARTICLE) : Except Fault MPM_PARTICLE :=
  match gradEntries p with
  | .error e => .error e
  | .ok es =>
    match gradLoop Ln es 0 with
    | .error e => .error e
    | .ok L => .ok { p with L := L }

/-- `MPM::CalPSizeR` for one particle: the reference half-width scaled by the
norm of the matching column of `F`. -/
def CalPSizeR (sqrt : ℚ → ℚ) (p : MPM_PARTICLE) : MPM_PARTICLE :=
  { p with
    PSize := fun d =>
      p.PSize0 d * sqrt (p.F 0 d * p.F 0 d + p.F 1 d * p.F 1 d + p.F 2 d * p.F 2 d) }

/-- `MPM::CalPSizeCP` for one particle. -/
def CalPSizeCP (p : MPM_PARTICLE) : MPM_PARTICLE :=
  { p with PSize := fun d => p.PSize0 d * p.F d d }

/-- The body of the loop of `CalStressOnParticleElastic` for one particle. -/
def stressElastic (sqrt : ℚ → ℚ) (Dt : ℚ) (Ln : List MPM_NODE) (p : MPM_PARTICLE) :
    Except Fault MPM_PARTICLE :=
  match CalVGradLocal Ln p with
  | .error e => .error e
  | .ok p1 =>
    let p2 : MPM_PARTICLE := { p1 with F := (1 + Dt • p1.L) * p1.F }
    let p3 : MPM_PARTICLE := CalPSizeR sqrt p2
    let p4 : MPM_PARTICLE := { p3 with Vol := p3.F.det * p3.Vol0 }
    let de : Matrix3d := (1 / 2 * Dt) • (p4.L + p4.L.transpose)
    let w : Matrix3d := (1 / 2 * Dt) • (p4.L - p4.L.transpose)
    let p5 : MPM_PARTICLE := { p4 with S := p4.S + (w * p4.S - p4.S * w.transpose) }
    .ok (p5.Elastic de)

/-- The body of the loop of `CalStressOnParticleMohrCoulomb` for one particle. -/
def stressMohrCoulomb (m : LIBM) (eig : Matrix3d → Vector3d × Matrix3d) (Dt : ℚ)
    (Ln : List MPM_NODE) (p : MPM_PARTICLE) : Except Fault MPM_PARTICLE :=
  match CalVGradLocal Ln p with
  | .error e => .error e
  | .ok p1 =>
    let p2 : MPM_PARTICLE := { p1 with F := (1 + p1.L) * p1.F }
    let p3 : MPM_PARTICLE := CalPSizeR m.sqrt p2
    let p4 : MPM_PARTICLE := { p3 with Vol := p3.F.det * p3.Vol0 }
    let de : Matrix3d := (1 / 2 * Dt) • (p4.L + p4.L.transpose)
    p4.MohrCoulomb m eig de

/-- The body of the loop of `CalStressOnParticleNewtonian` for one particle;
`C` is the speed of sound of the solver. -/
def stressNewtonian (sqrt : ℚ → ℚ) (Dt C : ℚ) (Ln : List MPM_NODE) (p : MPM_PARTICLE) :
    Except Fault MPM_PARTICLE :=
  match CalVGradLocal Ln p with
  | .error e => .error e
  | .ok p1 =>
    let p2 : MPM_PARTICLE := { p1 with F := (1 + Dt • p1.L) * p1.F }
    let p3 : MPM_PARTICLE := CalPSizeR sqrt p2
    let p4 : MPM_PARTICLE := { p3 with Vol := p3.F.det * p3.Vol0 }
    let de : Matrix3d := (1 / 2 * Dt) • (p4.L + p4.L.transpose)
    .ok ((p4.EOSMonaghan C).Newtonian de)

/-- A loop `for (size_t p=0; p<Lp.size(); ++p)` whose body `f` changes particle
`p` only. -/
def forParticles (f : MPM_PARTICLE → Except Fault MPM_PARTICLE) :
    List MPM_PARTICLE → Except Fault (List MPM_PARTICLE)
  | [] => .ok []
  | p :: ps =>
    match f p with
    | .error e => .error e
    | .ok q =>
      match forParticles f ps with
      | .error e => .error e
      | .ok qs => .ok (q :: qs)

/-- `MPM::CalStressOnParticleElastic`. -/
def CalStressOnParticleElastic (sqrt : ℚ → ℚ) (s : MPM) : Except Fault MPM :=
  match forParticles (stressElastic sqrt s.Dt s.Ln) s.Lp with
  | .error e => .error e
  | .ok Lp1 => .ok { s with Lp := Lp1 }

/-- `MPM::CalStressOnParticleMohrCoulomb`. -/
def CalStressOnParticleMohrCoulomb (m : LIBM) (eig : Matrix3d → Vector3d × Matrix3d)
    (s : MPM) : Except Fault MPM :=
  match forParticles (stressMohrCoulomb m eig s.Dt s.Ln) s.Lp with
  | .error e => .error e
  | .ok Lp1 => .ok { s with Lp := Lp1 }

/-- `MPM::CalStressOnParticleNewtonian`. -/
def CalStressOnParticleNewtonian (sqrt : ℚ → ℚ) (s : MPM) : Except Fault MPM :=
  match forParticles (stressNewtonian sqrt s.Dt s.C s.Ln) s.Lp with
  | .error e => .error e
  | .ok Lp1 => .ok { s with Lp := Lp1 }

/-! ## MPM: the MUSL loop -/

/-- The constitutive update of `SolveMUSL`, chosen by `CMType`; for a value
other than `0`, `1`, `2` none of the three branches is taken. -/
def constitutive (m : LIBM) (eig : Matrix3d → Vector3d × Matrix3d) (s : MPM) :
    Except Fault MPM :=
  if s.CMType = 0 then CalStressOnParticleElastic m.sqrt s
  else if s.CMType = 1 then CalStressOnParticleMohrCoulomb m eig s
  else if s.CMType = 2 then CalStressOnParticleNewtonian m.sqrt s
  else .ok s

/-- One pass of the loop of `SolveMUSL`: `ParticleToNode`, `CalVOnNode`,
`NodeToParticle`, constitutive update.  Console and file output are left out. -/
def stepMUSL (sh : SHAPE) (bc : NODE_BC) (m : LIBM) (eig : Matrix3d → Vector3d × Matrix3d)
    (sched : ℕ → ℕ) (s : MPM) : Except Fault MPM :=
  match ParticleToNode sh sched s with
  | .error e => .error e
  | .ok s1 =>
    match CalVOnNode bc m.sqrt s1 with
    | .error e => .error e
    | .ok s2 =>
      match NodeToParticle s2 with
      | .error e => .error e
      | .ok s3 => constitutive m eig s3

/-- The loop of `SolveMUSL` with `n` passes left, at step `t`.  The test
`t%ts == 0` for the snapshot divides by `ts`; `sched t` is the thread schedule
of step `t`. -/
def loopMUSL (sh : SHAPE) (bc : NODE_BC) (m : LIBM) (eig : Matrix3d → Vector3d × Matrix3d)
    (sched : ℕ → ℕ → ℕ) (ts : ℤ) : ℕ → ℕ → MPM → Except Fault MPM
  | 0, _, s => .ok s
  | n + 1, t, s =>
    if ts = 0 then .error .moduloByZero
    else
      match stepMUSL sh bc m eig (sched t) s with
      | .error e => .error e
      | .ok s1 => loopMUSL sh bc m eig sched ts n (t + 1) s1

/-- `MPM::SolveMUSL(tt, ts)`: `tt` passes (none if `tt <= 0`). -/
def SolveMUSL (sh : SHAPE) (bc : NODE_BC) (m : LIBM) (eig : Matrix3d → Vector3d × Matrix3d)
    (sched : ℕ → ℕ → ℕ) (tt ts : ℤ) (s : MPM) : Except Fault MPM :=
  loopMUSL sh bc m eig sched ts tt.toNat 0 s

/-! ## MPM: seeding -/

/-- `MPM::AddParticle`: the new particle is appended and gets its position in
`Lp` as `ID`; `raw` is the content of the freshly allocated object. -/
def AddParticle (raw : MPM_PARTICLE) (s : MPM) (tag : ℤ) (x : Vector3d)
    (m young poisson : ℚ) : MPM :=
  { s with
    Lp := s.Lp ++
      [{ MPM_PARTICLE.MPM_PARTICLE5 raw tag x m young poisson with ID := toInt s.Lp.length }] }

/-- The vector `maxx` of `AddBoxParticles`: `(l(d)/ratio)-1` converted to `int`
on the axes `d < D`, `0` on the others. -/
def boxMax (s : MPM) (l : Vector3d) (ratio : ℚ) (d : Fin 3) : ℤ :=
  if d.val < s.D then trunc (l d / ratio - 1) else 0

/-- The lattice indices `(i, j, k)` of `AddBoxParticles` in the order of its
three nested loops (`k` outermost, `i` innermost). -/
def boxIndices (s : MPM) (l : Vector3d) (ratio : ℚ) : List (ℤ × ℤ × ℤ) :=
  (intRange 0 (boxMax s l ratio 2)).flatMap fun k =>
    (intRange 0 (boxMax s l ratio 1)).flatMap fun j =>
      (intRange 0 (boxMax s l ratio 0)).map fun i => (i, j, k)

/-- The `type` that `AddBoxParticles` gives the particle at lattice index `c`. -/
def boxType (s : MPM) (l : Vector3d) (ratio : ℚ) (c : ℤ × ℤ × ℤ) : ℤ :=
  if s.D = 1 then
    (if c.1 = 0 ∨ c.1 = boxMax s l ratio 0 then -2 else -1)
  else if s.D = 2 then
    (if c.1 = 0 ∨ c.1 = boxMax s l ratio 0 ∨ c.2.1 = 0 ∨ c.2.1 = boxMax s l ratio 1 then -2
     else -1)
  else if s.D = 3 then
    (if c.1 = 0 ∨ c.1 = boxMax s l ratio 0 ∨ c.2.1 = 0 ∨ c.2.1 = boxMax s l ratio 1 ∨
        c.2.2 = 0 ∨ c.2.2 = boxMax s l ratio 2 then -2
     else -1)
  else -1

/-- The position that `AddBoxParticles` gives the particle at lattice index
`c`. -/
def boxPos (s : MPM) (x0 : Vector3d) (ratio : ℚ) (c : ℤ × ℤ × ℤ) : Vector3d :=
  ![ratio * ((c.1 : ℚ) + 1 / 2) + x0 0,
    if 1 < s.D then ratio * ((c.2.1 : ℚ) + 1 / 2) + x0 1 else 0,
    if 2 < s.D then ratio * ((c.2.2 : ℚ) + 1 / 2) + x0 2 else 0]

/-- The first part of `AddBoxParticles`: one `AddParticle` per lattice index;
`raw n` is the content of the object allocated when `Lp` has `n` elements. -/
def addBoxLoop (raw : ℕ → MPM_PARTICLE) (x0 l : Vector3d) (ratio m young poisson : ℚ) :
    List (ℤ × ℤ × ℤ) → MPM → MPM
  | [], s => s
  | c :: cs, s =>
    addBoxLoop raw x0 l ratio m young poisson cs
      (AddParticle (raw s.Lp.length) s (boxType s l ratio c) (boxPos s x0 ratio c) m young
        poisson)

/-- The body of the second loop of `AddBoxParticles` for one particle: `Vol0`
becomes `ratio` to the power `D`, the half-widths `0.5*ratio` for GIMP
(`Ntype==3`) and `0.` otherwise on the axes `d < D`, and `Vol = Vol0`. -/
def boxSize (s : MPM) (ratio : ℚ) (p : MPM_PARTICLE) : MPM_PARTICLE :=
  { p with
    Vol0 := 1 * ratio ^ s.D
    PSize0 := fun d => if d.val < s.D then (if s.Ntype = 3 then 1 / 2 * ratio else 0)
      else p.PSize0 d
    PSize := fun d => if d.val < s.D then (if s.Ntype = 3 then 1 / 2 * ratio else 0)
      else p.PSize d
    Vol := 1 * ratio ^ s.D }

/-- `MPM::AddBoxParticles`, for a solver with `D <= 3`. -/
def AddBoxParticles (raw : ℕ → MPM_PARTICLE) (s : MPM) (x0 l : Vector3d)
    (ratio m young poisson : ℚ) : MPM :=
  let s1 := addBoxLoop raw x0 l ratio m young poisson (boxIndices s l ratio) s
  { s1 with
    Lp := s1.Lp.map (boxSize s1 ratio)
    Lbp := (List.range s1.Lp.length).filter fun n =>
      match s1.Lp[n]? with
      | some p => p.Type_ = -2
      | none => false }

/-- The particle that the pass of `AddBoxParticles` for lattice index `c` appends
when `Lp` has `n` elements (before the second loop sets its volume and size). -/
def boxParticle (raw : ℕ → MPM_PARTICLE) (s : MPM) (x0 l : Vector3d)
    (ratio m young poisson : ℚ) (n : ℕ) (c : ℤ × ℤ × ℤ) : MPM_PARTICLE :=
  { MPM_PARTICLE.MPM_PARTICLE5 (raw n) (boxType s l ratio c) (boxPos s x0 ratio c) m young
      poisson with ID := toInt n }

/-! ## MPM: the grid -/

/-- `MPM::FindIndex`: `k = n/Ncz`, `j = (n%Ncz)/Ncy`, `i = (n%Ncz)%Ncy`; the
result is `(i, j, k)`.  A zero `Ncz` or `Ncy` is a division by zero. -/
def FindIndex (s : MPM) (n : ℕ) : Except Fault (ℕ × ℕ × ℕ) :=
  if s.Ncz = 0 then .error .divisionByZero
  else if s.Ncy = 0 then .error .divisionByZero
  else .ok ((n % s.Ncz) % s.Ncy, (n % s.Ncz) / s.Ncy, n / s.Ncz)

/-- `MPM::AddNode`: the new node is appended and gets its position in `Ln` as
`ID`.  `ctor` is the constructor `MPM_NODE(level, x)` of `MPM_NODE.h`, which is
not among the sources. -/
def AddNode (ctor : ℕ → Vector3d → MPM_NODE) (s : MPM) (level : ℕ) (x : Vector3d) : MPM :=
  { s with Ln := s.Ln ++ [{ ctor level x with ID := s.Ln.length }] }

/-- The loop of `MPM::Init` over the values `ns` of `n`:
`FindIndex(n, i, j, k)`, `Vector3d x (i, j, k)`, `AddNode(0, x)`. -/
def initLoop (ctor : ℕ → Vector3d → MPM_NODE) : List ℕ → MPM → Except Fault MPM
  | [], s => .ok s
  | n :: ns, s =>
    match FindIndex s n with
    | .error e => .error e
    | .ok (i, j, k) => initLoop ctor ns (AddNode ctor s 0 ![(i : ℚ), (j : ℚ), (k : ℚ)])

/-- `MPM::Init`: `Lp` and `Ln` are emptied and one node is added for every
`n < (Nx+1)*(Ny+1)*(Nz+1)`, the product taken in `size_t`. -/
def Init (ctor : ℕ → Vector3d → MPM_NODE) (s : MPM) : Except Fault MPM :=
  initLoop ctor (List.range (((s.Nx + 1) * (s.Ny + 1) * (s.Nz + 1)) % 2 ^ 64))
    { s with Lp := [], Ln := [] }

/-- `MPM::DeleteParticles`: the particles that are not `Removed` are kept in
their order and get their position as `ID` (a `size_t` stored in an `int`).
`Lbp` is not touched: its pointers keep naming the objects they named, which the
positions of this model express only as long as `Lp` is not compacted. -/
def DeleteParticles (s : MPM) : MPM :=
  { s with
    Lp := (s.Lp.filter fun p => !p.Removed).enum.map fun np =>
      { np.2 with ID := toInt np.1 } }

/-! ## MPM_PARTICLE: the quantities of the return mapping -/

/-- All pairs (particle `p`, influence entry `(Lni[l], LnN[l], LnGN[l])` of `p`),
particle by particle. -/
def pairs (Lp : List MPM_PARTICLE) : List (MPM_PARTICLE × ℕ × ℚ × Vector3d) :=
  Lp.flatMap fun p => (entries p).map fun e => (p, e)

/-- The pairs (particle, influence entry) whose node index `Lni[l]` is `id`. -/
def pairsAt (Lp : List MPM_PARTICLE) (id : ℕ) : List (MPM_PARTICLE × ℕ × ℚ × Vector3d) :=
  (pairs Lp).filter fun pe => pe.2.1 = id

/-- Node `nd` with the contributions `w*M`, `w*M*V + df*Dt` and `df` of the
pairs in `ps` that name node `id` added to its mass, momentum and force. -/
def accNode (Dt : ℚ) (ps : List (MPM_PARTICLE × ℕ × ℚ × Vector3d)) (id : ℕ)
    (nd : MPM_NODE) : MPM_NODE :=
  { nd with
    M := nd.M + ((ps.filter fun pe => pe.2.1 = id).map fun pe => pe.2.2.1 * pe.1.M).sum
    Mv := nd.Mv + ((ps.filter fun pe => pe.2.1 = id).map fun pe =>
            (pe.2.2.1 * pe.1.M) • pe.1.V + Dt • forceInc pe.1 pe.2.2.1 pe.2.2.2).sum
    F := nd.F + ((ps.filter fun pe => pe.2.1 = id).map fun pe =>
            forceInc pe.1 pe.2.2.1 pe.2.2.2).sum }

/-! ## Reading the names of the kernels -/

/-- The family the name of a weight function carries: `0` for `L` (linear), `1`
for `Q` (quadratic), `2` for `C` (cubic), `3` for `GIMP`. -/
def ShapeName.family : ShapeName → ℕ
  | .ShapeL1D | .ShapeL2D | .ShapeL3D => 0
  | .ShapeQ1D | .ShapeQ2D | .ShapeQ3D => 1
  | .ShapeC1D | .ShapeC2D | .ShapeC3D => 2
  | .ShapeGIMP1D | .ShapeGIMP2D | .ShapeGIMP3D => 3

/-- The dimension the name of a weight function carries (`1D`, `2D`, `3D`). -/
def ShapeName.dim : ShapeName → ℕ
  | .ShapeL1D | .ShapeQ1D | .ShapeC1D | .ShapeGIMP1D => 1
  | .ShapeL2D | .ShapeQ2D | .ShapeC2D | .ShapeGIMP2D => 2
  | .ShapeL3D | .ShapeQ3D | .ShapeC3D | .ShapeGIMP3D => 3

/-- The family the name of a gradient function carries, numbered as for the
weight functions. -/
def GradName.family : GradName → ℕ
  | .GradShapeL1D | .GradShapeL2D | .GradShapeL3D => 0
  | .GradShapeQ1D | .GradShapeQ2D | .GradShapeQ3D => 1
  | .GradShapeC1D | .GradShapeC2D | .GradShapeC3D => 2
  | .GradShapeGIMP1D | .GradShapeGIMP2D | .GradShapeGIMP3D => 3

/-- The dimension the name of a gradient function carries. -/
def GradName.dim : GradName → ℕ
  | .GradShapeL1D | .GradShapeQ1D | .GradShapeC1D | .GradShapeGIMP1D => 1
  | .GradShapeL2D | .GradShapeQ2D | .GradShapeC2D | .GradShapeGIMP2D => 2
  | .GradShapeL3D | .GradShapeQ3D | .GradShapeC3D | .GradShapeGIMP3D => 3

/-! ## Conditions on the parameters and on states -/

/-- The boundary-condition methods leave the accumulated mass of the node
alone (they act on momentum and force). -/
def NODE_BC.KeepsMass (bc : NODE_BC) : Prop :=
  ∀ nd : MPM_NODE, (bc.NonSlippingBC nd).M = nd.M ∧
    (∀ n, (bc.SlippingBC n nd).M = nd.M) ∧ (∀ dt n, (bc.FrictionBC dt n nd).M = nd.M)

/-- The boundary-condition methods leave the registrations `BCTypes` and
`Norms` of the node alone. -/
def NODE_BC.KeepsBCs (bc : NODE_BC) : Prop :=
  ∀ nd : MPM_NODE,
    ((bc.NonSlippingBC nd).BCTypes = nd.BCTypes ∧ (bc.NonSlippingBC nd).Norms = nd.Norms) ∧
    (∀ n, (bc.SlippingBC n nd).BCTypes = nd.BCTypes ∧ (bc.SlippingBC n nd).Norms = nd.Norms) ∧
    (∀ dt n, (bc.FrictionBC dt n nd).BCTypes = nd.BCTypes ∧
      (bc.FrictionBC dt n nd).Norms = nd.Norms)

/-- Every boundary condition of the node that takes a normal (type 2 or 3) has
an entry of `Norms` at its own index in `BCTypes`. -/
def MPM_NODE.NormsInRange (nd : MPM_NODE) : Prop :=
  ∀ i t, nd.BCTypes[i]? = some t → t = 2 ∨ t = 3 → i < nd.Norms.length

/-- The state in which `CalVOnNode` leaves an active node: zero velocity below
the mass threshold `1.0e-12`, momentum over mass from the threshold on. -/
def MPM_NODE.Resolved (nd : MPM_NODE) : Prop :=
  (nd.M < 1 / 10 ^ 12 → nd.V = 0) ∧ (1 / 10 ^ 12 ≤ nd.M → nd.V = fun i => nd.Mv i / nd.M)

/-- The sum of the weights of the influence entries of `p` that name node
`id`. -/
def nodeWeight (p : MPM_PARTICLE) (id : ℕ) : ℚ :=
  (((entries p).filter fun e => e.1 = id).map fun e => e.2.1).sum

/-- Every influence node that `CalNGN` computes for the particles of the state
exists. -/
def InfluenceValid (sh : SHAPE) (s : MPM) : Prop :=
  ∀ p ∈ s.Lp, ∀ id ∈ (CalNGN sh s p).Lni, id < s.Ln.length

/-- The influence list that `CalNGN` computes for every particle of the state
is a partition of unity (the weights sum to `1`, the gradients to zero) and
every node it names receives a mass of at least `1e-12` from the particle. -/
def PartitionOfUnity (sh : SHAPE) (s : MPM) : Prop :=
  ∀ p ∈ s.Lp, (CalNGN sh s p).LnN.sum = 1 ∧ (CalNGN sh s p).LnGN.sum = 0 ∧
    ∀ id ∈ (CalNGN sh s p).Lni, 1 / 10 ^ 12 ≤ nodeWeight (CalNGN sh s p) id * p.M

/-- The state holds the single particle `p`, which is free, has positive mass,
no stress and no hydro force; the model is the elastic one, no node has a
boundary condition, the active nodes exist, and the nodes outside the
active-node list are empty. -/
def SingleFree (s : MPM) (p : MPM_PARTICLE) : Prop :=
  s.Lp = [p] ∧ p.FixV = false ∧ 0 < p.M ∧ p.S = 0 ∧ p.Fh = 0 ∧ s.CMType = 0 ∧
  (∀ nd ∈ s.Ln, nd.BCTypes = []) ∧ (∀ id ∈ s.LAn, id < s.Ln.length) ∧
  ∀ (id : ℕ) (nd : MPM_NODE), s.Ln[id]? = some nd → id ∉ s.LAn →
    nd.M = 0 ∧ nd.Mv = 0 ∧ nd.F = 0

/-! ## Concrete data for evaluating the definitions -/

/-- An instance of the boundary-condition methods, after their description:
non-slipping clears the momentum, slipping removes the components of momentum
and force along the normal; friction is given the effect of slipping. -/
def exBC : NODE_BC :=
  { NonSlippingBC := fun nd => { nd with Mv := 0 }
    SlippingBC := fun n nd =>
      { nd with Mv := nd.Mv - (Matrix.dotProduct nd.Mv n) • n,
                F := nd.F - (Matrix.dotProduct nd.F n) • n }
    FrictionBC := fun _ n nd =>
      { nd with Mv := nd.Mv - (Matrix.dotProduct nd.Mv n) • n,
                F := nd.F - (Matrix.dotProduct nd.F n) • n } }

/-- A stand-in for the square root of the C library (exact at `0` and `1`). -/
def exSqrt (x : ℚ) : ℚ := x

/-- The one-dimensional GIMP weight as a function of the offset `d = x - xc`,
the cell size `l` and the particle half-width `lp`; for `lp = 0` it is the
linear hat function `1 - |d|/l`. -/
def gimpW (d l lp : ℚ) : ℚ :=
  if d ≤ -(l + lp) then 0
  else if d ≤ -(l - lp) then (l + lp + d) ^ 2 / (4 * l * lp)
  else if d ≤ -lp then 1 + d / l
  else if d < lp then 1 - (d ^ 2 + lp ^ 2) / (2 * l * lp)
  else if d < l - lp then 1 - d / l
  else if d < l + lp then (l + lp - d) ^ 2 / (4 * l * lp)
  else 0

/-- The derivative of `gimpW` in the particle position. -/
def gimpG (d l lp : ℚ) : ℚ :=
  if d ≤ -(l + lp) then 0
  else if d ≤ -(l - lp) then (l + lp + d) / (2 * l * lp)
  else if d ≤ -lp then 1 / l
  else if d < lp then -d / (l * lp)
  else if d < l - lp then -(1 / l)
  else if d < l + lp then -(l + lp - d) / (2 * l * lp)
  else 0

/-- A kernel with the calling convention of `GIMP3D`, for evaluating examples:
the GIMP weight along the first axis and its gradient. -/
def exGIMP3D (x xc l lp : Vector3d) : ℚ × Vector3d :=
  (gimpW (x 0 - xc 0) (l 0) (lp 0), ![gimpG (x 0 - xc 0) (l 0) (lp 0), 0, 0])

/-- A weight function for evaluating examples: the quadratic B-spline along
the first axis with unit cell size. -/
def quadShape (x xc _l _lp : Vector3d) : ℚ :=
  if -(1 / 2) ≤ x 0 - xc 0 ∧ x 0 - xc 0 ≤ 1 / 2 then 3 / 4 - (x 0 - xc 0) ^ 2
  else if -(3 / 2) < x 0 - xc 0 ∧ x 0 - xc 0 < -(1 / 2) then (3 / 2 + (x 0 - xc 0)) ^ 2 / 2
  else if 1 / 2 < x 0 - xc 0 ∧ x 0 - xc 0 < 3 / 2 then (3 / 2 - (x 0 - xc 0)) ^ 2 / 2
  else 0

/-- An instance of the kernels of `SHAPE.h`, for evaluating examples: `GIMP3D`
and all weight and gradient functions are the GIMP kernel `exGIMP3D`, except
that the quadratic weight functions are the quadratic B-spline. -/
def exShape : SHAPE :=
  { N := fun nm x xc l lp =>
      match nm with
      | .ShapeQ1D | .ShapeQ2D | .ShapeQ3D => quadShape x xc l lp
      | _ => (exGIMP3D x xc l lp).1
    GN := fun _ x xc l lp => (exGIMP3D x xc l lp).2
    GIMP3D := exGIMP3D }

/-- A node at `(x, 0, 0)` as `Init` creates it, with empty accumulators. -/
def exNode (id : ℕ) (x : ℚ) : MPM_NODE :=
  { ID := id, Level := 0, X := ![x, 0, 0], M := 0, Mv := 0, F := 0, V := 0, Mu := 0,
    BCTypes := [], Norms := [] }

/-- A free particle of mass `2` at `x = 1/2`, moving and stressed. -/
def exParticle : MPM_PARTICLE :=
  { MPM_PARTICLE.zero with
    Type_ := -1, M := 2, X := ![1 / 2, 0, 0], X0 := ![1 / 2, 0, 0], V := ![1, 0, 0],
    B := ![3, 0, 0], Vol := 1, Vol0 := 1, F := 1, S := Matrix.diagonal ![5, 0, 0] }

/-- A free particle at `x = 1/4` with half-width `1/2`, inside the first cell. -/
def exWide : MPM_PARTICLE :=
  { exParticle with
    X := ![1 / 4, 0, 0], X0 := ![1 / 4, 0, 0], PSize0 := ![1 / 2, 0, 0],
    PSize := ![1 / 2, 0, 0] }

/-- A free particle at `x = 1/4` with half-width `0`. -/
def exQuarter : MPM_PARTICLE :=
  { exParticle with X := ![1 / 4, 0, 0], X0 := ![1 / 4, 0, 0] }

/-- A one-dimensional solver with two cells (`Nx = 2`, `Ny = Nz = 0`), three
nodes and the particle `exParticle`. -/
def exMPM : MPM :=
  { N := .ShapeL1D, GN := .GradShapeL1D, LAn := [], Lp := [exParticle],
    Ln := [exNode 0 0, exNode 1 1, exNode 2 2], Periodic := fun _ => false,
    Nx := 2, Ny := 0, Nz := 0, Ncz := 3, Ncy := 3, Nnode := 3, Nproc := 1, D := 1,
    Ntype := 0, CMType := 0, Nrange := 1, Dt := 1 / 10, Dc := 0, C := 0, Dx := ![1, 1, 1] }

/-- The solver that `MPM(1, 0, 2, 0, 0, dx)` constructs for `dx = (1,1,1)`:
quadratic shape functions on a one-dimensional grid with two cells. -/
def exQuadMPM : MPM :=
  { N := .ShapeQ1D, GN := .GradShapeQ1D, LAn := [], Lp := [], Ln := [],
    Periodic := fun _ => false, Nx := 2, Ny := 0, Nz := 0, Ncz := 3, Ncy := 3, Nnode := 3,
    Nproc := 1, D := 1, Ntype := 1, CMType := 0, Nrange := 3 / 2, Dt := 1, Dc := 0, C := 0,
    Dx := ![1, 1, 1] }

/-- The solver `exMPM` after a scatter: node `0` carries mass `1` and a
non-slipping boundary condition, node `1` a mass below the threshold. -/
def exResolve : MPM :=
  { exMPM with
    LAn := [0, 1]
    Ln := [{ exNode 0 0 with M := 1, Mv := ![2, 0, 0], F := ![1, 0, 0], BCTypes := [1] },
           { exNode 1 1 with M := 1 / 10 ^ 13, Mv := ![1, 0, 0] }, exNode 2 2] }

/-- The solver `exResolve` after `SetNonSlippingBC(1)` followed by
`SetSlippingBC(1, norm)` with `norm = (1,0,0)`, node `1` carrying mass `1`. -/
def exTwoBCs : Except Fault MPM :=
  (SetNonSlippingBC
      { exResolve with Ln := [exNode 0 0, { exNode 1 1 with M := 1 }, exNode 2 2] } 1).bind
    fun s => SetSlippingBC s 1 ![1, 0, 0]

/-- The solver `exResolve` with a free particle coupled to nodes `0` and `1` and
a particle of prescribed velocity. -/
def exGather : MPM :=
  { exResolve with
    Lp := [{ exParticle with
               Lni := [0, 1], LnN := [1 / 2, 1 / 2], LnGN := [![-1, 0, 0], ![1, 0, 0]] },
           { exParticle with FixV := true, Vf := ![1, 0, 0] }] }

/-- A stand-in for `sin`, `cos` and `sqrt` of the C library.  `sin x` and
`cos x` are the sine and cosine of the angle whose half-angle tangent is `x`,
so `sin x ^ 2 + cos x ^ 2 = 1`, `sin 0 = 0`, `cos 0 = 1`, and at `x = 1/3` (the
angle `0.6435...`) they are `3/5` and `4/5`; `sqrt` is `exSqrt`. -/
def exLibm : LIBM :=
  { sin := fun x => 2 * x / (1 + x ^ 2)
    cos := fun x => (1 - x ^ 2) / (1 + x ^ 2)
    sqrt := exSqrt }

/-- The result of the eigen-solver on a diagonal matrix with decreasing
diagonal: the eigenvalues in increasing order and, as columns, the unit
vectors `e3, e2, e1`. -/
def exEig (A : Matrix3d) : Vector3d × Matrix3d :=
  (![A 2 2, A 1 1, A 0 0], fun i j => if i = Fin.rev j then 1 else 0)

/-- An unstressed particle with `Young = 5/2` and `Poisson = 1/4` (so `Mu = 1`,
`La = 1`, and `Dp`, `Dpi` as the constructor computes them), cohesion `10`,
friction angle of sine `3/5`, no dilatancy, coupled to node `0` with gradient
`(1,0,0)`. -/
def exSolid : MPM_PARTICLE :=
  { MPM_PARTICLE.zero with
    Type_ := -1, M := 2, Vol := 1, Vol0 := 1, F := 1, S := 0, Young := 5 / 2, Poisson := 1 / 4,
    Mu := 1, La := 1, C := 10, Phi := 1 / 3, Psi := 0,
    Dp := fun i j => if i = j then 3 else 1,
    Dpi := fun i j => if i = j then 2 / 5 else -(1 / 10),
    Lni := [0], LnN := [1], LnGN := [![1, 0, 0]] }

/-- The solver `exMPM` with time step `2`, constitutive model `cm`, the single
particle `p`, and node `0` moving with velocity `v`. -/
def exStress (v : Vector3d) (cm : ℕ) (p : MPM_PARTICLE) : MPM :=
  { exMPM with
    Dt := 2, CMType := cm, Lp := [p],
    Ln := [{ exNode 0 0 with V := v }, exNode 1 1, exNode 2 2] }

/-- The particle `exSolid` without cohesion, carrying the stress
`diag(-1,-2,-6)`. -/
def exYielding : MPM_PARTICLE :=
  { exSolid with C := 0, S := Matrix.diagonal ![-1, -2, -6] }

/-- The particle `exSolid` carrying the stress `diag(5,0,0)`. -/
def exStressed : MPM_PARTICLE :=
  { exSolid with S := Matrix.diagonal ![5, 0, 0] }

/-- Modelled from the spec: the constructor `MPM_NODE(level, x)` of
`MPM_NODE.h`, a node at `x` with empty accumulators and no boundary
condition. -/
def exCtor (level : ℕ) (x : Vector3d) : MPM_NODE :=
  { ID := 0, Level := level, X := x, M := 0, Mv := 0, F := 0, V := 0, Mu := 0,
    BCTypes := [], Norms := [] }

/-- The solver `exMPM` with three particles, the second one marked `Removed`;
the `ID`s are stale. -/
def exRemoved : MPM :=
  { exMPM with Lp := [exParticle, { exParticle with Removed := true }, exQuarter] }

/-- The solver `exResolve` with damping coefficient `1/2` and without boundary
conditions: node `0` has mass `1`, momentum `(1,0,0)` and force `(1,0,0)`,
node `1` the mass `1e-13`. -/
def exDamp : MPM :=
  { exResolve with
    Dc := 1 / 2
    Ln := [{ exNode 0 0 with M := 1, Mv := ![1, 0, 0], F := ![1, 0, 0] },
           { exNode 1 1 with M := 1 / 10 ^ 13, Mv := ![1, 0, 0] }, exNode 2 2] }


/-- A free, unstressed particle of mass `2` at rest at `x = 1/2` with body
acceleration `(3, 0, 0)`. -/
def exDrop : MPM_PARTICLE :=
  { exParticle with V := 0, S := 0 }

/-- The solver `exMPM` (time step `1/10`, `Dc = 0`) with the single particle
`exDrop`. -/
def exFall : MPM :=
  { exMPM with Lp := [exDrop] }


/-- The solver `exMPM` whose single particle has mass `0`. -/
def exMassless : MPM :=
  { exMPM with Lp := [{ exParticle with M := 0 }] }

/-! ## Binary64 arithmetic -/

deriving instance DecidableEq for Except

/-- A value of the C type `double` (IEEE 754 binary64): a zero with its sign, a
nonzero finite number of magnitude `s * 2^x` with `s < 2^53` and
`-1074 ≤ x ≤ 971` (and `2^52 ≤ s` unless `x = -1074`), an infinity with its
sign, or a NaN. -/
inductive Double where
  | zero (neg : Bool)
  | fin (neg : Bool) (s : ℕ) (x : ℤ)
  | inf (neg : Bool)
  | nan
  deriving DecidableEq, Repr

/-- The number of binary digits of `n`, for `n < 2^fuel`.  The numbers that
`Double.round` measures with the fuel `4096` come from operands in the ranges
stated for `Double` and are below `2^4096`. -/
def bitLen : ℕ → ℕ → ℕ
  | 0, _ => 0
  | fuel + 1, n => if n = 0 then 0 else bitLen fuel (n / 2) + 1

/-- Rounding to nearest, ties to even: the `double` that an operation with the
exact result `± (n/d) * 2^e` delivers.  The quantum `2^x` is that of the binade
of the exact result, not below `2^-1074`; a result that rounds to `2^1024` or
more is an infinity. -/
def Double.round (neg : Bool) (n d : ℕ) (e : ℤ) : Double :=
  if n = 0 ∨ d = 0 then .zero neg
  else
    let lb : ℤ := (bitLen 4096 n : ℤ) - (bitLen 4096 d : ℤ)
    let lg : ℤ := if d * 2 ^ lb.toNat ≤ n * 2 ^ (-lb).toNat then lb else lb - 1
    let x : ℤ := if -1074 ≤ lg + e - 52 then lg + e - 52 else -1074
    let num : ℕ := n * 2 ^ (e - x).toNat
    let den : ℕ := d * 2 ^ (x - e).toNat
    let q : ℕ := num / den
    let r : ℕ := num % den
    let q1 : ℕ := if den < 2 * r ∨ (2 * r = den ∧ q % 2 = 1) then q + 1 else q
    if q1 = 0 then .zero neg
    else if q1 = 2 ^ 53 then (if 971 ≤ x then .inf neg else .fin neg (2 ^ 52) (x + 1))
    else if 971 < x then .inf neg
    else .fin neg q1 x

/-- The `double` a decimal literal with the value `n/d` denotes. -/
def Double.ofFrac (n d : ℕ) : Double := Double.round false n d 0

/-- Conversion of an `int` to `double`. -/
def Double.ofInt (z : ℤ) : Double := Double.round (decide (z < 0)) z.natAbs 1 0

/-- Unary minus. -/
def Double.neg : Double → Double
  | .zero a => .zero (!a)
  | .fin a s x => .fin (!a) s x
  | .inf a => .inf (!a)
  | .nan => .nan

/-- The operator `+` of `double`. -/
def Double.add : Double → Double → Double
  | .nan, _ => .nan
  | _, .nan => .nan
  | .inf a, .inf b => if a = b then .inf a else .nan
  | .inf a, _ => .inf a
  | _, .inf b => .inf b
  | .zero a, .zero b => .zero (a && b)
  | .zero _, .fin b t y => .fin b t y
  | .fin a s x, .zero _ => .fin a s x
  | .fin a s x, .fin b t y =>
    let e : ℤ := if x ≤ y then x else y
    let w : ℤ := (if a then -1 else 1) * ((s : ℤ) * 2 ^ (x - e).toNat) +
      (if b then -1 else 1) * ((t : ℤ) * 2 ^ (y - e).toNat)
    if w = 0 then .zero false else Double.round (decide (w < 0)) w.natAbs 1 e

/-- The operator `-` of `double`. -/
def Double.sub (a b : Double) : Double := a.add b.neg

/-- The operator `*` of `double`. -/
def Double.mul : Double → Double → Double
  | .nan, _ => .nan
  | _, .nan => .nan
  | .inf _, .zero _ => .nan
  | .zero _, .inf _ => .nan
  | .inf a, .inf b => .inf (xor a b)
  | .inf a, .fin b _ _ => .inf (xor a b)
  | .fin a _ _, .inf b => .inf (xor a b)
  | .zero a, .zero b => .zero (xor a b)
  | .zero a, .fin b _ _ => .zero (xor a b)
  | .fin a _ _, .zero b => .zero (xor a b)
  | .fin a s x, .fin b t y => Double.round (xor a b) (s * t) 1 (x + y)

/-- The operator `/` of `double`. -/
def Double.div : Double → Double → Double
  | .nan, _ => .nan
  | _, .nan => .nan
  | .inf _, .inf _ => .nan
  | .zero _, .zero _ => .nan
  | .inf a, .zero b => .inf (xor a b)
  | .inf a, .fin b _ _ => .inf (xor a b)
  | .zero a, .inf b => .zero (xor a b)
  | .fin a _ _, .inf b => .zero (xor a b)
  | .zero a, .fin b _ _ => .zero (xor a b)
  | .fin a _ _, .zero b => .inf (xor a b)
  | .fin a s x, .fin b t y => Double.round (xor a b) s t (x - y)

/-- The rational number a finite `double` stands for (`0` for the others). -/
def Double.toRat : Double → ℚ
  | .fin a s x => (if a then -1 else 1) * (s : ℚ) * 2 ^ x
  | _ => 0

/-- The operator `<` of `double`: false when an operand is a NaN; finite values
compare as the rational numbers they stand for. -/
def Double.lt : Double → Double → Bool
  | .nan, _ => false
  | _, .nan => false
  | .inf a, .inf b => a && !b
  | .inf a, _ => a
  | _, .inf b => !b
  | a, b => decide (a.toRat < b.toRat)

/-- The operator `==` of `double`: false when an operand is a NaN; finite values
compare as the rational numbers they stand for, so the two zeros are equal. -/
def Double.eq : Double → Double → Bool
  | .nan, _ => false
  | _, .nan => false
  | .inf a, .inf b => decide (a = b)
  | .inf _, _ => false
  | _, .inf _ => false
  | a, b => decide (a.toRat = b.toRat)

/-- The operator `<=` of `double`. -/
def Double.le (a b : Double) : Bool := a.lt b || a.eq b

/-- The test `a>0.`. -/
def Double.gt0 (a : Double) : Bool := (Double.zero false).lt a

/-- The test `a<0.`. -/
def Double.lt0 (a : Double) : Bool := a.lt (.zero false)

/-- The test `a>=0.`. -/
def Double.ge0 (a : Double) : Bool := (Double.zero false).le a

/-- The test `a<=0.`. -/
def Double.le0 (a : Double) : Bool := a.le (.zero false)

/-- The test `a==0.`. -/
def Double.eq0 (a : Double) : Bool := a.eq (.zero false)

/-- The place of a `double` that is not a NaN in the order of the rational
numbers extended by the two infinities (a NaN is put at `0`; it takes no part
in the order). -/
def Double.place : Double → WithBot (WithTop ℚ)
  | .inf true => ⊥
  | .inf false => ((⊤ : WithTop ℚ) : WithBot (WithTop ℚ))
  | a => ((a.toRat : WithTop ℚ) : WithBot (WithTop ℚ))

/-- C `trunc` followed by the cast `(int)`, for a value whose truncation is in
the range of `int`. -/
def Double.truncInt : Double → Option ℤ
  | .zero _ => some 0
  | .fin a s x =>
    let q : ℤ := ((s * 2 ^ x.toNat / 2 ^ (-x).toNat : ℕ) : ℤ)
    let z : ℤ := if a then -q else q
    if -2 ^ 31 ≤ z ∧ z < 2 ^ 31 then some z else none
  | _ => none

/-- C `ceil` followed by the cast `(int)`, for a value whose ceiling is in the
range of `int`. -/
def Double.ceilInt : Double → Option ℤ
  | .zero _ => some 0
  | .fin a s x =>
    let q : ℤ := ((s * 2 ^ x.toNat / 2 ^ (-x).toNat : ℕ) : ℤ)
    let r : ℕ := s * 2 ^ x.toNat % 2 ^ (-x).toNat
    let z : ℤ := if a then -q else if r = 0 then q else q + 1
    if -2 ^ 31 ≤ z ∧ z < 2 ^ 31 then some z else none
  | _ => none

/-! ## Binary64 vectors and matrices -/

/-- An Eigen `Vector3d` of `double` values. -/
structure Vector3d64 where
  c0 : Double
  c1 : Double
  c2 : Double
  deriving DecidableEq, Repr

/-- An Eigen `Matrix3d` of `double` values, by rows. -/
structure Matrix3d64 where
  r0 : Vector3d64
  r1 : Vector3d64
  r2 : Vector3d64
  deriving DecidableEq, Repr

/-- `Vector3d::Zero()`. -/
def Vector3d64.zero : Vector3d64 := ⟨.zero false, .zero false, .zero false⟩

/-- `Matrix3d::Zero()`. -/
def Matrix3d64.zero : Matrix3d64 := ⟨Vector3d64.zero, Vector3d64.zero, Vector3d64.zero⟩

/-- `Matrix3d::Identity()`. -/
def Matrix3d64.one : Matrix3d64 :=
  ⟨⟨Double.ofInt 1, .zero false, .zero false⟩, ⟨.zero false, Double.ofInt 1, .zero false⟩,
   ⟨.zero false, .zero false, Double.ofInt 1⟩⟩

/-- Eigen `A.transpose()`. -/
def Matrix3d64.transpose (A : Matrix3d64) : Matrix3d64 :=
  ⟨⟨A.r0.c0, A.r1.c0, A.r2.c0⟩, ⟨A.r0.c1, A.r1.c1, A.r2.c1⟩, ⟨A.r0.c2, A.r1.c2, A.r2.c2⟩⟩

/-- The coefficient `v(d)`. -/
def Vector3d64.get (v : Vector3d64) (d : Fin 3) : Double :=
  if d = 0 then v.c0 else if d = 1 then v.c1 else v.c2

/-- A coefficient-wise unary operation. -/
def Vector3d64.map (f : Double → Double) (v : Vector3d64) : Vector3d64 :=
  ⟨f v.c0, f v.c1, f v.c2⟩

/-- A coefficient-wise binary operation. -/
def Vector3d64.zipWith (f : Double → Double → Double) (a b : Vector3d64) : Vector3d64 :=
  ⟨f a.c0 b.c0, f a.c1 b.c1, f a.c2 b.c2⟩

/-- A coefficient-wise unary operation on a matrix. -/
def Matrix3d64.map (f : Double → Double) (A : Matrix3d64) : Matrix3d64 :=
  ⟨A.r0.map f, A.r1.map f, A.r2.map f⟩

/-- A coefficient-wise binary operation on matrices. -/
def Matrix3d64.zipWith (f : Double → Double → Double) (A B : Matrix3d64) : Matrix3d64 :=
  ⟨A.r0.zipWith f B.r0, A.r1.zipWith f B.r1, A.r2.zipWith f B.r2⟩

/-- The sum of three terms as an Eigen reduction forms it.  The terms are added
from the left; Eigen's order depends on the vectorisation it is compiled with,
and the theorems about this function use terms of which at most one is nonzero,
or state only what holds in either order. -/
def sum3 (a b c : Double) : Double := (a.add b).add c

/-- Eigen `a.dot(b)`. -/
def dot64 (a b : Vector3d64) : Double :=
  sum3 (a.c0.mul b.c0) (a.c1.mul b.c1) (a.c2.mul b.c2)

/-- Eigen `A*v` for a matrix and a column vector. -/
def mulVec64 (A : Matrix3d64) (v : Vector3d64) : Vector3d64 :=
  ⟨dot64 A.r0 v, dot64 A.r1 v, dot64 A.r2 v⟩

/-- Eigen `v.transpose()*A` for a vector and a matrix. -/
def vecMul64 (v : Vector3d64) (A : Matrix3d64) : Vector3d64 :=
  ⟨sum3 (v.c0.mul A.r0.c0) (v.c1.mul A.r1.c0) (v.c2.mul A.r2.c0),
   sum3 (v.c0.mul A.r0.c1) (v.c1.mul A.r1.c1) (v.c2.mul A.r2.c1),
   sum3 (v.c0.mul A.r0.c2) (v.c1.mul A.r1.c2) (v.c2.mul A.r2.c2)⟩

/-- Eigen `A*B` for two matrices. -/
def matMul64 (A B : Matrix3d64) : Matrix3d64 :=
  ⟨vecMul64 A.r0 B, vecMul64 A.r1 B, vecMul64 A.r2 B⟩

/-- Eigen `a.cross(b)`. -/
def cross64 (a b : Vector3d64) : Vector3d64 :=
  ⟨(a.c1.mul b.c2).sub (a.c2.mul b.c1), (a.c2.mul b.c0).sub (a.c0.mul b.c2),
   (a.c0.mul b.c1).sub (a.c1.mul b.c0)⟩

/-- Eigen `inverse()` of a `Matrix3d` (Eigen 3.3): the cofactors
`m(i1,j1)*m(i2,j2) - m(i1,j2)*m(i2,j1)`, the determinant as the sum of the
products of the first column with its cofactors, and every cofactor times
`1/det`. -/
def inverse64 (A : Matrix3d64) : Matrix3d64 :=
  let cof (a b c d : Double) : Double := (a.mul b).sub (c.mul d)
  let c00 := cof A.r1.c1 A.r2.c2 A.r1.c2 A.r2.c1
  let c10 := cof A.r2.c1 A.r0.c2 A.r2.c2 A.r0.c1
  let c20 := cof A.r0.c1 A.r1.c2 A.r0.c2 A.r1.c1
  let c01 := cof A.r1.c2 A.r2.c0 A.r1.c0 A.r2.c2
  let c11 := cof A.r2.c2 A.r0.c0 A.r2.c0 A.r0.c2
  let c21 := cof A.r0.c2 A.r1.c0 A.r0.c0 A.r1.c2
  let c02 := cof A.r1.c0 A.r2.c1 A.r1.c1 A.r2.c0
  let c12 := cof A.r2.c0 A.r0.c1 A.r2.c1 A.r0.c0
  let c22 := cof A.r0.c0 A.r1.c1 A.r0.c1 A.r1.c0
  let det := sum3 (c00.mul A.r0.c0) (c10.mul A.r1.c0) (c20.mul A.r2.c0)
  let invdet := (Double.ofInt 1).div det
  ⟨⟨c00.mul invdet, c10.mul invdet, c20.mul invdet⟩,
   ⟨c01.mul invdet, c11.mul invdet, c21.mul invdet⟩,
   ⟨c02.mul invdet, c12.mul invdet, c22.mul invdet⟩⟩

/-! ## The solver in binary64 -/

/-- Modelled from the spec: the members of the class `MPM_NODE` (`MPM_NODE.h` is
not among the sources) that `ParticleToNode`, `CalVOnNode`, `NodeToParticle` and
`CalVGradLocal` use, as `double` values. -/
structure MPM_NODE64 where
  M : Double
  Mv : Vector3d64
  F : Vector3d64
  V : Vector3d64
  BCTypes : List ℤ
  Norms : List Vector3d64
  deriving DecidableEq, Repr

/-- Modelled from the spec: `MPM_NODE::Reset` (`MPM_NODE.h` is not among the
sources), "reset mass/momentum/force to zero". -/
def MPM_NODE64.Reset (nd : MPM_NODE64) : MPM_NODE64 :=
  { nd with M := .zero false, Mv := Vector3d64.zero, F := Vector3d64.zero }

/-- The boundary-condition methods of `MPM_NODE` that `CalVOnNode` calls; their
bodies are in `MPM_NODE.h`, so they are parameters. -/
structure NODE_BC64 where
  NonSlippingBC : MPM_NODE64 → MPM_NODE64
  SlippingBC : Vector3d64 → MPM_NODE64 → MPM_NODE64
  FrictionBC : Double → Vector3d64 → MPM_NODE64 → MPM_NODE64

/-- The members of `MPM_PARTICLE` that `CalNGN`, `ParticleToNode`,
`NodeToParticle`, `CalStressOnParticleElastic`, `Elastic` and the return
mapping of `MohrCoulomb` use, as `double` values. -/
structure MPM_PARTICLE64 where
  M : Double
  Vol : Double
  Vol0 : Double
  Mu : Double
  La : Double
  C : Double
  Phi : Double
  Psi : Double
  X : Vector3d64
  PSize : Vector3d64
  PSize0 : Vector3d64
  V : Vector3d64
  Vf : Vector3d64
  B : Vector3d64
  Fh : Vector3d64
  DeltaX : Vector3d64
  S : Matrix3d64
  L : Matrix3d64
  F : Matrix3d64
  Dp : Matrix3d64
  Dpi : Matrix3d64
  FixV : Bool
  Lni : List ℕ
  LnN : List Double
  LnGN : List Vector3d64
  deriving DecidableEq, Repr

/-- The members of `MPM` that the scatter, the nodal update, the gather and the
elastic stress update use. -/
structure MPM64 where
  D : ℕ
  Ncy : ℕ
  Ncz : ℕ
  Nproc : ℕ
  Dx : Vector3d64
  Dt : Double
  Dc : Double
  LAn : List ℕ
  Lp : List MPM_PARTICLE64
  Ln : List MPM_NODE64

/-- `minx(d) = (int) trunc(p0->X(d) - p0->PSize(d)-1.)` on the axes `d < D`,
`0` on the others. -/
def minx64 (s : MPM64) (p0 : MPM_PARTICLE64) (d : Fin 3) : Option ℤ :=
  if d.val < s.D then (((p0.X.get d).sub (p0.PSize.get d)).sub (Double.ofInt 1)).truncInt
  else some 0

/-- `maxx(d) = (int) ceil(p0->X(d) + p0->PSize(d)+1.)` on the axes `d < D`, `0`
on the others. -/
def maxx64 (s : MPM64) (p0 : MPM_PARTICLE64) (d : Fin 3) : Option ℤ :=
  if d.val < s.D then (((p0.X.get d).add (p0.PSize.get d)).add (Double.ofInt 1)).ceilInt
  else some 0

/-- The candidate nodes of `CalNGN` in the order of its three nested loops. -/
def candidates64 (s : MPM64) (p0 : MPM_PARTICLE64) : Option (List (ℤ × ℤ × ℤ)) :=
  match minx64 s p0 0, maxx64 s p0 0, minx64 s p0 1, maxx64 s p0 1, minx64 s p0 2,
    maxx64 s p0 2 with
  | some a0, some b0, some a1, some b1, some a2, some b2 =>
    some ((intRange a0 b0).flatMap fun i =>
      (intRange a1 b1).flatMap fun j => (intRange a2 b2).map fun k => (i, j, k))
  | _, _, _, _, _, _ => none

/-- The body of the loop of `CalNGN` for the candidate `(i,j,k)`: `gimp` is the
kernel `GIMP3D` of `SHAPE.h`, which returns the weight and the gradient; the node
is kept when `n>0.`, with `int id = i+j*Ncy+k*Ncz` stored as `size_t`. -/
def hit64 (gimp : Vector3d64 → Vector3d64 → Vector3d64 → Vector3d64 → Double × Vector3d64)
    (s : MPM64) (p0 : MPM_PARTICLE64) (c : ℤ × ℤ × ℤ) : Option (ℕ × Double × Vector3d64) :=
  let xn : Vector3d64 := ⟨Double.ofInt c.1, Double.ofInt c.2.1, Double.ofInt c.2.2⟩
  let r := gimp p0.X xn s.Dx p0.PSize
  if r.1.gt0 then
    some (toSizeT (toInt (toSizeT (c.1 + c.2.1 * s.Ncy + c.2.2 * s.Ncz))), r.1, r.2)
  else none

/-- `MPM::CalNGN`; a corner of the candidate box outside the range of `int` is
reported as a fault. -/
def CalNGN64 (gimp : Vector3d64 → Vector3d64 → Vector3d64 → Vector3d64 → Double × Vector3d64)
    (s : MPM64) (p0 : MPM_PARTICLE64) : Except Fault MPM_PARTICLE64 :=
  match candidates64 s p0 with
  | none => .error .outOfRange
  | some cs =>
    let hits := cs.filterMap (hit64 gimp s p0)
    .ok { p0 with
      Lni := hits.map fun h => h.1
      LnN := hits.map fun h => h.2.1
      LnGN := hits.map fun h => h.2.2 }

/-- The first loop of `ParticleToNode`: `Ln[LAn[n]]->Reset()`. -/
def resetNodes64 : List ℕ → List MPM_NODE64 → Except Fault (List MPM_NODE64)
  | [], Ln => .ok Ln
  | id :: ids, Ln =>
    match Ln[id]? with
    | none => .error .outOfRange
    | some nd => resetNodes64 ids (Ln.set id nd.Reset)

/-- The inner loop of `ParticleToNode` over the influence entries of particle
`p`, with `vsp = -Vol*S`, `fex = M*B + Fh`, `df = n*fex + vsp*gn`,
`nm = n*M`, the abort for `nm<0.`, and the additions `M += nm`,
`Mv(i) += nm*V(i)`, `F(i) += df(i)`, `Mv(i) += df(i)*Dt`, each rounded. -/
def scatterEntries64 (Dt : Double) (p : MPM_PARTICLE64) :
    List (ℕ × Double × Vector3d64) → List MPM_NODE64 → Except Fault (List MPM_NODE64)
  | [], Ln => .ok Ln
  | (id, n, gn) :: es, Ln =>
    let vsp : Matrix3d64 := p.S.map fun a => p.Vol.neg.mul a
    let fex : Vector3d64 := Vector3d64.zipWith (fun b fh => (p.M.mul b).add fh) p.B p.Fh
    let df : Vector3d64 := Vector3d64.zipWith Double.add (fex.map fun a => n.mul a)
      (mulVec64 vsp gn)
    let nm : Double := n.mul p.M
    if nm.lt0 then .error .massProblem
    else
      match Ln[id]? with
      | none => .error .outOfRange
      | some nd =>
        scatterEntries64 Dt p es
          (Ln.set id
            { nd with
              M := nd.M.add nm
              Mv := Vector3d64.zipWith (fun a d => a.add (d.mul Dt))
                (Vector3d64.zipWith (fun a v => a.add (nm.mul v)) nd.Mv p.V) df
              F := Vector3d64.zipWith Double.add nd.F df })

/-- The particle loop of `ParticleToNode`, in the order of the list. -/
def scatterParticles64
    (gimp : Vector3d64 → Vector3d64 → Vector3d64 → Vector3d64 → Double × Vector3d64)
    (s : MPM64) : List MPM_PARTICLE64 → List MPM_NODE64 →
    Except Fault (List MPM_PARTICLE64 × List MPM_NODE64)
  | [], Ln => .ok ([], Ln)
  | p :: ps, Ln =>
    match CalNGN64 gimp s p with
    | .error e => .error e
    | .ok p1 =>
      match scatterEntries64 s.Dt p1 (List.zip p1.Lni (List.zip p1.LnN p1.LnGN)) Ln with
      | .error e => .error e
      | .ok Ln1 =>
        match scatterParticles64 gimp s ps Ln1 with
        | .error e => .error e
        | .ok (ps1, Ln2) => .ok (p1 :: ps1, Ln2)

/-- The active-node list built at the end of `ParticleToNode`. -/
def buildLAn64 (Nproc : ℕ) (sched : ℕ → ℕ) (Lp : List MPM_PARTICLE64) : List ℕ :=
  unique (sort (((List.range Nproc).map fun n =>
    unique (sort ((Lp.enum.filter fun q => sched q.1 = n).flatMap fun q => q.2.Lni))).flatten))

/-- `MPM::ParticleToNode` in binary64; the particles are taken in the order of
`Lp`. -/
def ParticleToNode64
    (gimp : Vector3d64 → Vector3d64 → Vector3d64 → Vector3d64 → Double × Vector3d64)
    (sched : ℕ → ℕ) (s : MPM64) : Except Fault MPM64 :=
  match resetNodes64 s.LAn s.Ln with
  | .error e => .error e
  | .ok Ln0 =>
    match scatterParticles64 gimp s s.Lp Ln0 with
    | .error e => .error e
    | .ok (Lp1, Ln1) =>
      .ok { s with Lp := Lp1, Ln := Ln1, LAn := buildLAn64 s.Nproc sched Lp1 }

/-- Eigen `norm()`: `sqrt` of the sum of the squares. -/
def norm64 (sqrt : Double → Double) (v : Vector3d64) : Double := sqrt (dot64 v v)

/-- Eigen `normalized()`: the vector divided by `sqrt` of its squared norm `z`
if `z > 0`, the vector itself otherwise. -/
def normalized64 (sqrt : Double → Double) (v : Vector3d64) : Vector3d64 :=
  if (dot64 v v).gt0 then v.map fun a => a.div (sqrt (dot64 v v)) else v

/-- One iteration `i` of the boundary-condition loop of `CalVOnNode`. -/
def applyBC64 (bc : NODE_BC64) (Dt : Double) (nd : MPM_NODE64) (i : ℕ) :
    Except Fault MPM_NODE64 :=
  match nd.BCTypes[i]? with
  | none => .error .outOfRange
  | some t =>
    if t = 1 then .ok (bc.NonSlippingBC nd)
    else if t = 2 then
      match nd.Norms[i]? with
      | none => .error .outOfRange
      | some nrm => .ok (bc.SlippingBC nrm nd)
    else if t = 3 then
      match nd.Norms[i]? with
      | none => .error .outOfRange
      | some nrm => .ok (bc.FrictionBC Dt nrm nd)
    else .ok nd

/-- The boundary-condition loop of `CalVOnNode` over the indices `is`. -/
def applyBCs64 (bc : NODE_BC64) (Dt : Double) : List ℕ → MPM_NODE64 → Except Fault MPM_NODE64
  | [], nd => .ok nd
  | i :: is, nd =>
    match applyBC64 bc Dt nd i with
    | .error e => .error e
    | .ok nd1 => applyBCs64 bc Dt is nd1

/-- The body of the loop of `CalVOnNode` for one node:
`fdamp = Dc*F.norm()*Mv.normalized()`, `F -= fdamp`, `Mv -= fdamp*Dt`, the
boundary conditions, `V = Mv/M`, and `V = 0` for `M<1.0e-12`. -/
def resolveNode64 (bc : NODE_BC64) (sqrt : Double → Double) (Dt Dc : Double)
    (nd : MPM_NODE64) : Except Fault MPM_NODE64 :=
  if nd.M.eq0 then .ok { nd with V := Vector3d64.zero }
  else
    let fdamp : Vector3d64 := (normalized64 sqrt nd.Mv).map fun a =>
      (Dc.mul (norm64 sqrt nd.F)).mul a
    let nd1 : MPM_NODE64 :=
      { nd with
        F := Vector3d64.zipWith Double.sub nd.F fdamp
        Mv := Vector3d64.zipWith (fun a f => a.sub (f.mul Dt)) nd.Mv fdamp }
    match applyBCs64 bc Dt (List.range nd1.BCTypes.length) nd1 with
    | .error e => .error e
    | .ok nd2 =>
      let nd3 : MPM_NODE64 := { nd2 with V := nd2.Mv.map fun a => a.div nd2.M }
      if nd3.M.lt (Double.ofFrac 1 (10 ^ 12)) then .ok { nd3 with V := Vector3d64.zero }
      else .ok nd3

/-- The loop of `CalVOnNode` over the active-node list. -/
def resolveNodes64 (bc : NODE_BC64) (sqrt : Double → Double) (Dt Dc : Double) :
    List ℕ → List MPM_NODE64 → Except Fault (List MPM_NODE64)
  | [], Ln => .ok Ln
  | id :: ids, Ln =>
    match Ln[id]? with
    | none => .error .outOfRange
    | some nd =>
      match resolveNode64 bc sqrt Dt Dc nd with
      | .error e => .error e
      | .ok nd1 => resolveNodes64 bc sqrt Dt Dc ids (Ln.set id nd1)

/-- `MPM::CalVOnNode` in binary64. -/
def CalVOnNode64 (bc : NODE_BC64) (sqrt : Double → Double) (s : MPM64) : Except Fault MPM64 :=
  match resolveNodes64 bc sqrt s.Dt s.Dc s.LAn s.Ln with
  | .error e => .error e
  | .ok Ln1 => .ok { s with Ln := Ln1 }

/-- The inner loop of `NodeToParticle` for a particle whose velocity is not
fixed: for `n>0.`, `an = F/M`, `V += n*an*Dt` and `X += n*V_node*Dt`, each
operation rounded. -/
def gatherLoop64 (Dt : Double) (Ln : List MPM_NODE64) :
    List (ℕ × Double) → MPM_PARTICLE64 → Except Fault MPM_PARTICLE64
  | [], p => .ok p
  | (id, n) :: es, p =>
    if n.gt0 then
      match Ln[id]? with
      | none => .error .outOfRange
      | some nd =>
        gatherLoop64 Dt Ln es
          { p with
            V := Vector3d64.zipWith (fun v a => v.add ((n.mul a).mul Dt)) p.V
              (nd.F.map fun f => f.div nd.M)
            X := Vector3d64.zipWith (fun x v => x.add ((n.mul v).mul Dt)) p.X nd.V }
    else gatherLoop64 Dt Ln es p

/-- The body of the loop of `NodeToParticle` for one particle. -/
def gatherParticle64 (Dt : Double) (Ln : List MPM_NODE64) (p : MPM_PARTICLE64) :
    Except Fault MPM_PARTICLE64 :=
  let p0 : MPM_PARTICLE64 := { p with DeltaX := Vector3d64.zero }
  if p0.FixV then
    .ok { p0 with V := p0.Vf, X := Vector3d64.zipWith (fun x v => x.add (v.mul Dt)) p0.X p0.Vf }
  else if p0.LnN.length < p0.Lni.length then .error .outOfRange
  else gatherLoop64 Dt Ln (List.zip p0.Lni p0.LnN) p0

/-- The particle loop of `NodeToParticle`. -/
def gatherParticles64 (Dt : Double) (Ln : List MPM_NODE64) :
    List MPM_PARTICLE64 → Except Fault (List MPM_PARTICLE64)
  | [] => .ok []
  | p :: ps =>
    match gatherParticle64 Dt Ln p with
    | .error e => .error e
    | .ok p1 =>
      match gatherParticles64 Dt Ln ps with
      | .error e => .error e
      | .ok ps1 => .ok (p1 :: ps1)

/-- `MPM::NodeToParticle` in binary64. -/
def NodeToParticle64 (s : MPM64) : Except Fault MPM64 :=
  match gatherParticles64 s.Dt s.Ln s.Lp with
  | .error e => .error e
  | .ok Lp1 => .ok { s with Lp := Lp1 }

/-- The pass `ParticleToNode`, `CalVOnNode`, `NodeToParticle` in binary64: the
first three calls of a pass of `SolveMUSL`. -/
def scatterResolveGather64
    (gimp : Vector3d64 → Vector3d64 → Vector3d64 → Vector3d64 → Double × Vector3d64)
    (bc : NODE_BC64) (sqrt : Double → Double) (sched : ℕ → ℕ) (s : MPM64) : Except Fault MPM64 :=
  match ParticleToNode64 gimp sched s with
  | .error e => .error e
  | .ok s1 =>
    match CalVOnNode64 bc sqrt s1 with
    | .error e => .error e
    | .ok s2 => NodeToParticle64 s2

/-! ## The constitutive laws in binary64 -/

/-- `MPM_PARTICLE::Elastic` in binary64:
`S += 2.*Mu*de + La*de.trace()*Matrix3d::Identity()`, coefficient by
coefficient. -/
def MPM_PARTICLE64.Elastic (p : MPM_PARTICLE64) (de : Matrix3d64) : MPM_PARTICLE64 :=
  { p with
    S := Matrix3d64.zipWith Double.add p.S
      (Matrix3d64.zipWith Double.add (de.map fun a => ((Double.ofInt 2).mul p.Mu).mul a)
        (Matrix3d64.one.map fun a => (p.La.mul (sum3 de.r0.c0 de.r1.c1 de.r2.c2)).mul a)) }

/-! ## The elastic stress update and the pass of `SolveMUSL` in binary64 -/

/-- Eigen `determinant()` of a `Matrix3d`: with
`h(a,b,c) = m(0,a)*(m(1,b)*m(2,c) - m(1,c)*m(2,b))` it is
`h(0,1,2) - h(1,0,2) + h(2,0,1)`. -/
def det64 (A : Matrix3d64) : Double :=
  ((A.r0.c0.mul ((A.r1.c1.mul A.r2.c2).sub (A.r1.c2.mul A.r2.c1))).sub
      (A.r0.c1.mul ((A.r1.c0.mul A.r2.c2).sub (A.r1.c2.mul A.r2.c0)))).add
    (A.r0.c2.mul ((A.r1.c0.mul A.r2.c1).sub (A.r1.c1.mul A.r2.c0)))

/-- The loop of `CalVGradLocal` in binary64: `L += gn*Ln[id]->V.transpose()`,
the coefficient `(i,j)` of the product being `gn(i)*V(j)`. -/
def gradLoop64 (Ln : List MPM_NODE64) :
    List (ℕ × Vector3d64) → Matrix3d64 → Except Fault Matrix3d64
  | [], L => .ok L
  | (id, gn) :: es, L =>
    match Ln[id]? with
    | none => .error .outOfRange
    | some nd =>
      gradLoop64 Ln es
        (Matrix3d64.zipWith Double.add L
          ⟨nd.V.map fun v => gn.c0.mul v, nd.V.map fun v => gn.c1.mul v,
            nd.V.map fun v => gn.c2.mul v⟩)

/-- `MPM::CalVGradLocal` for one particle in binary64; a list `LnGN` shorter
than `Lni` is read outside its bounds. -/
def CalVGradLocal64 (Ln : List MPM_NODE64) (p : MPM_PARTICLE64) : Except Fault MPM_PARTICLE64 :=
  if p.LnGN.length < p.Lni.length then .error .outOfRange
  else
    match gradLoop64 Ln (List.zip p.Lni p.LnGN) Matrix3d64.zero with
    | .error e => .error e
    | .ok L => .ok { p with L := L }

/-- `MPM::CalPSizeR` for one particle in binary64:
`PSize(d) = PSize0(d)*sqrt(F(0,d)*F(0,d) + F(1,d)*F(1,d) + F(2,d)*F(2,d))`. -/
def CalPSizeR64 (sqrt : Double → Double) (p : MPM_PARTICLE64) : MPM_PARTICLE64 :=
  { p with
    PSize :=
      ⟨p.PSize0.c0.mul (sqrt (((p.F.r0.c0.mul p.F.r0.c0).add (p.F.r1.c0.mul p.F.r1.c0)).add
          (p.F.r2.c0.mul p.F.r2.c0))),
        p.PSize0.c1.mul (sqrt (((p.F.r0.c1.mul p.F.r0.c1).add (p.F.r1.c1.mul p.F.r1.c1)).add
          (p.F.r2.c1.mul p.F.r2.c1))),
        p.PSize0.c2.mul (sqrt (((p.F.r0.c2.mul p.F.r0.c2).add (p.F.r1.c2.mul p.F.r1.c2)).add
          (p.F.r2.c2.mul p.F.r2.c2)))⟩ }

/-- The body of the loop of `CalStressOnParticleElastic` for one particle in
binary64: the velocity gradient, `F = (I + L*Dt)*F`, `CalPSizeR`,
`Vol = F.determinant()*Vol0`, `de = 0.5*Dt*(L + L.transpose())`,
`w = 0.5*Dt*(L - L.transpose())`, `S += w*S - S*w.transpose()` and
`Elastic(de)`.  It writes `L`, `F`, `PSize`, `Vol` and `S` only. -/
def stressElastic64 (sqrt : Double → Double) (Dt : Double) (Ln : List MPM_NODE64)
    (p : MPM_PARTICLE64) : Except Fault MPM_PARTICLE64 :=
  match CalVGradLocal64 Ln p with
  | .error e => .error e
  | .ok p1 =>
    let p2 : MPM_PARTICLE64 :=
      { p1 with
        F := matMul64
          (Matrix3d64.zipWith Double.add Matrix3d64.one (p1.L.map fun a => a.mul Dt)) p1.F }
    let p3 : MPM_PARTICLE64 := CalPSizeR64 sqrt p2
    let p4 : MPM_PARTICLE64 := { p3 with Vol := (det64 p3.F).mul p3.Vol0 }
    let de : Matrix3d64 :=
      (Matrix3d64.zipWith Double.add p4.L p4.L.transpose).map fun a =>
        ((Double.ofFrac 1 2).mul Dt).mul a
    let w : Matrix3d64 :=
      (Matrix3d64.zipWith Double.sub p4.L p4.L.transpose).map fun a =>
        ((Double.ofFrac 1 2).mul Dt).mul a
    let p5 : MPM_PARTICLE64 :=
      { p4 with
        S := Matrix3d64.zipWith Double.add p4.S
          (Matrix3d64.zipWith Double.sub (matMul64 w p4.S) (matMul64 p4.S w.transpose)) }
    .ok (p5.Elastic de)

/-- The particle loop of `CalStressOnParticleElastic`. -/
def stressElasticAll64 (sqrt : Double → Double) (Dt : Double) (Ln : List MPM_NODE64) :
    List MPM_PARTICLE64 → Except Fault (List MPM_PARTICLE64)
  | [] => .ok []
  | p :: ps =>
    match stressElastic64 sqrt Dt Ln p with
    | .error e => .error e
    | .ok q =>
      match stressElasticAll64 sqrt Dt Ln ps with
      | .error e => .error e
      | .ok qs => .ok (q :: qs)

/-- `MPM::CalStressOnParticleElastic` in binary64. -/
def CalStressOnParticleElastic64 (sqrt : Double → Double) (s : MPM64) : Except Fault MPM64 :=
  match stressElasticAll64 sqrt s.Dt s.Ln s.Lp with
  | .error e => .error e
  | .ok Lp1 => .ok { s with Lp := Lp1 }

/-- One pass of the loop of `SolveMUSL` for the elastic model (`CMType = 0`) in
binary64: `ParticleToNode`, `CalVOnNode`, `NodeToParticle`,
`CalStressOnParticleElastic`.  Console and file output are left out. -/
def stepElastic64
    (gimp : Vector3d64 → Vector3d64 → Vector3d64 → Vector3d64 → Double × Vector3d64)
    (bc : NODE_BC64) (sqrt : Double → Double) (sched : ℕ → ℕ) (s : MPM64) : Except Fault MPM64 :=
  match scatterResolveGather64 gimp bc sqrt sched s with
  | .error e => .error e
  | .ok s3 => CalStressOnParticleElastic64 sqrt s3

/-- The functions `sin`, `cos` and `sqrt` of the C library on `double`. -/
structure LIBM64 where
  sin : Double → Double
  cos : Double → Double
  sqrt : Double → Double

/-- The elastic constants the constructor
`MPM_PARTICLE(type, x, m, young, poisson)` stores: `Mu`, `La`, `Dp` and
`Dpi = Dp.inverse()`. -/
def MPM_PARTICLE64.moduli (p : MPM_PARTICLE64) (young poisson : Double) : MPM_PARTICLE64 :=
  let one : Double := Double.ofInt 1
  let mu : Double := ((Double.ofFrac 1 2).mul young).div (one.add poisson)
  let la : Double :=
    ((young.mul poisson).div (one.add poisson)).div (one.sub ((Double.ofInt 2).mul poisson))
  let d : Double := la.add ((Double.ofInt 2).mul mu)
  let dp : Matrix3d64 := ⟨⟨d, la, la⟩, ⟨la, d, la⟩, ⟨la, la, d⟩⟩
  { p with Mu := mu, La := la, Dp := dp, Dpi := inverse64 dp }

/-- The yield value of `MohrCoulomb` (Eq.28):
`(s1-s3) +(s1+s3)*sin(Phi) -2.*C*cos(Phi)`. -/
def yieldF64 (m : LIBM64) (p : MPM_PARTICLE64) (sb : Vector3d64) : Double :=
  ((sb.c0.sub sb.c2).add ((sb.c0.add sb.c2).mul (m.sin p.Phi))).sub
    (((Double.ofInt 2).mul p.C).mul (m.cos p.Phi))

/-- `k = (1.+sin(Phi)) / (1.-sin(Phi))` (Eq.32) in binary64. -/
def mcK64 (m : LIBM64) (p : MPM_PARTICLE64) : Double :=
  ((Double.ofInt 1).add (m.sin p.Phi)).div ((Double.ofInt 1).sub (m.sin p.Phi))

/-- `m = (1.+sin(Psi)) / (1.-sin(Psi))` (Eq.33) in binary64. -/
def mcM64 (m : LIBM64) (p : MPM_PARTICLE64) : Double :=
  ((Double.ofInt 1).add (m.sin p.Psi)).div ((Double.ofInt 1).sub (m.sin p.Psi))

/-- `rp = Dp*b1 / (b1.transpose()*Dp*a1)` (Eq.27b) in binary64, with
`a1 = (k, 0., -1.)` and `b1 = (m, 0., -1.)`. -/
def mcRp64 (m : LIBM64) (p : MPM_PARTICLE64) : Vector3d64 :=
  let a1 : Vector3d64 := ⟨mcK64 m p, .zero false, (Double.ofInt 1).neg⟩
  let b1 : Vector3d64 := ⟨mcM64 m p, .zero false, (Double.ofInt 1).neg⟩
  (mulVec64 p.Dp b1).map fun a => a.div (dot64 (vecMul64 b1 p.Dp) a1)

/-- The apex `sa = (1.,1.,1.)`, then `sa *= 2.*C*sqrt(k)/(k-1.)` (Eq.34), in
binary64. -/
def mcSa64 (m : LIBM64) (p : MPM_PARTICLE64) : Vector3d64 :=
  (⟨Double.ofInt 1, Double.ofInt 1, Double.ofInt 1⟩ : Vector3d64).map fun a =>
    a.mul ((((Double.ofInt 2).mul p.C).mul (m.sqrt (mcK64 m p))).div
      ((mcK64 m p).sub (Double.ofInt 1)))

/-- `t1 = rgl1.transpose()*Dpi*(sb-sa)` after `t1 /= t1f`, with
`t1f = rgl1.transpose()*Dpi*rl1` (Eq.39), in binary64. -/
def mcT1_64 (m : LIBM64) (p : MPM_PARTICLE64) (sb : Vector3d64) : Double :=
  let rl1 : Vector3d64 := ⟨Double.ofInt 1, Double.ofInt 1, mcK64 m p⟩
  let rgl1 : Vector3d64 := ⟨Double.ofInt 1, Double.ofInt 1, mcM64 m p⟩
  (dot64 (vecMul64 rgl1 p.Dpi) (Vector3d64.zipWith Double.sub sb (mcSa64 m p))).div
    (dot64 (vecMul64 rgl1 p.Dpi) rl1)

/-- `t2 = rgl2.transpose()*Dpi*(sb-sa)` after `t2 /= t2f`, with
`t2f = rgl2.transpose()*Dpi*rl2` (Eq.39), in binary64. -/
def mcT2_64 (m : LIBM64) (p : MPM_PARTICLE64) (sb : Vector3d64) : Double :=
  let rl2 : Vector3d64 := ⟨Double.ofInt 1, mcK64 m p, mcK64 m p⟩
  let rgl2 : Vector3d64 := ⟨Double.ofInt 1, mcM64 m p, mcM64 m p⟩
  (dot64 (vecMul64 rgl2 p.Dpi) (Vector3d64.zipWith Double.sub sb (mcSa64 m p))).div
    (dot64 (vecMul64 rgl2 p.Dpi) rl2)

/-- `p12 = rp.cross(rl1).dot(sb-sa)` (Eq.45) in binary64. -/
def mcP12_64 (m : LIBM64) (p : MPM_PARTICLE64) (sb : Vector3d64) : Double :=
  dot64 (cross64 (mcRp64 m p) ⟨Double.ofInt 1, Double.ofInt 1, mcK64 m p⟩)
    (Vector3d64.zipWith Double.sub sb (mcSa64 m p))

/-- `p13 = rp.cross(rl2).dot(sb-sa)` (Eq.46) in binary64. -/
def mcP13_64 (m : LIBM64) (p : MPM_PARTICLE64) (sb : Vector3d64) : Double :=
  dot64 (cross64 (mcRp64 m p) ⟨Double.ofInt 1, mcK64 m p, mcK64 m p⟩)
    (Vector3d64.zipWith Double.sub sb (mcSa64 m p))

/-- The return mapping of `MohrCoulomb` in principal-stress space in binary64,
entered when `f>0.`: the chain of tests `t1>0. && t2>0.`,
`p12>=0. && p13<=0.`, `p12<0. && p13<0.`, `p12>0. && p13>0.` with the corrected
stresses `sa`, `sb - f*rp`, `t1*rl1 + sa`, `t2*rl2 + sa`, and the abort
"undefined" when no test holds. -/
def returnMap64 (m : LIBM64) (p : MPM_PARTICLE64) (sb : Vector3d64) (f : Double) :
    Except Fault Vector3d64 :=
  if (mcT1_64 m p sb).gt0 && (mcT2_64 m p sb).gt0 then .ok (mcSa64 m p)
  else if (mcP12_64 m p sb).ge0 && (mcP13_64 m p sb).le0 then
    .ok (Vector3d64.zipWith Double.sub sb ((mcRp64 m p).map fun a => f.mul a))
  else if (mcP12_64 m p sb).lt0 && (mcP13_64 m p sb).lt0 then
    .ok (Vector3d64.zipWith Double.add
      ((⟨Double.ofInt 1, Double.ofInt 1, mcK64 m p⟩ : Vector3d64).map fun a =>
        (mcT1_64 m p sb).mul a) (mcSa64 m p))
  else if (mcP12_64 m p sb).gt0 && (mcP13_64 m p sb).gt0 then
    .ok (Vector3d64.zipWith Double.add
      ((⟨Double.ofInt 1, mcK64 m p, mcK64 m p⟩ : Vector3d64).map fun a =>
        (mcT2_64 m p sb).mul a) (mcSa64 m p))
  else .error .undefinedReturn

/-- `MPM_PARTICLE::MohrCoulomb` in binary64.  `eig` is Eigen's
`SelfAdjointEigenSolver`: for a matrix it gives the vector `eigenvalues()` and
the matrix `eigenvectors()` (one eigenvector per column). -/
def MPM_PARTICLE64.MohrCoulomb (m : LIBM64) (eig : Matrix3d64 → Vector3d64 × Matrix3d64)
    (p : MPM_PARTICLE64) (de : Matrix3d64) : Except Fault MPM_PARTICLE64 :=
  let p1 := p.Elastic de
  let s1 := (eig p1.S).1.c2
  let s2 := (eig p1.S).1.c1
  let s3 := (eig p1.S).1.c0
  let sb : Vector3d64 := ⟨s1, s2, s3⟩
  if s1.lt s2 || s1.lt s3 || s2.lt s3 then .error .wrongOrderOfS
  else if (yieldF64 m p1 sb).gt0 then
    let e : Matrix3d64 := (eig p1.S).2
    let v0 : Matrix3d64 :=
      ⟨⟨e.r0.c2, e.r0.c1, e.r0.c0⟩, ⟨e.r1.c2, e.r1.c1, e.r1.c0⟩, ⟨e.r2.c2, e.r2.c1, e.r2.c0⟩⟩
    match returnMap64 m p1 sb (yieldF64 m p1 sb) with
    | .error err => .error err
    | .ok sc =>
      let z : Double := .zero false
      let sp : Matrix3d64 := ⟨⟨sc.c0, z, z⟩, ⟨z, sc.c1, z⟩, ⟨z, z, sc.c2⟩⟩
      .ok { p1 with S := matMul64 (matMul64 v0 sp) (inverse64 v0) }
  else .ok p1

/-! ## Concrete data in binary64 -/

/-- A kernel with the calling convention of `GIMP3D`, for evaluating examples:
the linear hat function `1 - |x - xc|/l` along the first axis and its gradient,
in binary64. -/
def exHat64 (x xc l _lp : Vector3d64) : Double × Vector3d64 :=
  let d : Double := x.c0.sub xc.c0
  let one : Double := Double.ofInt 1
  let z : Double := .zero false
  if d.le l.c0.neg then (z, Vector3d64.zero)
  else if d.le z then (one.add (d.div l.c0), ⟨one.div l.c0, z, z⟩)
  else if d.lt l.c0 then (one.sub (d.div l.c0), ⟨(one.div l.c0).neg, z, z⟩)
  else (z, Vector3d64.zero)

/-- An instance of the boundary-condition methods in binary64: each of them
leaves the node as it is (no node of the examples carries a condition). -/
def exBC64 : NODE_BC64 :=
  { NonSlippingBC := fun nd => nd
    SlippingBC := fun _ nd => nd
    FrictionBC := fun _ _ nd => nd }

/-- A stand-in for `sqrt` of the C library in binary64, exact at `0` and `1`;
the examples that use it have `Dc = 0` or `C = 0`, which multiply its value by
zero. -/
def exSqrt64 (x : Double) : Double := x

/-- A node with empty accumulators and no boundary condition. -/
def exNode64 : MPM_NODE64 :=
  { M := .zero false, Mv := Vector3d64.zero, F := Vector3d64.zero, V := Vector3d64.zero,
    BCTypes := [], Norms := [] }

/-- A free, unstressed and undeformed particle of mass `m` and volume `1` at rest
at `(x, 0, 0)` with half-width `0` and body acceleration `(b, 0, 0)`. -/
def exParticle64 (m x b : Double) : MPM_PARTICLE64 :=
  { M := m, Vol := Double.ofInt 1, Vol0 := Double.ofInt 1, Mu := .zero false,
    La := .zero false, C := .zero false, Phi := .zero false, Psi := .zero false,
    X := ⟨x, .zero false, .zero false⟩, PSize := Vector3d64.zero, PSize0 := Vector3d64.zero,
    V := Vector3d64.zero, Vf := Vector3d64.zero, B := ⟨b, .zero false, .zero false⟩,
    Fh := Vector3d64.zero, DeltaX := Vector3d64.zero, S := Matrix3d64.zero,
    L := Matrix3d64.zero, F := Matrix3d64.one, Dp := Matrix3d64.zero, Dpi := Matrix3d64.zero,
    FixV := false, Lni := [], LnN := [], LnGN := [] }

/-- A one-dimensional solver with two cells of size `1`, three empty nodes, one
thread, no damping, the time step `dt` and the particles `Lp`. -/
def exMPM64 (dt : Double) (Lp : List MPM_PARTICLE64) : MPM64 :=
  { D := 1, Ncy := 3, Ncz := 3, Nproc := 1,
    Dx := ⟨Double.ofInt 1, Double.ofInt 1, Double.ofInt 1⟩, Dt := dt, Dc := .zero false,
    LAn := [], Lp := Lp, Ln := [exNode64, exNode64, exNode64] }

/-- A stand-in for `sin`, `cos` and `sqrt` of the C library in binary64, with
the values of the library at the two angles of the examples, `0` and
`0.5235987755982988` (the `double` nearest to `pi/6`): the sines `0` and
`0.49999999999999994`, the cosines `1` and `0.8660254037844387`; `sqrt` is
`exSqrt64`. -/
def exLibm64 : LIBM64 :=
  { sin := fun x =>
      if x = .zero false then .zero false else Double.ofFrac 49999999999999994 (10 ^ 17)
    cos := fun x =>
      if x = .zero false then Double.ofInt 1 else Double.ofFrac 8660254037844387 (10 ^ 16)
    sqrt := exSqrt64 }

/-- A particle without cohesion and without dilatancy, with the friction angle
`phi` and the elastic constants the constructor computes from `young` and
`poisson`. -/
def exSolid64 (young poisson phi : Double) : MPM_PARTICLE64 :=
  { (exParticle64 (Double.ofInt 1) (.zero false) (.zero false)).moduli young poisson with
    Phi := phi }

/-- The result of the eigen-solver on a diagonal matrix with decreasing
diagonal, in binary64: the eigenvalues in increasing order and, as columns, the
unit vectors `e3, e2, e1`. -/
def exEig64 (A : Matrix3d64) : Vector3d64 × Matrix3d64 :=
  (⟨A.r2.c2, A.r1.c1, A.r0.c0⟩,
   ⟨⟨.zero false, .zero false, Double.ofInt 1⟩, ⟨.zero false, Double.ofInt 1, .zero false⟩,
    ⟨Double.ofInt 1, .zero false, .zero false⟩⟩)

/-- The diagonal matrix `diag(a, b, c)` in binary64. -/
def diag64 (a b c : Double) : Matrix3d64 :=
  ⟨⟨a, .zero false, .zero false⟩, ⟨.zero false, b, .zero false⟩, ⟨.zero false, .zero false, c⟩⟩

/-- The solver `exMPM64` with three particles of masses `0.1`, `0.2`, `0.3`, all
at the node `x = 1`. -/
def exOrder64 : MPM64 :=
  exMPM64 (Double.ofFrac 1 10)
    [exParticle64 (Double.ofFrac 1 10) (Double.ofInt 1) (.zero false),
     exParticle64 (Double.ofFrac 2 10) (Double.ofInt 1) (.zero false),
     exParticle64 (Double.ofFrac 3 10) (Double.ofInt 1) (.zero false)]

/-- The solver `exMPM64` with one particle of mass `0.9` at `x = 0.3`. -/
def exMass64 : MPM64 :=
  exMPM64 (Double.ofFrac 1 10)
    [exParticle64 (Double.ofFrac 9 10) (Double.ofFrac 3 10) (.zero false)]

/-- The solver `exMPM64` with time step `0.5` and one particle of mass `0.1` at
`x = 0.125`, at rest, with body acceleration `(10, 0, 0)`. -/
def exPush64 : MPM64 :=
  exMPM64 (Double.ofFrac 1 2)
    [exParticle64 (Double.ofFrac 1 10) (Double.ofFrac 1 8) (Double.ofInt 10)]

/-- The solver `exMPM64` with time step `0.5` and one particle of mass `0.1` at
`x = 0.5`, at rest, with body acceleration `(3, 0, 0)`. -/
def exFall64 : MPM64 :=
  exMPM64 (Double.ofFrac 1 2)
    [exParticle64 (Double.ofFrac 1 10) (Double.ofFrac 1 2) (Double.ofInt 3)]

/-- A particle with `Mu = 1`, `La = 0` and the stress `diag(1, 0, 0)`. -/
def exUnit64 : MPM_PARTICLE64 :=
  { exParticle64 (Double.ofInt 1) (.zero false) (.zero false) with
    Mu := Double.ofInt 1, S := diag64 (Double.ofInt 1) (.zero false) (.zero false) }

/-- The particle `exSolid64` with `Young = 2.5`, `Poisson = 0.25` (so `Mu = 1`,
`La = 1`) and the friction angle `0`, carrying the stress `diag(-1, -2, -6)`. -/
def exFlat64 : MPM_PARTICLE64 :=
  { exSolid64 (Double.ofFrac 5 2) (Double.ofFrac 1 4) (.zero false) with
    S := diag64 (Double.ofInt (-1)) (Double.ofInt (-2)) (Double.ofInt (-6)) }

/-- The particle `exFlat64` with the friction angle `0.5235987755982988`
(30 degrees). -/
def exSlope64 : MPM_PARTICLE64 :=
  { exFlat64 with Phi := Double.ofFrac 5235987755982988 (10 ^ 16) }

/-- The trial principal stresses `(-1, -2, -6)`. -/
def exTrial64 : Vector3d64 := ⟨Double.ofInt (-1), Double.ofInt (-2), Double.ofInt (-6)⟩

end ComFluSoM

namespace ComFluSoM

/-! ## The elastic law -/

/-- C10 (amended). In exact arithmetic `MPM_PARTICLE::Elastic` with the zero
strain increment leaves the stress unchanged, and `Elastic(de)` followed by
`Elastic(-de)` gives back the original stress, for every stress, every pair of
moduli and every `de`. -/
theorem Elastic_round_trip (p : MPM_PARTICLE) (de : Matrix3d) :
    (p.Elastic 0).S = p.S ∧ ((p.Elastic de).Elastic (-de)).S = p.S := by
  constructor
  · simp [MPM_PARTICLE.Elastic]
  · simp only [MPM_PARTICLE.Elastic, Matrix.trace_neg, smul_neg, mul_neg, neg_smul]
    abel

/-! ## NodeToParticle -/

theorem gatherLoop_ok (Dt : ℚ) (Ln : List MPM_NODE) (es : List (ℕ × ℚ)) (p : MPM_PARTICLE)
    (h : ∀ e ∈ es, 0 < e.2 → e.1 < Ln.length) :
    ∃ q, gatherLoop Dt Ln es p = .ok q ∧
      q.V = p.V + ((es.filter fun e => 0 < e.2).map fun e => (e.2 * Dt) • nodeAcc Ln e.1).sum ∧
      q.X = p.X + ((es.filter fun e => 0 < e.2).map fun e => (e.2 * Dt) • nodeVel Ln e.1).sum ∧
      q.M = p.M ∧ q.FixV = p.FixV := by
  induction es generalizing p with
  | nil => exact ⟨p, rfl, by simp, by simp, rfl, rfl⟩
  | cons e es ih =>
    obtain ⟨id, n⟩ := e
    have h1 : ∀ e ∈ es, 0 < e.2 → e.1 < Ln.length := fun e he => h e (List.mem_cons_of_mem _ he)
    by_cases hn : 0 < n
    · have hid : id < Ln.length := h (id, n) (List.mem_cons_self _ _) hn
      obtain ⟨q, hq, hV, hX, hM, hF⟩ := ih
        { p with V := p.V + (n * Dt) • (fun i => Ln[id].F i / Ln[id].M),
                 X := p.X + (n * Dt) • Ln[id].V } h1
      refine ⟨q, ?_, ?_, ?_, hM, hF⟩
      · simp only [gatherLoop, hn, if_true, List.getElem?_eq_getElem hid]
        exact hq
      · rw [hV]
        simp [hn, nodeAcc, List.getElem?_eq_getElem hid, add_assoc]
      · rw [hX]
        simp [hn, nodeVel, List.getElem?_eq_getElem hid, add_assoc]
    · obtain ⟨q, hq, hV, hX, hM, hF⟩ := ih p h1
      refine ⟨q, ?_, ?_, ?_, hM, hF⟩
      · simp only [gatherLoop, hn, if_false]
        exact hq
      · rw [hV]; simp [hn]
      · rw [hX]; simp [hn]

theorem gatherParticles_ok (Dt : ℚ) (Ln : List MPM_NODE) (R : MPM_PARTICLE → MPM_PARTICLE → Prop)
    (ps : List MPM_PARTICLE)
    (h : ∀ p ∈ ps, ∃ q, gatherParticle Dt Ln p = .ok q ∧ R p q) :
    ∃ qs, gatherParticles Dt Ln ps = .ok qs ∧ List.Forall₂ R ps qs := by
  induction ps with
  | nil => exact ⟨[], rfl, List.Forall₂.nil⟩
  | cons p ps ih =>
    obtain ⟨q, hq, hR⟩ := h p (List.mem_cons_self _ _)
    obtain ⟨qs, hqs, hRs⟩ := ih fun p hp => h p (List.mem_cons_of_mem _ hp)
    exact ⟨q :: qs, by simp [gatherParticles, hq, hqs], List.Forall₂.cons hR hRs⟩

theorem gatherParticle_spec (Dt : ℚ) (Ln : List MPM_NODE) (p : MPM_PARTICLE)
    (hlen : p.FixV = false → p.Lni.length ≤ p.LnN.length)
    (hid : p.FixV = false → ∀ e ∈ List.zip p.Lni p.LnN, 0 < e.2 → e.1 < Ln.length) :
    ∃ q, gatherParticle Dt Ln p = .ok q ∧
      ((p.FixV = true → q.V = p.Vf ∧ q.X = p.X + Dt • p.Vf) ∧
       (p.FixV = false →
          q.V = p.V + (((List.zip p.Lni p.LnN).filter fun e => 0 < e.2).map
                  fun e => (e.2 * Dt) • nodeAcc Ln e.1).sum ∧
          q.X = p.X + (((List.zip p.Lni p.LnN).filter fun e => 0 < e.2).map
                  fun e => (e.2 * Dt) • nodeVel Ln e.1).sum)) ∧
      q.M = p.M := by
  by_cases hT : p.FixV = true
  · refine ⟨{ p with DeltaX := 0, V := p.Vf, X := p.X + Dt • p.Vf }, ?_,
      ⟨fun _ => ⟨rfl, rfl⟩, fun h => by simp [hT] at h⟩, rfl⟩
    simp only [gatherParticle]
    rw [if_pos hT]
  · have hF : p.FixV = false := by simpa using hT
    obtain ⟨q, hq, hV, hX, hM, -⟩ :=
      gatherLoop_ok Dt Ln (List.zip p.Lni p.LnN) { p with DeltaX := 0 } (hid hF)
    refine ⟨q, ?_, ⟨fun h => absurd h hT, fun _ => ⟨hV, hX⟩⟩, hM⟩
    have hl : ¬ p.LnN.length < p.Lni.length := not_lt.mpr (hlen hF)
    simp only [gatherParticle, gatherEntries]
    rw [if_neg hT, if_neg hl]
    exact hq

/-- C9. `NodeToParticle` keeps the dual path.  When every free particle's
influence list can be read (`LnN` as long as `Lni`, positive-weight entries
naming existing nodes) and every node such an entry names has a mass other than
zero, the call completes, leaves the nodes alone, and maps each particle `p` to
`q` with: if `FixV` is set, `q.V = Vf` and `q.X = X + Dt*Vf`, whatever the nodes
and the influence list are; if `FixV` is clear, `q.V = V + Σ w*(F_node/M_node)*Dt`
and `q.X = X + Σ w*V_node*Dt`, the sums over the influence entries with `w > 0`,
where `F_node/M_node` is the quotient: its product with `M_node` is `F_node`. -/
theorem NodeToParticle_dual_path (s : MPM)
    (hlen : ∀ p ∈ s.Lp, p.FixV = false → p.Lni.length ≤ p.LnN.length)
    (hid : ∀ p ∈ s.Lp, p.FixV = false →
      ∀ e ∈ List.zip p.Lni p.LnN, 0 < e.2 → e.1 < s.Ln.length)
    (hM : ∀ p ∈ s.Lp, p.FixV = false →
      ∀ e ∈ List.zip p.Lni p.LnN, 0 < e.2 → ∀ nd, s.Ln[e.1]? = some nd → nd.M ≠ 0) :
    ∃ s1, NodeToParticle s = .ok s1 ∧ s1.Ln = s.Ln ∧
      List.Forall₂ (fun p q =>
        (p.FixV = true → q.V = p.Vf ∧ q.X = p.X + s.Dt • p.Vf) ∧
        (p.FixV = false →
          q.V = p.V + (((List.zip p.Lni p.LnN).filter fun e => 0 < e.2).map
                  fun e => (e.2 * s.Dt) • nodeAcc s.Ln e.1).sum ∧
          q.X = p.X + (((List.zip p.Lni p.LnN).filter fun e => 0 < e.2).map
                  fun e => (e.2 * s.Dt) • nodeVel s.Ln e.1).sum ∧
          ∀ e ∈ List.zip p.Lni p.LnN, 0 < e.2 → ∀ nd, s.Ln[e.1]? = some nd →
            ∀ i, nodeAcc s.Ln e.1 i * nd.M = nd.F i)) s.Lp s1.Lp := by
  obtain ⟨qs, hqs, hR⟩ := gatherParticles_ok s.Dt s.Ln
    (fun p q =>
      (p.FixV = true → q.V = p.Vf ∧ q.X = p.X + s.Dt • p.Vf) ∧
      (p.FixV = false →
        q.V = p.V + (((List.zip p.Lni p.LnN).filter fun e => 0 < e.2).map
                fun e => (e.2 * s.Dt) • nodeAcc s.Ln e.1).sum ∧
        q.X = p.X + (((List.zip p.Lni p.LnN).filter fun e => 0 < e.2).map
                fun e => (e.2 * s.Dt) • nodeVel s.Ln e.1).sum ∧
        ∀ e ∈ List.zip p.Lni p.LnN, 0 < e.2 → ∀ nd, s.Ln[e.1]? = some nd →
          ∀ i, nodeAcc s.Ln e.1 i * nd.M = nd.F i)) s.Lp
    (fun p hp => by
      obtain ⟨q, hq, hspec, -⟩ := gatherParticle_spec s.Dt s.Ln p (hlen p hp) (hid p hp)
      refine ⟨q, hq, hspec.1, fun hF => ⟨(hspec.2 hF).1, (hspec.2 hF).2, ?_⟩⟩
      intro e he hw nd hnd i
      simp only [nodeAcc, hnd]
      exact div_mul_cancel₀ _ (hM p hp hF e he hw nd hnd))
  exact ⟨{ s with Lp := qs }, by simp [NodeToParticle, hqs], rfl, hR⟩

/-! ## CalVOnNode -/

theorem applyBC_M (bc : NODE_BC) (hbc : bc.KeepsMass) (Dt : ℚ) (nd nd1 : MPM_NODE) (i : ℕ)
    (h : applyBC bc Dt nd i = .ok nd1) : nd1.M = nd.M := by
  unfold applyBC at h
  split at h
  · cases h
  · split_ifs at h
    · cases h; exact (hbc nd).1
    · split at h
      · cases h
      · cases h; exact (hbc nd).2.1 _
    · split at h
      · cases h
      · cases h; exact (hbc nd).2.2 _ _
    · cases h; rfl

theorem applyBCs_M (bc : NODE_BC) (hbc : bc.KeepsMass) (Dt : ℚ) (is : List ℕ)
    (nd nd1 : MPM_NODE) (h : applyBCs bc Dt is nd = .ok nd1) : nd1.M = nd.M := by
  induction is generalizing nd with
  | nil => cases h; rfl
  | cons i is ih =>
    unfold applyBCs at h
    split at h
    · cases h
    · next nd2 h2 => rw [ih nd2 h, applyBC_M bc hbc Dt nd nd2 i h2]

theorem resolveNode_spec (bc : NODE_BC) (hbc : bc.KeepsMass) (sqrt : ℚ → ℚ) (Dt Dc : ℚ)
    (nd nd1 : MPM_NODE) (h : resolveNode bc sqrt Dt Dc nd = .ok nd1) :
    nd1.M = nd.M ∧ nd1.Resolved := by
  unfold resolveNode at h
  split_ifs at h with h0
  · cases h
    refine ⟨rfl, fun _ => rfl, fun hge => ?_⟩
    simp only [h0] at hge
    norm_num at hge
  · simp only at h
    split at h
    · cases h
    · next nd2 h2 =>
      have hM := applyBCs_M bc hbc Dt _ _ nd2 h2
      simp only at hM
      split_ifs at h with hs
      · cases h
        refine ⟨hM, fun _ => rfl, fun hge => ?_⟩
        exact absurd hs (not_lt.mpr hge)
      · cases h
        exact ⟨hM, fun hlt => absurd hlt hs, fun _ => rfl⟩

theorem resolveNodes_spec (bc : NODE_BC) (hbc : bc.KeepsMass) (sqrt : ℚ → ℚ) (Dt Dc : ℚ)
    (ids : List ℕ) (Ln Ln1 : List MPM_NODE)
    (h : resolveNodes bc sqrt Dt Dc ids Ln = .ok Ln1) :
    Ln1.length = Ln.length ∧ (∀ id ∈ ids, id < Ln.length) ∧
    ∀ id nd, Ln[id]? = some nd → ∃ nd1, Ln1[id]? = some nd1 ∧ nd1.M = nd.M ∧
      (id ∈ ids ∨ nd.Resolved → nd1.Resolved) := by
  induction ids generalizing Ln with
  | nil =>
    cases h
    exact ⟨rfl, by simp, fun id nd hnd => ⟨nd, hnd, rfl, fun hq => hq.resolve_left (by simp)⟩⟩
  | cons id0 ids ih =>
    unfold resolveNodes at h
    split at h
    · cases h
    · next nd0 h0 =>
      split at h
      · cases h
      · next nd0r hr =>
        obtain ⟨hM0, hQ0⟩ := resolveNode_spec bc hbc sqrt Dt Dc nd0 nd0r hr
        obtain ⟨hlen, hval, hall⟩ := ih _ h
        have hlt0 : id0 < Ln.length := by
          by_contra hc
          rw [List.getElem?_eq_none (not_lt.mp hc)] at h0
          cases h0
        refine ⟨by simpa using hlen, ?_, ?_⟩
        · intro id hid
          rcases List.mem_cons.mp hid with rfl | hid
          · exact hlt0
          · simpa using hval id hid
        · intro id nd hnd
          by_cases hid : id0 = id
          · subst hid
            have hnd0 : nd0 = nd := by rw [h0] at hnd; exact Option.some.inj hnd
            subst hnd0
            obtain ⟨nd1, h1, hM1, hQ1⟩ := hall id0 nd0r (by simp [List.getElem?_set, hlt0])
            exact ⟨nd1, h1, hM1.trans hM0, fun _ => hQ1 (Or.inr hQ0)⟩
          · obtain ⟨nd1, h1, hM1, hQ1⟩ := hall id nd (by
              rw [List.getElem?_set_ne hid]; exact hnd)
            refine ⟨nd1, h1, hM1, fun hq => hQ1 ?_⟩
            rcases hq with hq | hq
            · rcases List.mem_cons.mp hq with rfl | hq
              · exact absurd rfl hid
              · exact Or.inl hq
            · exact Or.inr hq

theorem applyBC_ok (bc : NODE_BC) (hk : bc.KeepsBCs) (Dt : ℚ) (nd : MPM_NODE) (i : ℕ)
    (hi : i < nd.BCTypes.length) (hn : nd.NormsInRange) :
    ∃ nd1, applyBC bc Dt nd i = .ok nd1 ∧ nd1.BCTypes = nd.BCTypes ∧ nd1.Norms = nd.Norms := by
  unfold applyBC
  rw [List.getElem?_eq_getElem hi]
  simp only
  split_ifs with h1 h2 h3
  · exact ⟨_, rfl, (hk nd).1⟩
  · have hlt := hn i _ (List.getElem?_eq_getElem hi) (Or.inl h2)
    rw [List.getElem?_eq_getElem hlt]
    exact ⟨_, rfl, (hk nd).2.1 _⟩
  · have hlt := hn i _ (List.getElem?_eq_getElem hi) (Or.inr h3)
    rw [List.getElem?_eq_getElem hlt]
    exact ⟨_, rfl, (hk nd).2.2 _ _⟩
  · exact ⟨nd, rfl, rfl, rfl⟩

theorem applyBCs_ok (bc : NODE_BC) (hk : bc.KeepsBCs) (Dt : ℚ) (is : List ℕ) (nd : MPM_NODE)
    (hi : ∀ i ∈ is, i < nd.BCTypes.length) (hn : nd.NormsInRange) :
    ∃ nd1, applyBCs bc Dt is nd = .ok nd1 ∧ nd1.BCTypes = nd.BCTypes ∧ nd1.Norms = nd.Norms := by
  induction is generalizing nd with
  | nil => exact ⟨nd, rfl, rfl, rfl⟩
  | cons i is ih =>
    obtain ⟨nd1, h1, hB, hN⟩ := applyBC_ok bc hk Dt nd i (hi i (List.mem_cons_self _ _)) hn
    have hn1 : nd1.NormsInRange := by
      intro k t hk1 ht
      rw [hN]
      exact hn k t (by rw [← hB]; exact hk1) ht
    obtain ⟨nd2, h2, hB2, hN2⟩ := ih nd1
      (fun k hk1 => by rw [hB]; exact hi k (List.mem_cons_of_mem _ hk1)) hn1
    exact ⟨nd2, by simp [applyBCs, h1, h2], hB2.trans hB, hN2.trans hN⟩

theorem resolveNode_ok (bc : NODE_BC) (hk : bc.KeepsBCs) (sqrt : ℚ → ℚ) (Dt Dc : ℚ)
    (nd : MPM_NODE) (hn : nd.NormsInRange) :
    ∃ nd1, resolveNode bc sqrt Dt Dc nd = .ok nd1 ∧ nd1.BCTypes = nd.BCTypes ∧
      nd1.Norms = nd.Norms := by
  unfold resolveNode
  split_ifs with h0
  · exact ⟨_, rfl, rfl, rfl⟩
  · simp only
    obtain ⟨nd2, h2, hB, hN⟩ := applyBCs_ok bc hk Dt (List.range nd.BCTypes.length)
      { nd with F := nd.F - (Dc * norm sqrt nd.F) • normalized sqrt nd.Mv,
                Mv := nd.Mv - Dt • ((Dc * norm sqrt nd.F) • normalized sqrt nd.Mv) }
      (fun i hi => List.mem_range.mp hi) hn
    rw [h2]
    simp only
    split_ifs
    · exact ⟨_, rfl, hB, hN⟩
    · exact ⟨_, rfl, hB, hN⟩

theorem resolveNodes_ok (bc : NODE_BC) (hk : bc.KeepsBCs) (sqrt : ℚ → ℚ) (Dt Dc : ℚ)
    (ids : List ℕ) (Ln : List MPM_NODE)
    (h : ∀ id ∈ ids, ∃ nd, Ln[id]? = some nd ∧ nd.NormsInRange) :
    ∃ Ln1, resolveNodes bc sqrt Dt Dc ids Ln = .ok Ln1 := by
  induction ids generalizing Ln with
  | nil => exact ⟨Ln, rfl⟩
  | cons id0 ids ih =>
    obtain ⟨nd0, h0, hn0⟩ := h id0 (List.mem_cons_self _ _)
    obtain ⟨nd1, h1, hB, hN⟩ := resolveNode_ok bc hk sqrt Dt Dc nd0 hn0
    have hlt0 : id0 < Ln.length := by
      by_contra hc
      rw [List.getElem?_eq_none (not_lt.mp hc)] at h0
      cases h0
    obtain ⟨Ln1, hL⟩ := ih (Ln.set id0 nd1) (by
      intro id hid
      obtain ⟨nd, hnd, hnn⟩ := h id (List.mem_cons_of_mem _ hid)
      by_cases he : id0 = id
      · subst he
        refine ⟨nd1, by simp [List.getElem?_set, hlt0], ?_⟩
        intro k t hk1 ht
        rw [hN]
        exact hn0 k t (by rw [← hB]; exact hk1) ht
      · exact ⟨nd, by rw [List.getElem?_set_ne he]; exact hnd, hnn⟩)
    exact ⟨Ln1, by simp [resolveNodes, h0, h1, hL]⟩

/-- C7. For boundary-condition methods that leave the node mass alone: whenever
`CalVOnNode` returns, every active node keeps its accumulated mass, has velocity
exactly zero if that mass is below `1e-12` (zero included), whatever its
momentum, force and boundary conditions, and has velocity equal to its final
(damped, boundary-corrected) momentum divided by its mass otherwise.  The call
does return when the methods leave the registrations alone and every active
node exists and finds the normals its boundary conditions look up. -/
theorem CalVOnNode_velocity (bc : NODE_BC) (sqrt : ℚ → ℚ) (s : MPM) (hbc : bc.KeepsMass) :
    (∀ s1, CalVOnNode bc sqrt s = .ok s1 →
      ∀ id ∈ s.LAn, ∃ nd nd1, s.Ln[id]? = some nd ∧ s1.Ln[id]? = some nd1 ∧
        nd1.M = nd.M ∧ (nd.M < 1 / 10 ^ 12 → nd1.V = 0) ∧
        (1 / 10 ^ 12 ≤ nd.M → nd1.V = fun i => nd1.Mv i / nd.M)) ∧
    (bc.KeepsBCs → (∀ id ∈ s.LAn, ∃ nd, s.Ln[id]? = some nd ∧ nd.NormsInRange) →
      ∃ s1, CalVOnNode bc sqrt s = .ok s1) := by
  constructor
  · intro s1 h id hid
    unfold CalVOnNode at h
    split at h
    · cases h
    · next Ln1 hL =>
      cases h
      obtain ⟨-, hval, hall⟩ := resolveNodes_spec bc hbc sqrt s.Dt s.Dc s.LAn s.Ln Ln1 hL
      have hlt := hval id hid
      obtain ⟨nd1, h1, hM, hQ⟩ := hall id s.Ln[id] (List.getElem?_eq_getElem hlt)
      obtain ⟨hQ1, hQ2⟩ := hQ (Or.inl hid)
      refine ⟨s.Ln[id], nd1, List.getElem?_eq_getElem hlt, h1, hM, ?_, ?_⟩
      · intro hlt1; exact hQ1 (by rw [hM]; exact hlt1)
      · intro hge; rw [← hM]; exact hQ2 (by rw [hM]; exact hge)
  · intro hk h
    obtain ⟨Ln1, hL⟩ := resolveNodes_ok bc hk sqrt s.Dt s.Dc s.LAn s.Ln h
    exact ⟨{ s with Ln := Ln1 }, by simp [CalVOnNode, hL]⟩

theorem exBC_KeepsMass : exBC.KeepsMass := by
  intro nd
  exact ⟨rfl, fun _ => rfl, fun _ _ => rfl⟩

theorem exBC_KeepsBCs : exBC.KeepsBCs := by
  intro nd
  exact ⟨⟨rfl, rfl⟩, fun _ => ⟨rfl, rfl⟩, fun _ _ => ⟨rfl, rfl⟩⟩

theorem exResolve_NormsInRange :
    ∀ id ∈ exResolve.LAn, ∃ nd, exResolve.Ln[id]? = some nd ∧ nd.NormsInRange := by
  intro id hid
  simp only [exResolve, List.mem_cons, List.mem_singleton, List.not_mem_nil, or_false] at hid
  rcases hid with rfl | rfl
  · refine ⟨_, rfl, ?_⟩
    intro i t ht h23
    rcases i with _ | i
    · simp [exResolve, exNode] at ht; subst ht; omega
    · simp [exResolve, exNode] at ht
  · refine ⟨_, rfl, ?_⟩
    intro i t ht h23
    simp [exResolve, exNode] at ht

/-- Witness of `CalVOnNode_velocity`: the solver `exResolve` with the methods
`exBC`; the call returns and both active nodes are resolved. -/
theorem CalVOnNode_velocity_witness :
    exBC.KeepsMass ∧
    (∃ s1, CalVOnNode exBC exSqrt exResolve = .ok s1 ∧
      ∀ id ∈ exResolve.LAn, ∃ nd nd1, exResolve.Ln[id]? = some nd ∧ s1.Ln[id]? = some nd1 ∧
        nd1.M = nd.M ∧ (nd.M < 1 / 10 ^ 12 → nd1.V = 0) ∧
        (1 / 10 ^ 12 ≤ nd.M → nd1.V = fun i => nd1.Mv i / nd.M)) := by
  refine ⟨exBC_KeepsMass, ?_⟩
  obtain ⟨s1, h1⟩ := (CalVOnNode_velocity exBC exSqrt exResolve exBC_KeepsMass).2
    exBC_KeepsBCs exResolve_NormsInRange
  exact ⟨s1, h1, (CalVOnNode_velocity exBC exSqrt exResolve exBC_KeepsMass).1 s1 h1⟩

/-- C8 (evaluation at the failing input). After `SetNonSlippingBC(1)` and
`SetSlippingBC(1, norm)` on a node of mass `1`, `CalVOnNode` reaches the slipping
condition at index `1` of `BCTypes` and reads `Norms[1]`, but `Norms` has the
single entry `Norms[0] = norm`: the lookup is outside the vector. -/
theorem CalVOnNode_normal_lookup_fails :
    (exTwoBCs.map fun s => s.Ln.map fun nd => (nd.BCTypes, nd.Norms)) =
      .ok [([], []), ([1, 2], [![1, 0, 0]]), ([], [])] ∧
    exTwoBCs.bind (CalVOnNode exBC exSqrt) = .error .outOfRange := by
  constructor
  · simp [exTwoBCs, SetNonSlippingBC, SetSlippingBC, updNode, exResolve, exMPM, Except.bind,
      Except.map, exNode]
  · simp [exTwoBCs, SetNonSlippingBC, SetSlippingBC, updNode, exResolve, exMPM, Except.bind,
      CalVOnNode, resolveNodes, resolveNode, applyBCs, applyBC, exNode, exBC, List.range_succ]

/-- Witness of `NodeToParticle_dual_path`: the solver `exGather` with one free
and one velocity-fixed particle; the free particle reads the nodes `0` and `1`,
of masses `1` and `1e-13`. -/
theorem NodeToParticle_dual_path_witness :
    (∀ p ∈ exGather.Lp, p.FixV = false → p.Lni.length ≤ p.LnN.length) ∧
    (∀ p ∈ exGather.Lp, p.FixV = false →
      ∀ e ∈ List.zip p.Lni p.LnN, 0 < e.2 → e.1 < exGather.Ln.length) ∧
    (∀ p ∈ exGather.Lp, p.FixV = false →
      ∀ e ∈ List.zip p.Lni p.LnN, 0 < e.2 →
        ∀ nd, exGather.Ln[e.1]? = some nd → nd.M ≠ 0) ∧
    ∃ s1, NodeToParticle exGather = .ok s1 ∧ s1.Ln = exGather.Ln ∧
      List.Forall₂ (fun p q =>
        (p.FixV = true → q.V = p.Vf ∧ q.X = p.X + exGather.Dt • p.Vf) ∧
        (p.FixV = false →
          q.V = p.V + (((List.zip p.Lni p.LnN).filter fun e => 0 < e.2).map
                  fun e => (e.2 * exGather.Dt) • nodeAcc exGather.Ln e.1).sum ∧
          q.X = p.X + (((List.zip p.Lni p.LnN).filter fun e => 0 < e.2).map
                  fun e => (e.2 * exGather.Dt) • nodeVel exGather.Ln e.1).sum ∧
          ∀ e ∈ List.zip p.Lni p.LnN, 0 < e.2 → ∀ nd, exGather.Ln[e.1]? = some nd →
            ∀ i, nodeAcc exGather.Ln e.1 i * nd.M = nd.F i))
        exGather.Lp s1.Lp := by
  have h1 : ∀ p ∈ exGather.Lp, p.FixV = false → p.Lni.length ≤ p.LnN.length := by
    intro p hp _
    simp only [exGather, List.mem_cons, List.mem_singleton, List.not_mem_nil, or_false] at hp
    rcases hp with rfl | rfl <;> simp [exParticle, MPM_PARTICLE.zero]
  have h2 : ∀ p ∈ exGather.Lp, p.FixV = false →
      ∀ e ∈ List.zip p.Lni p.LnN, 0 < e.2 → e.1 < exGather.Ln.length := by
    intro p hp _ e he _
    simp only [exGather, List.mem_cons, List.mem_singleton, List.not_mem_nil, or_false] at hp
    rcases hp with rfl | rfl
    · simp only [List.zip_cons_cons, List.zip_nil_right, List.mem_cons, List.mem_singleton,
        List.not_mem_nil, or_false] at he
      rcases he with rfl | rfl <;> simp [exGather, exResolve]
    · simp [exParticle, MPM_PARTICLE.zero] at he
  have h3 : ∀ p ∈ exGather.Lp, p.FixV = false →
      ∀ e ∈ List.zip p.Lni p.LnN, 0 < e.2 →
        ∀ nd, exGather.Ln[e.1]? = some nd → nd.M ≠ 0 := by
    intro p hp _ e he _ nd hnd
    simp only [exGather, List.mem_cons, List.mem_singleton, List.not_mem_nil, or_false] at hp
    rcases hp with rfl | rfl
    · simp only [List.zip_cons_cons, List.zip_nil_right, List.mem_cons, List.mem_singleton,
        List.not_mem_nil, or_false] at he
      rcases he with rfl | rfl
      · have : nd =
            { exNode 0 0 with M := 1, Mv := ![2, 0, 0], F := ![1, 0, 0], BCTypes := [1] } := by
          simpa [exGather, exResolve] using hnd.symm
        rw [this]
        norm_num
      · have : nd = { exNode 1 1 with M := 1 / 10 ^ 13, Mv := ![1, 0, 0] } := by
          simpa [exGather, exResolve] using hnd.symm
        rw [this]
        norm_num
    · simp [exParticle, MPM_PARTICLE.zero] at he
  exact ⟨h1, h2, h3, NodeToParticle_dual_path exGather h1 h2 h3⟩

/-! ## ParticleToNode: the scatter -/

theorem accNode_nil (Dt : ℚ) (id : ℕ) (nd : MPM_NODE) : accNode Dt [] id nd = nd := by
  ext <;> simp [accNode]

theorem accNode_append (Dt : ℚ) (ps qs : List (MPM_PARTICLE × ℕ × ℚ × Vector3d)) (id : ℕ)
    (nd : MPM_NODE) : accNode Dt (ps ++ qs) id nd = accNode Dt qs id (accNode Dt ps id nd) := by
  ext <;> simp [accNode, add_assoc]

theorem accNode_perm (Dt : ℚ) {ps qs : List (MPM_PARTICLE × ℕ × ℚ × Vector3d)}
    (h : ps.Perm qs) (id : ℕ) (nd : MPM_NODE) : accNode Dt ps id nd = accNode Dt qs id nd := by
  have hf := h.filter fun pe => decide (pe.2.1 = id)
  simp only [accNode]
  rw [(hf.map _).sum_eq, (hf.map _).sum_eq, (hf.map _).sum_eq]

theorem accNode_single (Dt : ℚ) (p : MPM_PARTICLE) (e : ℕ × ℚ × Vector3d) (id : ℕ)
    (nd : MPM_NODE) :
    accNode Dt [(p, e)] id nd =
      if e.1 = id then
        { nd with M := nd.M + e.2.1 * p.M,
                  Mv := nd.Mv + (e.2.1 * p.M) • p.V + Dt • forceInc p e.2.1 e.2.2,
                  F := nd.F + forceInc p e.2.1 e.2.2 }
      else nd := by
  by_cases h : e.1 = id
  · ext <;> simp [accNode, h, add_assoc]
  · ext <;> simp [accNode, h]

theorem scatterEntries_spec (Dt : ℚ) (p : MPM_PARTICLE) (es : List (ℕ × ℚ × Vector3d))
    (Ln Ln1 : List MPM_NODE) (h : scatterEntries Dt p es Ln = .ok Ln1) :
    (∀ e ∈ es, 0 ≤ e.2.1 * p.M ∧ e.1 < Ln.length) ∧ Ln1.length = Ln.length ∧
    ∀ id nd, Ln[id]? = some nd →
      Ln1[id]? = some (accNode Dt (es.map fun e => (p, e)) id nd) := by
  induction es generalizing Ln with
  | nil =>
    cases h
    exact ⟨by simp, rfl, fun id nd hnd => by simp [accNode_nil, hnd]⟩
  | cons e es ih =>
    obtain ⟨id0, n, gn⟩ := e
    unfold scatterEntries at h
    simp only at h
    split_ifs at h with hneg
    split at h
    · cases h
    · next nd0 h0 =>
      obtain ⟨hval, hlen, hall⟩ := ih _ h
      have hlt0 : id0 < Ln.length := by
        by_contra hc
        rw [List.getElem?_eq_none (not_lt.mp hc)] at h0
        cases h0
      refine ⟨?_, by simpa using hlen, ?_⟩
      · intro e he
        rcases List.mem_cons.mp he with rfl | he
        · exact ⟨not_lt.mp hneg, hlt0⟩
        · simpa using hval e he
      · intro id nd hnd
        rw [List.map_cons, ← List.singleton_append, accNode_append, accNode_single]
        by_cases hid : id0 = id
        · subst hid
          have hnd0 : nd0 = nd := by rw [h0] at hnd; exact Option.some.inj hnd
          subst hnd0
          rw [if_pos rfl]
          exact hall id0 _ (by simp [List.getElem?_set, hlt0])
        · rw [if_neg hid]
          exact hall id nd (by rw [List.getElem?_set_ne hid]; exact hnd)

theorem scatterEntries_ok (Dt : ℚ) (p : MPM_PARTICLE) (es : List (ℕ × ℚ × Vector3d))
    (Ln : List MPM_NODE) (h : ∀ e ∈ es, 0 ≤ e.2.1 * p.M ∧ e.1 < Ln.length) :
    ∃ Ln1, scatterEntries Dt p es Ln = .ok Ln1 := by
  induction es generalizing Ln with
  | nil => exact ⟨Ln, rfl⟩
  | cons e es ih =>
    obtain ⟨id0, n, gn⟩ := e
    obtain ⟨h1, h2⟩ := h (id0, n, gn) (List.mem_cons_self _ _)
    obtain ⟨Ln1, hL⟩ := ih
      (Ln.set id0 { Ln[id0] with M := Ln[id0].M + n * p.M,
                                 Mv := Ln[id0].Mv + (n * p.M) • p.V + Dt • forceInc p n gn,
                                 F := Ln[id0].F + forceInc p n gn })
      (fun e he => by simpa using h e (List.mem_cons_of_mem _ he))
    refine ⟨Ln1, ?_⟩
    unfold scatterEntries
    simp only [not_lt.mpr h1, if_false, List.getElem?_eq_getElem h2]
    exact hL

theorem pairs_cons (p : MPM_PARTICLE) (ps : List MPM_PARTICLE) :
    pairs (p :: ps) = ((entries p).map fun e => (p, e)) ++ pairs ps := by
  simp [pairs]

theorem scatterParticles_spec (sh : SHAPE) (s : MPM) (ps ps1 : List MPM_PARTICLE)
    (Ln Ln1 : List MPM_NODE) (h : scatterParticles sh s ps Ln = .ok (ps1, Ln1)) :
    ps1 = ps.map (CalNGN sh s) ∧
    (∀ p ∈ ps1, ∀ e ∈ entries p, 0 ≤ e.2.1 * p.M ∧ e.1 < Ln.length) ∧
    Ln1.length = Ln.length ∧
    ∀ id nd, Ln[id]? = some nd → Ln1[id]? = some (accNode s.Dt (pairs ps1) id nd) := by
  induction ps generalizing Ln ps1 with
  | nil =>
    cases h
    exact ⟨rfl, by simp, rfl, fun id nd hnd => by simp [pairs, accNode_nil, hnd]⟩
  | cons p ps ih =>
    unfold scatterParticles at h
    split at h
    · cases h
    · next La hLa =>
      split at h
      · cases h
      · next qs Lb hLb =>
        cases h
        obtain ⟨hv1, hl1, ha1⟩ := scatterEntries_spec _ _ _ _ _ hLa
        obtain ⟨hq, hv2, hl2, ha2⟩ := ih _ _ hLb
        refine ⟨by rw [hq]; rfl, ?_, hl2.trans hl1, ?_⟩
        · intro q hq1 e he
          rcases List.mem_cons.mp hq1 with rfl | hq1
          · exact hv1 e he
          · simpa [hl1] using hv2 q hq1 e he
        · intro id nd hnd
          rw [pairs_cons, accNode_append]
          exact ha2 id _ (ha1 id nd hnd)

theorem scatterParticles_ok (sh : SHAPE) (s : MPM) (ps : List MPM_PARTICLE)
    (Ln : List MPM_NODE)
    (h : ∀ p ∈ ps, ∀ e ∈ entries (CalNGN sh s p),
      0 ≤ e.2.1 * (CalNGN sh s p).M ∧ e.1 < Ln.length) :
    ∃ Ln1, scatterParticles sh s ps Ln = .ok (ps.map (CalNGN sh s), Ln1) := by
  induction ps generalizing Ln with
  | nil => exact ⟨Ln, rfl⟩
  | cons p ps ih =>
    obtain ⟨La, hLa⟩ := scatterEntries_ok s.Dt (CalNGN sh s p) (entries (CalNGN sh s p)) Ln
      (h p (List.mem_cons_self _ _))
    have hl := (scatterEntries_spec _ _ _ _ _ hLa).2.1
    obtain ⟨Lb, hLb⟩ := ih La (fun q hq e he => by
      simpa [hl] using h q (List.mem_cons_of_mem _ hq) e he)
    exact ⟨Lb, by simp [scatterParticles, hLa, hLb]⟩

theorem Reset_Reset (nd : MPM_NODE) : nd.Reset.Reset = nd.Reset := rfl

theorem resetNodes_spec (ids : List ℕ) (Ln Ln0 : List MPM_NODE)
    (h : resetNodes ids Ln = .ok Ln0) :
    (∀ id ∈ ids, id < Ln.length) ∧ Ln0.length = Ln.length ∧
    ∀ id nd, Ln[id]? = some nd → Ln0[id]? = some (if id ∈ ids then nd.Reset else nd) := by
  induction ids generalizing Ln with
  | nil =>
    cases h
    exact ⟨by simp, rfl, fun id nd hnd => by simp [hnd]⟩
  | cons id0 ids ih =>
    unfold resetNodes at h
    split at h
    · cases h
    · next nd0 h0 =>
      obtain ⟨hval, hlen, hall⟩ := ih _ h
      have hlt0 : id0 < Ln.length := by
        by_contra hc
        rw [List.getElem?_eq_none (not_lt.mp hc)] at h0
        cases h0
      refine ⟨?_, by simpa using hlen, ?_⟩
      · intro id hid
        rcases List.mem_cons.mp hid with rfl | hid
        · exact hlt0
        · simpa using hval id hid
      · intro id nd hnd
        by_cases hid : id0 = id
        · subst hid
          have hnd0 : nd0 = nd := by rw [h0] at hnd; exact Option.some.inj hnd
          subst hnd0
          rw [hall id0 nd0.Reset (by simp [List.getElem?_set, hlt0])]
          simp [Reset_Reset]
        · rw [hall id nd (by rw [List.getElem?_set_ne hid]; exact hnd)]
          have : (id ∈ id0 :: ids) ↔ id ∈ ids := by
            simp [List.mem_cons, Ne.symm hid]
          simp only [this]

theorem resetNodes_ok (ids : List ℕ) (Ln : List MPM_NODE) (h : ∀ id ∈ ids, id < Ln.length) :
    ∃ Ln0, resetNodes ids Ln = .ok Ln0 := by
  induction ids generalizing Ln with
  | nil => exact ⟨Ln, rfl⟩
  | cons id0 ids ih =>
    have h0 := h id0 (List.mem_cons_self _ _)
    obtain ⟨Ln0, hL⟩ := ih (Ln.set id0 Ln[id0].Reset)
      (fun id hid => by simpa using h id (List.mem_cons_of_mem _ hid))
    exact ⟨Ln0, by simp [resetNodes, List.getElem?_eq_getElem h0, hL]⟩

theorem CalNGN_with_Lp (sh : SHAPE) (s : MPM) (Lp1 : List MPM_PARTICLE) (Nproc1 : ℕ)
    (p : MPM_PARTICLE) :
    CalNGN sh { s with Lp := Lp1, Nproc := Nproc1 } p = CalNGN sh s p := rfl

theorem ParticleToNode_spec (sh : SHAPE) (sched : ℕ → ℕ) (s s1 : MPM)
    (h : ParticleToNode sh sched s = .ok s1) :
    s1 = { s with Lp := s.Lp.map (CalNGN sh s), Ln := s1.Ln,
                  LAn := buildLAn s.Nproc sched (s.Lp.map (CalNGN sh s)) } ∧
    (∀ id ∈ s.LAn, id < s.Ln.length) ∧
    (∀ p ∈ s.Lp, ∀ e ∈ entries (CalNGN sh s p), 0 ≤ e.2.1 * p.M ∧ e.1 < s.Ln.length) ∧
    s1.Ln.length = s.Ln.length ∧
    ∀ id nd, s.Ln[id]? = some nd →
      s1.Ln[id]? = some (accNode s.Dt (pairs (s.Lp.map (CalNGN sh s))) id
        (if id ∈ s.LAn then nd.Reset else nd)) := by
  unfold ParticleToNode at h
  split at h
  · cases h
  · next Ln0 h0 =>
    split at h
    · cases h
    · next Lp1 Ln1 h1 =>
      cases h
      obtain ⟨hv0, hl0, ha0⟩ := resetNodes_spec _ _ _ h0
      obtain ⟨hq, hv1, hl1, ha1⟩ := scatterParticles_spec _ _ _ _ _ _ h1
      subst hq
      refine ⟨rfl, hv0, ?_, hl1.trans hl0, ?_⟩
      · intro p hp e he
        have := hv1 (CalNGN sh s p) (List.mem_map_of_mem _ hp) e he
        rw [hl0] at this
        exact this
      · intro id nd hnd
        exact ha1 id _ (ha0 id nd hnd)

theorem ParticleToNode_ok (sh : SHAPE) (sched : ℕ → ℕ) (s : MPM)
    (hLAn : ∀ id ∈ s.LAn, id < s.Ln.length)
    (hval : ∀ p ∈ s.Lp, ∀ e ∈ entries (CalNGN sh s p),
      0 ≤ e.2.1 * p.M ∧ e.1 < s.Ln.length) :
    ∃ s1, ParticleToNode sh sched s = .ok s1 := by
  obtain ⟨Ln0, h0⟩ := resetNodes_ok s.LAn s.Ln hLAn
  have hl0 := (resetNodes_spec _ _ _ h0).2.1
  obtain ⟨Ln1, h1⟩ := scatterParticles_ok sh s s.Lp Ln0 (fun p hp e he => by
    rw [hl0]; exact hval p hp e he)
  exact ⟨{ s with Lp := s.Lp.map (CalNGN sh s), Ln := Ln1,
                  LAn := buildLAn s.Nproc sched (s.Lp.map (CalNGN sh s)) },
    by simp [ParticleToNode, h0, h1]⟩

theorem pairs_perm {Lp Lp1 : List MPM_PARTICLE} (h : Lp.Perm Lp1) :
    (pairs Lp).Perm (pairs Lp1) := by
  unfold pairs
  exact h.flatMap_right _

theorem ParticleToNode_nodes (sh : SHAPE) (sched : ℕ → ℕ) (s s1 : MPM)
    (hzero : ∀ id nd, s.Ln[id]? = some nd → id ∉ s.LAn → nd.M = 0 ∧ nd.Mv = 0 ∧ nd.F = 0)
    (h : ParticleToNode sh sched s = .ok s1) :
    ∀ id nd1, s1.Ln[id]? = some nd1 →
      nd1.M = ((pairsAt s1.Lp id).map fun pe => pe.2.2.1 * pe.1.M).sum ∧
      nd1.F = ((pairsAt s1.Lp id).map fun pe =>
        pe.2.2.1 • (pe.1.M • pe.1.B + pe.1.Fh) + ((-pe.1.Vol) • pe.1.S).mulVec pe.2.2.2).sum ∧
      nd1.Mv = ((pairsAt s1.Lp id).map fun pe => (pe.2.2.1 * pe.1.M) • pe.1.V).sum
        + s.Dt • nd1.F := by
  obtain ⟨hs1, hLAn, hval, hlen, hall⟩ := ParticleToNode_spec sh sched s s1 h
  have hLp : s1.Lp = s.Lp.map (CalNGN sh s) := by rw [hs1]
  intro id nd1 hnd1
  have hlt : id < s.Ln.length := by
    by_contra hc
    rw [List.getElem?_eq_none (by rw [hlen]; exact not_lt.mp hc)] at hnd1
    cases hnd1
  have hbase := hall id s.Ln[id] (List.getElem?_eq_getElem hlt)
  rw [hnd1] at hbase
  have hnd := Option.some.inj hbase
  have hz : (if id ∈ s.LAn then s.Ln[id].Reset else s.Ln[id]).M = 0 ∧
      (if id ∈ s.LAn then s.Ln[id].Reset else s.Ln[id]).Mv = 0 ∧
      (if id ∈ s.LAn then s.Ln[id].Reset else s.Ln[id]).F = 0 := by
    by_cases hin : id ∈ s.LAn
    · simp [hin, MPM_NODE.Reset]
    · simpa [hin] using hzero id s.Ln[id] (List.getElem?_eq_getElem hlt) hin
  rw [hnd, hLp]
  simp only [accNode, pairsAt, hz.1, hz.2.1, hz.2.2, zero_add, forceInc]
  refine ⟨trivial, trivial, ?_⟩
  rw [List.smul_sum, List.map_map, ← List.sum_map_add]
  rfl

/-- C1 (amended). In exact arithmetic: started from nodes whose mass, momentum
and force are zero outside the previous active-node list, every run of
`ParticleToNode` that returns leaves each node `id` with `M` the sum of `w*M_p`
over the pairs (particle, influence entry) naming `id`, `F` the sum of `df =
w*(M_p*B_p + Fh_p) + (-Vol_p*S_p)*gn` over them, and `Mv` the sum of `w*M_p*V_p`
over them plus `Dt*F`; a run on any permutation of the particle list, under any
thread schedule, returns with the same nodes.  The run returns when the previous
active nodes exist and every influence entry names an existing node with `w*M_p
>= 0`. -/
theorem ParticleToNode_sums (sh : SHAPE) (sched : ℕ → ℕ) (s : MPM)
    (hzero : ∀ id nd, s.Ln[id]? = some nd → id ∉ s.LAn → nd.M = 0 ∧ nd.Mv = 0 ∧ nd.F = 0) :
    (∀ s1, ParticleToNode sh sched s = .ok s1 →
      (∀ id nd1, s1.Ln[id]? = some nd1 →
        nd1.M = ((pairsAt s1.Lp id).map fun pe => pe.2.2.1 * pe.1.M).sum ∧
        nd1.F = ((pairsAt s1.Lp id).map fun pe =>
          pe.2.2.1 • (pe.1.M • pe.1.B + pe.1.Fh) + ((-pe.1.Vol) • pe.1.S).mulVec pe.2.2.2).sum ∧
        nd1.Mv = ((pairsAt s1.Lp id).map fun pe => (pe.2.2.1 * pe.1.M) • pe.1.V).sum
          + s.Dt • nd1.F) ∧
      (∀ Lp1 : List MPM_PARTICLE, Lp1.Perm s.Lp → ∀ sched1 : ℕ → ℕ,
        ∃ s2, ParticleToNode sh sched1 { s with Lp := Lp1 } = .ok s2 ∧ s2.Ln = s1.Ln)) ∧
    ((∀ id ∈ s.LAn, id < s.Ln.length) →
      (∀ p ∈ s.Lp, ∀ e ∈ entries (CalNGN sh s p), 0 ≤ e.2.1 * p.M ∧ e.1 < s.Ln.length) →
      ∃ s1, ParticleToNode sh sched s = .ok s1) := by
  refine ⟨fun s1 h => ?_, ParticleToNode_ok sh sched s⟩
  obtain ⟨hs1, hLAn, hval, hlen, hall⟩ := ParticleToNode_spec sh sched s s1 h
  refine ⟨ParticleToNode_nodes sh sched s s1 hzero h, ?_⟩
  · intro Lp1 hperm sched1
    obtain ⟨s2, h2⟩ := ParticleToNode_ok sh sched1 { s with Lp := Lp1 } hLAn
      (fun p hp e he => hval p (hperm.mem_iff.mp hp) e he)
    refine ⟨s2, h2, ?_⟩
    obtain ⟨-, -, -, hlen2, hall2⟩ := ParticleToNode_spec sh sched1 _ s2 h2
    have hlen2 : s2.Ln.length = s.Ln.length := hlen2
    have hall2 : ∀ id nd, s.Ln[id]? = some nd →
        s2.Ln[id]? = some (accNode s.Dt (pairs (Lp1.map (CalNGN sh s))) id
          (if id ∈ s.LAn then nd.Reset else nd)) := hall2
    apply List.ext_getElem?
    intro id
    by_cases hlt : id < s.Ln.length
    · rw [hall id s.Ln[id] (List.getElem?_eq_getElem hlt),
        hall2 id s.Ln[id] (List.getElem?_eq_getElem hlt)]
      congr 1
      exact accNode_perm s.Dt (pairs_perm (hperm.map _)) id _
    · rw [List.getElem?_eq_none (by rw [hlen2]; exact not_lt.mp hlt),
        List.getElem?_eq_none (by rw [hlen]; exact not_lt.mp hlt)]

/-! ## Evaluation of the example solver -/

theorem toSizeT_toInt_small (v : ℤ) (h0 : 0 ≤ v) (h1 : v < 2 ^ 31) :
    toSizeT (toInt (toSizeT v)) = v.toNat := by
  have e1 : ((toSizeT v : ℕ) : ℤ) = v := by
    unfold toSizeT
    rw [Int.toNat_of_nonneg (Int.emod_nonneg _ (by norm_num))]
    exact Int.emod_eq_of_lt h0 (by omega)
  have e2 : toInt v = v := by
    unfold toInt
    omega
  rw [e1, e2]
  unfold toSizeT
  rw [Int.emod_eq_of_lt h0 (by omega)]

theorem exCandidates : candidates exMPM exParticle = [(0, 0, 0), (1, 0, 0), (2, 0, 0)] := by
  have a0 : minx exMPM exParticle 0 = 0 := by
    have : trunc ((1 / 2 : ℚ) - 0 - 1) = 0 := by
      unfold trunc
      rw [if_neg (by norm_num), Int.ceil_eq_iff]
      norm_num
    simpa [minx, exMPM, exParticle, MPM_PARTICLE.zero] using this
  have b0 : maxx exMPM exParticle 0 = 2 := by
    have : ceil ((1 / 2 : ℚ) + 0 + 1) = 2 := by
      unfold ceil
      rw [Int.ceil_eq_iff]
      norm_num
    simpa [maxx, exMPM, exParticle, MPM_PARTICLE.zero] using this
  have a1 : minx exMPM exParticle 1 = 0 := by simp [minx, exMPM]
  have b1 : maxx exMPM exParticle 1 = 0 := by simp [maxx, exMPM]
  have a2 : minx exMPM exParticle 2 = 0 := by simp [minx, exMPM]
  have b2 : maxx exMPM exParticle 2 = 0 := by simp [maxx, exMPM]
  have r0 : intRange 0 2 = [0, 1, 2] := by decide
  have r1 : intRange 0 0 = [0] := by decide
  simp only [candidates, a0, b0, a1, b1, a2, b2, r0, r1]
  rfl

theorem exCalNGN : CalNGN exShape exMPM exParticle =
    { exParticle with
      Lni := [0, 1], LnN := [1 / 2, 1 / 2], LnGN := [![-1, 0, 0], ![1, 0, 0]] } := by
  have hid0 : nodeId exMPM 0 0 0 = 0 := by
    simp [nodeId, toSizeT, toInt]
  have hid1 : nodeId exMPM 1 0 0 = 1 := by
    simp [nodeId, toSizeT, toInt, exMPM]
  have g0 : exShape.GIMP3D exParticle.X (nodePos (0, 0, 0)) exMPM.Dx exParticle.PSize =
      (1 / 2, ![-1, 0, 0]) := by
    simp [exShape, exGIMP3D, gimpW, gimpG, nodePos, exParticle, exMPM, MPM_PARTICLE.zero]
    norm_num
  have g1 : exShape.GIMP3D exParticle.X (nodePos (1, 0, 0)) exMPM.Dx exParticle.PSize =
      (1 / 2, ![1, 0, 0]) := by
    simp [exShape, exGIMP3D, gimpW, gimpG, nodePos, exParticle, exMPM, MPM_PARTICLE.zero]
    norm_num
  have g2 : exShape.GIMP3D exParticle.X (nodePos (2, 0, 0)) exMPM.Dx exParticle.PSize =
      (0, 0) := by
    simp [exShape, exGIMP3D, gimpW, gimpG, nodePos, exParticle, exMPM, MPM_PARTICLE.zero]
    norm_num
  have k0 : hit exShape exMPM exParticle (0, 0, 0) = some (0, 1 / 2, ![-1, 0, 0]) := by
    simp only [hit, g0, hid0]
    norm_num
  have k1 : hit exShape exMPM exParticle (1, 0, 0) = some (1, 1 / 2, ![1, 0, 0]) := by
    simp only [hit, g1, hid1]
    norm_num
  have k2 : hit exShape exMPM exParticle (2, 0, 0) = none := by
    simp only [hit, g2]
    norm_num
  simp only [CalNGN, exCandidates, List.filterMap_cons, k0, k1, k2, List.filterMap_nil,
    List.map_cons, List.map_nil]

theorem exMPM_zero : ∀ id nd, exMPM.Ln[id]? = some nd → id ∉ exMPM.LAn →
    nd.M = 0 ∧ nd.Mv = 0 ∧ nd.F = 0 := by
  intro id nd hnd _
  have hlt : id < 3 := by
    by_contra hc
    rw [List.getElem?_eq_none (by simpa [exMPM] using hc)] at hnd
    cases hnd
  interval_cases id <;> simp [exMPM, exNode] at hnd <;> subst hnd <;> exact ⟨rfl, rfl, rfl⟩

theorem exEntries : entries (CalNGN exShape exMPM exParticle) =
    [(0, 1 / 2, ![-1, 0, 0]), (1, 1 / 2, ![1, 0, 0])] := by
  rw [exCalNGN]
  rfl

theorem exMPM_valid : ∀ p ∈ exMPM.Lp, ∀ e ∈ entries (CalNGN exShape exMPM p),
    0 ≤ e.2.1 * p.M ∧ e.1 < exMPM.Ln.length := by
  intro p hp e he
  simp only [exMPM, List.mem_singleton] at hp
  subst hp
  rw [exEntries] at he
  simp only [List.mem_cons, List.mem_singleton, List.not_mem_nil, or_false] at he
  rcases he with rfl | rfl <;> simp [exParticle, exMPM]

/-- Witness of `ParticleToNode_sums`: the example solver `exMPM`, whose nodes
are empty; the scatter returns and node sums are those of the theorem. -/
theorem ParticleToNode_sums_witness :
    (∀ id nd, exMPM.Ln[id]? = some nd → id ∉ exMPM.LAn → nd.M = 0 ∧ nd.Mv = 0 ∧ nd.F = 0) ∧
    ∃ s1, ParticleToNode exShape (fun _ => 0) exMPM = .ok s1 ∧
      (∀ id nd1, s1.Ln[id]? = some nd1 →
        nd1.M = ((pairsAt s1.Lp id).map fun pe => pe.2.2.1 * pe.1.M).sum ∧
        nd1.F = ((pairsAt s1.Lp id).map fun pe =>
          pe.2.2.1 • (pe.1.M • pe.1.B + pe.1.Fh) + ((-pe.1.Vol) • pe.1.S).mulVec pe.2.2.2).sum ∧
        nd1.Mv = ((pairsAt s1.Lp id).map fun pe => (pe.2.2.1 * pe.1.M) • pe.1.V).sum
          + exMPM.Dt • nd1.F) := by
  refine ⟨exMPM_zero, ?_⟩
  obtain ⟨s1, h1⟩ := (ParticleToNode_sums exShape (fun _ => 0) exMPM exMPM_zero).2
    (by simp [exMPM]) exMPM_valid
  exact ⟨s1, h1, ((ParticleToNode_sums exShape (fun _ => 0) exMPM exMPM_zero).1 s1 h1).1⟩

/-! ## Conservation across the scatter -/

theorem sum_map_eq_sum_range {α M : Type} [AddCommMonoid M] (l : List α) (f : α → M)
    (g : ℕ → M) (h : ∀ i a, l[i]? = some a → f a = g i) :
    (l.map f).sum = ∑ i in Finset.range l.length, g i := by
  induction l generalizing g with
  | nil => simp
  | cons a t ih =>
    rw [List.map_cons, List.sum_cons, List.length_cons, Finset.sum_range_succ',
      ih (fun i => g (i + 1)) (fun i b hb => h (i + 1) b (by simpa using hb)),
      h 0 a (by simp), add_comm]

theorem sum_regroup {α M : Type} [AddCommMonoid M] (n : ℕ) (l : List α) (key : α → ℕ)
    (f : α → M) (h : ∀ x ∈ l, key x < n) :
    ∑ i in Finset.range n, ((l.filter fun x => key x = i).map f).sum = (l.map f).sum := by
  induction l with
  | nil => simp
  | cons a t ih =>
    have hstep : ∀ i, (((a :: t).filter fun x => key x = i).map f).sum =
        (if key a = i then f a else 0) + ((t.filter fun x => key x = i).map f).sum := by
      intro i
      by_cases hk : key a = i <;> simp [List.filter_cons, hk]
    simp only [hstep]
    rw [Finset.sum_add_distrib, ih (fun x hx => h x (List.mem_cons_of_mem _ hx)),
      Finset.sum_ite_eq, if_pos (Finset.mem_range.mpr (h a (List.mem_cons_self _ _)))]
    simp

theorem sum_pairs {M : Type} [AddCommMonoid M] (Lp : List MPM_PARTICLE)
    (f : MPM_PARTICLE × ℕ × ℚ × Vector3d → M) :
    ((pairs Lp).map f).sum = (Lp.map fun p => ((entries p).map fun e => f (p, e)).sum).sum := by
  induction Lp with
  | nil => simp [pairs]
  | cons p ps ih => simp [pairs_cons, ih, List.map_map, Function.comp_def]

theorem entries_CalNGN (sh : SHAPE) (s : MPM) (p : MPM_PARTICLE) :
    entries (CalNGN sh s p) = (candidates s p).filterMap (hit sh s p) := by
  simp only [entries, CalNGN, List.zip_map']
  simp

theorem CalNGN_weights (sh : SHAPE) (s : MPM) (p : MPM_PARTICLE) :
    (entries (CalNGN sh s p)).map (fun e => e.2.1) = (CalNGN sh s p).LnN ∧
    (entries (CalNGN sh s p)).map (fun e => e.2.2) = (CalNGN sh s p).LnGN ∧
    (entries (CalNGN sh s p)).map (fun e => e.1) = (CalNGN sh s p).Lni := by
  rw [entries_CalNGN]
  simp [CalNGN]

theorem CalNGN_pos (sh : SHAPE) (s : MPM) (p : MPM_PARTICLE) :
    ∀ e ∈ entries (CalNGN sh s p), 0 < e.2.1 := by
  intro e he
  rw [entries_CalNGN, List.mem_filterMap] at he
  obtain ⟨c, -, hc⟩ := he
  unfold hit at hc
  by_cases hpos : 0 < (sh.GIMP3D p.X (nodePos c) s.Dx p.PSize).1
  · rw [if_pos hpos] at hc
    rw [← Option.some.inj hc]
    exact hpos
  · rw [if_neg hpos] at hc
    exact absurd hc (by simp)

theorem CalNGN_valid (sh : SHAPE) (s : MPM) (n : ℕ)
    (hM : ∀ p ∈ s.Lp, 0 ≤ p.M)
    (hid : ∀ p ∈ s.Lp, ∀ id ∈ (CalNGN sh s p).Lni, id < n) :
    ∀ p ∈ s.Lp, ∀ e ∈ entries (CalNGN sh s p), 0 ≤ e.2.1 * p.M ∧ e.1 < n := by
  intro p hp e he
  refine ⟨mul_nonneg (CalNGN_pos sh s p e he).le (hM p hp), hid p hp e.1 ?_⟩
  rw [← (CalNGN_weights sh s p).2.2]
  exact List.mem_map_of_mem _ he

theorem pairs_valid (sh : SHAPE) (sched : ℕ → ℕ) (s s1 : MPM)
    (h : ParticleToNode sh sched s = .ok s1) :
    ∀ pe ∈ pairs s1.Lp, pe.2.1 < s1.Ln.length := by
  obtain ⟨hs1, -, hval, hlen, -⟩ := ParticleToNode_spec sh sched s s1 h
  have hLp : s1.Lp = s.Lp.map (CalNGN sh s) := by rw [hs1]
  intro pe hpe
  rw [hLp] at hpe
  simp only [pairs, List.mem_flatMap, List.mem_map] at hpe
  obtain ⟨q, ⟨p, hp, rfl⟩, e, he, rfl⟩ := hpe
  rw [hlen]
  exact (hval p hp e he).2

/-- C2 (amended). Mass conservation across the scatter, in exact arithmetic.
Started from nodes that are empty outside the previous active-node list, if the
influence weights of every particle sum to `1`, then every run of
`ParticleToNode` that returns leaves the sum of the nodal masses over all grid
nodes equal to the sum of the particle masses, which the run does not change.
The run returns when the previous active nodes exist, the masses are not
negative and all influence node indices are valid. -/
theorem ParticleToNode_mass_conservation (sh : SHAPE) (sched : ℕ → ℕ) (s : MPM)
    (hzero : ∀ id nd, s.Ln[id]? = some nd → id ∉ s.LAn → nd.M = 0 ∧ nd.Mv = 0 ∧ nd.F = 0)
    (hPoU : ∀ p ∈ s.Lp, (CalNGN sh s p).LnN.sum = 1) :
    (∀ s1, ParticleToNode sh sched s = .ok s1 →
      (s1.Ln.map fun nd => nd.M).sum = (s1.Lp.map fun p => p.M).sum ∧
      (s1.Lp.map fun p => p.M) = (s.Lp.map fun p => p.M)) ∧
    ((∀ id ∈ s.LAn, id < s.Ln.length) → (∀ p ∈ s.Lp, 0 ≤ p.M) →
      (∀ p ∈ s.Lp, ∀ id ∈ (CalNGN sh s p).Lni, id < s.Ln.length) →
      ∃ s1, ParticleToNode sh sched s = .ok s1) := by
  constructor
  · intro s1 h
    obtain ⟨hs1, -, -, -, -⟩ := ParticleToNode_spec sh sched s s1 h
    have hLp : s1.Lp = s.Lp.map (CalNGN sh s) := by rw [hs1]
    have hnodes := ParticleToNode_nodes sh sched s s1 hzero h
    have hMs : (s1.Lp.map fun p => p.M) = (s.Lp.map fun p => p.M) := by
      rw [hLp, List.map_map]
      rfl
    refine ⟨?_, hMs⟩
    rw [sum_map_eq_sum_range s1.Ln (fun nd => nd.M)
        (fun id => ((pairsAt s1.Lp id).map fun pe => pe.2.2.1 * pe.1.M).sum)
        (fun id nd hnd => (hnodes id nd hnd).1)]
    unfold pairsAt
    rw [sum_regroup s1.Ln.length (pairs s1.Lp) (fun pe => pe.2.1) _
        (pairs_valid sh sched s s1 h), sum_pairs, hLp, List.map_map, List.map_map]
    congr 1
    apply List.map_congr_left
    intro p hp
    simp only [Function.comp_def]
    have hM : (CalNGN sh s p).M = p.M := rfl
    rw [hM, List.sum_map_mul_right, (CalNGN_weights sh s p).1, hPoU p hp, one_mul]
  · intro hLAn hM hid
    exact ParticleToNode_ok sh sched s hLAn (CalNGN_valid sh s _ hM hid)

theorem exMPM_PoU : ∀ p ∈ exMPM.Lp, (CalNGN exShape exMPM p).LnN.sum = 1 := by
  intro p hp
  simp only [exMPM, List.mem_singleton] at hp
  subst hp
  rw [exCalNGN]
  norm_num

/-- Witness of `ParticleToNode_mass_conservation`: the example solver `exMPM`
with the hat kernel; the scatter returns and the nodes carry the particle
mass. -/
theorem ParticleToNode_mass_conservation_witness :
    (∀ id nd, exMPM.Ln[id]? = some nd → id ∉ exMPM.LAn → nd.M = 0 ∧ nd.Mv = 0 ∧ nd.F = 0) ∧
    (∀ p ∈ exMPM.Lp, (CalNGN exShape exMPM p).LnN.sum = 1) ∧
    ∃ s1, ParticleToNode exShape (fun _ => 0) exMPM = .ok s1 ∧
      (s1.Ln.map fun nd => nd.M).sum = (s1.Lp.map fun p => p.M).sum ∧
      (s1.Lp.map fun p => p.M) = (exMPM.Lp.map fun p => p.M) := by
  refine ⟨exMPM_zero, exMPM_PoU, ?_⟩
  obtain ⟨s1, h1⟩ := ParticleToNode_ok exShape (fun _ => 0) exMPM (by simp [exMPM]) exMPM_valid
  exact ⟨s1, h1,
    (ParticleToNode_mass_conservation exShape (fun _ => 0) exMPM exMPM_zero exMPM_PoU).1 s1 h1⟩

/-! ## ParticleToNode: the active-node list -/

theorem unique_mem (l : List ℕ) (x : ℕ) : x ∈ unique l ↔ x ∈ l := by
  induction l with
  | nil => simp [unique]
  | cons a t ih =>
    cases t with
    | nil => simp [unique]
    | cons b t =>
      by_cases hab : a = b
      · subst hab
        rw [unique, if_pos rfl, ih]
        simp
      · rw [unique, if_neg hab]
        simp [ih]

theorem unique_sorted (l : List ℕ) (h : l.Pairwise (· ≤ ·)) : (unique l).Pairwise (· < ·) := by
  induction l with
  | nil => simp [unique]
  | cons a t ih =>
    cases t with
    | nil => simp [unique]
    | cons b t =>
      have ht := ih (List.Pairwise.of_cons h)
      by_cases hab : a = b
      · subst hab
        rw [unique, if_pos rfl]
        exact ht
      · rw [unique, if_neg hab]
        refine List.Pairwise.cons ?_ ht
        intro x hx
        rw [unique_mem] at hx
        have hle : a ≤ b := List.rel_of_pairwise_cons h (List.mem_cons_self _ _)
        have hbx : b ≤ x := by
          rcases List.mem_cons.mp hx with rfl | hx
          · exact le_rfl
          · exact List.rel_of_pairwise_cons (List.Pairwise.of_cons h) hx
        omega

theorem sort_mem (l : List ℕ) (x : ℕ) : x ∈ sort l ↔ x ∈ l :=
  List.mem_insertionSort _

theorem sort_sorted (l : List ℕ) : (sort l).Pairwise (· ≤ ·) :=
  List.sorted_insertionSort _ l

theorem buildLAn_sorted (Nproc : ℕ) (sched : ℕ → ℕ) (Lp : List MPM_PARTICLE) :
    (buildLAn Nproc sched Lp).Pairwise (· < ·) :=
  unique_sorted _ (sort_sorted _)

theorem buildLAn_sub (Nproc : ℕ) (sched : ℕ → ℕ) (Lp : List MPM_PARTICLE) (id : ℕ)
    (h : id ∈ buildLAn Nproc sched Lp) : ∃ p ∈ Lp, id ∈ p.Lni := by
  unfold buildLAn workerLists at h
  rw [unique_mem, sort_mem] at h
  simp only [List.mem_flatten, List.mem_map, List.mem_range] at h
  obtain ⟨l, ⟨l0, ⟨n, _, rfl⟩, rfl⟩, hid⟩ := h
  rw [unique_mem, sort_mem, List.mem_flatMap] at hid
  obtain ⟨q, hq, hqid⟩ := hid
  have hq1 : (q.1, q.2) ∈ Lp.enum := List.mem_of_mem_filter hq
  exact ⟨q.2, List.getElem?_mem (List.mk_mem_enum_iff_getElem?.mp hq1), hqid⟩

theorem buildLAn_mem (Nproc : ℕ) (sched : ℕ → ℕ) (Lp : List MPM_PARTICLE)
    (hs : ∀ p, sched p < Nproc) (id : ℕ) :
    id ∈ buildLAn Nproc sched Lp ↔ ∃ p ∈ Lp, id ∈ p.Lni := by
  refine ⟨buildLAn_sub Nproc sched Lp id, ?_⟩
  unfold buildLAn workerLists
  rw [unique_mem, sort_mem]
  simp only [List.mem_flatten, List.mem_map, List.mem_range]
  · rintro ⟨p, hp, hid⟩
    obtain ⟨i, hi, rfl⟩ := List.getElem_of_mem hp
    refine ⟨_, ⟨_, ⟨sched i, hs i, rfl⟩, rfl⟩, ?_⟩
    rw [unique_mem, sort_mem, List.mem_flatMap]
    refine ⟨(i, Lp[i]), ?_, hid⟩
    rw [List.mem_filter]
    exact ⟨List.mk_mem_enum_iff_getElem?.mpr (List.getElem?_eq_getElem hi), by simp⟩

theorem eq_of_sorted_of_mem (l1 l2 : List ℕ) (h1 : l1.Pairwise (· < ·))
    (h2 : l2.Pairwise (· < ·)) (h : ∀ x, x ∈ l1 ↔ x ∈ l2) : l1 = l2 := by
  have n1 : l1.Nodup := h1.imp fun hab => Nat.ne_of_lt hab
  have n2 : l2.Nodup := h2.imp fun hab => Nat.ne_of_lt hab
  have hp : l1.Perm l2 := (List.perm_ext_iff_of_nodup n1 n2).mpr h
  exact List.eq_of_perm_of_sorted hp (h1.imp fun hab => Nat.le_of_lt hab)
    (h2.imp fun hab => Nat.le_of_lt hab)

/-- C4. Whenever `ParticleToNode` returns, under a thread schedule with values
below `Nproc`, the active-node list `LAn` is strictly increasing, so without
repetition, and its elements are exactly the node indices in the influence lists `Lni` of the
particles; a run with any other worker count `Nproc >= 1` and any other
assignment of the particles to the workers returns the same `LAn`. -/
theorem ParticleToNode_LAn (sh : SHAPE) (sched : ℕ → ℕ) (s s1 : MPM)
    (hs : ∀ p, sched p < s.Nproc) (h : ParticleToNode sh sched s = .ok s1) :
    s1.LAn.Pairwise (· < ·) ∧ s1.LAn.Nodup ∧
    (∀ id, id ∈ s1.LAn ↔ ∃ p ∈ s1.Lp, id ∈ p.Lni) ∧
    ∀ (Nproc1 : ℕ) (sched1 : ℕ → ℕ), 1 ≤ Nproc1 → (∀ p, sched1 p < Nproc1) →
      ∃ s2, ParticleToNode sh sched1 { s with Nproc := Nproc1 } = .ok s2 ∧ s2.LAn = s1.LAn := by
  obtain ⟨hs1, hLAn, hval, -, -⟩ := ParticleToNode_spec sh sched s s1 h
  have hLp : s1.Lp = s.Lp.map (CalNGN sh s) := by rw [hs1]
  have hA : s1.LAn = buildLAn s.Nproc sched (s.Lp.map (CalNGN sh s)) := by rw [hs1]
  have hsorted : s1.LAn.Pairwise (· < ·) := by rw [hA]; exact buildLAn_sorted _ _ _
  refine ⟨hsorted, hsorted.imp fun hab => Nat.ne_of_lt hab, ?_, ?_⟩
  · intro id
    rw [hA, hLp]
    exact buildLAn_mem _ _ _ hs id
  · intro Nproc1 sched1 _ hs2
    obtain ⟨s2, h2⟩ := ParticleToNode_ok sh sched1 { s with Nproc := Nproc1 } hLAn hval
    refine ⟨s2, h2, ?_⟩
    obtain ⟨hs2eq, -, -, -, -⟩ := ParticleToNode_spec sh sched1 _ s2 h2
    have hA2 : s2.LAn = buildLAn Nproc1 sched1 (s.Lp.map (CalNGN sh s)) :=
      congrArg MPM.LAn hs2eq
    rw [hA, hA2]
    apply eq_of_sorted_of_mem _ _ (buildLAn_sorted _ _ _) (buildLAn_sorted _ _ _)
    intro x
    rw [buildLAn_mem _ _ _ hs2, buildLAn_mem _ _ _ hs]

/-- Witness of `ParticleToNode_LAn`: the example solver `exMPM` run by one
worker; the scatter returns and `LAn` is as the theorem says. -/
theorem ParticleToNode_LAn_witness :
    (∀ p : ℕ, (fun _ : ℕ => 0) p < exMPM.Nproc) ∧
    ∃ s1, ParticleToNode exShape (fun _ => 0) exMPM = .ok s1 ∧
      s1.LAn.Pairwise (· < ·) ∧ s1.LAn.Nodup ∧
      (∀ id, id ∈ s1.LAn ↔ ∃ p ∈ s1.Lp, id ∈ p.Lni) ∧
      ∀ (Nproc1 : ℕ) (sched1 : ℕ → ℕ), 1 ≤ Nproc1 → (∀ p, sched1 p < Nproc1) →
        ∃ s2, ParticleToNode exShape sched1 { exMPM with Nproc := Nproc1 } = .ok s2 ∧
          s2.LAn = s1.LAn := by
  have hs : ∀ p : ℕ, (fun _ : ℕ => 0) p < exMPM.Nproc := fun _ => by simp [exMPM]
  obtain ⟨s1, h1⟩ := ParticleToNode_ok exShape (fun _ => 0) exMPM (by simp [exMPM]) exMPM_valid
  exact ⟨hs, s1, h1, ParticleToNode_LAn exShape (fun _ => 0) exMPM s1 hs h1⟩

/-! ## Momentum across scatter, resolve and gather -/

theorem resolveNode_free (bc : NODE_BC) (sqrt : ℚ → ℚ) (Dt : ℚ) (nd : MPM_NODE)
    (hB : nd.BCTypes = []) :
    ∃ nd1, resolveNode bc sqrt Dt 0 nd = .ok nd1 ∧ nd1.M = nd.M ∧ nd1.F = nd.F ∧
      nd1.BCTypes = [] := by
  unfold resolveNode
  split_ifs with h0
  · exact ⟨_, rfl, rfl, rfl, hB⟩
  · simp only [hB, List.length_nil, List.range_zero, applyBCs, zero_mul, zero_smul, sub_zero,
      smul_zero]
    split_ifs
    · exact ⟨_, rfl, rfl, rfl, rfl⟩
    · exact ⟨_, rfl, rfl, rfl, rfl⟩

theorem resolveNodes_free (bc : NODE_BC) (sqrt : ℚ → ℚ) (Dt : ℚ) (ids : List ℕ)
    (Ln : List MPM_NODE) (hid : ∀ id ∈ ids, id < Ln.length)
    (hB : ∀ (id : ℕ) (nd : MPM_NODE), Ln[id]? = some nd → nd.BCTypes = []) :
    ∃ Ln1, resolveNodes bc sqrt Dt 0 ids Ln = .ok Ln1 ∧ Ln1.length = Ln.length ∧
      ∀ (id : ℕ) (nd : MPM_NODE), Ln[id]? = some nd →
        ∃ nd1 : MPM_NODE, Ln1[id]? = some nd1 ∧ nd1.M = nd.M ∧ nd1.F = nd.F := by
  induction ids generalizing Ln with
  | nil => exact ⟨Ln, rfl, rfl, fun id nd hnd => ⟨nd, hnd, rfl, rfl⟩⟩
  | cons id0 ids ih =>
    have h0 := hid id0 (List.mem_cons_self _ _)
    obtain ⟨nd1, hr, hM, hF, hB1⟩ := resolveNode_free bc sqrt Dt Ln[id0]
      (hB id0 _ (List.getElem?_eq_getElem h0))
    obtain ⟨Ln1, hL, hlen, hall⟩ := ih (Ln.set id0 nd1)
      (fun id hid1 => by simpa using hid id (List.mem_cons_of_mem _ hid1))
      (fun id nd hnd => by
        by_cases he : id0 = id
        · subst he
          rw [List.getElem?_set_self h0] at hnd
          rw [← Option.some.inj hnd]
          exact hB1
        · rw [List.getElem?_set_ne he] at hnd
          exact hB id nd hnd)
    refine ⟨Ln1, by simp [resolveNodes, List.getElem?_eq_getElem h0, hr, hL],
      by simpa using hlen, ?_⟩
    intro id nd hnd
    by_cases he : id0 = id
    · subst he
      have hnd0 : Ln[id0] = nd := by
        rw [List.getElem?_eq_getElem h0] at hnd
        exact Option.some.inj hnd
      obtain ⟨nd2, h2, hM2, hF2⟩ := hall id0 nd1 (List.getElem?_set_self h0)
      exact ⟨nd2, h2, by rw [hM2, hM, hnd0], by rw [hF2, hF, hnd0]⟩
    · exact hall id nd (by rw [List.getElem?_set_ne he]; exact hnd)

theorem map_eq_of_forall₂ {α β : Type} (R : α → α → Prop) (f g : α → β) (l1 l2 : List α)
    (h : List.Forall₂ R l1 l2) (hfg : ∀ p q, R p q → f q = g p) :
    l2.map f = l1.map g := by
  induction h with
  | nil => rfl
  | cons hR _ ih => simp [hfg _ _ hR, ih]

theorem sum_pos_eq_zero (l : List ℚ) (hpos : ∀ x ∈ l, 0 < x) (h0 : l.sum = 0) : l = [] := by
  cases l with
  | nil => rfl
  | cons a t =>
    exfalso
    have h1 : 0 < a := hpos a (List.mem_cons_self _ _)
    have h2 : 0 ≤ t.sum := List.sum_nonneg fun x hx => (hpos x (List.mem_cons_of_mem _ hx)).le
    rw [List.sum_cons] at h0
    linarith

theorem sum_map_smul_const (l : List ℚ) (v : Vector3d) :
    (l.map fun w => w • v).sum = l.sum • v := by
  induction l with
  | nil => simp
  | cons a t ih => simp [ih, add_smul]

theorem sum_map_mulVec (A : Matrix3d) (l : List Vector3d) :
    (l.map fun v => A.mulVec v).sum = A.mulVec l.sum := by
  induction l with
  | nil => simp
  | cons a t ih => simp [ih, Matrix.mulVec_add]

theorem zip_CalNGN (sh : SHAPE) (s : MPM) (p : MPM_PARTICLE) :
    List.zip (CalNGN sh s p).Lni (CalNGN sh s p).LnN =
      (entries (CalNGN sh s p)).map fun e => (e.1, e.2.1) := by
  rw [entries_CalNGN]
  simp only [CalNGN, List.zip_map', List.map_map]

theorem node_acc_sum {α : Type} (l : List α) (wM : α → ℚ) (df : α → Vector3d)
    (hpos : ∀ x ∈ l, 0 < wM x) (nd : MPM_NODE)
    (hM : nd.M = (l.map wM).sum) (hF : nd.F = (l.map df).sum) :
    (l.map fun x => wM x • (fun i => nd.F i / nd.M : Vector3d)).sum = (l.map df).sum := by
  have e1 : (l.map fun x => wM x • (fun i => nd.F i / nd.M : Vector3d)).sum =
      nd.M • (fun i => nd.F i / nd.M : Vector3d) := by
    rw [hM, ← sum_map_smul_const, List.map_map]
    rfl
  rw [e1]
  by_cases h0 : nd.M = 0
  · have hnil : l.map wM = [] := by
      apply sum_pos_eq_zero
      · intro x hx
        obtain ⟨y, hy, rfl⟩ := List.mem_map.mp hx
        exact hpos y hy
      · rw [← hM]; exact h0
    have hl : l = [] := List.map_eq_nil_iff.mp hnil
    subst hl
    simp [h0]
  · rw [← hF]
    funext i
    simp only [Pi.smul_apply, smul_eq_mul]
    field_simp

theorem particle_force_sum (sh : SHAPE) (s : MPM) (p : MPM_PARTICLE)
    (hW : (CalNGN sh s p).LnN.sum = 1) (hG : (CalNGN sh s p).LnGN.sum = 0) :
    ((entries (CalNGN sh s p)).map fun e =>
      e.2.1 • (p.M • p.B + p.Fh) + ((-p.Vol) • p.S).mulVec e.2.2).sum = p.M • p.B + p.Fh := by
  rw [List.sum_map_add]
  have e1 : ((entries (CalNGN sh s p)).map fun e => e.2.1 • (p.M • p.B + p.Fh)).sum =
      p.M • p.B + p.Fh := by
    have := sum_map_smul_const ((entries (CalNGN sh s p)).map fun e => e.2.1) (p.M • p.B + p.Fh)
    rw [List.map_map, (CalNGN_weights sh s p).1, hW, one_smul] at this
    exact this
  have e2 : ((entries (CalNGN sh s p)).map fun e => ((-p.Vol) • p.S).mulVec e.2.2).sum = 0 := by
    have := sum_map_mulVec ((-p.Vol) • p.S) ((entries (CalNGN sh s p)).map fun e => e.2.2)
    rw [List.map_map, (CalNGN_weights sh s p).2.1, hG, Matrix.mulVec_zero] at this
    exact this
  rw [e1, e2, add_zero]

theorem gather_momentum (sh : SHAPE) (s : MPM) (Dt : ℚ) (Ln : List MPM_NODE)
    (p : MPM_PARTICLE) (hfree : p.FixV = false)
    (hid : ∀ e ∈ entries (CalNGN sh s p), e.1 < Ln.length) :
    ∃ q, gatherParticle Dt Ln (CalNGN sh s p) = .ok q ∧
      q.M • q.V = p.M • p.V +
        Dt • ((entries (CalNGN sh s p)).map fun e => (e.2.1 * p.M) • nodeAcc Ln e.1).sum := by
  have hz := zip_CalNGN sh s p
  obtain ⟨q, hq, ⟨-, hV⟩, hM⟩ := gatherParticle_spec Dt Ln (CalNGN sh s p)
    (fun _ => by simp [CalNGN])
    (fun _ e he _ => by
      rw [hz] at he
      obtain ⟨e1, he1, rfl⟩ := List.mem_map.mp he
      exact hid e1 he1)
  refine ⟨q, hq, ?_⟩
  have hfilt : ((List.zip (CalNGN sh s p).Lni (CalNGN sh s p).LnN).filter fun e => 0 < e.2) =
      (entries (CalNGN sh s p)).map fun e => (e.1, e.2.1) := by
    rw [hz, List.filter_eq_self]
    intro e he
    obtain ⟨e1, he1, rfl⟩ := List.mem_map.mp he
    simpa using CalNGN_pos sh s p e1 he1
  have hV1 := (hV hfree).1
  rw [hfilt, List.map_map] at hV1
  have hM1 : q.M = p.M := hM
  have hV2 : (CalNGN sh s p).V = p.V := rfl
  rw [hM1, hV1, hV2, smul_add, List.smul_sum, List.smul_sum, List.map_map, List.map_map]
  congr 2
  apply List.map_congr_left
  intro e _
  simp only [Function.comp_def, smul_smul]
  congr 1
  ring

/-- C3 (amended). Momentum across scatter, resolve and gather, in exact
arithmetic.  For free particles of positive mass whose influence lists (as
`CalNGN` computes them) name existing nodes and are a partition of unity
(weights summing to `1`, gradients summing to zero), with `Dc = 0`, no boundary
condition on any node and nodes that are empty outside the previous active-node
list, the pass `ParticleToNode`, `CalVOnNode`, `NodeToParticle` returns and
changes the total particle momentum `Σ M_p*V_p` by exactly `Dt * Σ (M_p*B_p +
Fh_p)`: the stress forces cancel, and without external force the total momentum
is unchanged. -/
theorem momentum_round_trip (sh : SHAPE) (sched : ℕ → ℕ) (bc : NODE_BC) (sqrt : ℚ → ℚ)
    (s : MPM)
    (hzero : ∀ id nd, s.Ln[id]? = some nd → id ∉ s.LAn → nd.M = 0 ∧ nd.Mv = 0 ∧ nd.F = 0)
    (hLAn : ∀ id ∈ s.LAn, id < s.Ln.length)
    (hid : ∀ p ∈ s.Lp, ∀ id ∈ (CalNGN sh s p).Lni, id < s.Ln.length)
    (hfree : ∀ p ∈ s.Lp, p.FixV = false)
    (hpos : ∀ p ∈ s.Lp, 0 < p.M)
    (hW : ∀ p ∈ s.Lp, (CalNGN sh s p).LnN.sum = 1)
    (hG : ∀ p ∈ s.Lp, (CalNGN sh s p).LnGN.sum = 0)
    (hDc : s.Dc = 0)
    (hBC : ∀ nd ∈ s.Ln, nd.BCTypes = []) :
    ∃ s1 s2 s3, ParticleToNode sh sched s = .ok s1 ∧ CalVOnNode bc sqrt s1 = .ok s2 ∧
      NodeToParticle s2 = .ok s3 ∧
      (s3.Lp.map fun p => p.M • p.V).sum =
        (s.Lp.map fun p => p.M • p.V).sum + s.Dt • (s.Lp.map fun p => p.M • p.B + p.Fh).sum ∧
      ((∀ p ∈ s.Lp, p.B = 0 ∧ p.Fh = 0) →
        (s3.Lp.map fun p => p.M • p.V).sum = (s.Lp.map fun p => p.M • p.V).sum) := by
  have hval := CalNGN_valid sh s s.Ln.length (fun p hp => (hpos p hp).le) hid
  obtain ⟨s1, h1⟩ := ParticleToNode_ok sh sched s hLAn hval
  obtain ⟨hs1, -, -, hlen1, hall1⟩ := ParticleToNode_spec sh sched s s1 h1
  have hLp1 : s1.Lp = s.Lp.map (CalNGN sh s) := by rw [hs1]
  have hDt1 : s1.Dt = s.Dt := by rw [hs1]
  have hDc1 : s1.Dc = 0 := by rw [hs1]; exact hDc
  have hA1 : s1.LAn = buildLAn s.Nproc sched (s.Lp.map (CalNGN sh s)) := by rw [hs1]
  have hnodes := ParticleToNode_nodes sh sched s s1 hzero h1
  have hpv := pairs_valid sh sched s s1 h1
  have hBC1 : ∀ (id : ℕ) (nd : MPM_NODE), s1.Ln[id]? = some nd → nd.BCTypes = [] := by
    intro id nd hnd
    have hlt : id < s.Ln.length := by
      by_contra hc
      rw [List.getElem?_eq_none (by rw [hlen1]; exact not_lt.mp hc)] at hnd
      cases hnd
    have e := hall1 id s.Ln[id] (List.getElem?_eq_getElem hlt)
    rw [hnd] at e
    rw [Option.some.inj e]
    have hb := hBC s.Ln[id] (List.getElem_mem hlt)
    by_cases hin : id ∈ s.LAn <;> simp [accNode, hin, MPM_NODE.Reset, hb]
  have hLAn1 : ∀ id ∈ s1.LAn, id < s1.Ln.length := by
    intro id hidA
    rw [hA1] at hidA
    obtain ⟨q, hq, hidq⟩ := buildLAn_sub _ _ _ id hidA
    obtain ⟨p, hp, rfl⟩ := List.mem_map.mp hq
    rw [hlen1]
    exact hid p hp id hidq
  obtain ⟨Ln2, hL2, hlen2, hall2⟩ := resolveNodes_free bc sqrt s1.Dt s1.LAn s1.Ln hLAn1 hBC1
  have h2 : CalVOnNode bc sqrt s1 = .ok { s1 with Ln := Ln2 } := by
    simp [CalVOnNode, hDc1, hL2]
  -- the gather, particle by particle
  obtain ⟨qs, hqs, hR⟩ := gatherParticles_ok s.Dt Ln2
    (fun p1 q => q.M • q.V = p1.M • p1.V +
      s.Dt • ((entries p1).map fun e => (e.2.1 * p1.M) • nodeAcc Ln2 e.1).sum) s1.Lp
    (fun p1 hp1 => by
      rw [hLp1] at hp1
      obtain ⟨p, hp, rfl⟩ := List.mem_map.mp hp1
      exact gather_momentum sh s s.Dt Ln2 p (hfree p hp)
        (fun e he => by rw [hlen2, hlen1]; exact (hval p hp e he).2))
  have h3 : NodeToParticle { s1 with Ln := Ln2 } = .ok { s1 with Ln := Ln2, Lp := qs } := by
    simp [NodeToParticle, hDt1, hqs]
  -- the sum over the nodes
  have hpairpos : ∀ pe ∈ pairs s1.Lp, 0 < pe.2.2.1 * pe.1.M := by
    intro pe hpe
    rw [hLp1] at hpe
    simp only [pairs, List.mem_flatMap, List.mem_map] at hpe
    obtain ⟨q, ⟨p, hp, rfl⟩, e, he, rfl⟩ := hpe
    exact mul_pos (CalNGN_pos sh s p e he) (hpos p hp)
  have hnode : ∀ id ∈ Finset.range s1.Ln.length,
      (((pairs s1.Lp).filter fun pe => pe.2.1 = id).map fun pe =>
          (pe.2.2.1 * pe.1.M) • nodeAcc Ln2 pe.2.1).sum =
      (((pairs s1.Lp).filter fun pe => pe.2.1 = id).map fun pe =>
          pe.2.2.1 • (pe.1.M • pe.1.B + pe.1.Fh) +
            ((-pe.1.Vol) • pe.1.S).mulVec pe.2.2.2).sum := by
    intro id hidr
    have hlt : id < s1.Ln.length := Finset.mem_range.mp hidr
    obtain ⟨hM1, hF1, -⟩ := hnodes id s1.Ln[id] (List.getElem?_eq_getElem hlt)
    obtain ⟨nd2, hnd2, hM2, hF2⟩ := hall2 id s1.Ln[id] (List.getElem?_eq_getElem hlt)
    have hacc : nodeAcc Ln2 id = fun i => nd2.F i / nd2.M := by
      simp [nodeAcc, hnd2]
    have hcongr : (((pairs s1.Lp).filter fun pe => pe.2.1 = id).map fun pe =>
          (pe.2.2.1 * pe.1.M) • nodeAcc Ln2 pe.2.1) =
        (((pairs s1.Lp).filter fun pe => pe.2.1 = id).map fun pe =>
          (pe.2.2.1 * pe.1.M) • (fun i => nd2.F i / nd2.M : Vector3d)) := by
      apply List.map_congr_left
      intro pe hpe
      have hk : pe.2.1 = id := by simpa using (List.mem_filter.mp hpe).2
      rw [hk, hacc]
    rw [hcongr]
    exact node_acc_sum _ _ _ (fun pe hpe => hpairpos pe (List.mem_of_mem_filter hpe)) nd2
      (hM2.trans hM1) (hF2.trans hF1)
  have hforce : ((pairs s1.Lp).map fun pe => (pe.2.2.1 * pe.1.M) • nodeAcc Ln2 pe.2.1).sum =
      (s.Lp.map fun p => p.M • p.B + p.Fh).sum := by
    rw [← sum_regroup s1.Ln.length (pairs s1.Lp) (fun pe => pe.2.1) _ hpv,
      Finset.sum_congr rfl hnode,
      sum_regroup s1.Ln.length (pairs s1.Lp) (fun pe => pe.2.1) _ hpv, sum_pairs, hLp1,
      List.map_map]
    congr 1
    apply List.map_congr_left
    intro p hp
    exact particle_force_sum sh s p (hW p hp) (hG p hp)
  have hmain : (qs.map fun p => p.M • p.V).sum =
      (s.Lp.map fun p => p.M • p.V).sum + s.Dt • (s.Lp.map fun p => p.M • p.B + p.Fh).sum := by
    rw [map_eq_of_forall₂ _ (fun q => q.M • q.V)
        (fun p1 => p1.M • p1.V +
          s.Dt • ((entries p1).map fun e => (e.2.1 * p1.M) • nodeAcc Ln2 e.1).sum)
        s1.Lp qs hR (fun _ _ h => h),
      List.sum_map_add, ← hforce, sum_pairs, List.smul_sum, List.map_map]
    congr 2
    rw [hLp1, List.map_map]
    rfl
  refine ⟨s1, { s1 with Ln := Ln2 }, { s1 with Ln := Ln2, Lp := qs }, h1, h2, h3, hmain, ?_⟩
  intro hext
  have hz : (s.Lp.map fun p => p.M • p.B + p.Fh) = s.Lp.map fun _ => (0 : Vector3d) := by
    apply List.map_congr_left
    intro p hp
    rw [(hext p hp).1, (hext p hp).2, smul_zero, add_zero]
  change (qs.map fun p => p.M • p.V).sum = _
  rw [hmain, hz]
  simp

theorem exMPM_ids : ∀ p ∈ exMPM.Lp, ∀ id ∈ (CalNGN exShape exMPM p).Lni,
    id < exMPM.Ln.length := by
  intro p hp id hid
  simp only [exMPM, List.mem_singleton] at hp
  subst hp
  rw [exCalNGN] at hid
  simp only [List.mem_cons, List.mem_singleton, List.not_mem_nil, or_false] at hid
  rcases hid with rfl | rfl <;> simp [exMPM]

theorem exMPM_grad : ∀ p ∈ exMPM.Lp, (CalNGN exShape exMPM p).LnGN.sum = 0 := by
  intro p hp
  simp only [exMPM, List.mem_singleton] at hp
  subst hp
  rw [exCalNGN]
  funext i
  fin_cases i <;> simp

/-- Witness of `momentum_round_trip`: the example solver `exMPM` (one free,
stressed particle of mass `2` between two nodes, hat kernel, `Dc = 0`, no
boundary conditions). -/
theorem momentum_round_trip_witness :
    (∀ id nd, exMPM.Ln[id]? = some nd → id ∉ exMPM.LAn → nd.M = 0 ∧ nd.Mv = 0 ∧ nd.F = 0) ∧
    (∀ p ∈ exMPM.Lp, p.FixV = false) ∧ (∀ p ∈ exMPM.Lp, 0 < p.M) ∧
    (∀ p ∈ exMPM.Lp, (CalNGN exShape exMPM p).LnN.sum = 1) ∧
    (∀ p ∈ exMPM.Lp, (CalNGN exShape exMPM p).LnGN.sum = 0) ∧
    exMPM.Dc = 0 ∧ (∀ nd ∈ exMPM.Ln, nd.BCTypes = []) ∧
    ∃ s1 s2 s3, ParticleToNode exShape (fun _ => 0) exMPM = .ok s1 ∧
      CalVOnNode exBC exSqrt s1 = .ok s2 ∧ NodeToParticle s2 = .ok s3 ∧
      (s3.Lp.map fun p => p.M • p.V).sum =
        (exMPM.Lp.map fun p => p.M • p.V).sum +
          exMPM.Dt • (exMPM.Lp.map fun p => p.M • p.B + p.Fh).sum ∧
      ((∀ p ∈ exMPM.Lp, p.B = 0 ∧ p.Fh = 0) →
        (s3.Lp.map fun p => p.M • p.V).sum = (exMPM.Lp.map fun p => p.M • p.V).sum) := by
  have hfree : ∀ p ∈ exMPM.Lp, p.FixV = false := by
    intro p hp
    simp only [exMPM, List.mem_singleton] at hp
    subst hp
    rfl
  have hpos : ∀ p ∈ exMPM.Lp, 0 < p.M := by
    intro p hp
    simp only [exMPM, List.mem_singleton] at hp
    subst hp
    simp [exParticle]
  have hBC : ∀ nd ∈ exMPM.Ln, nd.BCTypes = [] := by
    intro nd hnd
    simp only [exMPM, List.mem_cons, List.mem_singleton, List.not_mem_nil, or_false] at hnd
    rcases hnd with rfl | rfl | rfl <;> rfl
  exact ⟨exMPM_zero, hfree, hpos, exMPM_PoU, exMPM_grad, rfl, hBC,
    momentum_round_trip exShape (fun _ => 0) exBC exSqrt exMPM exMPM_zero (by simp [exMPM])
      exMPM_ids hfree hpos exMPM_PoU exMPM_grad rfl hBC⟩

/-! ## CalNGN -/

theorem filterMap_ite {α β : Type} (P : α → Prop) [DecidablePred P] (f : α → β) (l : List α) :
    l.filterMap (fun c => if P c then some (f c) else none) = (l.filter fun c => P c).map f := by
  induction l with
  | nil => rfl
  | cons a t ih =>
    by_cases h : P a <;> simp [List.filterMap_cons, h, ih]

theorem entries_CalNGN_filter (sh : SHAPE) (s : MPM) (p0 : MPM_PARTICLE) :
    entries (CalNGN sh s p0) =
      ((candidates s p0).filter fun c => 0 < (sh.GIMP3D p0.X (nodePos c) s.Dx p0.PSize).1).map
        fun c => (nodeId s c.1 c.2.1 c.2.2, (sh.GIMP3D p0.X (nodePos c) s.Dx p0.PSize).1,
                  (sh.GIMP3D p0.X (nodePos c) s.Dx p0.PSize).2) := by
  rw [entries_CalNGN, ← filterMap_ite]
  rfl

theorem mem_intRange (lo hi x : ℤ) : x ∈ intRange lo hi ↔ lo ≤ x ∧ x ≤ hi := by
  unfold intRange
  simp only [List.mem_map, List.mem_range]
  constructor
  · rintro ⟨t, ht, rfl⟩
    omega
  · rintro ⟨h1, h2⟩
    exact ⟨(x - lo).toNat, by omega, by omega⟩

theorem mem_candidates (s : MPM) (p0 : MPM_PARTICLE) (i j k : ℤ) :
    (i, j, k) ∈ candidates s p0 ↔
      (minx s p0 0 ≤ i ∧ i ≤ maxx s p0 0) ∧ (minx s p0 1 ≤ j ∧ j ≤ maxx s p0 1) ∧
      (minx s p0 2 ≤ k ∧ k ≤ maxx s p0 2) := by
  unfold candidates
  simp only [List.mem_flatMap, List.mem_map, mem_intRange, Prod.mk.injEq]
  constructor
  · rintro ⟨a, ha, b, hb, c, hc, rfl, rfl, rfl⟩
    exact ⟨ha, hb, hc⟩
  · rintro ⟨ha, hb, hc⟩
    exact ⟨i, ha, j, hb, k, hc, rfl, rfl, rfl⟩

theorem nodeId_small (s : MPM) (i j k : ℤ) (h0 : 0 ≤ i + j * s.Ncy + k * s.Ncz)
    (h1 : i + j * s.Ncy + k * s.Ncz < 2 ^ 31) :
    ((nodeId s i j k : ℕ) : ℤ) = i + j * s.Ncy + k * s.Ncz := by
  unfold nodeId
  rw [toSizeT_toInt_small _ h0 h1, Int.toNat_of_nonneg h0]

/-- C5 (amended). `CalNGN` discards the previous influence list and produces
three lists `Lni`, `LnN`, `LnGN` of equal length whose entries are, in loop
order, exactly the candidate nodes `(i,j,k)` of the box
`trunc(X(d)-PSize(d)-1) <= index_d <= ceil(X(d)+PSize(d)+1)` on the axes
`d < D` (index `0` on the others) whose evaluated weight is strictly positive,
each with the weight and gradient the kernel returned, so that every stored
weight is `> 0`.  The recorded id is `i + j*Ncy + k*Ncz` converted to `size_t`;
for a solver with `Ncy = Nx+1`, `Ncz = (Nx+1)*(Ny+1)` it is
`i + j*(Nx+1) + k*(Nx+1)*(Ny+1)` whenever that value lies in `[0, 2^31)`. -/
theorem CalNGN_spec (sh : SHAPE) (s : MPM) (p0 : MPM_PARTICLE) :
    (∀ (a : List ℕ) (b : List ℚ) (c : List Vector3d),
      CalNGN sh s { p0 with Lni := a, LnN := b, LnGN := c } = CalNGN sh s p0) ∧
    ((CalNGN sh s p0).LnN.length = (CalNGN sh s p0).Lni.length ∧
      (CalNGN sh s p0).LnGN.length = (CalNGN sh s p0).Lni.length) ∧
    (entries (CalNGN sh s p0) =
      ((candidates s p0).filter fun c =>
          0 < (sh.GIMP3D p0.X (nodePos c) s.Dx p0.PSize).1).map
        fun c => (nodeId s c.1 c.2.1 c.2.2, (sh.GIMP3D p0.X (nodePos c) s.Dx p0.PSize).1,
                  (sh.GIMP3D p0.X (nodePos c) s.Dx p0.PSize).2)) ∧
    (∀ i j k : ℤ, (i, j, k) ∈ candidates s p0 ↔
      (minx s p0 0 ≤ i ∧ i ≤ maxx s p0 0) ∧ (minx s p0 1 ≤ j ∧ j ≤ maxx s p0 1) ∧
      (minx s p0 2 ≤ k ∧ k ≤ maxx s p0 2)) ∧
    (∀ d : Fin 3,
      (d.val < s.D → minx s p0 d = trunc (p0.X d - p0.PSize d - 1) ∧
        maxx s p0 d = ceil (p0.X d + p0.PSize d + 1)) ∧
      (¬ d.val < s.D → minx s p0 d = 0 ∧ maxx s p0 d = 0)) ∧
    (∀ i j k : ℤ, s.Ncy = s.Nx + 1 → s.Ncz = (s.Nx + 1) * (s.Ny + 1) →
      0 ≤ i + j * (s.Nx + 1) + k * ((s.Nx + 1) * (s.Ny + 1)) →
      i + j * (s.Nx + 1) + k * ((s.Nx + 1) * (s.Ny + 1)) < 2 ^ 31 →
      ((nodeId s i j k : ℕ) : ℤ) = i + j * (s.Nx + 1) + k * ((s.Nx + 1) * (s.Ny + 1))) ∧
    (∀ w ∈ (CalNGN sh s p0).LnN, 0 < w) := by
  refine ⟨fun a b c => rfl, ⟨by simp [CalNGN], by simp [CalNGN]⟩, entries_CalNGN_filter sh s p0,
    mem_candidates s p0, ?_, ?_, ?_⟩
  · intro d
    constructor
    · intro hd
      simp [minx, maxx, hd]
    · intro hd
      simp [minx, maxx, hd]
  · intro i j k hy hz h0 h1
    have e : i + j * (s.Ncy : ℤ) + k * (s.Ncz : ℤ) =
        i + j * (s.Nx + 1) + k * ((s.Nx + 1) * (s.Ny + 1)) := by
      rw [hy, hz]
      push_cast
      ring
    rw [← e] at h0 h1 ⊢
    exact nodeId_small s i j k h0 h1
  · intro w hw
    rw [← (CalNGN_weights sh s p0).1] at hw
    obtain ⟨e, he, rfl⟩ := List.mem_map.mp hw
    exact CalNGN_pos sh s p0 e he

/-- Witness of `CalNGN_spec`: the example solver `exMPM` and the candidate node
`(1,0,0)` of its particle. -/
theorem CalNGN_spec_witness :
    exMPM.Ncy = exMPM.Nx + 1 ∧ exMPM.Ncz = (exMPM.Nx + 1) * (exMPM.Ny + 1) ∧
    (1, 0, 0) ∈ candidates exMPM exParticle ∧
    ((nodeId exMPM 1 0 0 : ℕ) : ℤ) =
      1 + 0 * ((exMPM.Nx : ℤ) + 1) + 0 * (((exMPM.Nx : ℤ) + 1) * ((exMPM.Ny : ℤ) + 1)) ∧
    (∀ w ∈ (CalNGN exShape exMPM exParticle).LnN, 0 < w) := by
  have h := CalNGN_spec exShape exMPM exParticle
  refine ⟨rfl, rfl, by rw [exCandidates]; simp, ?_, h.2.2.2.2.2.2⟩
  exact h.2.2.2.2.2.1 1 0 0 rfl rfl (by norm_num) (by norm_num [exMPM])

theorem exWideCandidates :
    candidates exMPM exWide = [(-1, 0, 0), (0, 0, 0), (1, 0, 0), (2, 0, 0)] := by
  have a0 : minx exMPM exWide 0 = -1 := by
    have : trunc ((1 / 4 : ℚ) - 1 / 2 - 1) = -1 := by
      unfold trunc
      rw [if_neg (by norm_num), Int.ceil_eq_iff]
      norm_num
    simpa [minx, exMPM, exWide, exParticle, MPM_PARTICLE.zero] using this
  have b0 : maxx exMPM exWide 0 = 2 := by
    have : ceil ((1 / 4 : ℚ) + 1 / 2 + 1) = 2 := by
      unfold ceil
      rw [Int.ceil_eq_iff]
      norm_num
    simpa [maxx, exMPM, exWide, exParticle, MPM_PARTICLE.zero] using this
  have a1 : minx exMPM exWide 1 = 0 := by simp [minx, exMPM]
  have b1 : maxx exMPM exWide 1 = 0 := by simp [maxx, exMPM]
  have a2 : minx exMPM exWide 2 = 0 := by simp [minx, exMPM]
  have b2 : maxx exMPM exWide 2 = 0 := by simp [maxx, exMPM]
  have r0 : intRange (-1) 2 = [-1, 0, 1, 2] := by decide
  have r1 : intRange 0 0 = [0] := by decide
  simp only [candidates, a0, b0, a1, b1, a2, b2, r0, r1]
  rfl

theorem exWideWeights :
    (exShape.GIMP3D exWide.X (nodePos (-1, 0, 0)) exMPM.Dx exWide.PSize).1 = 1 / 32 ∧
    (exShape.GIMP3D exWide.X (nodePos (0, 0, 0)) exMPM.Dx exWide.PSize).1 = 11 / 16 ∧
    (exShape.GIMP3D exWide.X (nodePos (1, 0, 0)) exMPM.Dx exWide.PSize).1 = 9 / 32 ∧
    (exShape.GIMP3D exWide.X (nodePos (2, 0, 0)) exMPM.Dx exWide.PSize).1 = 0 := by
  refine ⟨?_, ?_, ?_, ?_⟩ <;>
    simp [exShape, exGIMP3D, gimpW, nodePos, exWide, exParticle, exMPM, MPM_PARTICLE.zero] <;>
    norm_num

theorem exWideLni : (CalNGN exShape exMPM exWide).Lni = [18446744073709551615, 0, 1] := by
  obtain ⟨w0, w1, w2, w3⟩ := exWideWeights
  have hid0 : nodeId exMPM (-1) 0 0 = 18446744073709551615 := by
    simp [nodeId, toSizeT, toInt]
  have hid1 : nodeId exMPM 0 0 0 = 0 := by
    simp [nodeId, toSizeT, toInt]
  have hid2 : nodeId exMPM 1 0 0 = 1 := by
    simp [nodeId, toSizeT, toInt, exMPM]
  rw [← (CalNGN_weights exShape exMPM exWide).2.2, entries_CalNGN_filter, exWideCandidates]
  simp only [List.filter_cons, w0, w1, w2, w3, List.filter_nil, List.map_cons, List.map_nil,
    hid0, hid1, hid2]
  norm_num
  exact ⟨hid0, hid1, hid2⟩

/-- C5 (counterexample). For the particle `exWide` at `x = 1/4` with half-width
`1/2` in the one-dimensional example solver and the GIMP kernel, the candidate
node `(-1,0,0)` has positive weight `1/32`; its id is recorded as
`18446744073709551615`, not as `i + j*(Nx+1) + k*(Nx+1)*(Ny+1) = -1`. -/
theorem CalNGN_id_counterexample :
    (CalNGN exShape exMPM exWide).Lni = [18446744073709551615, 0, 1] ∧
    ¬ ((CalNGN exShape exMPM exWide).Lni.map (fun n => (n : ℤ)) =
      ((candidates exMPM exWide).filter fun c =>
          0 < (exShape.GIMP3D exWide.X (nodePos c) exMPM.Dx exWide.PSize).1).map
        fun c => c.1 + c.2.1 * ((exMPM.Nx : ℤ) + 1) +
          c.2.2 * (((exMPM.Nx : ℤ) + 1) * ((exMPM.Ny : ℤ) + 1))) := by
  obtain ⟨w0, w1, w2, w3⟩ := exWideWeights
  refine ⟨exWideLni, ?_⟩
  rw [exWideLni, exWideCandidates]
  simp only [List.filter_cons, w0, w1, w2, w3, List.filter_nil, List.map_cons, List.map_nil]
  norm_num

theorem exQuadMPM_constructed : MPM.MPM 1 0 2 0 0 ![1, 1, 1] = .ok exQuadMPM := by
  simp [MPM.MPM, selectShape, dimOf, exQuadMPM]

theorem exQuarterCandidates :
    candidates exQuadMPM exQuarter = [(0, 0, 0), (1, 0, 0), (2, 0, 0)] := by
  have a0 : minx exQuadMPM exQuarter 0 = 0 := by
    have : trunc ((1 / 4 : ℚ) - 0 - 1) = 0 := by
      unfold trunc
      rw [if_neg (by norm_num), Int.ceil_eq_iff]
      norm_num
    simpa [minx, exQuadMPM, exQuarter, exParticle, MPM_PARTICLE.zero] using this
  have b0 : maxx exQuadMPM exQuarter 0 = 2 := by
    have : ceil ((1 / 4 : ℚ) + 0 + 1) = 2 := by
      unfold ceil
      rw [Int.ceil_eq_iff]
      norm_num
    simpa [maxx, exQuadMPM, exQuarter, exParticle, MPM_PARTICLE.zero] using this
  have a1 : minx exQuadMPM exQuarter 1 = 0 := by simp [minx, exQuadMPM]
  have b1 : maxx exQuadMPM exQuarter 1 = 0 := by simp [maxx, exQuadMPM]
  have a2 : minx exQuadMPM exQuarter 2 = 0 := by simp [minx, exQuadMPM]
  have b2 : maxx exQuadMPM exQuarter 2 = 0 := by simp [maxx, exQuadMPM]
  have r0 : intRange 0 2 = [0, 1, 2] := by decide
  have r1 : intRange 0 0 = [0] := by decide
  simp only [candidates, a0, b0, a1, b1, a2, b2, r0, r1]
  rfl

theorem exQuarterWeights :
    (exShape.GIMP3D exQuarter.X (nodePos (0, 0, 0)) exQuadMPM.Dx exQuarter.PSize).1 = 3 / 4 ∧
    (exShape.GIMP3D exQuarter.X (nodePos (1, 0, 0)) exQuadMPM.Dx exQuarter.PSize).1 = 1 / 4 ∧
    (exShape.GIMP3D exQuarter.X (nodePos (2, 0, 0)) exQuadMPM.Dx exQuarter.PSize).1 = 0 := by
  refine ⟨?_, ?_, ?_⟩ <;>
    simp [exShape, exGIMP3D, gimpW, nodePos, exQuarter, exParticle, exQuadMPM,
      MPM_PARTICLE.zero] <;>
    norm_num

/-- C6 (evaluation at the failing input). `CalNGN` does not consult the kernels
the constructor stored: its result is the same for every value of `N`, `GN` and
`Ntype`.  For the solver constructed with the quadratic type (`ntype = 1`, one
dimension) and a particle at `x = 1/4` the stored weights are those of `GIMP3D`,
`3/4` and `1/4` for the nodes `0` and `1`, while the selected weight function
`N = ShapeQ1D` has the value `11/16` at node `0`. -/
theorem CalNGN_ignores_selected_kernel :
    (∀ (sh : SHAPE) (s : MPM) (p0 : MPM_PARTICLE) (n : ShapeName) (g : GradName) (t : ℕ),
      CalNGN sh { s with N := n, GN := g, Ntype := t } p0 = CalNGN sh s p0) ∧
    MPM.MPM 1 0 2 0 0 ![1, 1, 1] = .ok exQuadMPM ∧
    exQuadMPM.N = .ShapeQ1D ∧ exQuadMPM.GN = .GradShapeQ1D ∧
    (CalNGN exShape exQuadMPM exQuarter).LnN = [3 / 4, 1 / 4] ∧
    exShape.N exQuadMPM.N exQuarter.X (nodePos (0, 0, 0)) exQuadMPM.Dx exQuarter.PSize =
      11 / 16 := by
  obtain ⟨w0, w1, w2⟩ := exQuarterWeights
  refine ⟨fun sh s p0 n g t => rfl, exQuadMPM_constructed, rfl, rfl, ?_, ?_⟩
  · rw [← (CalNGN_weights exShape exQuadMPM exQuarter).1, entries_CalNGN_filter,
      exQuarterCandidates]
    simp only [List.filter_cons, w0, w1, w2, List.filter_nil, List.map_cons, List.map_nil]
    norm_num
    exact ⟨w0, w1⟩
  · simp [exShape, quadShape, nodePos, exQuarter, exParticle, exQuadMPM, MPM_PARTICLE.zero]
    norm_num

/-! ## Constitutive update -/

theorem forParticles_spec (f : MPM_PARTICLE → Except Fault MPM_PARTICLE)
    (ps qs : List MPM_PARTICLE) (h : forParticles f ps = .ok qs) :
    List.Forall₂ (fun p q => f p = .ok q) ps qs := by
  induction ps generalizing qs with
  | nil =>
    cases h
    exact List.Forall₂.nil
  | cons p ps ih =>
    unfold forParticles at h
    split at h
    · cases h
    · next q hq =>
      split at h
      · cases h
      · next qs1 hqs =>
        cases h
        exact List.Forall₂.cons hq (ih qs1 hqs)

theorem forParticles_ok (f : MPM_PARTICLE → Except Fault MPM_PARTICLE)
    (ps : List MPM_PARTICLE) (h : ∀ p ∈ ps, ∃ q, f p = .ok q) :
    ∃ qs, forParticles f ps = .ok qs := by
  induction ps with
  | nil => exact ⟨[], rfl⟩
  | cons p ps ih =>
    obtain ⟨q, hq⟩ := h p (List.mem_cons_self _ _)
    obtain ⟨qs, hqs⟩ := ih fun p hp => h p (List.mem_cons_of_mem _ hp)
    exact ⟨q :: qs, by simp [forParticles, hq, hqs]⟩

theorem CalVGradLocal_spec (Ln : List MPM_NODE) (p p1 : MPM_PARTICLE)
    (h : CalVGradLocal Ln p = .ok p1) : p1 = { p with L := p1.L } := by
  unfold CalVGradLocal at h
  split at h
  · cases h
  · split at h
    · cases h
    · cases h
      rfl

theorem gradLoop_ok (Ln : List MPM_NODE) (es : List (ℕ × Vector3d)) (L : Matrix3d)
    (h : ∀ e ∈ es, e.1 < Ln.length) : ∃ L1, gradLoop Ln es L = .ok L1 := by
  induction es generalizing L with
  | nil => exact ⟨L, rfl⟩
  | cons e es ih =>
    obtain ⟨id, gn⟩ := e
    have hid : id < Ln.length := h (id, gn) (List.mem_cons_self _ _)
    obtain ⟨L1, hL⟩ := ih (L + Matrix.vecMulVec gn Ln[id].V)
      fun e he => h e (List.mem_cons_of_mem _ he)
    exact ⟨L1, by simp [gradLoop, List.getElem?_eq_getElem hid, hL]⟩

theorem CalVGradLocal_ok (Ln : List MPM_NODE) (p : MPM_PARTICLE)
    (hlen : p.Lni.length ≤ p.LnGN.length)
    (hid : ∀ e ∈ List.zip p.Lni p.LnGN, e.1 < Ln.length) :
    ∃ p1, CalVGradLocal Ln p = .ok p1 := by
  obtain ⟨L1, hL⟩ := gradLoop_ok Ln (List.zip p.Lni p.LnGN) 0 hid
  refine ⟨{ p with L := L1 }, ?_⟩
  simp [CalVGradLocal, gradEntries, not_lt.mpr hlen, hL]

theorem stressElastic_spec (sqrt : ℚ → ℚ) (Dt : ℚ) (Ln : List MPM_NODE) (p q : MPM_PARTICLE)
    (h : stressElastic sqrt Dt Ln p = .ok q) :
    CalVGradLocal Ln p = .ok { p with L := q.L } ∧
    q.F = (1 + Dt • q.L) * p.F ∧ q.Vol = q.F.det * q.Vol0 ∧ q.Vol0 = p.Vol0 ∧ q.M = p.M ∧
    q.S = p.S + ((1 / 2 * Dt) • (q.L - q.L.transpose) * p.S -
        p.S * ((1 / 2 * Dt) • (q.L - q.L.transpose)).transpose) +
      ((2 * p.Mu) • ((1 / 2 * Dt) • (q.L + q.L.transpose)) +
        (p.La * ((1 / 2 * Dt) • (q.L + q.L.transpose)).trace) • (1 : Matrix3d)) := by
  unfold stressElastic at h
  split at h
  · cases h
  · next p1 h1 =>
    have e1 := CalVGradLocal_spec Ln p p1 h1
    simp only at h
    rw [← Option.some.inj (congrArg Except.toOption h)]
    refine ⟨?_, ?_, rfl, ?_, ?_, ?_⟩
    · rw [h1]; exact congrArg Except.ok e1
    · rw [e1]; rfl
    · rw [e1]; rfl
    · rw [e1]; rfl
    · rw [e1]; rfl

theorem stressNewtonian_spec (sqrt : ℚ → ℚ) (Dt C : ℚ) (Ln : List MPM_NODE)
    (p q : MPM_PARTICLE) (h : stressNewtonian sqrt Dt C Ln p = .ok q) :
    CalVGradLocal Ln p = .ok { p with L := q.L } ∧
    q.F = (1 + Dt • q.L) * p.F ∧ q.Vol = q.F.det * q.Vol0 ∧ q.Vol0 = p.Vol0 ∧ q.M = p.M ∧
    q.P = C * C * p.M / p.Vol0 / 7 * ((p.Vol0 / q.Vol) ^ 7 - 1) ∧
    q.S = p.S + ((2 * p.Mu) • ((1 / 2 * Dt) • (q.L + q.L.transpose) -
        (((1 / 2 * Dt) • (q.L + q.L.transpose)).trace / 3) • (1 : Matrix3d)) -
        q.P • (1 : Matrix3d)) := by
  unfold stressNewtonian at h
  split at h
  · cases h
  · next p1 h1 =>
    have e1 := CalVGradLocal_spec Ln p p1 h1
    simp only at h
    rw [← Option.some.inj (congrArg Except.toOption h)]
    refine ⟨?_, ?_, rfl, ?_, ?_, ?_, ?_⟩
    · rw [h1]; exact congrArg Except.ok e1
    · rw [e1]; rfl
    · rw [e1]; rfl
    · rw [e1]; rfl
    · rw [e1]; rfl
    · rw [e1]; rfl

theorem MohrCoulomb_spec (m : LIBM) (eig : Matrix3d → Vector3d × Matrix3d)
    (p q : MPM_PARTICLE) (de : Matrix3d) (h : p.MohrCoulomb m eig de = .ok q) :
    q = { p with S := q.S } := by
  unfold MPM_PARTICLE.MohrCoulomb at h
  simp only at h
  split_ifs at h with h1 h2
  · split at h
    · cases h
    · cases h
      rfl
  · cases h
    rfl

theorem stressMohrCoulomb_spec (m : LIBM) (eig : Matrix3d → Vector3d × Matrix3d) (Dt : ℚ)
    (Ln : List MPM_NODE) (p q : MPM_PARTICLE)
    (h : stressMohrCoulomb m eig Dt Ln p = .ok q) :
    CalVGradLocal Ln p = .ok { p with L := q.L } ∧
    q.F = (1 + q.L) * p.F ∧ q.Vol = q.F.det * q.Vol0 ∧ q.Vol0 = p.Vol0 ∧ q.M = p.M := by
  unfold stressMohrCoulomb at h
  split at h
  · cases h
  · next p1 h1 =>
    have e1 := CalVGradLocal_spec Ln p p1 h1
    simp only at h
    have e2 := MohrCoulomb_spec m eig _ q _ h
    rw [e2]
    refine ⟨?_, ?_, rfl, ?_, ?_⟩
    · rw [h1]; exact congrArg Except.ok e1
    · rw [e1]; rfl
    · rw [e1]; rfl
    · rw [e1]; rfl

theorem CalStressOnParticleElastic_spec (sqrt : ℚ → ℚ) (s s1 : MPM)
    (h : CalStressOnParticleElastic sqrt s = .ok s1) :
    s1 = { s with Lp := s1.Lp } ∧
    List.Forall₂ (fun p q => stressElastic sqrt s.Dt s.Ln p = .ok q) s.Lp s1.Lp := by
  unfold CalStressOnParticleElastic at h
  split at h
  · cases h
  · next Lp1 h1 =>
    cases h
    exact ⟨rfl, forParticles_spec _ _ _ h1⟩

theorem CalStressOnParticleMohrCoulomb_spec (m : LIBM) (eig : Matrix3d → Vector3d × Matrix3d)
    (s s1 : MPM) (h : CalStressOnParticleMohrCoulomb m eig s = .ok s1) :
    s1 = { s with Lp := s1.Lp } ∧
    List.Forall₂ (fun p q => stressMohrCoulomb m eig s.Dt s.Ln p = .ok q) s.Lp s1.Lp := by
  unfold CalStressOnParticleMohrCoulomb at h
  split at h
  · cases h
  · next Lp1 h1 =>
    cases h
    exact ⟨rfl, forParticles_spec _ _ _ h1⟩

theorem CalStressOnParticleNewtonian_spec (sqrt : ℚ → ℚ) (s s1 : MPM)
    (h : CalStressOnParticleNewtonian sqrt s = .ok s1) :
    s1 = { s with Lp := s1.Lp } ∧
    List.Forall₂ (fun p q => stressNewtonian sqrt s.Dt s.C s.Ln p = .ok q) s.Lp s1.Lp := by
  unfold CalStressOnParticleNewtonian at h
  split at h
  · cases h
  · next Lp1 h1 =>
    cases h
    exact ⟨rfl, forParticles_spec _ _ _ h1⟩

theorem CalVGradLocal_ok_of_ids (Ln : List MPM_NODE) (p : MPM_PARTICLE)
    (hlen : p.Lni.length ≤ p.LnGN.length) (hid : ∀ id ∈ p.Lni, id < Ln.length) :
    ∃ p1, CalVGradLocal Ln p = .ok p1 :=
  CalVGradLocal_ok Ln p hlen fun e he => hid e.1 (List.of_mem_zip he).1

theorem stressElastic_ok (sqrt : ℚ → ℚ) (Dt : ℚ) (Ln : List MPM_NODE) (p : MPM_PARTICLE)
    (hlen : p.Lni.length ≤ p.LnGN.length) (hid : ∀ id ∈ p.Lni, id < Ln.length) :
    ∃ q, stressElastic sqrt Dt Ln p = .ok q := by
  obtain ⟨p1, h1⟩ := CalVGradLocal_ok_of_ids Ln p hlen hid
  simp [stressElastic, h1]

theorem stressNewtonian_ok (sqrt : ℚ → ℚ) (Dt C : ℚ) (Ln : List MPM_NODE) (p : MPM_PARTICLE)
    (hlen : p.Lni.length ≤ p.LnGN.length) (hid : ∀ id ∈ p.Lni, id < Ln.length) :
    ∃ q, stressNewtonian sqrt Dt C Ln p = .ok q := by
  obtain ⟨p1, h1⟩ := CalVGradLocal_ok_of_ids Ln p hlen hid
  simp [stressNewtonian, h1]

theorem CalStressOnParticleElastic_ok (sqrt : ℚ → ℚ) (s : MPM)
    (h : ∀ p ∈ s.Lp, p.Lni.length ≤ p.LnGN.length ∧ ∀ id ∈ p.Lni, id < s.Ln.length) :
    ∃ s1, CalStressOnParticleElastic sqrt s = .ok s1 := by
  obtain ⟨qs, hqs⟩ := forParticles_ok (stressElastic sqrt s.Dt s.Ln) s.Lp
    fun p hp => stressElastic_ok sqrt s.Dt s.Ln p (h p hp).1 (h p hp).2
  exact ⟨{ s with Lp := qs }, by simp [CalStressOnParticleElastic, hqs]⟩

theorem CalStressOnParticleNewtonian_ok (sqrt : ℚ → ℚ) (s : MPM)
    (h : ∀ p ∈ s.Lp, p.Lni.length ≤ p.LnGN.length ∧ ∀ id ∈ p.Lni, id < s.Ln.length) :
    ∃ s1, CalStressOnParticleNewtonian sqrt s = .ok s1 := by
  obtain ⟨qs, hqs⟩ := forParticles_ok (stressNewtonian sqrt s.Dt s.C s.Ln) s.Lp
    fun p hp => stressNewtonian_ok sqrt s.Dt s.C s.Ln p (h p hp).1 (h p hp).2
  exact ⟨{ s with Lp := qs }, by simp [CalStressOnParticleNewtonian, hqs]⟩

/-- The velocity gradient of the example particle: `g vᵀ` with `g = (1,0,0)`. -/
theorem exGrad (v : Vector3d) (cm : ℕ) (p : MPM_PARTICLE) (hi : p.Lni = [0])
    (hg : p.LnGN = [![1, 0, 0]]) :
    CalVGradLocal (exStress v cm p).Ln p = .ok { p with L := Matrix.vecMulVec ![1, 0, 0] v } := by
  simp [CalVGradLocal, gradEntries, gradLoop, hi, hg, exStress, exNode]

theorem exStress_valid (v : Vector3d) (cm : ℕ) (p : MPM_PARTICLE) (hi : p.Lni = [0])
    (hg : p.LnGN = [![1, 0, 0]]) :
    ∀ q ∈ (exStress v cm p).Lp,
      q.Lni.length ≤ q.LnGN.length ∧ ∀ id ∈ q.Lni, id < (exStress v cm p).Ln.length := by
  intro q hq
  have : q = p := by simpa [exStress] using hq
  subst this
  simp [hi, hg, exStress]

theorem exGrad_L (v : Vector3d) (cm : ℕ) (p q : MPM_PARTICLE) (hi : p.Lni = [0])
    (hg : p.LnGN = [![1, 0, 0]])
    (h : CalVGradLocal (exStress v cm p).Ln p = .ok { p with L := q.L }) :
    q.L = Matrix.vecMulVec ![1, 0, 0] v := by
  rw [exGrad v cm p hi hg] at h
  have := Option.some.inj (congrArg Except.toOption h)
  exact (congrArg MPM_PARTICLE.L this).symm

/-! ## The elastic stress update -/

/-- C11 (amended). In `CalStressOnParticleElastic` the objectivity correction
comes first and acts on the stress the particle carried before the step: for
every particle, with `de = 0.5*Dt*(L + Lᵀ)` and `w = 0.5*Dt*(L - Lᵀ)` for the
velocity gradient `L` that `CalVGradLocal` has just computed, the new stress is
`(S + w*S - S*wᵀ) + 2*Mu*de + La*trace(de)*I`.  The update returns when every
influence list is readable and names existing nodes. -/
theorem CalStressOnParticleElastic_stress (sqrt : ℚ → ℚ) (s : MPM) :
    (∀ s1, CalStressOnParticleElastic sqrt s = .ok s1 →
      List.Forall₂ (fun p q =>
        CalVGradLocal s.Ln p = .ok { p with L := q.L } ∧
        q.S = (p.S + ((1 / 2 * s.Dt) • (q.L - q.L.transpose) * p.S -
            p.S * ((1 / 2 * s.Dt) • (q.L - q.L.transpose)).transpose)) +
          ((2 * p.Mu) • ((1 / 2 * s.Dt) • (q.L + q.L.transpose)) +
            (p.La * ((1 / 2 * s.Dt) • (q.L + q.L.transpose)).trace) • (1 : Matrix3d)))
        s.Lp s1.Lp) ∧
    ((∀ p ∈ s.Lp, p.Lni.length ≤ p.LnGN.length ∧ ∀ id ∈ p.Lni, id < s.Ln.length) →
      ∃ s1, CalStressOnParticleElastic sqrt s = .ok s1) := by
  constructor
  · intro s1 h
    refine (CalStressOnParticleElastic_spec sqrt s s1 h).2.imp ?_
    intro p q hq
    obtain ⟨hL, -, -, -, -, hS⟩ := stressElastic_spec sqrt s.Dt s.Ln p q hq
    exact ⟨hL, hS⟩
  · exact CalStressOnParticleElastic_ok sqrt s

/-- Witness of `CalStressOnParticleElastic_stress`: the example particle under
the shearing node velocity `(1,1,0)`; the update returns and the stress is as
stated. -/
theorem CalStressOnParticleElastic_stress_witness :
    (∀ p ∈ (exStress ![1, 1, 0] 0 exSolid).Lp,
      p.Lni.length ≤ p.LnGN.length ∧
        ∀ id ∈ p.Lni, id < (exStress ![1, 1, 0] 0 exSolid).Ln.length) ∧
    ∃ s1, CalStressOnParticleElastic exSqrt (exStress ![1, 1, 0] 0 exSolid) = .ok s1 ∧
      List.Forall₂ (fun p q =>
        CalVGradLocal (exStress ![1, 1, 0] 0 exSolid).Ln p = .ok { p with L := q.L } ∧
        q.S = (p.S + ((1 / 2 * (exStress ![1, 1, 0] 0 exSolid).Dt) • (q.L - q.L.transpose) * p.S -
            p.S * ((1 / 2 * (exStress ![1, 1, 0] 0 exSolid).Dt) •
              (q.L - q.L.transpose)).transpose)) +
          ((2 * p.Mu) • ((1 / 2 * (exStress ![1, 1, 0] 0 exSolid).Dt) • (q.L + q.L.transpose)) +
            (p.La * ((1 / 2 * (exStress ![1, 1, 0] 0 exSolid).Dt) •
              (q.L + q.L.transpose)).trace) • (1 : Matrix3d)))
        (exStress ![1, 1, 0] 0 exSolid).Lp s1.Lp := by
  obtain ⟨s1, h⟩ := (CalStressOnParticleElastic_stress exSqrt (exStress ![1, 1, 0] 0 exSolid)).2
    (exStress_valid ![1, 1, 0] 0 exSolid rfl rfl)
  exact ⟨exStress_valid ![1, 1, 0] 0 exSolid rfl rfl, s1, h,
    (CalStressOnParticleElastic_stress exSqrt (exStress ![1, 1, 0] 0 exSolid)).1 s1 h⟩

theorem exShear_run :
    ∃ s1 q, CalStressOnParticleElastic exSqrt (exStress ![1, 1, 0] 0 exSolid) = .ok s1 ∧
      s1.Lp = [q] ∧ q.L = Matrix.vecMulVec ![1, 0, 0] ![1, 1, 0] ∧
      stressElastic exSqrt 2 (exStress ![1, 1, 0] 0 exSolid).Ln exSolid = .ok q := by
  obtain ⟨s1, h⟩ := CalStressOnParticleElastic_ok exSqrt (exStress ![1, 1, 0] 0 exSolid)
    (exStress_valid ![1, 1, 0] 0 exSolid rfl rfl)
  have hF := (CalStressOnParticleElastic_spec _ _ _ h).2
  have hLp : (exStress ![1, 1, 0] 0 exSolid).Lp = [exSolid] := rfl
  have hDt : (exStress ![1, 1, 0] 0 exSolid).Dt = 2 := rfl
  rw [hLp, hDt] at hF
  obtain ⟨q, u, hq, hu, hs⟩ := List.forall₂_cons_left_iff.mp hF
  rw [List.forall₂_nil_left_iff.mp hu] at hs
  exact ⟨s1, q, h, hs, exGrad_L ![1, 1, 0] 0 exSolid q rfl rfl (stressElastic_spec _ _ _ _ _ hq).1,
    hq⟩

/-- C11 (counterexample). For the unstressed example particle (`Mu = La = 1`)
with `Dt = 2` and velocity gradient `L = g vᵀ`, `g = (1,0,0)`, `v = (1,1,0)`, the
stress after `CalStressOnParticleElastic` is the elastic increment alone, with
`S(0,1) = 2`; the correction evaluated on the elastically updated stress would
give `S(0,1) = 10`. -/
theorem CalStressOnParticleElastic_order_counterexample :
    ∃ s1 q, CalStressOnParticleElastic exSqrt (exStress ![1, 1, 0] 0 exSolid) = .ok s1 ∧
      s1.Lp = [q] ∧ q.S 0 1 = 2 ∧
      ((exSolid.S + ((2 * exSolid.Mu) • ((1 / 2 * 2 : ℚ) • (q.L + q.L.transpose)) +
          (exSolid.La * ((1 / 2 * 2 : ℚ) • (q.L + q.L.transpose)).trace) • (1 : Matrix3d))) +
        (((1 / 2 * 2 : ℚ) • (q.L - q.L.transpose)) *
            (exSolid.S + ((2 * exSolid.Mu) • ((1 / 2 * 2 : ℚ) • (q.L + q.L.transpose)) +
              (exSolid.La * ((1 / 2 * 2 : ℚ) • (q.L + q.L.transpose)).trace) •
                (1 : Matrix3d))) -
          (exSolid.S + ((2 * exSolid.Mu) • ((1 / 2 * 2 : ℚ) • (q.L + q.L.transpose)) +
              (exSolid.La * ((1 / 2 * 2 : ℚ) • (q.L + q.L.transpose)).trace) •
                (1 : Matrix3d))) *
            ((1 / 2 * 2 : ℚ) • (q.L - q.L.transpose)).transpose)) 0 1 = 10 := by
  obtain ⟨s1, q, h, hLp, hL, hq⟩ := exShear_run
  refine ⟨s1, q, h, hLp, ?_, ?_⟩
  · rw [(stressElastic_spec _ _ _ _ _ hq).2.2.2.2.2, hL]
    simp [exSolid, MPM_PARTICLE.zero, Matrix.mul_apply, Fin.sum_univ_three, Matrix.vecMulVec_apply,
      Matrix.trace, Matrix.one_apply]
  · rw [hL]
    simp [exSolid, MPM_PARTICLE.zero, Matrix.mul_apply, Fin.sum_univ_three, Matrix.vecMulVec_apply,
      Matrix.trace, Matrix.one_apply]
    norm_num

/-! ## The deformation gradient -/

theorem MohrCoulomb_elastic (m : LIBM) (eig : Matrix3d → Vector3d × Matrix3d)
    (p : MPM_PARTICLE) (de S0 : Matrix3d) (hS : (p.Elastic de).S = S0)
    (hord : ¬((eig S0).1 2 < (eig S0).1 1 ∨ (eig S0).1 2 < (eig S0).1 0 ∨
      (eig S0).1 1 < (eig S0).1 0))
    (hf : yieldF m (p.Elastic de) ![(eig S0).1 2, (eig S0).1 1, (eig S0).1 0] ≤ 0) :
    p.MohrCoulomb m eig de = .ok (p.Elastic de) := by
  subst hS
  unfold MPM_PARTICLE.MohrCoulomb
  simp only []
  rw [if_neg hord, if_neg (not_lt.mpr hf)]

/-- The Mohr-Coulomb update of the example particle under the stretching node
velocity `(1,0,0)` returns: the trial stress `diag(6,2,2)` is inside the yield
surface. -/
theorem exStretch_MC :
    ∃ q, stressMohrCoulomb exLibm exEig 2 (exStress ![1, 0, 0] 1 exSolid).Ln exSolid = .ok q := by
  unfold stressMohrCoulomb
  rw [exGrad ![1, 0, 0] 1 exSolid rfl rfl]
  simp only []
  refine ⟨_, MohrCoulomb_elastic exLibm exEig _ _ (Matrix.diagonal ![6, 2, 2]) ?_ ?_ ?_⟩
  · change exSolid.S + ((2 * exSolid.Mu) • ((1 / 2 * 2 : ℚ) •
        ((Matrix.vecMulVec ![1, 0, 0] ![1, 0, 0] : Matrix3d) +
          (Matrix.vecMulVec ![1, 0, 0] ![1, 0, 0] : Matrix3d).transpose)) +
      (exSolid.La * ((1 / 2 * 2 : ℚ) • ((Matrix.vecMulVec ![1, 0, 0] ![1, 0, 0] : Matrix3d) +
          (Matrix.vecMulVec ![1, 0, 0] ![1, 0, 0] : Matrix3d).transpose)).trace) •
        (1 : Matrix3d)) = _
    ext i j
    fin_cases i <;> fin_cases j <;>
      simp [exSolid, MPM_PARTICLE.zero, Matrix.vecMulVec_apply,
        Matrix.trace, Fin.sum_univ_three, Matrix.one_apply] <;> norm_num
  · simp [exEig]
    norm_num
  · change yieldF exLibm exSolid _ ≤ 0
    simp [yieldF, exEig, exLibm, exSolid]
    norm_num

theorem forall₂_singleton (R : MPM_PARTICLE → MPM_PARTICLE → Prop) (p : MPM_PARTICLE)
    (qs : List MPM_PARTICLE) (h : List.Forall₂ R [p] qs) : ∃ q, qs = [q] ∧ R p q := by
  obtain ⟨q, u, hq, hu, hs⟩ := List.forall₂_cons_left_iff.mp h
  rw [List.forall₂_nil_left_iff.mp hu] at hs
  exact ⟨q, hs, hq⟩

theorem exStretch_MC_run :
    ∃ s1 q, CalStressOnParticleMohrCoulomb exLibm exEig (exStress ![1, 0, 0] 1 exSolid) = .ok s1 ∧
      s1.Lp = [q] ∧ q.L = Matrix.vecMulVec ![1, 0, 0] ![1, 0, 0] ∧
      stressMohrCoulomb exLibm exEig 2 (exStress ![1, 0, 0] 1 exSolid).Ln exSolid = .ok q := by
  obtain ⟨q, hq⟩ := exStretch_MC
  refine ⟨{ exStress ![1, 0, 0] 1 exSolid with Lp := [q] }, q, ?_, rfl, ?_, hq⟩
  · have hLp : (exStress ![1, 0, 0] 1 exSolid).Lp = [exSolid] := rfl
    have hDt : (exStress ![1, 0, 0] 1 exSolid).Dt = 2 := rfl
    simp [CalStressOnParticleMohrCoulomb, hLp, hDt, forParticles, hq]
  · exact exGrad_L ![1, 0, 0] 1 exSolid q rfl rfl (stressMohrCoulomb_spec _ _ _ _ _ _ hq).1

/-- C12. The Mohr-Coulomb update refreshes the deformation gradient without
the time step.  For the example particle (`F = I`) with `Dt = 2` and velocity
gradient `L = diag(1,0,0)`, `CalStressOnParticleMohrCoulomb` returns and leaves
`F = (I + L)*F = diag(2,1,1)`, whereas `(I + L*Dt)*F = diag(3,1,1)`. -/
theorem CalStressOnParticleMohrCoulomb_F_without_Dt :
    ∃ s1 q, CalStressOnParticleMohrCoulomb exLibm exEig (exStress ![1, 0, 0] 1 exSolid) = .ok s1 ∧
      s1.Lp = [q] ∧ CalVGradLocal (exStress ![1, 0, 0] 1 exSolid).Ln exSolid =
        .ok { exSolid with L := q.L } ∧
      q.F = Matrix.diagonal ![2, 1, 1] ∧
      (1 + (exStress ![1, 0, 0] 1 exSolid).Dt • q.L) * exSolid.F = Matrix.diagonal ![3, 1, 1] := by
  obtain ⟨s1, q, h, hLp, hL, hq⟩ := exStretch_MC_run
  obtain ⟨hg, hF, -⟩ := stressMohrCoulomb_spec _ _ _ _ _ _ hq
  refine ⟨s1, q, h, hLp, hg, ?_, ?_⟩
  · rw [hF, hL]
    ext i j
    fin_cases i <;> fin_cases j <;>
      simp [exSolid, MPM_PARTICLE.zero, Matrix.vecMulVec_apply, Matrix.one_apply]
    all_goals norm_num
  · rw [hL]
    ext i j
    fin_cases i <;> fin_cases j <;>
      simp [exSolid, exStress, exMPM, MPM_PARTICLE.zero, Matrix.vecMulVec_apply,
        Matrix.one_apply]
    all_goals norm_num

/-! ## Volume and determinant -/

/-- C13. After each of the three constitutive updates that returns, every
particle has `Vol = det(F) * Vol0` for its updated `F`, and `Vol0` is the one it
had before.  The elastic and the Newtonian update return when every influence
list is readable and names existing nodes (the Mohr-Coulomb update can also stop
in `MohrCoulomb`). -/
theorem constitutive_volume (m : LIBM) (eig : Matrix3d → Vector3d × Matrix3d) (sqrt : ℚ → ℚ)
    (s : MPM) :
    (∀ s1, CalStressOnParticleElastic sqrt s = .ok s1 →
      List.Forall₂ (fun p q => q.Vol = q.F.det * q.Vol0 ∧ q.Vol0 = p.Vol0) s.Lp s1.Lp) ∧
    (∀ s1, CalStressOnParticleMohrCoulomb m eig s = .ok s1 →
      List.Forall₂ (fun p q => q.Vol = q.F.det * q.Vol0 ∧ q.Vol0 = p.Vol0) s.Lp s1.Lp) ∧
    (∀ s1, CalStressOnParticleNewtonian sqrt s = .ok s1 →
      List.Forall₂ (fun p q => q.Vol = q.F.det * q.Vol0 ∧ q.Vol0 = p.Vol0) s.Lp s1.Lp) ∧
    ((∀ p ∈ s.Lp, p.Lni.length ≤ p.LnGN.length ∧ ∀ id ∈ p.Lni, id < s.Ln.length) →
      (∃ s1, CalStressOnParticleElastic sqrt s = .ok s1) ∧
      (∃ s1, CalStressOnParticleNewtonian sqrt s = .ok s1)) := by
  refine ⟨?_, ?_, ?_, ?_⟩
  · intro s1 h
    refine (CalStressOnParticleElastic_spec sqrt s s1 h).2.imp ?_
    intro p q hq
    obtain ⟨-, -, hV, hV0, -⟩ := stressElastic_spec sqrt s.Dt s.Ln p q hq
    exact ⟨hV, hV0⟩
  · intro s1 h
    refine (CalStressOnParticleMohrCoulomb_spec m eig s s1 h).2.imp ?_
    intro p q hq
    obtain ⟨-, -, hV, hV0, -⟩ := stressMohrCoulomb_spec m eig s.Dt s.Ln p q hq
    exact ⟨hV, hV0⟩
  · intro s1 h
    refine (CalStressOnParticleNewtonian_spec sqrt s s1 h).2.imp ?_
    intro p q hq
    obtain ⟨-, -, hV, hV0, -⟩ := stressNewtonian_spec sqrt s.Dt s.C s.Ln p q hq
    exact ⟨hV, hV0⟩
  · intro h
    exact ⟨CalStressOnParticleElastic_ok sqrt s h, CalStressOnParticleNewtonian_ok sqrt s h⟩

/-- Witness of `constitutive_volume`: the example particle under the stretching
node velocity `(1,0,0)`; each of the three updates returns with
`Vol = det(F) * Vol0`. -/
theorem constitutive_volume_witness :
    (∀ p ∈ (exStress ![1, 0, 0] 1 exSolid).Lp,
      p.Lni.length ≤ p.LnGN.length ∧
        ∀ id ∈ p.Lni, id < (exStress ![1, 0, 0] 1 exSolid).Ln.length) ∧
    (∃ s1, CalStressOnParticleElastic exSqrt (exStress ![1, 0, 0] 1 exSolid) = .ok s1 ∧
      List.Forall₂ (fun p q => q.Vol = q.F.det * q.Vol0 ∧ q.Vol0 = p.Vol0)
        (exStress ![1, 0, 0] 1 exSolid).Lp s1.Lp) ∧
    (∃ s1, CalStressOnParticleMohrCoulomb exLibm exEig (exStress ![1, 0, 0] 1 exSolid) = .ok s1 ∧
      List.Forall₂ (fun p q => q.Vol = q.F.det * q.Vol0 ∧ q.Vol0 = p.Vol0)
        (exStress ![1, 0, 0] 1 exSolid).Lp s1.Lp) ∧
    (∃ s1, CalStressOnParticleNewtonian exSqrt (exStress ![1, 0, 0] 1 exSolid) = .ok s1 ∧
      List.Forall₂ (fun p q => q.Vol = q.F.det * q.Vol0 ∧ q.Vol0 = p.Vol0)
        (exStress ![1, 0, 0] 1 exSolid).Lp s1.Lp) := by
  have hv := exStress_valid ![1, 0, 0] 1 exSolid rfl rfl
  have hT := constitutive_volume exLibm exEig exSqrt (exStress ![1, 0, 0] 1 exSolid)
  obtain ⟨⟨s1, h1⟩, ⟨s3, h3⟩⟩ := hT.2.2.2 hv
  obtain ⟨s2, -, h2, -⟩ := exStretch_MC_run
  exact ⟨hv, ⟨s1, h1, hT.1 s1 h1⟩, ⟨s2, h2, hT.2.1 s2 h2⟩, ⟨s3, h3, hT.2.2.1 s3 h3⟩⟩

theorem exCrush_run :
    ∃ s1 q, CalStressOnParticleElastic exSqrt (exStress ![-1, 0, 0] 0 exSolid) = .ok s1 ∧
      s1.Lp = [q] ∧ q.L = Matrix.vecMulVec ![1, 0, 0] ![-1, 0, 0] ∧
      stressElastic exSqrt 2 (exStress ![-1, 0, 0] 0 exSolid).Ln exSolid = .ok q := by
  obtain ⟨s1, h⟩ := CalStressOnParticleElastic_ok exSqrt (exStress ![-1, 0, 0] 0 exSolid)
    (exStress_valid ![-1, 0, 0] 0 exSolid rfl rfl)
  have hF := (CalStressOnParticleElastic_spec _ _ _ h).2
  have hLp : (exStress ![-1, 0, 0] 0 exSolid).Lp = [exSolid] := rfl
  have hDt : (exStress ![-1, 0, 0] 0 exSolid).Dt = 2 := rfl
  rw [hLp, hDt] at hF
  obtain ⟨q, hs, hq⟩ := forall₂_singleton _ _ _ hF
  exact ⟨s1, q, h, hs, exGrad_L ![-1, 0, 0] 0 exSolid q rfl rfl (stressElastic_spec _ _ _ _ _ hq).1,
    hq⟩

/-- C14 (counterexample). The example particle has `F = I` (determinant `1`);
with `Dt = 2` and the velocity gradient `L = diag(-1,0,0)` that `CalVGradLocal`
computes from the node velocity `(-1,0,0)`, `CalStressOnParticleElastic` returns
with `det(F) = -1`. -/
theorem CalStressOnParticleElastic_det_counterexample :
    0 < exSolid.F.det ∧ 0 < (exStress ![-1, 0, 0] 0 exSolid).Dt ∧
    ∃ s1 q, CalStressOnParticleElastic exSqrt (exStress ![-1, 0, 0] 0 exSolid) = .ok s1 ∧
      s1.Lp = [q] ∧ q.F.det = -1 := by
  obtain ⟨s1, q, h, hLp, hL, hq⟩ := exCrush_run
  refine ⟨by simp [exSolid], by norm_num [exStress], s1, q, h, hLp, ?_⟩
  rw [(stressElastic_spec _ _ _ _ _ hq).2.1, hL, Matrix.det_fin_three]
  simp [exSolid, MPM_PARTICLE.zero, Matrix.vecMulVec_apply, Matrix.one_apply]
  norm_num

/-- C14 (amended). Each constitutive update multiplies the determinant of the
deformation gradient by the determinant of the factor it applies, in exact
arithmetic: `CalStressOnParticleElastic` and `CalStressOnParticleNewtonian` give
`det(F_new) = det(I + L*Dt) * det(F_old)`, `CalStressOnParticleMohrCoulomb`
(which leaves the time step out) gives `det(F_new) = det(I + L) * det(F_old)`,
where `L` is the velocity gradient that `CalVGradLocal` has just computed.  So a
particle with `det(F) > 0` keeps a positive determinant exactly when the
determinant of that factor is positive; nothing in the code guards it.  The
elastic and the Newtonian update return when every influence list is readable
and names existing nodes. -/
theorem constitutive_det (m : LIBM) (eig : Matrix3d → Vector3d × Matrix3d) (sqrt : ℚ → ℚ)
    (s : MPM) :
    (∀ s1, CalStressOnParticleElastic sqrt s = .ok s1 →
      List.Forall₂ (fun p q =>
        CalVGradLocal s.Ln p = .ok { p with L := q.L } ∧
        q.F.det = (1 + s.Dt • q.L).det * p.F.det ∧
        (0 < p.F.det → (0 < q.F.det ↔ 0 < (1 + s.Dt • q.L).det))) s.Lp s1.Lp) ∧
    (∀ s1, CalStressOnParticleNewtonian sqrt s = .ok s1 →
      List.Forall₂ (fun p q =>
        CalVGradLocal s.Ln p = .ok { p with L := q.L } ∧
        q.F.det = (1 + s.Dt • q.L).det * p.F.det ∧
        (0 < p.F.det → (0 < q.F.det ↔ 0 < (1 + s.Dt • q.L).det))) s.Lp s1.Lp) ∧
    (∀ s1, CalStressOnParticleMohrCoulomb m eig s = .ok s1 →
      List.Forall₂ (fun p q =>
        CalVGradLocal s.Ln p = .ok { p with L := q.L } ∧
        q.F.det = (1 + q.L).det * p.F.det ∧
        (0 < p.F.det → (0 < q.F.det ↔ 0 < (1 + q.L).det))) s.Lp s1.Lp) ∧
    ((∀ p ∈ s.Lp, p.Lni.length ≤ p.LnGN.length ∧ ∀ id ∈ p.Lni, id < s.Ln.length) →
      (∃ s1, CalStressOnParticleElastic sqrt s = .ok s1) ∧
      (∃ s1, CalStressOnParticleNewtonian sqrt s = .ok s1)) := by
  have key : ∀ (A : Matrix3d) (p q : MPM_PARTICLE), q.F = A * p.F →
      q.F.det = A.det * p.F.det ∧ (0 < p.F.det → (0 < q.F.det ↔ 0 < A.det)) := by
    intro A p q hF
    have hdet : q.F.det = A.det * p.F.det := by rw [hF, Matrix.det_mul]
    refine ⟨hdet, fun hp => ?_⟩
    rw [hdet]
    exact ⟨fun h => (pos_iff_pos_of_mul_pos h).mpr hp, fun h => mul_pos h hp⟩
  refine ⟨?_, ?_, ?_, ?_⟩
  · intro s1 h
    refine (CalStressOnParticleElastic_spec sqrt s s1 h).2.imp ?_
    intro p q hq
    obtain ⟨hL, hF, -⟩ := stressElastic_spec sqrt s.Dt s.Ln p q hq
    exact ⟨hL, key _ p q hF⟩
  · intro s1 h
    refine (CalStressOnParticleNewtonian_spec sqrt s s1 h).2.imp ?_
    intro p q hq
    obtain ⟨hL, hF, -⟩ := stressNewtonian_spec sqrt s.Dt s.C s.Ln p q hq
    exact ⟨hL, key _ p q hF⟩
  · intro s1 h
    refine (CalStressOnParticleMohrCoulomb_spec m eig s s1 h).2.imp ?_
    intro p q hq
    obtain ⟨hL, hF, -⟩ := stressMohrCoulomb_spec m eig s.Dt s.Ln p q hq
    exact ⟨hL, key _ p q hF⟩
  · intro h
    exact ⟨CalStressOnParticleElastic_ok sqrt s h, CalStressOnParticleNewtonian_ok sqrt s h⟩

/-- Witness of `constitutive_det`: the example particle under the stretching
node velocity `(1,0,0)` with `Dt = 2`; each of the three updates returns, the
elastic and the Newtonian one with `det(F_new) = det(I + L*Dt) * det(F_old)`,
the Mohr-Coulomb one with `det(F_new) = det(I + L) * det(F_old)`. -/
theorem constitutive_det_witness :
    (∀ p ∈ (exStress ![1, 0, 0] 1 exSolid).Lp,
      p.Lni.length ≤ p.LnGN.length ∧
        ∀ id ∈ p.Lni, id < (exStress ![1, 0, 0] 1 exSolid).Ln.length) ∧
    (∃ s1, CalStressOnParticleElastic exSqrt (exStress ![1, 0, 0] 1 exSolid) = .ok s1 ∧
      List.Forall₂ (fun p q =>
        CalVGradLocal (exStress ![1, 0, 0] 1 exSolid).Ln p = .ok { p with L := q.L } ∧
        q.F.det = (1 + (exStress ![1, 0, 0] 1 exSolid).Dt • q.L).det * p.F.det ∧
        (0 < p.F.det →
          (0 < q.F.det ↔ 0 < (1 + (exStress ![1, 0, 0] 1 exSolid).Dt • q.L).det)))
        (exStress ![1, 0, 0] 1 exSolid).Lp s1.Lp) ∧
    (∃ s1, CalStressOnParticleNewtonian exSqrt (exStress ![1, 0, 0] 1 exSolid) = .ok s1 ∧
      List.Forall₂ (fun p q =>
        CalVGradLocal (exStress ![1, 0, 0] 1 exSolid).Ln p = .ok { p with L := q.L } ∧
        q.F.det = (1 + (exStress ![1, 0, 0] 1 exSolid).Dt • q.L).det * p.F.det ∧
        (0 < p.F.det →
          (0 < q.F.det ↔ 0 < (1 + (exStress ![1, 0, 0] 1 exSolid).Dt • q.L).det)))
        (exStress ![1, 0, 0] 1 exSolid).Lp s1.Lp) ∧
    (∃ s1, CalStressOnParticleMohrCoulomb exLibm exEig (exStress ![1, 0, 0] 1 exSolid) = .ok s1 ∧
      List.Forall₂ (fun p q =>
        CalVGradLocal (exStress ![1, 0, 0] 1 exSolid).Ln p = .ok { p with L := q.L } ∧
        q.F.det = (1 + q.L).det * p.F.det ∧
        (0 < p.F.det → (0 < q.F.det ↔ 0 < (1 + q.L).det)))
        (exStress ![1, 0, 0] 1 exSolid).Lp s1.Lp) := by
  have hv := exStress_valid ![1, 0, 0] 1 exSolid rfl rfl
  have hT := constitutive_det exLibm exEig exSqrt (exStress ![1, 0, 0] 1 exSolid)
  obtain ⟨⟨s1, h1⟩, ⟨s3, h3⟩⟩ := hT.2.2.2 hv
  obtain ⟨s2, -, h2, -⟩ := exStretch_MC_run
  exact ⟨hv, ⟨s1, h1, hT.1 s1 h1⟩, ⟨s3, h3, hT.2.1 s3 h3⟩, ⟨s2, h2, hT.2.2.1 s2 h2⟩⟩

/-! ## Mohr-Coulomb -/

/-- C16. `MohrCoulomb(de)` on a trial stress that does not yield: when the
eigen-solver returns the eigenvalues of the elastic trial stress
`S + 2*Mu*de + La*trace(de)*I` in increasing order and the yield value `f` of
the principal values is `<= 0`, the call returns, the new stress is exactly the
trial stress, and nothing else of the particle changes. -/
theorem MohrCoulomb_below_yield (m : LIBM) (eig : Matrix3d → Vector3d × Matrix3d)
    (p : MPM_PARTICLE) (de : Matrix3d)
    (hord : (eig (p.S + ((2 * p.Mu) • de + (p.La * de.trace) • (1 : Matrix3d)))).1 0 ≤
        (eig (p.S + ((2 * p.Mu) • de + (p.La * de.trace) • (1 : Matrix3d)))).1 1 ∧
      (eig (p.S + ((2 * p.Mu) • de + (p.La * de.trace) • (1 : Matrix3d)))).1 1 ≤
        (eig (p.S + ((2 * p.Mu) • de + (p.La * de.trace) • (1 : Matrix3d)))).1 2)
    (hf : yieldF m p
      ![(eig (p.S + ((2 * p.Mu) • de + (p.La * de.trace) • (1 : Matrix3d)))).1 2,
        (eig (p.S + ((2 * p.Mu) • de + (p.La * de.trace) • (1 : Matrix3d)))).1 1,
        (eig (p.S + ((2 * p.Mu) • de + (p.La * de.trace) • (1 : Matrix3d)))).1 0] ≤ 0) :
    ∃ q, p.MohrCoulomb m eig de = .ok q ∧
      q.S = p.S + ((2 * p.Mu) • de + (p.La * de.trace) • (1 : Matrix3d)) ∧
      q = { p with S := q.S } := by
  refine ⟨p.Elastic de, ?_, rfl, rfl⟩
  refine MohrCoulomb_elastic m eig p de _ rfl ?_ hf
  intro h
  rcases h with h | h | h
  · exact absurd hord.2 (not_le.mpr h)
  · exact absurd (hord.1.trans hord.2) (not_le.mpr h)
  · exact absurd hord.1 (not_le.mpr h)

/-- Witness of `MohrCoulomb_below_yield`: the example particle (cohesion `10`)
with `de = diag(2,0,0)`; the trial stress is `diag(6,2,2)` and `f = -36/5`. -/
theorem MohrCoulomb_below_yield_witness :
    ((exEig (exSolid.S + ((2 * exSolid.Mu) • Matrix.diagonal ![2, 0, 0] +
        (exSolid.La * (Matrix.diagonal ![2, 0, 0] : Matrix3d).trace) • (1 : Matrix3d)))).1 0 ≤
      (exEig (exSolid.S + ((2 * exSolid.Mu) • Matrix.diagonal ![2, 0, 0] +
        (exSolid.La * (Matrix.diagonal ![2, 0, 0] : Matrix3d).trace) • (1 : Matrix3d)))).1 1 ∧
      (exEig (exSolid.S + ((2 * exSolid.Mu) • Matrix.diagonal ![2, 0, 0] +
        (exSolid.La * (Matrix.diagonal ![2, 0, 0] : Matrix3d).trace) • (1 : Matrix3d)))).1 1 ≤
      (exEig (exSolid.S + ((2 * exSolid.Mu) • Matrix.diagonal ![2, 0, 0] +
        (exSolid.La * (Matrix.diagonal ![2, 0, 0] : Matrix3d).trace) • (1 : Matrix3d)))).1 2) ∧
    yieldF exLibm exSolid
      ![(exEig (exSolid.S + ((2 * exSolid.Mu) • Matrix.diagonal ![2, 0, 0] +
        (exSolid.La * (Matrix.diagonal ![2, 0, 0] : Matrix3d).trace) • (1 : Matrix3d)))).1 2,
        (exEig (exSolid.S + ((2 * exSolid.Mu) • Matrix.diagonal ![2, 0, 0] +
        (exSolid.La * (Matrix.diagonal ![2, 0, 0] : Matrix3d).trace) • (1 : Matrix3d)))).1 1,
        (exEig (exSolid.S + ((2 * exSolid.Mu) • Matrix.diagonal ![2, 0, 0] +
        (exSolid.La * (Matrix.diagonal ![2, 0, 0] : Matrix3d).trace) • (1 : Matrix3d)))).1 0] ≤ 0 ∧
    ∃ q, exSolid.MohrCoulomb exLibm exEig (Matrix.diagonal ![2, 0, 0]) = .ok q ∧
      q.S = exSolid.S + ((2 * exSolid.Mu) • Matrix.diagonal ![2, 0, 0] +
        (exSolid.La * (Matrix.diagonal ![2, 0, 0] : Matrix3d).trace) • (1 : Matrix3d)) ∧
      q = { exSolid with S := q.S } := by
  have hord : (exEig (exSolid.S + ((2 * exSolid.Mu) • Matrix.diagonal ![2, 0, 0] +
        (exSolid.La * (Matrix.diagonal ![2, 0, 0] : Matrix3d).trace) • (1 : Matrix3d)))).1 0 ≤
      (exEig (exSolid.S + ((2 * exSolid.Mu) • Matrix.diagonal ![2, 0, 0] +
        (exSolid.La * (Matrix.diagonal ![2, 0, 0] : Matrix3d).trace) • (1 : Matrix3d)))).1 1 ∧
      (exEig (exSolid.S + ((2 * exSolid.Mu) • Matrix.diagonal ![2, 0, 0] +
        (exSolid.La * (Matrix.diagonal ![2, 0, 0] : Matrix3d).trace) • (1 : Matrix3d)))).1 1 ≤
      (exEig (exSolid.S + ((2 * exSolid.Mu) • Matrix.diagonal ![2, 0, 0] +
        (exSolid.La * (Matrix.diagonal ![2, 0, 0] : Matrix3d).trace) • (1 : Matrix3d)))).1 2 := by
    simp [exEig, exSolid, MPM_PARTICLE.zero, Matrix.trace, Fin.sum_univ_three, Matrix.one_apply]
  have hf : yieldF exLibm exSolid
      ![(exEig (exSolid.S + ((2 * exSolid.Mu) • Matrix.diagonal ![2, 0, 0] +
        (exSolid.La * (Matrix.diagonal ![2, 0, 0] : Matrix3d).trace) • (1 : Matrix3d)))).1 2,
        (exEig (exSolid.S + ((2 * exSolid.Mu) • Matrix.diagonal ![2, 0, 0] +
        (exSolid.La * (Matrix.diagonal ![2, 0, 0] : Matrix3d).trace) • (1 : Matrix3d)))).1 1,
        (exEig (exSolid.S + ((2 * exSolid.Mu) • Matrix.diagonal ![2, 0, 0] +
        (exSolid.La * (Matrix.diagonal ![2, 0, 0] : Matrix3d).trace) • (1 : Matrix3d)))).1 0] ≤ 0 := by
    simp [yieldF, exLibm, exEig, exSolid, MPM_PARTICLE.zero, Matrix.trace, Fin.sum_univ_three,
      Matrix.one_apply]
    norm_num
  exact ⟨hord, hf,
    MohrCoulomb_below_yield exLibm exEig exSolid (Matrix.diagonal ![2, 0, 0]) hord hf⟩

theorem MohrCoulomb_plastic (m : LIBM) (eig : Matrix3d → Vector3d × Matrix3d)
    (p : MPM_PARTICLE) (de S0 : Matrix3d) (sc : Vector3d) (hS : (p.Elastic de).S = S0)
    (hord : ¬((eig S0).1 2 < (eig S0).1 1 ∨ (eig S0).1 2 < (eig S0).1 0 ∨
      (eig S0).1 1 < (eig S0).1 0))
    (hf : 0 < yieldF m (p.Elastic de) ![(eig S0).1 2, (eig S0).1 1, (eig S0).1 0])
    (hr : returnMap m (p.Elastic de) ![(eig S0).1 2, (eig S0).1 1, (eig S0).1 0]
      (yieldF m (p.Elastic de) ![(eig S0).1 2, (eig S0).1 1, (eig S0).1 0]) = .ok sc) :
    ∃ q, p.MohrCoulomb m eig de = .ok q ∧
      q.S = (Matrix.of fun i j => (eig S0).2 i (Fin.rev j)) * Matrix.diagonal sc *
        inverse (Matrix.of fun i j => (eig S0).2 i (Fin.rev j)) ∧
      q.Phi = p.Phi ∧ q.C = p.C := by
  subst hS
  unfold MPM_PARTICLE.MohrCoulomb
  simp only []
  rw [if_neg hord, if_pos hf, hr]
  exact ⟨_, rfl, rfl, rfl, rfl⟩

/-- The return mapping at the trial principal stresses `(-1,-2,-6)` for a
particle with the elastic constants of `exSolid`, no cohesion, friction angle of
sine `3/5` and no dilatancy: `t1 < 0`, `p12 = 3/5`, `p13 = -18/5`, so the plane
branch is taken with `rp = (1/5, 0, -1/5)`. -/
theorem exReturn (p : MPM_PARTICLE) (hPhi : p.Phi = 1 / 3) (hPsi : p.Psi = 0) (hC : p.C = 0)
    (hDp : p.Dp = fun i j => if i = j then 3 else 1)
    (hDpi : p.Dpi = fun i j => if i = j then 2 / 5 else -(1 / 10)) :
    returnMap exLibm p ![-1, -2, -6] (4 / 5) = .ok ![-(29 / 25), -2, -(146 / 25)] := by
  have hsin : (2 * (1 / 3 : ℚ) / (1 + (1 / 3) ^ 2)) = 3 / 5 := by norm_num
  simp [returnMap, exLibm, hPhi, hPsi, hC, hDp, hDpi, Matrix.mulVec, Matrix.dotProduct,
    Fin.sum_univ_three, cross, exSqrt, hsin]
  norm_num
  ext i
  fin_cases i <;> simp [Matrix.vecHead, Matrix.vecTail] <;> norm_num

theorem exYield (p : MPM_PARTICLE) (hPhi : p.Phi = 1 / 3) (hC : p.C = 0) :
    yieldF exLibm p ![-1, -2, -6] = 4 / 5 ∧
    yieldF exLibm p ![-(29 / 25), -2, -(146 / 25)] = 12 / 25 := by
  constructor <;> simp [yieldF, exLibm, hPhi, hC] <;> norm_num

theorem inverse_one : inverse 1 = 1 := by
  simp [inverse]

/-- C15. A return to the plane that ends outside the yield surface.  The
particle has the elastic constants of `exSolid` (`Young = 5/2`, `Poisson = 1/4`),
`C = 0`, `sin(Phi) = 3/5`, `Psi = 0` and the stress `diag(-1,-2,-6)`; `de = 0`.
The trial principal stresses `(-1,-2,-6)` are ordered and have `f = 4/5 > 0`,
`MohrCoulomb` returns through the plane branch with the corrected principal
stresses `sc = (-29/25, -2, -146/25)`, and their yield value is `12/25`, the
`sin(Phi)`-fold of the trial value, not `0`. -/
theorem MohrCoulomb_plane_return_yield :
    yieldF exLibm exYielding ![-1, -2, -6] =
      4 / 5 ∧
    returnMap exLibm exYielding ![-1, -2, -6]
      (4 / 5) = .ok ![-(29 / 25), -2, -(146 / 25)] ∧
    ∃ q, exYielding.MohrCoulomb exLibm exEig 0 = .ok q ∧
      q.S = Matrix.diagonal ![-(29 / 25), -2, -(146 / 25)] ∧
      yieldF exLibm q ![q.S 0 0, q.S 1 1, q.S 2 2] = 12 / 25 := by
  have hS : (exYielding.Elastic 0).S = Matrix.diagonal ![-1, -2, -6] := by
    simp [MPM_PARTICLE.Elastic, exYielding]
  have hy := exYield (exYielding.Elastic 0) rfl rfl
  have hr := exReturn (exYielding.Elastic 0) rfl rfl rfl rfl rfl
  have hev : ![(exEig (Matrix.diagonal ![-1, -2, -6])).1 2,
      (exEig (Matrix.diagonal ![-1, -2, -6])).1 1, (exEig (Matrix.diagonal ![-1, -2, -6])).1 0] =
      ![-1, -2, -6] := by
    simp [exEig]
  have hv : (Matrix.of fun i j => (exEig (Matrix.diagonal ![-1, -2, -6])).2 i (Fin.rev j)) =
      (1 : Matrix3d) := by
    ext i j
    simp [exEig, Matrix.one_apply]
  obtain ⟨q, hq, hqS, hqPhi, hqC⟩ := MohrCoulomb_plastic exLibm exEig
    exYielding 0
    (Matrix.diagonal ![-1, -2, -6]) ![-(29 / 25), -2, -(146 / 25)] hS (by norm_num [exEig])
    (by rw [hev, hy.1]; norm_num) (by rw [hev, hy.1]; exact hr)
  rw [hv, inverse_one, Matrix.one_mul, Matrix.mul_one] at hqS
  refine ⟨(exYield _ rfl rfl).1, exReturn _ rfl rfl rfl rfl rfl, q, hq, hqS, ?_⟩
  have h2 := (exYield q hqPhi hqC).2
  rw [hqS]
  simpa using h2

/-! ## The Newtonian law -/

/-- C17. The Newtonian update adds to the stress the particle carried.  For
the example particle with previous stress `diag(5,0,0)`, `Mu = 1`, `Dt = 2`,
velocity gradient `diag(1,0,0)` (so `de = diag(2,0,0)`) and speed of sound `0`
(so `P = 0`), `CalStressOnParticleNewtonian` returns with
`S = diag(23/3, -4/3, -4/3)`, whereas `2*Mu*(de - trace(de)/3*I) - P*I` is
`diag(8/3, -4/3, -4/3)`. -/
theorem CalStressOnParticleNewtonian_adds_to_stress :
    ∃ s1 q, CalStressOnParticleNewtonian exSqrt (exStress ![1, 0, 0] 2 exStressed) = .ok s1 ∧
      s1.Lp = [q] ∧ q.P = 0 ∧
      q.S = Matrix.diagonal ![23 / 3, -(4 / 3), -(4 / 3)] ∧
      (2 * exStressed.Mu) • ((1 / 2 * (exStress ![1, 0, 0] 2 exStressed).Dt) • (q.L + q.L.transpose) -
          (((1 / 2 * (exStress ![1, 0, 0] 2 exStressed).Dt) • (q.L + q.L.transpose)).trace / 3) •
            (1 : Matrix3d)) - q.P • (1 : Matrix3d) =
        Matrix.diagonal ![8 / 3, -(4 / 3), -(4 / 3)] := by
  obtain ⟨s1, h⟩ := CalStressOnParticleNewtonian_ok exSqrt (exStress ![1, 0, 0] 2 exStressed)
    (exStress_valid ![1, 0, 0] 2 exStressed rfl rfl)
  have hF := (CalStressOnParticleNewtonian_spec _ _ _ h).2
  have hLp : (exStress ![1, 0, 0] 2 exStressed).Lp = [exStressed] := rfl
  have hDt : (exStress ![1, 0, 0] 2 exStressed).Dt = 2 := rfl
  have hC : (exStress ![1, 0, 0] 2 exStressed).C = 0 := rfl
  rw [hLp, hDt, hC] at hF
  obtain ⟨q, hs, hq⟩ := forall₂_singleton _ _ _ hF
  obtain ⟨hg, -, -, -, -, hP, hS⟩ := stressNewtonian_spec _ _ _ _ _ _ hq
  have hL := exGrad_L ![1, 0, 0] 2 exStressed q rfl rfl hg
  have hP0 : q.P = 0 := by rw [hP]; simp
  refine ⟨s1, q, h, hs, hP0, ?_, ?_⟩
  · rw [hS, hP0, hL]
    ext i j
    fin_cases i <;> fin_cases j <;>
      simp [exStressed, exSolid, MPM_PARTICLE.zero, Matrix.vecMulVec_apply, Matrix.trace,
        Fin.sum_univ_three, Matrix.one_apply]
    all_goals norm_num
  · rw [hP0, hL, hDt]
    ext i j
    fin_cases i <;> fin_cases j <;>
      simp [exStressed, exSolid, Matrix.vecMulVec_apply, Matrix.trace, Fin.sum_univ_three,
        Matrix.one_apply]
    all_goals norm_num

/-! ## AddBoxParticles -/

theorem addBoxLoop_spec (raw : ℕ → MPM_PARTICLE) (x0 l : Vector3d) (ratio m young poisson : ℚ)
    (cs : List (ℤ × ℤ × ℤ)) (s : MPM) :
    addBoxLoop raw x0 l ratio m young poisson cs s =
      { s with
        Lp := s.Lp ++ (List.enumFrom s.Lp.length cs).map fun nc =>
          boxParticle raw s x0 l ratio m young poisson nc.1 nc.2 } := by
  induction cs generalizing s with
  | nil => simp [addBoxLoop]
  | cons c cs ih =>
    rw [addBoxLoop, ih]
    simp [AddParticle, boxParticle, List.enumFrom, boxType, boxPos, boxMax]

theorem length_flatMap_const {α β : Type} (xs : List α) (f : α → List β) (c : ℕ)
    (h : ∀ a, (f a).length = c) : (xs.flatMap f).length = xs.length * c := by
  induction xs with
  | nil => simp
  | cons a t ih =>
    rw [List.flatMap_cons, List.length_append, ih, h, List.length_cons]
    ring

theorem length_intRange (lo hi : ℤ) : (intRange lo hi).length = (hi + 1 - lo).toNat := by
  simp [intRange]

theorem length_boxIndices (s : MPM) (l : Vector3d) (ratio : ℚ) :
    (boxIndices s l ratio).length =
      (boxMax s l ratio 0 + 1).toNat * (boxMax s l ratio 1 + 1).toNat *
        (boxMax s l ratio 2 + 1).toNat := by
  unfold boxIndices
  rw [length_flatMap_const _ _ ((boxMax s l ratio 1 + 1).toNat * (boxMax s l ratio 0 + 1).toNat)]
  · rw [length_intRange]
    simp only [sub_zero]
    ring
  · intro k
    rw [length_flatMap_const _ _ (boxMax s l ratio 0 + 1).toNat]
    · rw [length_intRange]
      simp
    · intro j
      rw [List.length_map, length_intRange]
      simp

theorem AddBoxParticles_Lp (raw : ℕ → MPM_PARTICLE) (s : MPM) (x0 l : Vector3d)
    (ratio m young poisson : ℚ) :
    (AddBoxParticles raw s x0 l ratio m young poisson).Lp =
      (s.Lp ++ (List.enumFrom s.Lp.length (boxIndices s l ratio)).map fun nc =>
        boxParticle raw s x0 l ratio m young poisson nc.1 nc.2).map (boxSize s ratio) := by
  unfold AddBoxParticles
  simp only []
  rw [addBoxLoop_spec]
  rfl

theorem AddBoxParticles_length (raw : ℕ → MPM_PARTICLE) (s : MPM) (x0 l : Vector3d)
    (ratio m young poisson : ℚ) :
    (AddBoxParticles raw s x0 l ratio m young poisson).Lp.length =
      s.Lp.length + (boxIndices s l ratio).length := by
  rw [AddBoxParticles_Lp]
  simp

theorem trunc_intCast (z : ℤ) : trunc (z : ℚ) = z := by
  unfold trunc
  split_ifs <;> simp

theorem boxMax_multiple (s : MPM) (l : Vector3d) (ratio : ℚ) (d : Fin 3) (n : ℕ)
    (hd : d.val < s.D) (hr : 0 < ratio) (hl : l d = n * ratio) :
    boxMax s l ratio d = (n : ℤ) - 1 := by
  unfold boxMax
  rw [if_pos hd, hl, mul_div_assoc, div_self hr.ne', mul_one]
  have : ((n : ℚ) - 1) = (((n : ℤ) - 1 : ℤ) : ℚ) := by push_cast; ring
  rw [this, trunc_intCast]

theorem boxMax_inactive (s : MPM) (l : Vector3d) (ratio : ℚ) (d : Fin 3) (hd : ¬d.val < s.D) :
    boxMax s l ratio d = 0 := by
  unfold boxMax
  rw [if_neg hd]

/-- C18 (amended). The loops of `AddBoxParticles` run over the indices
`0..maxx(d)` inclusive with `maxx(d) = l_d/r - 1`, so an axis of extent
`l_d = n_d * r` gets `n_d` particles: with spacing `r > 0` and extents that are
`n_d` times `r` on the active axes (`n_d >= 1`), the call appends exactly the
product of the `n_d = l_d/r` over the active axes `d < D`; on an empty particle
list that product is the number of particles. -/
theorem AddBoxParticles_count (raw : ℕ → MPM_PARTICLE) (s : MPM) (x0 l : Vector3d)
    (ratio m young poisson : ℚ) (n : Fin 3 → ℕ) (hr : 0 < ratio)
    (hl : ∀ d : Fin 3, d.val < s.D → l d = n d * ratio ∧ 0 < n d) :
    (AddBoxParticles raw s x0 l ratio m young poisson).Lp.length =
      s.Lp.length + ∏ d : Fin 3, (if d.val < s.D then n d else 1) := by
  have hmax : ∀ d : Fin 3, (boxMax s l ratio d + 1).toNat = if d.val < s.D then n d else 1 := by
    intro d
    by_cases hd : d.val < s.D
    · rw [if_pos hd, boxMax_multiple s l ratio d (n d) hd hr (hl d hd).1]
      simp
    · rw [if_neg hd, boxMax_inactive s l ratio d hd]
      rfl
  rw [AddBoxParticles_length, length_boxIndices, Fin.prod_univ_three, hmax 0, hmax 1, hmax 2]

/-- Witness of `AddBoxParticles_count`: the empty one-dimensional solver filled
over the extent `2` with spacing `1` holds `2` particles. -/
theorem AddBoxParticles_count_witness :
    (0 : ℚ) < 1 ∧
    (∀ d : Fin 3, d.val < ({ exMPM with Lp := [] } : MPM).D →
      (![2, 0, 0] : Vector3d) d = ((![2, 0, 0] : Fin 3 → ℕ) d : ℚ) * 1 ∧
        0 < (![2, 0, 0] : Fin 3 → ℕ) d) ∧
    (AddBoxParticles (fun _ => MPM_PARTICLE.zero) { exMPM with Lp := [] } 0 ![2, 0, 0] 1 1 1
        0).Lp.length =
      ({ exMPM with Lp := [] } : MPM).Lp.length +
        ∏ d : Fin 3, (if d.val < ({ exMPM with Lp := [] } : MPM).D then
          (![2, 0, 0] : Fin 3 → ℕ) d else 1) := by
  have hl : ∀ d : Fin 3, d.val < ({ exMPM with Lp := [] } : MPM).D →
      (![2, 0, 0] : Vector3d) d = ((![2, 0, 0] : Fin 3 → ℕ) d : ℚ) * 1 ∧
        0 < (![2, 0, 0] : Fin 3 → ℕ) d := by
    intro d hd
    have hD : ({ exMPM with Lp := [] } : MPM).D = 1 := rfl
    rw [hD] at hd
    have : d = 0 := by
      ext
      simpa using hd
    subst this
    simp
  exact ⟨by norm_num, hl,
    AddBoxParticles_count (fun _ => MPM_PARTICLE.zero) { exMPM with Lp := [] } 0 ![2, 0, 0] 1 1 1
      0 ![2, 0, 0] (by norm_num) hl⟩

/-- C18 (counterexample). On the empty one-dimensional solver, `AddBoxParticles`
with spacing `r = 1` and extent `l = (2,0,0)` adds `2` particles, while
`l_0/r - 1 = 1`. -/
theorem AddBoxParticles_count_counterexample :
    ({ exMPM with Lp := [] } : MPM).Lp = [] ∧ ({ exMPM with Lp := [] } : MPM).D = 1 ∧
    (AddBoxParticles (fun _ => MPM_PARTICLE.zero) { exMPM with Lp := [] } 0 ![2, 0, 0] 1 1 1
        0).Lp.length = 2 ∧
    (![2, 0, 0] : Vector3d) 0 / 1 - 1 = 1 := by
  refine ⟨rfl, rfl, ?_, by norm_num⟩
  rw [AddBoxParticles_length, length_boxIndices,
    boxMax_multiple _ _ _ 0 2 (by decide) (by norm_num) (by norm_num),
    boxMax_inactive _ _ _ 1 (by decide), boxMax_inactive _ _ _ 2 (by decide)]
  rfl

theorem gatherLoop_frame (Dt : ℚ) (Ln : List MPM_NODE) (es : List (ℕ × ℚ))
    (p q : MPM_PARTICLE) (h : gatherLoop Dt Ln es p = .ok q) :
    q.M = p.M ∧ q.Lni = p.Lni ∧ q.LnGN = p.LnGN := by
  induction es generalizing p with
  | nil =>
    cases h
    exact ⟨rfl, rfl, rfl⟩
  | cons e es ih =>
    obtain ⟨id, n⟩ := e
    unfold gatherLoop at h
    split_ifs at h with hn
    · split at h
      · cases h
      · have h1 := ih _ h
        exact h1
    · exact ih p h

theorem gatherParticle_frame (Dt : ℚ) (Ln : List MPM_NODE) (p q : MPM_PARTICLE)
    (h : gatherParticle Dt Ln p = .ok q) :
    q.M = p.M ∧ q.Lni = p.Lni ∧ q.LnGN = p.LnGN := by
  unfold gatherParticle at h
  simp only at h
  split_ifs at h with hF
  · cases h
    exact ⟨rfl, rfl, rfl⟩
  · split at h
    · cases h
    · have h1 := gatherLoop_frame Dt Ln _ _ q h
      exact h1

theorem gatherParticles_frame (Dt : ℚ) (Ln : List MPM_NODE) (ps qs : List MPM_PARTICLE)
    (h : gatherParticles Dt Ln ps = .ok qs) :
    List.Forall₂ (fun p q => q.M = p.M ∧ q.Lni = p.Lni ∧ q.LnGN = p.LnGN) ps qs := by
  induction ps generalizing qs with
  | nil =>
    cases h
    exact List.Forall₂.nil
  | cons p ps ih =>
    unfold gatherParticles at h
    split at h
    · cases h
    · next q hq =>
      split at h
      · cases h
      · next qs1 hqs =>
        cases h
        exact List.Forall₂.cons (gatherParticle_frame Dt Ln p q hq) (ih qs1 hqs)

theorem forall₂_map_M (ps qs : List MPM_PARTICLE)
    (h : List.Forall₂ (fun p q => q.M = p.M) ps qs) :
    (qs.map fun p => p.M) = (ps.map fun p => p.M) := by
  induction h with
  | nil => rfl
  | cons hpq _ ih => simp [hpq, ih]

theorem forall₂_mem_right {R : MPM_PARTICLE → MPM_PARTICLE → Prop} (ps qs : List MPM_PARTICLE)
    (h : List.Forall₂ R ps qs) : ∀ q ∈ qs, ∃ p ∈ ps, R p q := by
  induction h with
  | nil => simp
  | cons hpq _ ih =>
    intro q hq
    rcases List.mem_cons.mp hq with rfl | hq
    · exact ⟨_, List.mem_cons_self _ _, hpq⟩
    · obtain ⟨p, hp, hR⟩ := ih q hq
      exact ⟨p, List.mem_cons_of_mem _ hp, hR⟩

theorem NodeToParticle_M (s s1 : MPM) (h : NodeToParticle s = .ok s1) :
    (s1.Lp.map fun p => p.M) = (s.Lp.map fun p => p.M) := by
  unfold NodeToParticle at h
  split at h
  · cases h
  · next Lp1 h1 =>
    cases h
    exact forall₂_map_M _ _ ((gatherParticles_frame _ _ _ _ h1).imp fun _ _ hpq => hpq.1)

theorem CalVOnNode_Lp (bc : NODE_BC) (sqrt : ℚ → ℚ) (s s1 : MPM)
    (h : CalVOnNode bc sqrt s = .ok s1) : s1.Lp = s.Lp := by
  unfold CalVOnNode at h
  split at h
  · cases h
  · cases h
    rfl

theorem ParticleToNode_M (sh : SHAPE) (sched : ℕ → ℕ) (s s1 : MPM)
    (h : ParticleToNode sh sched s = .ok s1) :
    (s1.Lp.map fun p => p.M) = (s.Lp.map fun p => p.M) := by
  have hLp : s1.Lp = s.Lp.map (CalNGN sh s) := by
    rw [(ParticleToNode_spec sh sched s s1 h).1]
  rw [hLp, List.map_map]
  rfl

theorem constitutive_M (m : LIBM) (eig : Matrix3d → Vector3d × Matrix3d) (s s1 : MPM)
    (h : constitutive m eig s = .ok s1) :
    (s1.Lp.map fun p => p.M) = (s.Lp.map fun p => p.M) := by
  unfold constitutive at h
  split_ifs at h
  · exact forall₂_map_M _ _ ((CalStressOnParticleElastic_spec _ _ _ h).2.imp
      fun p q hq => (stressElastic_spec _ _ _ p q hq).2.2.2.2.1)
  · exact forall₂_map_M _ _ ((CalStressOnParticleMohrCoulomb_spec _ _ _ _ h).2.imp
      fun p q hq => (stressMohrCoulomb_spec _ _ _ _ p q hq).2.2.2.2)
  · exact forall₂_map_M _ _ ((CalStressOnParticleNewtonian_spec _ _ _ h).2.imp
      fun p q hq => (stressNewtonian_spec _ _ _ _ p q hq).2.2.2.2.1)
  · cases h
    rfl

theorem stepMUSL_M (sh : SHAPE) (bc : NODE_BC) (m : LIBM) (eig : Matrix3d → Vector3d × Matrix3d)
    (sched : ℕ → ℕ) (s s1 : MPM) (h : stepMUSL sh bc m eig sched s = .ok s1) :
    (s1.Lp.map fun p => p.M) = (s.Lp.map fun p => p.M) := by
  unfold stepMUSL at h
  split at h
  · cases h
  · next a ha =>
    split at h
    · cases h
    · next b hb =>
      split at h
      · cases h
      · next c hc =>
        rw [constitutive_M m eig c s1 h, NodeToParticle_M b c hc, CalVOnNode_Lp bc _ a b hb,
          ParticleToNode_M sh sched s a ha]

theorem loopMUSL_M (sh : SHAPE) (bc : NODE_BC) (m : LIBM) (eig : Matrix3d → Vector3d × Matrix3d)
    (sched : ℕ → ℕ → ℕ) (ts : ℤ) (n t : ℕ) (s s1 : MPM)
    (h : loopMUSL sh bc m eig sched ts n t s = .ok s1) :
    (s1.Lp.map fun p => p.M) = (s.Lp.map fun p => p.M) := by
  induction n generalizing t s with
  | zero =>
    cases h
    rfl
  | succ n ih =>
    unfold loopMUSL at h
    split_ifs at h
    split at h
    · cases h
    · next a ha =>
      rw [ih (t + 1) a h, stepMUSL_M sh bc m eig (sched t) s a ha]

theorem stepMUSL_ok (sh : SHAPE) (bc : NODE_BC) (m : LIBM) (eig : Matrix3d → Vector3d × Matrix3d)
    (sched : ℕ → ℕ) (s : MPM)
    (hLAn : ∀ id ∈ s.LAn, id < s.Ln.length)
    (hid : ∀ p ∈ s.Lp, ∀ id ∈ (CalNGN sh s p).Lni, id < s.Ln.length)
    (hM : ∀ p ∈ s.Lp, 0 ≤ p.M) (hDc : s.Dc = 0) (hBC : ∀ nd ∈ s.Ln, nd.BCTypes = [])
    (hCM : s.CMType ≠ 1) :
    ∃ s1, stepMUSL sh bc m eig sched s = .ok s1 := by
  have hval := CalNGN_valid sh s s.Ln.length hM hid
  obtain ⟨s1, h1⟩ := ParticleToNode_ok sh sched s hLAn hval
  obtain ⟨hs1, -, -, hlen1, hall1⟩ := ParticleToNode_spec sh sched s s1 h1
  have hLp1 : s1.Lp = s.Lp.map (CalNGN sh s) := by rw [hs1]
  have hDt1 : s1.Dt = s.Dt := by rw [hs1]
  have hDc1 : s1.Dc = 0 := by rw [hs1]; exact hDc
  have hCM1 : s1.CMType = s.CMType := by rw [hs1]
  have hA1 : s1.LAn = buildLAn s.Nproc sched (s.Lp.map (CalNGN sh s)) := by rw [hs1]
  have hBC1 : ∀ (id : ℕ) (nd : MPM_NODE), s1.Ln[id]? = some nd → nd.BCTypes = [] := by
    intro id nd hnd
    have hlt : id < s.Ln.length := by
      by_contra hc
      rw [List.getElem?_eq_none (by rw [hlen1]; exact not_lt.mp hc)] at hnd
      cases hnd
    have e := hall1 id s.Ln[id] (List.getElem?_eq_getElem hlt)
    rw [hnd] at e
    rw [Option.some.inj e]
    have hb := hBC s.Ln[id] (List.getElem_mem hlt)
    by_cases hin : id ∈ s.LAn <;> simp [accNode, hin, MPM_NODE.Reset, hb]
  have hLAn1 : ∀ id ∈ s1.LAn, id < s1.Ln.length := by
    intro id hidA
    rw [hA1] at hidA
    obtain ⟨q, hq, hidq⟩ := buildLAn_sub _ _ _ id hidA
    obtain ⟨p, hp, rfl⟩ := List.mem_map.mp hq
    rw [hlen1]
    exact hid p hp id hidq
  obtain ⟨Ln2, hL2, hlen2, -⟩ := resolveNodes_free bc m.sqrt s1.Dt s1.LAn s1.Ln hLAn1 hBC1
  have h2 : CalVOnNode bc m.sqrt s1 = .ok { s1 with Ln := Ln2 } := by
    simp [CalVOnNode, hDc1, hL2]
  obtain ⟨qs, hqs, -⟩ := gatherParticles_ok s1.Dt Ln2 (fun _ _ => True) s1.Lp
    (fun p1 hp1 => by
      rw [hLp1] at hp1
      obtain ⟨p, hp, rfl⟩ := List.mem_map.mp hp1
      obtain ⟨q, hq, -⟩ := gatherParticle_spec s1.Dt Ln2 (CalNGN sh s p)
        (fun _ => by simp [CalNGN])
        (fun _ e he _ => by
          rw [zip_CalNGN] at he
          obtain ⟨e1, he1, rfl⟩ := List.mem_map.mp he
          rw [hlen2, hlen1]
          exact (hval p hp e1 he1).2)
      exact ⟨q, hq, trivial⟩)
  have h3 : NodeToParticle { s1 with Ln := Ln2 } = .ok { s1 with Ln := Ln2, Lp := qs } := by
    simp [NodeToParticle, hqs]
  have hfr := gatherParticles_frame _ _ _ _ hqs
  have hgrad : ∀ q ∈ qs, q.Lni.length ≤ q.LnGN.length ∧ ∀ id ∈ q.Lni, id < Ln2.length := by
    intro q hq
    obtain ⟨p1, hp1, -, hLni, hLnGN⟩ := forall₂_mem_right _ _ hfr q hq
    rw [hLp1] at hp1
    obtain ⟨p, hp, rfl⟩ := List.mem_map.mp hp1
    rw [hLni, hLnGN]
    refine ⟨by simp [CalNGN], fun id hidq => ?_⟩
    rw [hlen2, hlen1]
    exact hid p hp id hidq
  have h4 : ∃ s4, constitutive m eig { s1 with Ln := Ln2, Lp := qs } = .ok s4 := by
    unfold constitutive
    split_ifs with c0 c1 c2
    · exact CalStressOnParticleElastic_ok m.sqrt _ hgrad
    · exact absurd (hCM1 ▸ c1) hCM
    · exact CalStressOnParticleNewtonian_ok m.sqrt _ hgrad
    · exact ⟨_, rfl⟩
  obtain ⟨s4, h4⟩ := h4
  exact ⟨s4, by simp [stepMUSL, h1, h2, h3, h4]⟩

/-- C20. Mass invariance under stepping.  Every run of `SolveMUSL(tt, ts)`
that returns, from any state and for any number `tt` of steps, any thread
schedules and any constitutive model, leaves `Lp` with the same length and
every particle with the mass it had, so the total particle mass is the same.  A
step returns, for instance, when `ts` is not `0`, the active-node list and the
influence lists name existing nodes, no mass is negative, there is no damping
and no boundary condition, and the model is not Mohr-Coulomb. -/
theorem SolveMUSL_mass (sh : SHAPE) (bc : NODE_BC) (m : LIBM)
    (eig : Matrix3d → Vector3d × Matrix3d) (sched : ℕ → ℕ → ℕ) (tt ts : ℤ) (s : MPM) :
    (∀ s1, SolveMUSL sh bc m eig sched tt ts s = .ok s1 →
      s1.Lp.length = s.Lp.length ∧
      (s1.Lp.map fun p => p.M) = (s.Lp.map fun p => p.M) ∧
      (s1.Lp.map fun p => p.M).sum = (s.Lp.map fun p => p.M).sum) ∧
    (ts ≠ 0 → (∀ id ∈ s.LAn, id < s.Ln.length) →
      (∀ p ∈ s.Lp, ∀ id ∈ (CalNGN sh s p).Lni, id < s.Ln.length) →
      (∀ p ∈ s.Lp, 0 ≤ p.M) → s.Dc = 0 → (∀ nd ∈ s.Ln, nd.BCTypes = []) → s.CMType ≠ 1 →
      ∃ s1, SolveMUSL sh bc m eig sched 1 ts s = .ok s1) := by
  constructor
  · intro s1 h
    have hM := loopMUSL_M sh bc m eig sched ts tt.toNat 0 s s1 h
    refine ⟨?_, hM, by rw [hM]⟩
    have hl := congrArg List.length hM
    simpa using hl
  · intro hts hLAn hid hM hDc hBC hCM
    obtain ⟨s1, h1⟩ := stepMUSL_ok sh bc m eig (sched 0) s hLAn hid hM hDc hBC hCM
    refine ⟨s1, ?_⟩
    have h1n : (1 : ℤ).toNat = 1 := rfl
    simp [SolveMUSL, h1n, loopMUSL, hts, h1]

/-- Witness of `SolveMUSL_mass`: one step of the example solver `exMPM` with
snapshot interval `1`; the step returns and the particle keeps its mass. -/
theorem SolveMUSL_mass_witness :
    (1 : ℤ) ≠ 0 ∧ (∀ id ∈ exMPM.LAn, id < exMPM.Ln.length) ∧
    (∀ p ∈ exMPM.Lp, ∀ id ∈ (CalNGN exShape exMPM p).Lni, id < exMPM.Ln.length) ∧
    (∀ p ∈ exMPM.Lp, 0 ≤ p.M) ∧ exMPM.Dc = 0 ∧ (∀ nd ∈ exMPM.Ln, nd.BCTypes = []) ∧
    exMPM.CMType ≠ 1 ∧
    ∃ s1, SolveMUSL exShape exBC exLibm exEig (fun _ _ => 0) 1 1 exMPM = .ok s1 ∧
      s1.Lp.length = exMPM.Lp.length ∧
      (s1.Lp.map fun p => p.M) = (exMPM.Lp.map fun p => p.M) ∧
      (s1.Lp.map fun p => p.M).sum = (exMPM.Lp.map fun p => p.M).sum := by
  have hLAn : ∀ id ∈ exMPM.LAn, id < exMPM.Ln.length := by simp [exMPM]
  have hM : ∀ p ∈ exMPM.Lp, 0 ≤ p.M := by simp [exMPM, exParticle]
  have hBC : ∀ nd ∈ exMPM.Ln, nd.BCTypes = [] := by simp [exMPM, exNode]
  have hCM : exMPM.CMType ≠ 1 := by simp [exMPM]
  obtain ⟨s1, h1⟩ := (SolveMUSL_mass exShape exBC exLibm exEig (fun _ _ => 0) 1 1 exMPM).2
    one_ne_zero hLAn exMPM_ids hM rfl hBC hCM
  exact ⟨one_ne_zero, hLAn, exMPM_ids, hM, rfl, hBC, hCM, s1, h1,
    (SolveMUSL_mass exShape exBC exLibm exEig (fun _ _ => 0) 1 1 exMPM).1 s1 h1⟩

/-! ## The constructor -/

theorem dimOf_cases (ny nz : ℕ) :
    (dimOf ny nz = 1 ∨ dimOf ny nz = 2 ∨ dimOf ny nz = 3) ∧
    (nz = 0 ∧ ny = 0 → dimOf ny nz = 1) ∧ (nz = 0 ∧ ny ≠ 0 → dimOf ny nz = 2) ∧
    (nz ≠ 0 → dimOf ny nz = 3) := by
  unfold dimOf
  refine ⟨?_, ?_, ?_, ?_⟩
  · split_ifs <;> simp
  · rintro ⟨h1, h2⟩
    simp [h1, h2]
  · rintro ⟨h1, h2⟩
    simp [h1, h2]
  · intro h
    simp [h]

theorem selectShape_ok (ntype D : ℕ) (hn : ntype ≤ 3) (hD : D = 1 ∨ D = 2 ∨ D = 3) :
    ∃ r, selectShape ntype D = .ok r := by
  have h4 : ntype = 0 ∨ ntype = 1 ∨ ntype = 2 ∨ ntype = 3 := by omega
  rcases h4 with rfl | rfl | rfl | rfl <;> rcases hD with rfl | rfl | rfl <;>
    exact ⟨_, rfl⟩

theorem selectShape_error (ntype D : ℕ) (e : Fault) (hD : D = 1 ∨ D = 2 ∨ D = 3)
    (h : selectShape ntype D = .error e) : 3 < ntype ∧ e = .undefinedShapeFunction := by
  by_cases hn : ntype ≤ 3
  · obtain ⟨r, hr⟩ := selectShape_ok ntype D hn hD
    rw [hr] at h
    cases h
  · unfold selectShape at h
    have h0 : ntype ≠ 0 := by omega
    have h1 : ntype ≠ 1 := by omega
    have h2 : ntype ≠ 2 := by omega
    have h3 : ntype ≠ 3 := by omega
    rw [if_neg h0, if_neg h1, if_neg h2, if_neg h3] at h
    cases h
    exact ⟨by omega, rfl⟩

/-- C23. The constructor `MPM(ntype, cmtype, nx, ny, nz, dx)` aborts if and
only if `cmtype > 2` or `ntype > 3`: with "Undefined Constitutive model" exactly
when `cmtype > 2`, with "Undefined shape function type" exactly when
`cmtype <= 2` and `ntype > 3`, and never with "Dimension is higher than 3".  The
dimension it derives is `1` for `nz = 0, ny = 0`, `2` for `nz = 0, ny != 0` and
`3` otherwise, and for `cmtype <= 2` and `ntype <= 3` it returns a solver with
that dimension and these two selectors. -/
theorem MPM_construction (ntype cmtype nx ny nz : ℕ) (dx : Vector3d) :
    ((∃ e, MPM.MPM ntype cmtype nx ny nz dx = .error e) ↔ 2 < cmtype ∨ 3 < ntype) ∧
    (MPM.MPM ntype cmtype nx ny nz dx = .error .undefinedConstitutiveModel ↔ 2 < cmtype) ∧
    (MPM.MPM ntype cmtype nx ny nz dx = .error .undefinedShapeFunction ↔
      cmtype ≤ 2 ∧ 3 < ntype) ∧
    MPM.MPM ntype cmtype nx ny nz dx ≠ .error .dimensionHigherThan3 ∧
    ((dimOf ny nz = 1 ∨ dimOf ny nz = 2 ∨ dimOf ny nz = 3) ∧
      (nz = 0 ∧ ny = 0 → dimOf ny nz = 1) ∧ (nz = 0 ∧ ny ≠ 0 → dimOf ny nz = 2) ∧
      (nz ≠ 0 → dimOf ny nz = 3)) ∧
    (cmtype ≤ 2 → ntype ≤ 3 →
      ∃ s, MPM.MPM ntype cmtype nx ny nz dx = .ok s ∧ s.D = dimOf ny nz ∧
        s.Ntype = ntype ∧ s.CMType = cmtype) := by
  have hD := (dimOf_cases ny nz).1
  have hgood : cmtype ≤ 2 → ntype ≤ 3 →
      ∃ s, MPM.MPM ntype cmtype nx ny nz dx = .ok s ∧ s.D = dimOf ny nz ∧
        s.Ntype = ntype ∧ s.CMType = cmtype := by
    intro hc hn
    obtain ⟨⟨n, gn, r⟩, hr⟩ := selectShape_ok ntype (dimOf ny nz) hn hD
    have hc3 : cmtype = 0 ∨ cmtype = 1 ∨ cmtype = 2 := by omega
    unfold MPM.MPM
    rw [if_pos hc3, hr]
    exact ⟨_, rfl, rfl, rfl, rfl⟩
  have hcm : 2 < cmtype → MPM.MPM ntype cmtype nx ny nz dx = .error .undefinedConstitutiveModel := by
    intro hc
    have hc3 : ¬(cmtype = 0 ∨ cmtype = 1 ∨ cmtype = 2) := by omega
    simp only [MPM.MPM, if_neg hc3]
  have hsh : cmtype ≤ 2 → 3 < ntype →
      MPM.MPM ntype cmtype nx ny nz dx = .error .undefinedShapeFunction := by
    intro hc hn
    have hc3 : cmtype = 0 ∨ cmtype = 1 ∨ cmtype = 2 := by omega
    have hs : selectShape ntype (dimOf ny nz) = .error .undefinedShapeFunction := by
      unfold selectShape
      rw [if_neg (by omega), if_neg (by omega), if_neg (by omega), if_neg (by omega)]
    simp only [MPM.MPM, if_pos hc3, hs]
  have hall : (2 < cmtype ∧ MPM.MPM ntype cmtype nx ny nz dx = .error .undefinedConstitutiveModel) ∨
      (cmtype ≤ 2 ∧ 3 < ntype ∧
        MPM.MPM ntype cmtype nx ny nz dx = .error .undefinedShapeFunction) ∨
      (cmtype ≤ 2 ∧ ntype ≤ 3 ∧ ∃ s, MPM.MPM ntype cmtype nx ny nz dx = .ok s) := by
    by_cases hc : cmtype ≤ 2
    · by_cases hn : ntype ≤ 3
      · obtain ⟨s, hs, -⟩ := hgood hc hn
        exact Or.inr (Or.inr ⟨hc, hn, s, hs⟩)
      · exact Or.inr (Or.inl ⟨hc, by omega, hsh hc (by omega)⟩)
    · exact Or.inl ⟨by omega, hcm (by omega)⟩
  refine ⟨?_, ?_, ?_, ?_, dimOf_cases ny nz, hgood⟩
  · rcases hall with ⟨hc, h⟩ | ⟨hc, hn, h⟩ | ⟨hc, hn, s, h⟩
    · exact ⟨fun _ => Or.inl hc, fun _ => ⟨_, h⟩⟩
    · exact ⟨fun _ => Or.inr hn, fun _ => ⟨_, h⟩⟩
    · rw [h]
      exact ⟨fun ⟨e, he⟩ => (by cases he), fun hx => (by omega)⟩
  · rcases hall with ⟨hc, h⟩ | ⟨hc, hn, h⟩ | ⟨hc, hn, s, h⟩
    · exact ⟨fun _ => hc, fun _ => h⟩
    · rw [h]
      exact ⟨fun hx => (by cases hx), fun hx => (by omega)⟩
    · rw [h]
      exact ⟨fun hx => (by cases hx), fun hx => (by omega)⟩
  · rcases hall with ⟨hc, h⟩ | ⟨hc, hn, h⟩ | ⟨hc, hn, s, h⟩
    · rw [h]
      exact ⟨fun hx => (by cases hx), fun hx => (by omega)⟩
    · exact ⟨fun _ => ⟨hc, hn⟩, fun _ => h⟩
    · rw [h]
      exact ⟨fun hx => (by cases hx), fun hx => (by omega)⟩
  · rcases hall with ⟨hc, h⟩ | ⟨hc, hn, h⟩ | ⟨hc, hn, s, h⟩ <;> rw [h] <;> intro hx <;> cases hx

/-- Witness of `MPM_construction`: `MPM(1, 0, 2, 0, 0, dx)` constructs a
one-dimensional solver. -/
theorem MPM_construction_witness :
    (0 : ℕ) ≤ 2 ∧ (1 : ℕ) ≤ 3 ∧
    ∃ s, MPM.MPM 1 0 2 0 0 ![1, 1, 1] = .ok s ∧ s.D = dimOf 0 0 ∧ s.Ntype = 1 ∧ s.CMType = 0 :=
  ⟨by decide, by decide,
    (MPM_construction 1 0 2 0 0 ![1, 1, 1]).2.2.2.2.2 (by decide) (by decide)⟩

/-! ## Shape-function selection -/

/-- C30. For `cmtype <= 2`, `ntype <= 3` and every grid size the constructor
returns a solver whose weight function `N` has the family of `ntype` and the
dimension `D`, and whose gradient function `GN` has the dimension `D` and the
same family, except for the quadratic type in two dimensions, where `N` is
`ShapeQ2D` and `GN` is `GradShapeL2D`.  `Nrange` is `1` for linear and GIMP,
`1.5` for quadratic and `2` for cubic. -/
theorem MPM_shape_selection (ntype cmtype nx ny nz : ℕ) (dx : Vector3d) (hc : cmtype ≤ 2)
    (hn : ntype ≤ 3) :
    ∃ s, MPM.MPM ntype cmtype nx ny nz dx = .ok s ∧
      s.N.family = ntype ∧ s.N.dim = s.D ∧ s.GN.dim = s.D ∧
      (s.GN.family = ntype ↔ ¬(ntype = 1 ∧ s.D = 2)) ∧
      (ntype = 1 ∧ s.D = 2 → s.N = .ShapeQ2D ∧ s.GN = .GradShapeL2D) ∧
      s.Nrange = (if ntype = 0 ∨ ntype = 3 then 1 else if ntype = 1 then 3 / 2 else 2) := by
  have hc3 : cmtype = 0 ∨ cmtype = 1 ∨ cmtype = 2 := by omega
  have h4 : ntype = 0 ∨ ntype = 1 ∨ ntype = 2 ∨ ntype = 3 := by omega
  have hD := (dimOf_cases ny nz).1
  simp only [MPM.MPM, if_pos hc3]
  rcases h4 with rfl | rfl | rfl | rfl <;> rcases hD with h | h | h <;>
    simp [h, selectShape, ShapeName.family, ShapeName.dim, GradName.family, GradName.dim]

/-- Witness of `MPM_shape_selection`: the quadratic type on a two-dimensional
grid gets `ShapeQ2D` with `GradShapeL2D`. -/
theorem MPM_shape_selection_witness :
    (0 : ℕ) ≤ 2 ∧ (1 : ℕ) ≤ 3 ∧
    ∃ s, MPM.MPM 1 0 2 2 0 ![1, 1, 1] = .ok s ∧
      s.N.family = 1 ∧ s.N.dim = s.D ∧ s.GN.dim = s.D ∧
      (s.GN.family = 1 ↔ ¬((1 : ℕ) = 1 ∧ s.D = 2)) ∧
      ((1 : ℕ) = 1 ∧ s.D = 2 → s.N = .ShapeQ2D ∧ s.GN = .GradShapeL2D) ∧
      s.Nrange = (if (1 : ℕ) = 0 ∨ (1 : ℕ) = 3 then 1 else if (1 : ℕ) = 1 then 3 / 2 else 2) :=
  ⟨by decide, by decide, MPM_shape_selection 1 0 2 2 0 ![1, 1, 1] (by decide) (by decide)⟩

/-! ## The grid -/

theorem flat_lt (A B i j : ℕ) (hi : i < A) (hj : j < B) : i + j * A < A * B := by
  calc i + j * A < A + j * A := by omega
    _ = (j + 1) * A := by ring
    _ ≤ B * A := Nat.mul_le_mul_right A hj
    _ = A * B := by ring

theorem flat_div_mod (A B i j k : ℕ) (hi : i < A) (hj : j < B) :
    (i + j * A + k * (A * B)) / (A * B) = k ∧
    ((i + j * A + k * (A * B)) % (A * B)) / A = j ∧
    ((i + j * A + k * (A * B)) % (A * B)) % A = i := by
  have hA : 0 < A := by omega
  have hx := flat_lt A B i j hi hj
  have hAB : 0 < A * B := by omega
  have hmod : (i + j * A + k * (A * B)) % (A * B) = i + j * A := by
    rw [Nat.add_mul_mod_self_right, Nat.mod_eq_of_lt hx]
  refine ⟨?_, ?_, ?_⟩
  · rw [Nat.add_mul_div_right _ _ hAB, Nat.div_eq_of_lt hx, Nat.zero_add]
  · rw [hmod, Nat.add_mul_div_right _ _ hA, Nat.div_eq_of_lt hi, Nat.zero_add]
  · rw [hmod, Nat.add_mul_mod_self_right, Nat.mod_eq_of_lt hi]

theorem unflat (A B C n : ℕ) (hA : 0 < A) (hB : 0 < B) (hn : n < A * B * C) :
    (n % (A * B)) % A < A ∧ (n % (A * B)) / A < B ∧ n / (A * B) < C ∧
    (n % (A * B)) % A + (n % (A * B)) / A * A + n / (A * B) * (A * B) = n := by
  have hAB : 0 < A * B := Nat.mul_pos hA hB
  refine ⟨Nat.mod_lt _ hA, ?_, ?_, ?_⟩
  · rw [Nat.div_lt_iff_lt_mul hA, Nat.mul_comm B A]
    exact Nat.mod_lt _ hAB
  · rw [Nat.div_lt_iff_lt_mul hAB, Nat.mul_comm C (A * B)]
    exact hn
  · have h1 := Nat.mod_add_div (n % (A * B)) A
    have h2 := Nat.mod_add_div n (A * B)
    rw [Nat.mul_comm (n % (A * B) / A) A, Nat.mul_comm (n / (A * B)) (A * B), h1, h2]

theorem initLoop_spec (ctor : ℕ → Vector3d → MPM_NODE) (ns : List ℕ) (s : MPM)
    (hz : s.Ncz ≠ 0) (hy : s.Ncy ≠ 0) :
    initLoop ctor ns s =
      .ok { s with
        Ln := s.Ln ++ (List.enumFrom s.Ln.length ns).map fun pn =>
          { ctor 0 ![(((pn.2 % s.Ncz) % s.Ncy : ℕ) : ℚ), (((pn.2 % s.Ncz) / s.Ncy : ℕ) : ℚ),
              ((pn.2 / s.Ncz : ℕ) : ℚ)] with ID := pn.1 } } := by
  induction ns generalizing s with
  | nil => simp [initLoop]
  | cons n ns ih =>
    have hF : FindIndex s n = .ok ((n % s.Ncz) % s.Ncy, (n % s.Ncz) / s.Ncy, n / s.Ncz) := by
      simp [FindIndex, hz, hy]
    have h := ih (AddNode ctor s 0 ![(((n % s.Ncz) % s.Ncy : ℕ) : ℚ),
      (((n % s.Ncz) / s.Ncy : ℕ) : ℚ), ((n / s.Ncz : ℕ) : ℚ)]) hz hy
    rw [initLoop, hF]
    simp only []
    rw [h]
    simp [AddNode, List.enumFrom]

/-- C24. Flat node index round trip.  With `Ncy = Nx+1` and
`Ncz = (Nx+1)*(Ny+1)`: `FindIndex(i + j*Ncy + k*Ncz)` returns `(i,j,k)` for all
`i <= Nx`, `j <= Ny`, `k <= Nz`; for every `n < (Nx+1)*(Ny+1)*(Nz+1)`,
`FindIndex(n)` returns `(i,j,k)` within these bounds with
`i + j*Ncy + k*Ncz = n`; and when the number of nodes fits `size_t`, `Init`
returns with an empty `Lp` and exactly `(Nx+1)*(Ny+1)*(Nz+1)` nodes, node `n`
having `ID = n` and the position `FindIndex(n)` (for a node constructor that
stores the position it is given). -/
theorem FindIndex_Init (ctor : ℕ → Vector3d → MPM_NODE) (s : MPM)
    (hX : ∀ l x, (ctor l x).X = x) (hNcy : s.Ncy = s.Nx + 1)
    (hNcz : s.Ncz = (s.Nx + 1) * (s.Ny + 1)) :
    (∀ i j k, i ≤ s.Nx → j ≤ s.Ny → k ≤ s.Nz →
      FindIndex s (i + j * s.Ncy + k * s.Ncz) = .ok (i, j, k)) ∧
    (∀ n, n < (s.Nx + 1) * (s.Ny + 1) * (s.Nz + 1) →
      ∃ i j k, FindIndex s n = .ok (i, j, k) ∧ i ≤ s.Nx ∧ j ≤ s.Ny ∧ k ≤ s.Nz ∧
        i + j * s.Ncy + k * s.Ncz = n) ∧
    ((s.Nx + 1) * (s.Ny + 1) * (s.Nz + 1) < 2 ^ 64 →
      ∃ s1, Init ctor s = .ok s1 ∧ s1.Lp = [] ∧
        s1.Ln.length = (s.Nx + 1) * (s.Ny + 1) * (s.Nz + 1) ∧
        ∀ n, n < (s.Nx + 1) * (s.Ny + 1) * (s.Nz + 1) →
          ∃ nd i j k, s1.Ln[n]? = some nd ∧ FindIndex s n = .ok (i, j, k) ∧ nd.ID = n ∧
            nd.X = ![(i : ℚ), (j : ℚ), (k : ℚ)]) := by
  have hy : s.Ncy ≠ 0 := by omega
  have hz : s.Ncz ≠ 0 := by
    rw [hNcz]
    exact Nat.mul_ne_zero (by omega) (by omega)
  have hF : ∀ n, FindIndex s n =
      .ok ((n % s.Ncz) % s.Ncy, (n % s.Ncz) / s.Ncy, n / s.Ncz) := by
    intro n
    simp [FindIndex, hz, hy]
  refine ⟨?_, ?_, ?_⟩
  · intro i j k hi hj hk
    rw [hF, hNcz, hNcy]
    obtain ⟨h1, h2, h3⟩ := flat_div_mod (s.Nx + 1) (s.Ny + 1) i j k (by omega) (by omega)
    rw [h1, h2, h3]
  · intro n hn
    obtain ⟨h1, h2, h3, h4⟩ := unflat (s.Nx + 1) (s.Ny + 1) (s.Nz + 1) n (by omega) (by omega) hn
    refine ⟨_, _, _, hF n, ?_, ?_, ?_, ?_⟩
    · rw [hNcz, hNcy]; omega
    · rw [hNcz, hNcy]; omega
    · rw [hNcz]; omega
    · rw [hNcz, hNcy]; exact h4
  · intro hsize
    refine ⟨?s1, ?h, ?a, ?b, ?c⟩
    case h =>
      unfold Init
      rw [Nat.mod_eq_of_lt hsize]
      exact initLoop_spec ctor _ { s with Lp := [], Ln := [] } hz hy
    case a => rfl
    case b => simp
    case c =>
      intro n hn
      refine ⟨{ ctor 0 ![(((n % s.Ncz) % s.Ncy : ℕ) : ℚ), (((n % s.Ncz) / s.Ncy : ℕ) : ℚ),
          ((n / s.Ncz : ℕ) : ℚ)] with ID := n }, _, _, _, ?_, hF n, rfl, hX _ _⟩
      simp [List.getElem?_enumFrom, hn]

/-- Witness of `FindIndex_Init`: the grid of `exMPM` (`Nx = 2`, `Ny = Nz = 0`)
with the node constructor `exCtor`. -/
theorem FindIndex_Init_witness :
    (∀ l x, (exCtor l x).X = x) ∧ exMPM.Ncy = exMPM.Nx + 1 ∧
    exMPM.Ncz = (exMPM.Nx + 1) * (exMPM.Ny + 1) ∧
    (exMPM.Nx + 1) * (exMPM.Ny + 1) * (exMPM.Nz + 1) < 2 ^ 64 ∧
    FindIndex exMPM (2 + 0 * exMPM.Ncy + 0 * exMPM.Ncz) = .ok (2, 0, 0) ∧
    ∃ s1, Init exCtor exMPM = .ok s1 ∧ s1.Lp = [] ∧
      s1.Ln.length = (exMPM.Nx + 1) * (exMPM.Ny + 1) * (exMPM.Nz + 1) ∧
      ∀ n, n < (exMPM.Nx + 1) * (exMPM.Ny + 1) * (exMPM.Nz + 1) →
        ∃ nd i j k, s1.Ln[n]? = some nd ∧ FindIndex exMPM n = .ok (i, j, k) ∧ nd.ID = n ∧
          nd.X = ![(i : ℚ), (j : ℚ), (k : ℚ)] :=
  ⟨fun _ _ => rfl, rfl, rfl, by decide,
    (FindIndex_Init exCtor exMPM (fun _ _ => rfl) rfl rfl).1 2 0 0 (by decide) (by decide)
      (by decide),
    (FindIndex_Init exCtor exMPM (fun _ _ => rfl) rfl rfl).2.2 (by decide)⟩

/-! ## DeleteParticles -/

theorem toInt_small (n : ℕ) (h : n < 2 ^ 31) : toInt (n : ℤ) = (n : ℤ) := by
  unfold toInt
  have h1 : (n : ℤ) < 2 ^ 31 := by exact_mod_cast h
  omega

theorem DeleteParticles_getElem? (s : MPM) (n : ℕ) :
    (DeleteParticles s).Lp[n]? =
      ((s.Lp.filter fun p => !p.Removed)[n]?).map fun p => { p with ID := toInt n } := by
  unfold DeleteParticles
  simp only [List.getElem?_map, List.enum, List.getElem?_enumFrom]
  cases (s.Lp.filter fun p => !p.Removed)[n]? <;> simp

/-- C25. `DeleteParticles` compacts the particle list: afterwards `Lp` is the
sub-sequence, in the original order, of the particles of the previous `Lp`
whose `Removed` flag is false, changed only in `ID`; the particle at position
`n` has `ID = n` narrowed to `int`, which is `n` as long as the list has at most
`2^31` particles.  `AddParticle` on a list of fewer than `2^31` particles with
`Lp[p].ID == p` for all `p` gives a list with the same property. -/
theorem DeleteParticles_compacts (raw : MPM_PARTICLE) (s : MPM) (tag : ℤ) (x : Vector3d)
    (m young poisson : ℚ) :
    ((DeleteParticles s).Lp.map fun p => { p with ID := 0 }) =
      ((s.Lp.filter fun p => !p.Removed).map fun p => { p with ID := 0 }) ∧
    (∀ (n : ℕ) (q : MPM_PARTICLE), (DeleteParticles s).Lp[n]? = some q →
      q.Removed = false ∧ q.ID = toInt n ∧
        ∃ p, (s.Lp.filter fun p => !p.Removed)[n]? = some p ∧ q = { p with ID := toInt n }) ∧
    (s.Lp.length ≤ 2 ^ 31 → ∀ (n : ℕ) (q : MPM_PARTICLE),
      (DeleteParticles s).Lp[n]? = some q → q.ID = (n : ℤ)) ∧
    (s.Lp.length < 2 ^ 31 →
      (∀ (n : ℕ) (q : MPM_PARTICLE), s.Lp[n]? = some q → q.ID = (n : ℤ)) →
      ∀ (n : ℕ) (q : MPM_PARTICLE),
        (AddParticle raw s tag x m young poisson).Lp[n]? = some q → q.ID = (n : ℤ)) := by
  have hget : ∀ (n : ℕ) (q : MPM_PARTICLE), (DeleteParticles s).Lp[n]? = some q →
      ∃ p, (s.Lp.filter fun p => !p.Removed)[n]? = some p ∧ q = { p with ID := toInt n } := by
    intro n q hq
    rw [DeleteParticles_getElem?] at hq
    obtain ⟨p, hp, hpq⟩ := Option.map_eq_some'.mp hq
    exact ⟨p, hp, hpq.symm⟩
  refine ⟨?_, ?_, ?_, ?_⟩
  · apply List.ext_getElem?
    intro n
    rw [List.getElem?_map, DeleteParticles_getElem?, List.getElem?_map]
    cases (s.Lp.filter fun p => !p.Removed)[n]? <;> simp
  · intro n q hq
    obtain ⟨p, hp, rfl⟩ := hget n q hq
    have hmem := List.mem_filter.mp (List.getElem?_mem hp)
    refine ⟨?_, rfl, p, hp, rfl⟩
    simpa using hmem.2
  · intro hlen n q hq
    obtain ⟨p, hp, rfl⟩ := hget n q hq
    have hn : n < (s.Lp.filter fun p => !p.Removed).length := by
      by_contra hc
      rw [List.getElem?_eq_none (not_lt.mp hc)] at hp
      cases hp
    have hle := List.length_filter_le (fun p : MPM_PARTICLE => !p.Removed) s.Lp
    exact toInt_small n (by omega)
  · intro hlen hinv n q hq
    unfold AddParticle at hq
    by_cases hn : n < s.Lp.length
    · rw [List.getElem?_append_left hn] at hq
      exact hinv n q hq
    · rw [List.getElem?_append_right (not_lt.mp hn)] at hq
      have h0 : n - s.Lp.length = 0 := by
        by_contra hc
        rw [List.getElem?_eq_none (by simp; omega)] at hq
        cases hq
      rw [h0] at hq
      have hq1 := Option.some.inj hq
      rw [← hq1]
      have hnl : n = s.Lp.length := by omega
      rw [hnl]
      exact toInt_small _ hlen

/-- Witness of `DeleteParticles_compacts`: three particles, the second one
`Removed`; the two others stay, and the third moves to position `1`. -/
theorem DeleteParticles_compacts_witness :
    exRemoved.Lp.length ≤ 2 ^ 31 ∧ (DeleteParticles exRemoved).Lp.length = 2 ∧
    ∀ (n : ℕ) (q : MPM_PARTICLE), (DeleteParticles exRemoved).Lp[n]? = some q → q.ID = (n : ℤ) :=
  ⟨by decide, by simp [DeleteParticles, exRemoved, exParticle, exQuarter, MPM_PARTICLE.zero],
    (DeleteParticles_compacts MPM_PARTICLE.zero exRemoved 0 0 0 0 0).2.2.1 (by decide)⟩

/-! ## Mohr-Coulomb: the aborts -/

theorem scatterEntries_massProblem (Dt : ℚ) (p : MPM_PARTICLE) (es : List (ℕ × ℚ × Vector3d))
    (Ln : List MPM_NODE) (h : scatterEntries Dt p es Ln = .error .massProblem) :
    ∃ e ∈ es, e.2.1 * p.M < 0 := by
  induction es generalizing Ln with
  | nil => cases h
  | cons e es ih =>
    obtain ⟨id, n, gn⟩ := e
    unfold scatterEntries at h
    simp only at h
    split_ifs at h with hn
    · exact ⟨(id, n, gn), List.mem_cons_self _ _, hn⟩
    · split at h
      · cases h
      · obtain ⟨e, he, hneg⟩ := ih _ h
        exact ⟨e, List.mem_cons_of_mem _ he, hneg⟩

theorem scatterEntries_total (Dt : ℚ) (p : MPM_PARTICLE) (es : List (ℕ × ℚ × Vector3d))
    (Ln : List MPM_NODE) (hid : ∀ e ∈ es, e.1 < Ln.length) :
    (∃ Ln1, scatterEntries Dt p es Ln = .ok Ln1) ∨
      scatterEntries Dt p es Ln = .error .massProblem := by
  induction es generalizing Ln with
  | nil => exact Or.inl ⟨Ln, rfl⟩
  | cons e es ih =>
    obtain ⟨id, n, gn⟩ := e
    have h0 : id < Ln.length := hid (id, n, gn) (List.mem_cons_self _ _)
    unfold scatterEntries
    simp only
    split_ifs with hn
    · exact Or.inr rfl
    · rw [List.getElem?_eq_getElem h0]
      simp only
      apply ih
      intro e he
      rw [List.length_set]
      exact hid e (List.mem_cons_of_mem _ he)

theorem scatterParticles_massProblem (sh : SHAPE) (s : MPM) (ps : List MPM_PARTICLE)
    (Ln : List MPM_NODE) (h : scatterParticles sh s ps Ln = .error .massProblem) :
    ∃ p ∈ ps, ∃ e ∈ entries (CalNGN sh s p), e.2.1 * p.M < 0 := by
  induction ps generalizing Ln with
  | nil => cases h
  | cons p ps ih =>
    unfold scatterParticles at h
    split at h
    · next e he =>
      cases h
      obtain ⟨e1, he1, hneg⟩ := scatterEntries_massProblem _ _ _ _ he
      exact ⟨p, List.mem_cons_self _ _, e1, he1, hneg⟩
    · next Ln1 h1 =>
      split at h
      · next e he =>
        cases h
        obtain ⟨q, hq, e1, he1, hneg⟩ := ih _ he
        exact ⟨q, List.mem_cons_of_mem _ hq, e1, he1, hneg⟩
      · cases h

theorem scatterParticles_total (sh : SHAPE) (s : MPM) (ps : List MPM_PARTICLE)
    (Ln : List MPM_NODE)
    (hid : ∀ p ∈ ps, ∀ e ∈ entries (CalNGN sh s p), e.1 < Ln.length) :
    (∃ r, scatterParticles sh s ps Ln = .ok r) ∨
      scatterParticles sh s ps Ln = .error .massProblem := by
  induction ps generalizing Ln with
  | nil => exact Or.inl ⟨_, rfl⟩
  | cons p ps ih =>
    unfold scatterParticles
    rcases scatterEntries_total s.Dt (CalNGN sh s p) (entries (CalNGN sh s p)) Ln
      (hid p (List.mem_cons_self _ _)) with ⟨Ln1, h1⟩ | h1
    · rw [h1]
      simp only
      have hl := (scatterEntries_spec _ _ _ _ _ h1).2.1
      rcases ih Ln1 (fun q hq e he => by
        rw [hl]; exact hid q (List.mem_cons_of_mem _ hq) e he) with ⟨⟨ps1, Ln2⟩, h2⟩ | h2
      · rw [h2]
        exact Or.inl ⟨_, rfl⟩
      · rw [h2]
        exact Or.inr rfl
    · rw [h1]
      exact Or.inr rfl

theorem resetNodes_not_mass (ids : List ℕ) (Ln : List MPM_NODE) :
    resetNodes ids Ln ≠ .error .massProblem := by
  induction ids generalizing Ln with
  | nil => intro h; cases h
  | cons id ids ih =>
    unfold resetNodes
    split
    · intro h; cases h
    · exact ih _

/-- C29. The scatter aborts with "mass problem" only if some particle has an
influence entry with `w*M < 0`, and, when the previous active nodes and all
influence nodes exist, exactly in that case.  Since `CalNGN` stores only weights
`> 0`, such an entry exists exactly when a particle with a non-empty influence
list has negative mass, so the abort never happens when every particle mass is
non-negative. -/
theorem ParticleToNode_massProblem (sh : SHAPE) (sched : ℕ → ℕ) (s : MPM) :
    (ParticleToNode sh sched s = .error .massProblem →
      ∃ p ∈ s.Lp, ∃ e ∈ entries (CalNGN sh s p), e.2.1 * p.M < 0) ∧
    ((∀ id ∈ s.LAn, id < s.Ln.length) →
      (∀ p ∈ s.Lp, ∀ id ∈ (CalNGN sh s p).Lni, id < s.Ln.length) →
      (ParticleToNode sh sched s = .error .massProblem ↔
        ∃ p ∈ s.Lp, ∃ e ∈ entries (CalNGN sh s p), e.2.1 * p.M < 0)) ∧
    ((∃ p ∈ s.Lp, ∃ e ∈ entries (CalNGN sh s p), e.2.1 * p.M < 0) ↔
      ∃ p ∈ s.Lp, (CalNGN sh s p).Lni ≠ [] ∧ p.M < 0) ∧
    ((∀ p ∈ s.Lp, 0 ≤ p.M) → ParticleToNode sh sched s ≠ .error .massProblem) := by
  have hforward : ParticleToNode sh sched s = .error .massProblem →
      ∃ p ∈ s.Lp, ∃ e ∈ entries (CalNGN sh s p), e.2.1 * p.M < 0 := by
    intro h
    unfold ParticleToNode at h
    split at h
    · next e he =>
      cases h
      exact absurd he (resetNodes_not_mass _ _)
    · next Ln0 h0 =>
      split at h
      · next e he =>
        cases h
        exact scatterParticles_massProblem sh s s.Lp Ln0 he
      · cases h
  have hweights : (∃ p ∈ s.Lp, ∃ e ∈ entries (CalNGN sh s p), e.2.1 * p.M < 0) ↔
      ∃ p ∈ s.Lp, (CalNGN sh s p).Lni ≠ [] ∧ p.M < 0 := by
    constructor
    · rintro ⟨p, hp, e, he, hneg⟩
      have hpos := CalNGN_pos sh s p e he
      refine ⟨p, hp, ?_, ?_⟩
      · rw [← (CalNGN_weights sh s p).2.2]
        intro hnil
        rw [List.map_eq_nil_iff] at hnil
        rw [hnil] at he
        cases he
      · by_contra hc
        exact absurd hneg (not_lt.mpr (mul_nonneg hpos.le (not_lt.mp hc)))
    · rintro ⟨p, hp, hne, hM⟩
      rw [← (CalNGN_weights sh s p).2.2] at hne
      cases hes : entries (CalNGN sh s p) with
      | nil => rw [hes] at hne; exact absurd rfl hne
      | cons e es =>
        have he : e ∈ entries (CalNGN sh s p) := by rw [hes]; exact List.mem_cons_self _ _
        exact ⟨p, hp, e, he, mul_neg_of_pos_of_neg (CalNGN_pos sh s p e he) hM⟩
  refine ⟨hforward, ?_, hweights, ?_⟩
  · intro hLAn hid
    refine ⟨hforward, ?_⟩
    rintro ⟨p, hp, e, he, hneg⟩
    obtain ⟨Ln0, h0⟩ := resetNodes_ok s.LAn s.Ln hLAn
    have hl0 := (resetNodes_spec _ _ _ h0).2.1
    have hval : ∀ p ∈ s.Lp, ∀ e ∈ entries (CalNGN sh s p), e.1 < Ln0.length := by
      intro p hp e he
      rw [hl0]
      refine hid p hp e.1 ?_
      rw [← (CalNGN_weights sh s p).2.2]
      exact List.mem_map_of_mem _ he
    unfold ParticleToNode
    rw [h0]
    simp only
    rcases scatterParticles_total sh s s.Lp Ln0 hval with ⟨⟨ps1, Ln1⟩, h1⟩ | h1
    · exfalso
      obtain ⟨hps, hnn, -⟩ := scatterParticles_spec sh s s.Lp ps1 Ln0 Ln1 h1
      have hmem : CalNGN sh s p ∈ ps1 := by
        rw [hps]
        exact List.mem_map_of_mem _ hp
      exact absurd hneg (not_lt.mpr (hnn _ hmem e he).1)
    · rw [h1]
  · intro hM h
    obtain ⟨p, hp, e, he, hneg⟩ := hforward h
    exact absurd hneg (not_lt.mpr (mul_nonneg (CalNGN_pos sh s p e he).le (hM p hp)))

/-- Witness of `ParticleToNode_massProblem`: the example solver `exMPM`, whose
particle has mass `2`, does not abort with "mass problem". -/
theorem ParticleToNode_massProblem_witness :
    (∀ id ∈ exMPM.LAn, id < exMPM.Ln.length) ∧
    (∀ p ∈ exMPM.Lp, ∀ id ∈ (CalNGN exShape exMPM p).Lni, id < exMPM.Ln.length) ∧
    (∀ p ∈ exMPM.Lp, 0 ≤ p.M) ∧
    ParticleToNode exShape (fun _ => 0) exMPM ≠ .error .massProblem ∧
    (ParticleToNode exShape (fun _ => 0) exMPM = .error .massProblem ↔
      ∃ p ∈ exMPM.Lp, ∃ e ∈ entries (CalNGN exShape exMPM p), e.2.1 * p.M < 0) := by
  have hLAn : ∀ id ∈ exMPM.LAn, id < exMPM.Ln.length := by simp [exMPM]
  have hM : ∀ p ∈ exMPM.Lp, 0 ≤ p.M := by simp [exMPM, exParticle]
  exact ⟨hLAn, exMPM_ids, hM,
    (ParticleToNode_massProblem exShape (fun _ => 0) exMPM).2.2.2 hM,
    (ParticleToNode_massProblem exShape (fun _ => 0) exMPM).2.1 hLAn exMPM_ids⟩

/-! ## CalVOnNode: damping -/

theorem resolveNode_noBC (bc : NODE_BC) (sqrt : ℚ → ℚ) (Dt Dc : ℚ) (nd : MPM_NODE)
    (hM : nd.M ≠ 0) (hB : nd.BCTypes = []) :
    resolveNode bc sqrt Dt Dc nd =
      .ok { nd with
        F := nd.F - (Dc * norm sqrt nd.F) • normalized sqrt nd.Mv
        Mv := nd.Mv - Dt • ((Dc * norm sqrt nd.F) • normalized sqrt nd.Mv)
        V := if nd.M < 1 / 10 ^ 12 then 0
          else fun i => (nd.Mv - Dt • ((Dc * norm sqrt nd.F) • normalized sqrt nd.Mv)) i / nd.M } := by
  unfold resolveNode
  rw [if_neg hM]
  simp only [hB, List.length_nil, List.range_zero, applyBCs]
  split_ifs <;> rfl

theorem resolveNode_zeroMass (bc : NODE_BC) (sqrt : ℚ → ℚ) (Dt Dc : ℚ) (nd : MPM_NODE)
    (hM : nd.M = 0) : resolveNode bc sqrt Dt Dc nd = .ok { nd with V := 0 } := by
  unfold resolveNode
  rw [if_pos hM]

theorem resolveNodes_get (bc : NODE_BC) (sqrt : ℚ → ℚ) (Dt Dc : ℚ) (ids : List ℕ)
    (Ln Ln1 : List MPM_NODE) (h : resolveNodes bc sqrt Dt Dc ids Ln = .ok Ln1)
    (hnd : ids.Nodup) :
    (∀ id ∈ ids, ∃ nd nd1, Ln[id]? = some nd ∧ resolveNode bc sqrt Dt Dc nd = .ok nd1 ∧
      Ln1[id]? = some nd1) ∧
    (∀ id, id ∉ ids → Ln1[id]? = Ln[id]?) ∧ Ln1.length = Ln.length := by
  induction ids generalizing Ln with
  | nil =>
    cases h
    exact ⟨fun id hid => (by cases hid), fun _ _ => rfl, rfl⟩
  | cons id0 ids ih =>
    unfold resolveNodes at h
    split at h
    · cases h
    · next nd h0 =>
      split at h
      · cases h
      · next nd1 h1 =>
        obtain ⟨hnot, hnd1⟩ := List.nodup_cons.mp hnd
        obtain ⟨ha, hb, hc⟩ := ih _ h hnd1
        have hlt : id0 < Ln.length := by
          by_contra hc1
          rw [List.getElem?_eq_none (not_lt.mp hc1)] at h0
          cases h0
        refine ⟨?_, ?_, ?_⟩
        · intro id hid
          rcases List.mem_cons.mp hid with rfl | hid
          · refine ⟨nd, nd1, h0, h1, ?_⟩
            rw [hb _ hnot, List.getElem?_set_self hlt]
          · obtain ⟨x, x1, hx, hr, hx1⟩ := ha id hid
            have hne : id0 ≠ id := fun e => hnot (e ▸ hid)
            rw [List.getElem?_set_ne hne] at hx
            exact ⟨x, x1, hx, hr, hx1⟩
        · intro id hid
          have hne : id0 ≠ id := fun e => hid (e ▸ List.mem_cons_self _ _)
          rw [hb id (fun hm => hid (List.mem_cons_of_mem _ hm)), List.getElem?_set_ne hne]
        · rw [hc, List.length_set]

theorem resolveNodes_noBC_ok (bc : NODE_BC) (sqrt : ℚ → ℚ) (Dt Dc : ℚ) (ids : List ℕ)
    (Ln : List MPM_NODE) (hid : ∀ id ∈ ids, id < Ln.length)
    (hB : ∀ (id : ℕ) (nd : MPM_NODE), Ln[id]? = some nd → id ∈ ids → nd.BCTypes = []) :
    ∃ Ln1, resolveNodes bc sqrt Dt Dc ids Ln = .ok Ln1 := by
  induction ids generalizing Ln with
  | nil => exact ⟨Ln, rfl⟩
  | cons id0 ids ih =>
    have h0 := hid id0 (List.mem_cons_self _ _)
    have hb0 := hB id0 Ln[id0] (List.getElem?_eq_getElem h0) (List.mem_cons_self _ _)
    have hres : ∃ nd1, resolveNode bc sqrt Dt Dc Ln[id0] = .ok nd1 ∧ nd1.BCTypes = [] := by
      by_cases hM : Ln[id0].M = 0
      · exact ⟨_, resolveNode_zeroMass bc sqrt Dt Dc _ hM, hb0⟩
      · exact ⟨_, resolveNode_noBC bc sqrt Dt Dc _ hM hb0, hb0⟩
    obtain ⟨nd1, hr, hb1⟩ := hres
    obtain ⟨Ln1, hL⟩ := ih (Ln.set id0 nd1)
      (fun id hid1 => by rw [List.length_set]; exact hid id (List.mem_cons_of_mem _ hid1))
      (fun id nd hnd hin => by
        by_cases he : id0 = id
        · subst he
          rw [List.getElem?_set_self h0] at hnd
          rw [← Option.some.inj hnd]
          exact hb1
        · rw [List.getElem?_set_ne he] at hnd
          exact hB id nd hnd (List.mem_cons_of_mem _ hin))
    exact ⟨Ln1, by simp [resolveNodes, List.getElem?_eq_getElem h0, hr, hL]⟩

theorem dotProduct_self_pos (v : Vector3d) (h : v ≠ 0) : 0 < Matrix.dotProduct v v := by
  have h0 : 0 ≤ Matrix.dotProduct v v := by
    unfold Matrix.dotProduct
    exact Finset.sum_nonneg fun i _ => mul_self_nonneg (v i)
  rcases h0.lt_or_eq with h1 | h1
  · exact h1
  · exact absurd (Matrix.dotProduct_self_eq_zero.mp h1.symm) h

theorem normalized_zero (sqrt : ℚ → ℚ) : normalized sqrt 0 = 0 := by
  unfold normalized
  simp

/-- C26 (amended). For every node that is listed (once) in `LAn`, has nonzero
mass and no boundary condition, `CalVOnNode` computes
`fdamp = Dc*|F|*Mv.normalized()` (`Mv/|Mv|` for nonzero `Mv`, the zero vector
otherwise), replaces `F` by `F - fdamp` and `Mv` by `Mv - fdamp*Dt`, and sets
`V = Mv/M` if the mass is at least `1e-12` and `V = 0` if it is below; with
`Dc = 0` force and momentum are unchanged.  The call returns when the active
nodes exist and have no boundary condition. -/
theorem CalVOnNode_damping (bc : NODE_BC) (sqrt : ℚ → ℚ) (s : MPM) (hnd : s.LAn.Nodup) :
    (∀ s1, CalVOnNode bc sqrt s = .ok s1 →
      ∀ id ∈ s.LAn, ∀ nd : MPM_NODE, s.Ln[id]? = some nd → nd.M ≠ 0 → nd.BCTypes = [] →
        ∃ nd1 : MPM_NODE, s1.Ln[id]? = some nd1 ∧
          nd1.F = nd.F - (s.Dc * norm sqrt nd.F) • normalized sqrt nd.Mv ∧
          nd1.Mv = nd.Mv - s.Dt • ((s.Dc * norm sqrt nd.F) • normalized sqrt nd.Mv) ∧
          (1 / 10 ^ 12 ≤ nd.M → nd1.V = fun i => nd1.Mv i / nd.M) ∧
          (nd.M < 1 / 10 ^ 12 → nd1.V = 0) ∧
          (nd.Mv ≠ 0 → normalized sqrt nd.Mv = fun i => nd.Mv i / norm sqrt nd.Mv) ∧
          (nd.Mv = 0 → (s.Dc * norm sqrt nd.F) • normalized sqrt nd.Mv = 0) ∧
          (s.Dc = 0 → nd1.F = nd.F ∧ nd1.Mv = nd.Mv)) ∧
    ((∀ id ∈ s.LAn, id < s.Ln.length) →
      (∀ (id : ℕ) (nd : MPM_NODE), s.Ln[id]? = some nd → id ∈ s.LAn → nd.BCTypes = []) →
      ∃ s1, CalVOnNode bc sqrt s = .ok s1) := by
  constructor
  · intro s1 h id hid nd hnd0 hM hB
    unfold CalVOnNode at h
    split at h
    · cases h
    · next Ln1 hL =>
      cases h
      obtain ⟨x, x1, hx, hr, hx1⟩ := (resolveNodes_get _ _ _ _ _ _ _ hL hnd).1 id hid
      rw [hnd0] at hx
      have hxe : x = nd := (Option.some.inj hx).symm
      subst hxe
      rw [resolveNode_noBC bc sqrt s.Dt s.Dc x hM hB] at hr
      have hr1 := Option.some.inj (congrArg Except.toOption hr)
      refine ⟨x1, hx1, ?_, ?_, ?_, ?_, ?_, ?_, ?_⟩
      · rw [← hr1]
      · rw [← hr1]
      · intro hge
        rw [← hr1]
        simp only [if_neg (not_lt.mpr hge)]
      · intro hlt
        rw [← hr1]
        simp only [if_pos hlt]
      · intro hne
        unfold normalized norm
        rw [if_pos (dotProduct_self_pos _ hne)]
      · intro hz
        rw [hz, normalized_zero, smul_zero]
      · intro hDc
        rw [← hr1]
        simp [hDc]
  · intro hid hB
    obtain ⟨Ln1, hL⟩ := resolveNodes_noBC_ok bc sqrt s.Dt s.Dc s.LAn s.Ln hid hB
    exact ⟨{ s with Ln := Ln1 }, by simp [CalVOnNode, hL]⟩

/-- Witness of `CalVOnNode_damping`: the solver `exDamp`; the call returns and
its active nodes are damped as stated. -/
theorem CalVOnNode_damping_witness :
    exDamp.LAn.Nodup ∧ (∀ id ∈ exDamp.LAn, id < exDamp.Ln.length) ∧
    (∀ (id : ℕ) (nd : MPM_NODE), exDamp.Ln[id]? = some nd → id ∈ exDamp.LAn →
      nd.BCTypes = []) ∧
    ∃ s1, CalVOnNode exBC exSqrt exDamp = .ok s1 ∧
      ∀ id ∈ exDamp.LAn, ∀ nd : MPM_NODE, exDamp.Ln[id]? = some nd → nd.M ≠ 0 →
        nd.BCTypes = [] →
        ∃ nd1 : MPM_NODE, s1.Ln[id]? = some nd1 ∧
          nd1.F = nd.F - (exDamp.Dc * norm exSqrt nd.F) • normalized exSqrt nd.Mv ∧
          nd1.Mv = nd.Mv - exDamp.Dt • ((exDamp.Dc * norm exSqrt nd.F) • normalized exSqrt nd.Mv) ∧
          (1 / 10 ^ 12 ≤ nd.M → nd1.V = fun i => nd1.Mv i / nd.M) ∧
          (nd.M < 1 / 10 ^ 12 → nd1.V = 0) ∧
          (nd.Mv ≠ 0 → normalized exSqrt nd.Mv = fun i => nd.Mv i / norm exSqrt nd.Mv) ∧
          (nd.Mv = 0 → (exDamp.Dc * norm exSqrt nd.F) • normalized exSqrt nd.Mv = 0) ∧
          (exDamp.Dc = 0 → nd1.F = nd.F ∧ nd1.Mv = nd.Mv) := by
  have hnd : exDamp.LAn.Nodup := by simp [exDamp, exResolve]
  have hid : ∀ id ∈ exDamp.LAn, id < exDamp.Ln.length := by simp [exDamp, exResolve]
  have hB : ∀ (id : ℕ) (nd : MPM_NODE), exDamp.Ln[id]? = some nd → id ∈ exDamp.LAn →
      nd.BCTypes = [] := by
    intro id nd hnd1 hin
    simp only [exDamp, exResolve, List.mem_cons, List.mem_singleton, List.not_mem_nil,
      or_false] at hin
    rcases hin with rfl | rfl
    · simp [exDamp, exNode] at hnd1
      rw [← hnd1]
    · simp [exDamp, exNode] at hnd1
      rw [← hnd1]
  obtain ⟨s1, h1⟩ := (CalVOnNode_damping exBC exSqrt exDamp hnd).2 hid hB
  exact ⟨hnd, hid, hB, s1, h1, (CalVOnNode_damping exBC exSqrt exDamp hnd).1 s1 h1⟩

/-- C26 (counterexample). Node `1` of the solver `exResolve` is active, has the
nonzero mass `1e-13`, momentum `(1,0,0)` and no boundary condition; `CalVOnNode`
returns and leaves it with `V = 0`, whereas `Mv/M` has first component
`1e13`. -/
theorem CalVOnNode_small_mass_counterexample :
    1 ∈ exResolve.LAn ∧
    ∃ nd : MPM_NODE, exResolve.Ln[1]? = some nd ∧ nd.M ≠ 0 ∧ nd.BCTypes = [] ∧
      ∃ s1 nd1, CalVOnNode exBC exSqrt exResolve = .ok s1 ∧ s1.Ln[1]? = some nd1 ∧
        nd1.V = 0 ∧ nd1.Mv 0 / nd1.M = 10 ^ 13 := by
  have hM : ({ exNode 1 1 with M := 1 / 10 ^ 13, Mv := ![1, 0, 0] } : MPM_NODE).M ≠ 0 := by
    norm_num
  refine ⟨by simp [exResolve], { exNode 1 1 with M := 1 / 10 ^ 13, Mv := ![1, 0, 0] }, rfl, hM,
    rfl, ?_⟩
  obtain ⟨Ln1, hL⟩ := resolveNodes_ok exBC exBC_KeepsBCs exSqrt exResolve.Dt exResolve.Dc
    exResolve.LAn exResolve.Ln exResolve_NormsInRange
  have hnd : exResolve.LAn.Nodup := by simp [exResolve]
  obtain ⟨x, x1, hx, hr, hx1⟩ := (resolveNodes_get _ _ _ _ _ _ _ hL hnd).1 1 (by simp [exResolve])
  have hxe : x = { exNode 1 1 with M := 1 / 10 ^ 13, Mv := ![1, 0, 0] } :=
    (Option.some.inj hx).symm
  subst hxe
  rw [resolveNode_noBC exBC exSqrt _ _ _ hM rfl] at hr
  have hr1 := Option.some.inj (congrArg Except.toOption hr)
  refine ⟨{ exResolve with Ln := Ln1 }, x1, by simp [CalVOnNode, hL], hx1, ?_, ?_⟩
  · rw [← hr1]
    norm_num [exNode]
  · rw [← hr1]
    norm_num [exNode, exResolve, exMPM]

/-! ## Stress symmetry -/

theorem exStress_elastic_run (v : Vector3d) (p : MPM_PARTICLE) (hi : p.Lni = [0])
    (hg : p.LnGN = [![1, 0, 0]]) :
    ∃ s1 q, CalStressOnParticleElastic exSqrt (exStress v 0 p) = .ok s1 ∧
      s1.Lp = [q] ∧ q.L = Matrix.vecMulVec ![1, 0, 0] v ∧
      stressElastic exSqrt 2 (exStress v 0 p).Ln p = .ok q := by
  obtain ⟨s1, h⟩ := CalStressOnParticleElastic_ok exSqrt (exStress v 0 p)
    (exStress_valid v 0 p hi hg)
  have hF := (CalStressOnParticleElastic_spec _ _ _ h).2
  have hLp : (exStress v 0 p).Lp = [p] := rfl
  have hDt : (exStress v 0 p).Dt = 2 := rfl
  rw [hLp, hDt] at hF
  obtain ⟨q, hs, hq⟩ := forall₂_singleton _ _ _ hF
  exact ⟨s1, q, h, hs, exGrad_L v 0 p q hi hg (stressElastic_spec _ _ _ _ _ hq).1, hq⟩

theorem spin_correction_antisymm (S w : Matrix3d) (hS : S.transpose = S)
    (hw : w.transpose = -w) :
    (w * S - S * w.transpose).transpose = -(w * S - S * w.transpose) := by
  rw [Matrix.transpose_sub, Matrix.transpose_mul, Matrix.transpose_mul,
    Matrix.transpose_transpose, hS, hw]
  simp only [Matrix.neg_mul, Matrix.mul_neg, sub_neg_eq_add, neg_add_rev, neg_neg]
  abel

/-- C27. The elastic step does not keep the stress symmetric.  The example
particle carries the symmetric stress `diag(5,0,0)`; with `Dt = 2`, `Mu = La = 1`
and the velocity gradient `L = g vᵀ`, `g = (1,0,0)`, `v = (1,1,0)`,
`CalStressOnParticleElastic` returns with `S(0,1) = 7` and `S(1,0) = -3`: the
correction `w*S - S*wᵀ` of the code is antisymmetric for a symmetric `S`. -/
theorem CalStressOnParticleElastic_breaks_symmetry :
    exStressed.S.transpose = exStressed.S ∧
    ∃ s1 q, CalStressOnParticleElastic exSqrt (exStress ![1, 1, 0] 0 exStressed) = .ok s1 ∧
      s1.Lp = [q] ∧ q.S 0 1 = 7 ∧ q.S 1 0 = -3 := by
  refine ⟨?_, ?_⟩
  · simp [exStressed]
  · obtain ⟨s1, q, h, hLp, hL, hq⟩ := exStress_elastic_run ![1, 1, 0] exStressed rfl rfl
    refine ⟨s1, q, h, hLp, ?_, ?_⟩
    · rw [(stressElastic_spec _ _ _ _ _ hq).2.2.2.2.2, hL]
      simp [exStressed, exSolid, MPM_PARTICLE.zero, Matrix.mul_apply, Fin.sum_univ_three,
        Matrix.vecMulVec_apply, Matrix.trace, Matrix.one_apply]
      norm_num
    · rw [(stressElastic_spec _ _ _ _ _ hq).2.2.2.2.2, hL]
      simp [exStressed, exSolid, MPM_PARTICLE.zero, Matrix.mul_apply, Fin.sum_univ_three,
        Matrix.vecMulVec_apply, Matrix.trace, Matrix.one_apply]
      norm_num

/-! ## A single free particle -/

theorem pairsAt_single (p : MPM_PARTICLE) (id : ℕ) :
    pairsAt [p] id = ((entries p).filter fun e => e.1 = id).map fun e => (p, e) := by
  unfold pairsAt
  rw [pairs_cons]
  simp [pairs, List.filter_map, Function.comp_def]

theorem single_scatter (sh : SHAPE) (sched : ℕ → ℕ) (s s1 : MPM) (p : MPM_PARTICLE)
    (hLp : s.Lp = [p]) (hS : p.S = 0) (hFh : p.Fh = 0)
    (hzero : ∀ (id : ℕ) (nd : MPM_NODE), s.Ln[id]? = some nd → id ∉ s.LAn →
      nd.M = 0 ∧ nd.Mv = 0 ∧ nd.F = 0)
    (h : ParticleToNode sh sched s = .ok s1) :
    s1.Lp = [CalNGN sh s p] ∧
    ∀ (id : ℕ) (nd1 : MPM_NODE), s1.Ln[id]? = some nd1 →
      nd1.M = nodeWeight (CalNGN sh s p) id * p.M ∧
      nd1.F = (nodeWeight (CalNGN sh s p) id * p.M) • p.B ∧
      nd1.Mv = (nodeWeight (CalNGN sh s p) id * p.M) • (p.V + s.Dt • p.B) := by
  have hLp1 : s1.Lp = [CalNGN sh s p] := by
    rw [(ParticleToNode_spec sh sched s s1 h).1, hLp]
    rfl
  refine ⟨hLp1, ?_⟩
  intro id nd1 hnd1
  obtain ⟨hM, hF, hMv⟩ := ParticleToNode_nodes sh sched s s1 hzero h id nd1 hnd1
  rw [hLp1, pairsAt_single] at hM hF hMv
  have hM1 : nd1.M = nodeWeight (CalNGN sh s p) id * p.M := by
    rw [hM, List.map_map]
    unfold nodeWeight
    rw [← List.sum_map_mul_right]
    rfl
  have hF1 : nd1.F = (nodeWeight (CalNGN sh s p) id * p.M) • p.B := by
    rw [hF, List.map_map]
    unfold nodeWeight
    rw [← smul_smul, ← sum_map_smul_const, List.map_map]
    congr 1
    apply List.map_congr_left
    intro e _
    have h1 : (CalNGN sh s p).S = 0 := hS
    have h2 : (CalNGN sh s p).Fh = 0 := hFh
    have h3 : (CalNGN sh s p).M = p.M := rfl
    have h4 : (CalNGN sh s p).B = p.B := rfl
    simp [Function.comp_def, h1, h2, h3, h4]
  refine ⟨hM1, hF1, ?_⟩
  rw [hMv, hF1, List.map_map]
  have hsum : (((entries (CalNGN sh s p)).filter fun e => e.1 = id).map
      ((fun pe : MPM_PARTICLE × ℕ × ℚ × Vector3d => (pe.2.2.1 * pe.1.M) • pe.1.V) ∘
        fun e => (CalNGN sh s p, e))).sum = (nodeWeight (CalNGN sh s p) id * p.M) • p.V := by
    unfold nodeWeight
    rw [← smul_smul, ← sum_map_smul_const, List.map_map]
    congr 1
    apply List.map_congr_left
    intro e _
    have h3 : (CalNGN sh s p).M = p.M := rfl
    have h4 : (CalNGN sh s p).V = p.V := rfl
    simp [Function.comp_def, h3, h4, smul_smul]
  rw [hsum, smul_add, smul_comm]

theorem single_resolve (bc : NODE_BC) (sqrt : ℚ → ℚ) (s1 s2 : MPM) (ids : List ℕ) (M : ℚ)
    (B V : Vector3d) (W : ℕ → ℚ)
    (hnodes : ∀ (id : ℕ) (nd : MPM_NODE), s1.Ln[id]? = some nd →
      nd.M = W id * M ∧ nd.F = (W id * M) • B ∧ nd.Mv = (W id * M) • (V + s1.Dt • B) ∧
        nd.BCTypes = [])
    (hnd : s1.LAn.Nodup) (hsub : ∀ id ∈ ids, id ∈ s1.LAn) (hpos : ∀ id ∈ ids, 0 < W id * M)
    (hcase : (s1.Dc = 0 ∧ ∀ id ∈ ids, 1 / 10 ^ 12 ≤ W id * M) ∨ (B = 0 ∧ V = 0))
    (h : CalVOnNode bc sqrt s1 = .ok s2) :
    s2 = { s1 with Ln := s2.Ln } ∧ s2.Ln.length = s1.Ln.length ∧
    (∀ id ∈ ids, ∃ nd2 : MPM_NODE, s2.Ln[id]? = some nd2 ∧
      (fun i => nd2.F i / nd2.M) = B ∧ nd2.V = V + s1.Dt • B) ∧
    (∀ (id : ℕ) (nd2 : MPM_NODE), s2.Ln[id]? = some nd2 → nd2.BCTypes = []) ∧
    (∀ id, id ∉ s1.LAn → s2.Ln[id]? = s1.Ln[id]?) := by
  unfold CalVOnNode at h
  split at h
  · cases h
  · next Ln2 hL =>
    cases h
    obtain ⟨hin, hout, hlen⟩ := resolveNodes_get _ _ _ _ _ _ _ hL hnd
    refine ⟨rfl, hlen, ?_, ?_, hout⟩
    · intro id hid
      obtain ⟨x, x1, hx, hr, hx1⟩ := hin id (hsub id hid)
      obtain ⟨hM, hF, hMv, hB⟩ := hnodes id x hx
      have hWM := hpos id hid
      have hM0 : x.M ≠ 0 := by rw [hM]; exact hWM.ne'
      have hfd : (s1.Dc * norm sqrt x.F) • normalized sqrt x.Mv = 0 := by
        rcases hcase with ⟨hDc, -⟩ | ⟨hB0, hV0⟩
        · rw [hDc, zero_mul, zero_smul]
        · rw [hMv, hB0, hV0]
          simp [normalized_zero]
      rw [resolveNode_noBC bc sqrt s1.Dt s1.Dc x hM0 hB, hfd] at hr
      have hr1 := Option.some.inj (congrArg Except.toOption hr)
      refine ⟨x1, hx1, ?_, ?_⟩
      · rw [← hr1]
        funext i
        simp only [sub_zero, hF, hM, Pi.smul_apply, smul_eq_mul]
        field_simp
      · rw [← hr1]
        simp only [smul_zero, sub_zero]
        have hdiv : (fun i => x.Mv i / x.M) = V + s1.Dt • B := by
          funext i
          rw [hMv, hM]
          simp only [Pi.smul_apply, smul_eq_mul, Pi.add_apply]
          field_simp
        rcases hcase with ⟨-, hbig⟩ | ⟨hB0, hV0⟩
        · rw [if_neg (not_lt.mpr (by rw [hM]; exact hbig id hid)), hdiv]
        · split_ifs
          · rw [hB0, hV0]; simp
          · exact hdiv
    · intro id nd2 hnd2
      by_cases hid : id ∈ s1.LAn
      · obtain ⟨x, x1, hx, hr, hx1⟩ := hin id hid
        rw [hnd2] at hx1
        have he : nd2 = x1 := Option.some.inj hx1
        subst he
        have hB := (hnodes id x hx).2.2.2
        by_cases hM0 : x.M = 0
        · rw [resolveNode_zeroMass bc sqrt _ _ x hM0] at hr
          rw [← Option.some.inj (congrArg Except.toOption hr)]
          exact hB
        · rw [resolveNode_noBC bc sqrt _ _ x hM0 hB] at hr
          rw [← Option.some.inj (congrArg Except.toOption hr)]
          exact hB
      · rw [hout id hid] at hnd2
        exact (hnodes id nd2 hnd2).2.2.2

theorem gatherLoop_fields (Dt : ℚ) (Ln : List MPM_NODE) (es : List (ℕ × ℚ))
    (p q : MPM_PARTICLE) (h : gatherLoop Dt Ln es p = .ok q) :
    q = { p with V := q.V, X := q.X } := by
  induction es generalizing p with
  | nil =>
    cases h
    rfl
  | cons e es ih =>
    obtain ⟨id, n⟩ := e
    unfold gatherLoop at h
    split_ifs at h with hn
    · split at h
      · cases h
      · have h1 := ih _ h
        rw [h1]
    · exact ih p h

theorem gatherParticle_fields (Dt : ℚ) (Ln : List MPM_NODE) (p q : MPM_PARTICLE)
    (h : gatherParticle Dt Ln p = .ok q) :
    q = { p with DeltaX := 0, V := q.V, X := q.X } := by
  unfold gatherParticle at h
  simp only at h
  split_ifs at h with hF
  · cases h
    rfl
  · split at h
    · cases h
    · have h1 := gatherLoop_fields Dt Ln _ _ q h
      rw [h1]

theorem single_gather (Dt : ℚ) (Ln2 : List MPM_NODE) (p1 q1 : MPM_PARTICLE) (a c : Vector3d)
    (hFix : p1.FixV = false) (hlen : p1.Lni.length = p1.LnN.length)
    (hnodes : ∀ id ∈ p1.Lni, ∃ nd2 : MPM_NODE, Ln2[id]? = some nd2 ∧
      (fun i => nd2.F i / nd2.M) = a ∧ nd2.V = c)
    (hpos : ∀ w ∈ p1.LnN, 0 < w) (hq : gatherParticle Dt Ln2 p1 = .ok q1) :
    q1.V = p1.V + (p1.LnN.sum * Dt) • a ∧ q1.X = p1.X + (p1.LnN.sum * Dt) • c ∧
    q1 = { p1 with DeltaX := 0, V := q1.V, X := q1.X } := by
  have hidv : ∀ e ∈ List.zip p1.Lni p1.LnN, e.1 < Ln2.length := by
    intro e he
    obtain ⟨nd2, hnd2, -⟩ := hnodes e.1 (List.of_mem_zip he).1
    by_contra hc
    rw [List.getElem?_eq_none (not_lt.mp hc)] at hnd2
    cases hnd2
  obtain ⟨q, hq0, ⟨-, hfree⟩, -⟩ := gatherParticle_spec Dt Ln2 p1 (fun _ => hlen.le)
    (fun _ e he _ => hidv e he)
  rw [hq] at hq0
  have hqe : q = q1 := (Option.some.inj (congrArg Except.toOption hq0)).symm
  subst hqe
  obtain ⟨hV, hX⟩ := hfree hFix
  have hfil : ((List.zip p1.Lni p1.LnN).filter fun e => 0 < e.2) = List.zip p1.Lni p1.LnN := by
    rw [List.filter_eq_self]
    intro e he
    simpa using hpos e.2 (List.of_mem_zip he).2
  have hsnd : (List.zip p1.Lni p1.LnN).map (fun e => e.2) = p1.LnN := by
    have := List.map_snd_zip p1.Lni p1.LnN hlen.ge
    simpa using this
  have hacc : ∀ e ∈ List.zip p1.Lni p1.LnN, nodeAcc Ln2 e.1 = a ∧ nodeVel Ln2 e.1 = c := by
    intro e he
    obtain ⟨nd2, hnd2, ha, hc⟩ := hnodes e.1 (List.of_mem_zip he).1
    simp only [nodeAcc, nodeVel, hnd2]
    exact ⟨ha, hc⟩
  refine ⟨?_, ?_, gatherParticle_fields Dt Ln2 p1 q hq⟩
  · rw [hV, hfil]
    congr 1
    have : ((List.zip p1.Lni p1.LnN).map fun e => (e.2 * Dt) • nodeAcc Ln2 e.1) =
        (((List.zip p1.Lni p1.LnN).map fun e => e.2).map fun w => w • (Dt • a)) := by
      rw [List.map_map]
      apply List.map_congr_left
      intro e he
      simp [(hacc e he).1, smul_smul]
    rw [this, sum_map_smul_const, hsnd, smul_smul]
  · rw [hX, hfil]
    congr 1
    have : ((List.zip p1.Lni p1.LnN).map fun e => (e.2 * Dt) • nodeVel Ln2 e.1) =
        (((List.zip p1.Lni p1.LnN).map fun e => e.2).map fun w => w • (Dt • c)) := by
      rw [List.map_map]
      apply List.map_congr_left
      intro e he
      simp [(hacc e he).2, smul_smul]
    rw [this, sum_map_smul_const, hsnd, smul_smul]

theorem gradLoop_uniform (Ln : List MPM_NODE) (es : List (ℕ × Vector3d)) (L0 L1 : Matrix3d)
    (c : Vector3d) (hc : ∀ e ∈ es, ∃ nd : MPM_NODE, Ln[e.1]? = some nd ∧ nd.V = c)
    (h : gradLoop Ln es L0 = .ok L1) :
    L1 = L0 + Matrix.vecMulVec (es.map fun e => e.2).sum c := by
  induction es generalizing L0 with
  | nil =>
    cases h
    ext i j
    simp [Matrix.vecMulVec_apply]
  | cons e es ih =>
    obtain ⟨id, gn⟩ := e
    obtain ⟨nd, hnd, hV⟩ := hc (id, gn) (List.mem_cons_self _ _)
    unfold gradLoop at h
    rw [hnd] at h
    simp only at h
    rw [ih _ (fun e he => hc e (List.mem_cons_of_mem _ he)) h, hV, List.map_cons,
      List.sum_cons]
    ext i j
    simp only [Matrix.add_apply, Matrix.vecMulVec_apply, Pi.add_apply]
    ring

theorem stressElastic_fields (sqrt : ℚ → ℚ) (Dt : ℚ) (Ln : List MPM_NODE)
    (p q : MPM_PARTICLE) (h : stressElastic sqrt Dt Ln p = .ok q) :
    q.V = p.V ∧ q.X = p.X ∧ q.B = p.B ∧ q.Fh = p.Fh ∧ q.FixV = p.FixV ∧ q.M = p.M := by
  unfold stressElastic at h
  split at h
  · cases h
  · next p1 h1 =>
    have e1 := CalVGradLocal_spec Ln p p1 h1
    simp only at h
    rw [← Option.some.inj (congrArg Except.toOption h), e1]
    exact ⟨rfl, rfl, rfl, rfl, rfl, rfl⟩

theorem single_stress (sqrt : ℚ → ℚ) (Dt : ℚ) (Ln2 : List MPM_NODE) (q1 q : MPM_PARTICLE)
    (c : Vector3d) (hlen : q1.Lni.length = q1.LnGN.length)
    (hnodes : ∀ id ∈ q1.Lni, ∃ nd2 : MPM_NODE, Ln2[id]? = some nd2 ∧ nd2.V = c)
    (hzero : q1.LnGN.sum = 0 ∨ c = 0) (hS : q1.S = 0)
    (hq : stressElastic sqrt Dt Ln2 q1 = .ok q) :
    q.L = 0 ∧ q.S = 0 ∧ q.F = q1.F := by
  obtain ⟨hg, hF, -, -, -, hSq⟩ := stressElastic_spec sqrt Dt Ln2 q1 q hq
  have hL : q.L = 0 := by
    unfold CalVGradLocal at hg
    split at hg
    · cases hg
    · next es hes =>
      split at hg
      · cases hg
      · next L1 hL1 =>
        have hLq : L1 = q.L := congrArg MPM_PARTICLE.L
          (Option.some.inj (congrArg Except.toOption hg))
        unfold gradEntries at hes
        split_ifs at hes
        have hes1 : es = List.zip q1.Lni q1.LnGN :=
          (Option.some.inj (congrArg Except.toOption hes)).symm
        subst hes1
        have hsnd : (List.zip q1.Lni q1.LnGN).map (fun e => e.2) = q1.LnGN := by
          have := List.map_snd_zip q1.Lni q1.LnGN hlen.ge
          simpa using this
        have hv := gradLoop_uniform Ln2 _ 0 L1 c
          (fun e he => hnodes e.1 (List.of_mem_zip he).1) hL1
        rw [hsnd, zero_add] at hv
        rw [← hLq, hv]
        rcases hzero with h0 | h0
        · rw [h0]
          ext i j
          simp [Matrix.vecMulVec_apply]
        · rw [h0]
          ext i j
          simp [Matrix.vecMulVec_apply]
  refine ⟨hL, ?_, ?_⟩
  · rw [hSq, hL, hS]
    simp
  · rw [hF, hL]
    simp

theorem nodeWeight_pos (sh : SHAPE) (s : MPM) (p : MPM_PARTICLE) (id : ℕ)
    (h : id ∈ (CalNGN sh s p).Lni) : 0 < nodeWeight (CalNGN sh s p) id := by
  rw [← (CalNGN_weights sh s p).2.2] at h
  obtain ⟨e, he, rfl⟩ := List.mem_map.mp h
  unfold nodeWeight
  apply List.sum_pos
  · intro w hw
    obtain ⟨e1, he1, rfl⟩ := List.mem_map.mp hw
    exact CalNGN_pos sh s p e1 (List.mem_filter.mp he1).1
  · intro hnil
    rw [List.map_eq_nil_iff, List.filter_eq_nil_iff] at hnil
    exact hnil e he (by simp)

theorem nodeWeight_zero (sh : SHAPE) (s : MPM) (p : MPM_PARTICLE) (id : ℕ)
    (h : id ∉ (CalNGN sh s p).Lni) : nodeWeight (CalNGN sh s p) id = 0 := by
  unfold nodeWeight
  have : ((entries (CalNGN sh s p)).filter fun e => e.1 = id) = [] := by
    rw [List.filter_eq_nil_iff]
    intro e he hid
    apply h
    rw [← (CalNGN_weights sh s p).2.2]
    have h1 : e.1 = id := by simpa using hid
    rw [← h1]
    exact List.mem_map_of_mem _ he
  rw [this]
  rfl

theorem gatherParticles_single (Dt : ℚ) (Ln : List MPM_NODE) (p : MPM_PARTICLE)
    (qs : List MPM_PARTICLE) (h : gatherParticles Dt Ln [p] = .ok qs) :
    ∃ q, qs = [q] ∧ gatherParticle Dt Ln p = .ok q := by
  unfold gatherParticles at h
  split at h
  · cases h
  · next q hq =>
    simp only [gatherParticles] at h
    cases h
    exact ⟨q, rfl, hq⟩

theorem CalNGN_LnN_pos (sh : SHAPE) (s : MPM) (p : MPM_PARTICLE) :
    ∀ w ∈ (CalNGN sh s p).LnN, 0 < w := by
  intro w hw
  rw [← (CalNGN_weights sh s p).1] at hw
  obtain ⟨e, he, rfl⟩ := List.mem_map.mp hw
  exact CalNGN_pos sh s p e he

/-- One step of the MUSL loop on a single free, unstressed particle, when the
step returns: either there is no damping and the influence list is a partition
of unity, or the particle is at rest without body force. -/
theorem single_step (sh : SHAPE) (bc : NODE_BC) (m : LIBM)
    (eig : Matrix3d → Vector3d × Matrix3d) (sched : ℕ → ℕ) (s s4 : MPM) (p : MPM_PARTICLE)
    (hs : ∀ q, sched q < s.Nproc) (hinv : SingleFree s p)
    (hcase : (s.Dc = 0 ∧ PartitionOfUnity sh s) ∨ (p.B = 0 ∧ p.V = 0))
    (h : stepMUSL sh bc m eig sched s = .ok s4) :
    ∃ q, SingleFree s4 q ∧ q.V = p.V + s.Dt • p.B ∧
      q.X = p.X + s.Dt • (p.V + s.Dt • p.B) ∧ q.F = p.F ∧ q.B = p.B ∧ q.M = p.M ∧
      s4.Dt = s.Dt ∧ s4.Dc = s.Dc ∧ s4.Nproc = s.Nproc := by
  obtain ⟨hLp, hFix, hMpos, hS, hFh, hCM, hBC, hLAn, hzero⟩ := hinv
  have hpin : p ∈ s.Lp := by rw [hLp]; exact List.mem_singleton_self p
  unfold stepMUSL at h
  split at h
  · cases h
  · next s1 h1 =>
    split at h
    · cases h
    · next s2 h2 =>
      split at h
      · cases h
      · next s3 h3 =>
        -- the scatter
        obtain ⟨hs1, -, hval, hlen1, hall1⟩ := ParticleToNode_spec sh sched s s1 h1
        obtain ⟨hLp1, hnodes1⟩ := single_scatter sh sched s s1 p hLp hS hFh hzero h1
        obtain ⟨-, hnd1, hmem1, -⟩ := ParticleToNode_LAn sh sched s s1 hs h1
        have hDt1 : s1.Dt = s.Dt := by rw [hs1]
        have hDc1 : s1.Dc = s.Dc := by rw [hs1]
        have hCM1 : s1.CMType = s.CMType := by rw [hs1]
        have hNp1 : s1.Nproc = s.Nproc := by rw [hs1]
        have hBC1 : ∀ (id : ℕ) (nd : MPM_NODE), s1.Ln[id]? = some nd → nd.BCTypes = [] := by
          intro id nd hnd
          have hlt : id < s.Ln.length := by
            by_contra hc
            rw [List.getElem?_eq_none (by rw [hlen1]; exact not_lt.mp hc)] at hnd
            cases hnd
          have e := hall1 id s.Ln[id] (List.getElem?_eq_getElem hlt)
          rw [hnd] at e
          rw [Option.some.inj e]
          have hb := hBC s.Ln[id] (List.getElem_mem hlt)
          by_cases hin : id ∈ s.LAn <;> simp [accNode, hin, MPM_NODE.Reset, hb]
        have hmem : ∀ id, id ∈ s1.LAn ↔ id ∈ (CalNGN sh s p).Lni := by
          intro id
          rw [hmem1 id, hLp1]
          simp
        have hidv : ∀ id ∈ (CalNGN sh s p).Lni, id < s.Ln.length := by
          intro id hid
          rw [← (CalNGN_weights sh s p).2.2] at hid
          obtain ⟨e, he, rfl⟩ := List.mem_map.mp hid
          exact (hval p hpin e he).2
        -- the nodal velocities
        obtain ⟨hs2, hlen2, hres, hBC2, hout⟩ := single_resolve bc m.sqrt s1 s2
          (CalNGN sh s p).Lni p.M p.B p.V (nodeWeight (CalNGN sh s p))
          (fun id nd hnd => by
            obtain ⟨a, b, c⟩ := hnodes1 id nd hnd
            rw [hDt1]
            exact ⟨a, b, c, hBC1 id nd hnd⟩)
          hnd1 (fun id hid => (hmem id).mpr hid)
          (fun id hid => mul_pos (nodeWeight_pos sh s p id hid) hMpos)
          (by
            rcases hcase with ⟨hDc, hPoU⟩ | hrest
            · exact Or.inl ⟨by rw [hDc1]; exact hDc, (hPoU p hpin).2.2⟩
            · exact Or.inr hrest)
          h2
        rw [hDt1] at hres
        have hLp2 : s2.Lp = [CalNGN sh s p] := by rw [hs2]; exact hLp1
        have hDt2 : s2.Dt = s.Dt := by rw [hs2]; exact hDt1
        -- the gather
        unfold NodeToParticle at h3
        split at h3
        · cases h3
        · next Lp3 hg =>
          have hs3 := (Option.some.inj (congrArg Except.toOption h3)).symm
          rw [hLp2, hDt2] at hg
          obtain ⟨q1, hq1e, hq1⟩ := gatherParticles_single _ _ _ _ hg
          obtain ⟨hV1, hX1, hq1f⟩ := single_gather s.Dt s2.Ln (CalNGN sh s p) q1 p.B
            (p.V + s.Dt • p.B) hFix (by simp [CalNGN]) hres (CalNGN_LnN_pos sh s p) hq1
          have hq1Lni : q1.Lni = (CalNGN sh s p).Lni := by rw [hq1f]
          have hq1GN : q1.LnGN = (CalNGN sh s p).LnGN := by rw [hq1f]
          have hq1S : q1.S = 0 := by rw [hq1f]; exact hS
          have hq1F : q1.F = p.F := by rw [hq1f]; rfl
          have hq1B : q1.B = p.B := by rw [hq1f]; rfl
          have hq1Fh : q1.Fh = 0 := by rw [hq1f]; exact hFh
          have hq1Fix : q1.FixV = false := by rw [hq1f]; exact hFix
          have hq1M : q1.M = p.M := by rw [hq1f]; rfl
          have hV1' : q1.V = p.V + s.Dt • p.B := by
            rw [hV1]
            rcases hcase with ⟨-, hPoU⟩ | ⟨hB0, -⟩
            · rw [(hPoU p hpin).1, one_mul]
              rfl
            · rw [hB0]
              simp only [smul_zero, add_zero]
              rfl
          have hX1' : q1.X = p.X + s.Dt • (p.V + s.Dt • p.B) := by
            rw [hX1]
            rcases hcase with ⟨-, hPoU⟩ | ⟨hB0, hV0⟩
            · rw [(hPoU p hpin).1, one_mul]
              rfl
            · rw [hB0, hV0]
              simp only [smul_zero, add_zero]
              rfl
          -- the stress update
          have hCM3 : s3.CMType = 0 := by rw [hs3, hs2]; exact hCM1.trans hCM
          unfold constitutive at h
          rw [if_pos hCM3] at h
          obtain ⟨hs4, hF4⟩ := CalStressOnParticleElastic_spec m.sqrt s3 s4 h
          have hLp3 : s3.Lp = [q1] := by rw [hs3]; exact hq1e
          have hLn3 : s3.Ln = s2.Ln := by rw [hs3]
          have hDt3 : s3.Dt = s.Dt := by rw [hs3]; exact hDt2
          rw [hLp3, hLn3, hDt3] at hF4
          obtain ⟨q, hq4e, hq4⟩ := forall₂_singleton _ _ _ hF4
          obtain ⟨-, hSq, hFq⟩ := single_stress m.sqrt s.Dt s2.Ln q1 q (p.V + s.Dt • p.B)
            (by rw [hq1Lni, hq1GN]; simp [CalNGN])
            (fun id hid => by
              rw [hq1Lni] at hid
              obtain ⟨nd2, hnd2, -, hv⟩ := hres id hid
              exact ⟨nd2, hnd2, hv⟩)
            (by
              rcases hcase with ⟨-, hPoU⟩ | ⟨hB0, hV0⟩
              · exact Or.inl (by rw [hq1GN]; exact (hPoU p hpin).2.1)
              · exact Or.inr (by rw [hB0, hV0]; simp))
            hq1S hq4
          obtain ⟨fV, fX, fB, fFh, fFix, fM⟩ := stressElastic_fields m.sqrt s.Dt s2.Ln q1 q hq4
          have hLn4 : s4.Ln = s2.Ln := by rw [hs4]; exact hLn3
          have hLAn4 : s4.LAn = s1.LAn := by rw [hs4, hs3, hs2]
          refine ⟨q, ⟨hq4e, by rw [fFix]; exact hq1Fix, by rw [fM, hq1M]; exact hMpos, hSq,
            by rw [fFh]; exact hq1Fh, by rw [hs4]; exact hCM3, ?_, ?_, ?_⟩,
            by rw [fV]; exact hV1', by rw [fX]; exact hX1', by rw [hFq]; exact hq1F,
            by rw [fB]; exact hq1B, by rw [fM]; exact hq1M,
            by rw [hs4]; exact hDt3, by rw [hs4, hs3, hs2]; exact hDc1,
            by rw [hs4, hs3, hs2]; exact hNp1⟩
          · intro nd hnd
            rw [hLn4] at hnd
            obtain ⟨n, hn⟩ := List.getElem?_of_mem hnd
            exact hBC2 n nd hn
          · intro id hid
            rw [hLAn4] at hid
            rw [hLn4, hlen2, hlen1]
            exact hidv id ((hmem id).mp hid)
          · intro id nd hnd hid
            rw [hLAn4] at hid
            rw [hLn4, hout id hid] at hnd
            obtain ⟨a, b, c⟩ := hnodes1 id nd hnd
            have hw := nodeWeight_zero sh s p id (fun hc => hid ((hmem id).mpr hc))
            rw [hw, zero_mul] at a b c
            exact ⟨a, by rw [c, zero_smul], by rw [b, zero_smul]⟩

theorem stepMUSL_noBC_ok (sh : SHAPE) (bc : NODE_BC) (m : LIBM)
    (eig : Matrix3d → Vector3d × Matrix3d) (sched : ℕ → ℕ) (s : MPM)
    (hLAn : ∀ id ∈ s.LAn, id < s.Ln.length) (hid : InfluenceValid sh s)
    (hM : ∀ p ∈ s.Lp, 0 ≤ p.M) (hBC : ∀ nd ∈ s.Ln, nd.BCTypes = [])
    (hCM : s.CMType ≠ 1) :
    ∃ s1, stepMUSL sh bc m eig sched s = .ok s1 := by
  have hval := CalNGN_valid sh s s.Ln.length hM hid
  obtain ⟨s1, h1⟩ := ParticleToNode_ok sh sched s hLAn hval
  obtain ⟨hs1, -, -, hlen1, hall1⟩ := ParticleToNode_spec sh sched s s1 h1
  have hLp1 : s1.Lp = s.Lp.map (CalNGN sh s) := by rw [hs1]
  have hCM1 : s1.CMType = s.CMType := by rw [hs1]
  have hA1 : s1.LAn = buildLAn s.Nproc sched (s.Lp.map (CalNGN sh s)) := by rw [hs1]
  have hnd1 : s1.LAn.Nodup := by
    rw [hA1]
    exact (buildLAn_sorted _ _ _).imp fun hab => ne_of_lt hab
  have hBC1 : ∀ (id : ℕ) (nd : MPM_NODE), s1.Ln[id]? = some nd → nd.BCTypes = [] := by
    intro id nd hnd
    have hlt : id < s.Ln.length := by
      by_contra hc
      rw [List.getElem?_eq_none (by rw [hlen1]; exact not_lt.mp hc)] at hnd
      cases hnd
    have e := hall1 id s.Ln[id] (List.getElem?_eq_getElem hlt)
    rw [hnd] at e
    rw [Option.some.inj e]
    have hb := hBC s.Ln[id] (List.getElem_mem hlt)
    by_cases hin : id ∈ s.LAn <;> simp [accNode, hin, MPM_NODE.Reset, hb]
  have hLAn1 : ∀ id ∈ s1.LAn, id < s1.Ln.length := by
    intro id hidA
    rw [hA1] at hidA
    obtain ⟨q, hq, hidq⟩ := buildLAn_sub _ _ _ id hidA
    obtain ⟨p, hp, rfl⟩ := List.mem_map.mp hq
    rw [hlen1]
    exact hid p hp id hidq
  obtain ⟨Ln2, hL2⟩ := resolveNodes_noBC_ok bc m.sqrt s1.Dt s1.Dc s1.LAn s1.Ln hLAn1
    (fun id nd hnd _ => hBC1 id nd hnd)
  have hlen2 := (resolveNodes_get _ _ _ _ _ _ _ hL2 hnd1).2.2
  have h2 : CalVOnNode bc m.sqrt s1 = .ok { s1 with Ln := Ln2 } := by
    simp [CalVOnNode, hL2]
  obtain ⟨qs, hqs, -⟩ := gatherParticles_ok s1.Dt Ln2 (fun _ _ => True) s1.Lp
    (fun p1 hp1 => by
      rw [hLp1] at hp1
      obtain ⟨p, hp, rfl⟩ := List.mem_map.mp hp1
      obtain ⟨q, hq, -⟩ := gatherParticle_spec s1.Dt Ln2 (CalNGN sh s p)
        (fun _ => by simp [CalNGN])
        (fun _ e he _ => by
          rw [zip_CalNGN] at he
          obtain ⟨e1, he1, rfl⟩ := List.mem_map.mp he
          rw [hlen2, hlen1]
          exact (hval p hp e1 he1).2)
      exact ⟨q, hq, trivial⟩)
  have h3 : NodeToParticle { s1 with Ln := Ln2 } = .ok { s1 with Ln := Ln2, Lp := qs } := by
    simp [NodeToParticle, hqs]
  have hfr := gatherParticles_frame _ _ _ _ hqs
  have hgrad : ∀ q ∈ qs, q.Lni.length ≤ q.LnGN.length ∧ ∀ id ∈ q.Lni, id < Ln2.length := by
    intro q hq
    obtain ⟨p1, hp1, -, hLni, hLnGN⟩ := forall₂_mem_right _ _ hfr q hq
    rw [hLp1] at hp1
    obtain ⟨p, hp, rfl⟩ := List.mem_map.mp hp1
    rw [hLni, hLnGN]
    refine ⟨by simp [CalNGN], fun id hidq => ?_⟩
    rw [hlen2, hlen1]
    exact hid p hp id hidq
  have h4 : ∃ s4, constitutive m eig { s1 with Ln := Ln2, Lp := qs } = .ok s4 := by
    unfold constitutive
    split_ifs with c0 c1 c2
    · exact CalStressOnParticleElastic_ok m.sqrt _ hgrad
    · exact absurd (hCM1 ▸ c1) hCM
    · exact CalStressOnParticleNewtonian_ok m.sqrt _ hgrad
    · exact ⟨_, rfl⟩
  obtain ⟨s4, h4⟩ := h4
  exact ⟨s4, by simp [stepMUSL, h1, h2, h3, h4]⟩

/-- A run of the MUSL loop on a single free, unstressed particle, as long as
the influence nodes of every step exist: the velocity grows by `Dt*B` per step
and the position by `Dt` times the new velocity. -/
theorem single_run (sh : SHAPE) (bc : NODE_BC) (m : LIBM)
    (eig : Matrix3d → Vector3d × Matrix3d) (sched : ℕ → ℕ → ℕ) (ts : ℤ) (hts : ts ≠ 0)
    (n t : ℕ) (s : MPM) (p : MPM_PARTICLE) (hs : ∀ t q, sched t q < s.Nproc)
    (hinv : SingleFree s p)
    (hvalid : ∀ k < n, ∀ sk, loopMUSL sh bc m eig sched ts k t s = .ok sk →
      InfluenceValid sh sk)
    (hcase : (p.B = 0 ∧ p.V = 0) ∨
      (s.Dc = 0 ∧ ∀ k < n, ∀ sk, loopMUSL sh bc m eig sched ts k t s = .ok sk →
        PartitionOfUnity sh sk)) :
    ∃ sn q, loopMUSL sh bc m eig sched ts n t s = .ok sn ∧ SingleFree sn q ∧
      q.V = p.V + ((n : ℚ) * s.Dt) • p.B ∧
      q.X = p.X + ((n : ℚ) * s.Dt) • p.V + ((n : ℚ) * ((n : ℚ) + 1) / 2 * s.Dt ^ 2) • p.B ∧
      q.F = p.F ∧ q.B = p.B ∧ q.M = p.M := by
  induction n generalizing t s p with
  | zero =>
    refine ⟨s, p, rfl, hinv, ?_, ?_, rfl, rfl, rfl⟩
    · simp
    · simp
  | succ n ih =>
    have hv0 := hvalid 0 (Nat.succ_pos n) s rfl
    have hM : ∀ q ∈ s.Lp, 0 ≤ q.M := by
      intro q hq
      rw [hinv.1] at hq
      rw [List.mem_singleton.mp hq]
      exact hinv.2.2.1.le
    obtain ⟨s1, h1⟩ := stepMUSL_noBC_ok sh bc m eig (sched t) s hinv.2.2.2.2.2.2.2.1 hv0 hM
      hinv.2.2.2.2.2.2.1 (by rw [hinv.2.2.2.2.2.1]; decide)
    have hc1 : (s.Dc = 0 ∧ PartitionOfUnity sh s) ∨ (p.B = 0 ∧ p.V = 0) := by
      rcases hcase with hB | ⟨hDc, hP⟩
      · exact Or.inr hB
      · exact Or.inl ⟨hDc, hP 0 (Nat.succ_pos n) s rfl⟩
    obtain ⟨p1, hinv1, hV1, hX1, hF1, hB1, hM1, hDt1, hDc1, hNp1⟩ :=
      single_step sh bc m eig (sched t) s s1 p (hs t) hinv hc1 h1
    have hloop : ∀ k sk, loopMUSL sh bc m eig sched ts k (t + 1) s1 = .ok sk →
        loopMUSL sh bc m eig sched ts (k + 1) t s = .ok sk := by
      intro k sk hk
      simp only [loopMUSL, if_neg hts, h1]
      exact hk
    obtain ⟨sn, q, hrun, hinvn, hVn, hXn, hFn, hBn, hMn⟩ := ih (t + 1) s1 p1
      (fun t q => by rw [hNp1]; exact hs t q) hinv1
      (fun k hk sk hsk => hvalid (k + 1) (Nat.succ_lt_succ hk) sk (hloop k sk hsk))
      (by
        rcases hcase with ⟨hB, hV⟩ | ⟨hDc, hP⟩
        · refine Or.inl ⟨by rw [hB1]; exact hB, ?_⟩
          rw [hV1, hB, hV]
          simp
        · exact Or.inr ⟨by rw [hDc1]; exact hDc,
            fun k hk sk hsk => hP (k + 1) (Nat.succ_lt_succ hk) sk (hloop k sk hsk)⟩)
    refine ⟨sn, q, hloop n sn hrun, hinvn, ?_, ?_, by rw [hFn, hF1], by rw [hBn, hB1],
      by rw [hMn, hM1]⟩
    · rw [hVn, hV1, hB1, hDt1]
      funext i
      simp only [Pi.add_apply, Pi.smul_apply, smul_eq_mul]
      push_cast
      ring
    · rw [hXn, hX1, hV1, hB1, hDt1]
      funext i
      simp only [Pi.add_apply, Pi.smul_apply, smul_eq_mul]
      push_cast
      ring

theorem stressElastic_PSize (sqrt : ℚ → ℚ) (Dt : ℚ) (Ln : List MPM_NODE)
    (p q : MPM_PARTICLE) (h : stressElastic sqrt Dt Ln p = .ok q) :
    q.PSize0 = p.PSize0 ∧
    q.PSize = fun d =>
      p.PSize0 d * sqrt (q.F 0 d * q.F 0 d + q.F 1 d * q.F 1 d + q.F 2 d * q.F 2 d) := by
  unfold stressElastic at h
  split at h
  · cases h
  · next p1 h1 =>
    have e1 := CalVGradLocal_spec Ln p p1 h1
    simp only at h
    rw [← Option.some.inj (congrArg Except.toOption h), e1]
    exact ⟨rfl, rfl⟩

/-- What a MUSL step leaves alone in a solver with a single particle and the
elastic model: the grid parameters and the number of nodes; the half-width of
the particle is recomputed from its reference half-width. -/
theorem single_step_frame (sh : SHAPE) (bc : NODE_BC) (m : LIBM)
    (eig : Matrix3d → Vector3d × Matrix3d) (sched : ℕ → ℕ) (s s4 : MPM) (p : MPM_PARTICLE)
    (hLp : s.Lp = [p]) (hCM : s.CMType = 0)
    (h : stepMUSL sh bc m eig sched s = .ok s4) :
    ∃ q, s4.Lp = [q] ∧ q.PSize0 = p.PSize0 ∧
      (q.PSize = fun d =>
        p.PSize0 d * m.sqrt (q.F 0 d * q.F 0 d + q.F 1 d * q.F 1 d + q.F 2 d * q.F 2 d)) ∧
      s4.D = s.D ∧ s4.Dx = s.Dx ∧ s4.Ncy = s.Ncy ∧ s4.Ncz = s.Ncz ∧
      s4.Ln.length = s.Ln.length := by
  unfold stepMUSL at h
  split at h
  · cases h
  · next s1 h1 =>
    split at h
    · cases h
    · next s2 h2 =>
      split at h
      · cases h
      · next s3 h3 =>
        obtain ⟨hs1, -, -, hlen1, -⟩ := ParticleToNode_spec sh sched s s1 h1
        have hLp1 : s1.Lp = [CalNGN sh s p] := by rw [hs1, hLp]; rfl
        have hA1 : s1.LAn = buildLAn s.Nproc sched (s.Lp.map (CalNGN sh s)) := by rw [hs1]
        have hnd1 : s1.LAn.Nodup := by
          rw [hA1]
          exact (buildLAn_sorted _ _ _).imp fun hab => ne_of_lt hab
        unfold CalVOnNode at h2
        split at h2
        · cases h2
        · next Ln2 hL2 =>
          have hs2 := (Option.some.inj (congrArg Except.toOption h2)).symm
          have hlen2 := (resolveNodes_get _ _ _ _ _ _ _ hL2 hnd1).2.2
          unfold NodeToParticle at h3
          split at h3
          · cases h3
          · next Lp3 hg =>
            have hs3 := (Option.some.inj (congrArg Except.toOption h3)).symm
            have hLp2 : s2.Lp = [CalNGN sh s p] := by rw [hs2]; exact hLp1
            rw [hLp2] at hg
            obtain ⟨q1, hq1e, hq1⟩ := gatherParticles_single _ _ _ _ hg
            have hq1f := gatherParticle_fields _ _ _ _ hq1
            have hq1P : q1.PSize0 = p.PSize0 := by rw [hq1f]; rfl
            have hCM3 : s3.CMType = 0 := by rw [hs3, hs2, hs1]; exact hCM
            unfold constitutive at h
            rw [if_pos hCM3] at h
            obtain ⟨hs4, hF4⟩ := CalStressOnParticleElastic_spec m.sqrt s3 s4 h
            have hLp3 : s3.Lp = [q1] := by rw [hs3]; exact hq1e
            rw [hLp3] at hF4
            obtain ⟨q, hq4e, hq4⟩ := forall₂_singleton _ _ _ hF4
            obtain ⟨hP0, hP⟩ := stressElastic_PSize _ _ _ _ _ hq4
            refine ⟨q, hq4e, hP0.trans hq1P, by rw [hP, hq1P], ?_, ?_, ?_, ?_, ?_⟩
            · rw [hs4, hs3, hs2, hs1]
            · rw [hs4, hs3, hs2, hs1]
            · rw [hs4, hs3, hs2, hs1]
            · rw [hs4, hs3, hs2, hs1]
            · have a4 : s4.Ln = s3.Ln := by rw [hs4]
              have a3 : s3.Ln = s2.Ln := by rw [hs3]
              have a2 : s2.Ln = Ln2 := by rw [hs2]
              rw [a4, a3, a2, hlen2, hlen1]

theorem exHat (s : MPM) (q : MPM_PARTICLE) (x : ℚ) (hD : s.D = 1) (hDx : s.Dx = ![1, 1, 1])
    (hX : q.X 0 = x) (hP : q.PSize 0 = 0) (h0 : 0 < x) (h1 : x < 1) :
    (CalNGN exShape s q).Lni = [0, 1] ∧ (CalNGN exShape s q).LnN = [1 - x, x] ∧
    (CalNGN exShape s q).LnGN = [![-1, 0, 0], ![1, 0, 0]] := by
  have a0 : minx s q 0 = 0 := by
    have : trunc (x - 0 - 1) = 0 := by
      unfold trunc
      rw [if_neg (by linarith), Int.ceil_eq_iff]
      constructor
      · push_cast; linarith
      · push_cast; linarith
    simpa [minx, hD, hX, hP] using this
  have b0 : maxx s q 0 = 2 := by
    have : ceil (x + 0 + 1) = 2 := by
      unfold ceil
      rw [Int.ceil_eq_iff]
      constructor
      · push_cast; linarith
      · push_cast; linarith
    simpa [maxx, hD, hX, hP] using this
  have a1 : minx s q 1 = 0 := by simp [minx, hD]
  have b1 : maxx s q 1 = 0 := by simp [maxx, hD]
  have a2 : minx s q 2 = 0 := by simp [minx, hD]
  have b2 : maxx s q 2 = 0 := by simp [maxx, hD]
  have r0 : intRange 0 2 = [0, 1, 2] := by decide
  have r1 : intRange 0 0 = [0] := by decide
  have hc : candidates s q = [(0, 0, 0), (1, 0, 0), (2, 0, 0)] := by
    simp only [candidates, a0, b0, a1, b1, a2, b2, r0, r1]
    rfl
  have hid0 : nodeId s 0 0 0 = 0 := by
    simp [nodeId, toSizeT, toInt]
  have hid1 : nodeId s 1 0 0 = 1 := by
    simp [nodeId, toSizeT, toInt]
  have g0 : exShape.GIMP3D q.X (nodePos (0, 0, 0)) s.Dx q.PSize = (1 - x, ![-1, 0, 0]) := by
    have c1 : ¬ x ≤ -1 := by linarith
    have c2 : ¬ x ≤ 0 := by linarith
    have c3 : ¬ x < 0 := by linarith
    simp [exShape, exGIMP3D, gimpW, gimpG, nodePos, hDx, hX, hP, c1, c2, c3, h1]
  have g1 : exShape.GIMP3D q.X (nodePos (1, 0, 0)) s.Dx q.PSize = (x, ![1, 0, 0]) := by
    have c1 : ¬ x - 1 ≤ -1 := by linarith
    have c2 : x - 1 ≤ 0 := by linarith
    simp [exShape, exGIMP3D, gimpW, gimpG, nodePos, hDx, hX, hP, c1, c2]
  have g2 : exShape.GIMP3D q.X (nodePos (2, 0, 0)) s.Dx q.PSize = (0, 0) := by
    have c1 : x - 2 ≤ -1 := by linarith
    simp [exShape, exGIMP3D, gimpW, gimpG, nodePos, hDx, hX, hP, c1]
  have k0 : hit exShape s q (0, 0, 0) = some (0, 1 - x, ![-1, 0, 0]) := by
    simp only [hit, g0, hid0]
    rw [if_pos (by linarith)]
  have k1 : hit exShape s q (1, 0, 0) = some (1, x, ![1, 0, 0]) := by
    simp only [hit, g1, hid1]
    rw [if_pos h0]
  have k2 : hit exShape s q (2, 0, 0) = none := by
    simp only [hit, g2]
    norm_num
  simp only [CalNGN, hc, List.filterMap_cons, k0, k1, k2, List.filterMap_nil,
    List.map_cons, List.map_nil]
  exact ⟨trivial, trivial, trivial⟩

theorem exHat_valid (s : MPM) (q : MPM_PARTICLE) (x : ℚ) (hLp : s.Lp = [q]) (hD : s.D = 1)
    (hDx : s.Dx = ![1, 1, 1]) (hLn : s.Ln.length = 3)
    (hX : q.X 0 = x) (hP : q.PSize 0 = 0) (hM : q.M = 2)
    (h0 : 1 / 10 ≤ x) (h1 : x ≤ 9 / 10) :
    InfluenceValid exShape s ∧ PartitionOfUnity exShape s := by
  obtain ⟨hi, hw, hg⟩ := exHat s q x hD hDx hX hP (by linarith) (by linarith)
  constructor
  · intro p hp id hid
    rw [hLp, List.mem_singleton] at hp
    subst hp
    rw [hi] at hid
    simp only [List.mem_cons, List.mem_singleton, List.not_mem_nil, or_false] at hid
    rcases hid with rfl | rfl <;> rw [hLn] <;> decide
  · intro p hp
    rw [hLp, List.mem_singleton] at hp
    subst hp
    refine ⟨by rw [hw]; simp, ?_, ?_⟩
    · rw [hg]
      funext i
      fin_cases i <;> simp
    · intro id hid
      rw [hi] at hid
      simp only [List.mem_cons, List.mem_singleton, List.not_mem_nil, or_false] at hid
      have he : entries (CalNGN exShape s p) =
          [(0, 1 - x, ![-1, 0, 0]), (1, x, ![1, 0, 0])] := by
        unfold entries
        rw [hi, hw, hg]
        rfl
      rcases hid with rfl | rfl
      · have : nodeWeight (CalNGN exShape s p) 0 = 1 - x := by
          simp [nodeWeight, he]
        rw [this, hM]
        linarith
      · have : nodeWeight (CalNGN exShape s p) 1 = x := by
          simp [nodeWeight, he]
        rw [this, hM]
        linarith

theorem exLine_next (bc : NODE_BC) (m : LIBM) (eig : Matrix3d → Vector3d × Matrix3d)
    (sched : ℕ → ℕ) (s s1 : MPM) (p : MPM_PARTICLE) (hs : ∀ q, sched q < s.Nproc)
    (hinv : SingleFree s p)
    (hcase : (s.Dc = 0 ∧ PartitionOfUnity exShape s) ∨ (p.B = 0 ∧ p.V = 0))
    (hD : s.D = 1) (hDx : s.Dx = ![1, 1, 1]) (hLn : s.Ln.length = 3) (hP0 : p.PSize0 = 0)
    (hM : p.M = 2) (h0 : 1 / 10 ≤ (p.X + s.Dt • (p.V + s.Dt • p.B)) 0)
    (h1 : (p.X + s.Dt • (p.V + s.Dt • p.B)) 0 ≤ 9 / 10)
    (h : stepMUSL exShape bc m eig sched s = .ok s1) :
    InfluenceValid exShape s1 ∧ PartitionOfUnity exShape s1 := by
  obtain ⟨q, hinv1, -, hX, -, -, hMq, -, -, -⟩ :=
    single_step exShape bc m eig sched s s1 p hs hinv hcase h
  obtain ⟨q1, hq1, -, hP, hD1, hDx1, -, -, hLn1⟩ :=
    single_step_frame exShape bc m eig sched s s1 p hinv.1 hinv.2.2.2.2.2.1 h
  have hqq : q1 = q := by
    have e := hinv1.1
    rw [hq1] at e
    exact List.head_eq_of_cons_eq e
  subst hqq
  exact exHat_valid s1 q1 _ hinv1.1 (hD1.trans hD) (hDx1.trans hDx) (hLn1.trans hLn)
    (congrFun hX 0) (by rw [hP, hP0]; simp) (hMq.trans hM) h0 h1

theorem exFall_SingleFree : SingleFree exFall exDrop := by
  refine ⟨rfl, rfl, ?_, rfl, rfl, rfl, ?_, ?_, ?_⟩
  · simp [exDrop, exParticle]
  · simp [exFall, exMPM, exNode]
  · simp [exFall, exMPM]
  · intro id nd hnd hid
    exact exMPM_zero id nd hnd hid

theorem exFall_valid : InfluenceValid exShape exFall ∧ PartitionOfUnity exShape exFall :=
  exHat_valid exFall exDrop (1 / 2) rfl rfl rfl rfl
    (by simp [exDrop, exParticle]) (by simp [exDrop, exParticle, MPM_PARTICLE.zero])
    (by simp [exDrop, exParticle]) (by norm_num) (by norm_num)

theorem exFall_steps (k : ℕ) (hk : k < 2) (sk : MPM)
    (h : SolveMUSL exShape exBC exLibm exEig (fun _ _ => 0) (k : ℤ) 1 exFall = .ok sk) :
    InfluenceValid exShape sk ∧ PartitionOfUnity exShape sk := by
  unfold SolveMUSL at h
  rw [Int.toNat_ofNat] at h
  interval_cases k
  · cases h
    exact exFall_valid
  · simp only [loopMUSL, if_neg one_ne_zero] at h
    split at h
    · cases h
    · next s1 h1 =>
      cases h
      exact exLine_next exBC exLibm exEig (fun _ => 0) exFall sk exDrop
        (fun _ => by simp [exFall, exMPM]) exFall_SingleFree (Or.inl ⟨rfl, exFall_valid.2⟩)
        rfl rfl rfl rfl (by simp [exDrop, exParticle])
        (by simp [exDrop, exParticle, exFall, exMPM]; norm_num)
        (by simp [exDrop, exParticle, exFall, exMPM]; norm_num) h1

/-! ## End-to-end scenarios with a single particle -/

/-- C22 (amended). Scenario B, free fall, in exact arithmetic: the solver holds
a single free particle of positive mass with zero velocity, zero stress and body
acceleration `g = B`, `Dc = 0`, the model is the elastic one and no node has a
boundary condition. If at every step the influence list is a partition of unity
over existing nodes that each receive a mass of at least `1e-12` (on a grid
whose nodes outside the active list are empty, with thread numbers below `Nproc`
and `ts ≠ 0`), `SolveMUSL` with `n` steps returns, and then the velocity is
`n*Dt*g`, the displacement is `g*Dt^2*n*(n+1)/2`, which is `0.5*g*(n*Dt)^2 +
0.5*g*n*Dt^2`, and the stress is zero. -/
theorem SolveMUSL_free_fall (sh : SHAPE) (bc : NODE_BC) (m : LIBM)
    (eig : Matrix3d → Vector3d × Matrix3d) (sched : ℕ → ℕ → ℕ) (ts : ℤ) (n : ℕ) (s : MPM)
    (p : MPM_PARTICLE) (hts : ts ≠ 0) (hs : ∀ t q, sched t q < s.Nproc)
    (hinv : SingleFree s p) (hV : p.V = 0) (hDc : s.Dc = 0)
    (hvalid : ∀ k < n, ∀ sk, SolveMUSL sh bc m eig sched (k : ℤ) ts s = .ok sk →
      InfluenceValid sh sk ∧ PartitionOfUnity sh sk) :
    ∃ sn q, SolveMUSL sh bc m eig sched (n : ℤ) ts s = .ok sn ∧ sn.Lp = [q] ∧
      q.V = ((n : ℚ) * s.Dt) • p.B ∧
      q.X - p.X = (s.Dt ^ 2 * (n : ℚ) * ((n : ℚ) + 1) / 2) • p.B ∧
      q.X - p.X = (1 / 2 * ((n : ℚ) * s.Dt) ^ 2) • p.B + (1 / 2 * (n : ℚ) * s.Dt ^ 2) • p.B ∧
      q.S = 0 := by
  have hk : ∀ k sk, loopMUSL sh bc m eig sched ts k 0 s = .ok sk →
      SolveMUSL sh bc m eig sched (k : ℤ) ts s = .ok sk := by
    intro k sk hsk
    unfold SolveMUSL
    rw [Int.toNat_ofNat]
    exact hsk
  obtain ⟨sn, q, hrun, hinvn, hVq, hXq, -, -, -⟩ :=
    single_run sh bc m eig sched ts hts n 0 s p hs hinv
      (fun k hkn sk hsk => (hvalid k hkn sk (hk k sk hsk)).1)
      (Or.inr ⟨hDc, fun k hkn sk hsk => (hvalid k hkn sk (hk k sk hsk)).2⟩)
  refine ⟨sn, q, hk n sn hrun, hinvn.1, ?_, ?_, ?_, hinvn.2.2.2.1⟩
  · rw [hVq, hV]
    simp
  · rw [hXq, hV]
    funext i
    simp only [Pi.sub_apply, Pi.add_apply, Pi.smul_apply, Pi.zero_apply, smul_eq_mul]
    ring
  · rw [hXq, hV]
    funext i
    simp only [Pi.sub_apply, Pi.add_apply, Pi.smul_apply, Pi.zero_apply, smul_eq_mul]
    ring

/-- Witness of `SolveMUSL_free_fall`: two steps of the solver `exFall` (time
step `1/10`, the particle `exDrop` with `g = (3, 0, 0)` between two nodes, hat
kernel); the particle moves from `x = 1/2` to `x = 59/100`. -/
theorem SolveMUSL_free_fall_witness :
    (1 : ℤ) ≠ 0 ∧ (∀ t q : ℕ, (fun _ _ : ℕ => 0) t q < exFall.Nproc) ∧
    SingleFree exFall exDrop ∧ exDrop.V = 0 ∧ exFall.Dc = 0 ∧
    (∀ k < 2, ∀ sk,
      SolveMUSL exShape exBC exLibm exEig (fun _ _ => 0) ((k : ℕ) : ℤ) 1 exFall = .ok sk →
      InfluenceValid exShape sk ∧ PartitionOfUnity exShape sk) ∧
    ∃ sn q, SolveMUSL exShape exBC exLibm exEig (fun _ _ => 0) ((2 : ℕ) : ℤ) 1 exFall = .ok sn ∧
      sn.Lp = [q] ∧ q.V = (((2 : ℕ) : ℚ) * exFall.Dt) • exDrop.B ∧
      q.X - exDrop.X =
        (exFall.Dt ^ 2 * ((2 : ℕ) : ℚ) * (((2 : ℕ) : ℚ) + 1) / 2) • exDrop.B ∧
      q.X - exDrop.X = (1 / 2 * (((2 : ℕ) : ℚ) * exFall.Dt) ^ 2) • exDrop.B +
        (1 / 2 * ((2 : ℕ) : ℚ) * exFall.Dt ^ 2) • exDrop.B ∧
      q.S = 0 :=
  ⟨one_ne_zero, fun _ _ => (by simp [exFall, exMPM]), exFall_SingleFree, rfl, rfl, exFall_steps,
    SolveMUSL_free_fall exShape exBC exLibm exEig (fun _ _ => 0) 1 2 exFall exDrop one_ne_zero
      (fun _ _ => (by simp [exFall, exMPM])) exFall_SingleFree rfl rfl exFall_steps⟩

/-! ## The return mapping outside the plane and edge regions -/

/-- C32. `AddBoxParticles` on a solver of dimension `D <= 3` is not confined to
the particles it creates.  After the call every particle of `Lp` has
`Vol0 = Vol = ratio^D` and, on each active axis `d < D`,
`PSize0(d) = PSize(d) = 0.5*ratio` when `Ntype == 3` and `0` otherwise.  A
particle that was at position `n` of `Lp` before the call is still at position
`n` and differs from before in `Vol0`, `Vol`, `PSize0` and `PSize` only, and in
the latter two on the active axes only. -/
theorem AddBoxParticles_resizes_all (raw : ℕ → MPM_PARTICLE) (s : MPM) (x0 l : Vector3d)
    (ratio m young poisson : ℚ) (_hD : s.D ≤ 3) :
    (∀ q ∈ (AddBoxParticles raw s x0 l ratio m young poisson).Lp,
      q.Vol0 = ratio ^ s.D ∧ q.Vol = ratio ^ s.D ∧
      ∀ d : Fin 3, d.val < s.D →
        q.PSize0 d = (if s.Ntype = 3 then 1 / 2 * ratio else 0) ∧ q.PSize d = q.PSize0 d) ∧
    (∀ (n : ℕ) (p : MPM_PARTICLE), s.Lp[n]? = some p →
      ∃ q, (AddBoxParticles raw s x0 l ratio m young poisson).Lp[n]? = some q ∧
        q = { p with Vol0 := q.Vol0, Vol := q.Vol, PSize0 := q.PSize0, PSize := q.PSize } ∧
        ∀ d : Fin 3, ¬d.val < s.D → q.PSize0 d = p.PSize0 d ∧ q.PSize d = p.PSize d) := by
  constructor
  · intro q hq
    rw [AddBoxParticles_Lp] at hq
    obtain ⟨p, -, rfl⟩ := List.mem_map.mp hq
    refine ⟨by simp [boxSize], by simp [boxSize], fun d hd => ?_⟩
    simp [boxSize, hd]
  · intro n p hp
    have hn : n < s.Lp.length := by
      by_contra hc
      rw [List.getElem?_eq_none (not_lt.mp hc)] at hp
      cases hp
    refine ⟨boxSize s ratio p, ?_, rfl, fun d hd => ?_⟩
    · rw [AddBoxParticles_Lp, List.getElem?_map, List.getElem?_append_left hn, hp]
      rfl
    · simp [boxSize, hd]

/-- Witness of `AddBoxParticles_resizes_all`: the one-dimensional solver `exMPM`
with its particle `exParticle`. -/
theorem AddBoxParticles_resizes_all_witness :
    exMPM.D ≤ 3 ∧
    (∀ q ∈ (AddBoxParticles (fun _ => MPM_PARTICLE.zero) exMPM 0 ![2, 0, 0] 1 1 1 0).Lp,
      q.Vol0 = 1 ^ exMPM.D ∧ q.Vol = 1 ^ exMPM.D ∧
      ∀ d : Fin 3, d.val < exMPM.D →
        q.PSize0 d = (if exMPM.Ntype = 3 then 1 / 2 * 1 else 0) ∧ q.PSize d = q.PSize0 d) ∧
    (∀ (n : ℕ) (p : MPM_PARTICLE), exMPM.Lp[n]? = some p →
      ∃ q, (AddBoxParticles (fun _ => MPM_PARTICLE.zero) exMPM 0 ![2, 0, 0] 1 1 1 0).Lp[n]? =
          some q ∧
        q = { p with Vol0 := q.Vol0, Vol := q.Vol, PSize0 := q.PSize0, PSize := q.PSize } ∧
        ∀ d : Fin 3, ¬d.val < exMPM.D → q.PSize0 d = p.PSize0 d ∧ q.PSize d = p.PSize d) :=
  ⟨by decide,
    AddBoxParticles_resizes_all (fun _ => MPM_PARTICLE.zero) exMPM 0 ![2, 0, 0] 1 1 1 0
      (by decide)⟩

/-! ## Node masses read by the gather -/

theorem ParticleToNode_mass (sh : SHAPE) (sched : ℕ → ℕ) (s s1 : MPM)
    (hreset : ∀ (id : ℕ) (nd : MPM_NODE), s.Ln[id]? = some nd → id ∉ s.LAn → nd.M = 0)
    (h : ParticleToNode sh sched s = .ok s1) :
    ∀ (id : ℕ) (nd1 : MPM_NODE), s1.Ln[id]? = some nd1 →
      nd1.M = ((pairsAt s1.Lp id).map fun pe => pe.2.2.1 * pe.1.M).sum := by
  obtain ⟨hs1, -, -, hlen, hall⟩ := ParticleToNode_spec sh sched s s1 h
  have hLp : s1.Lp = s.Lp.map (CalNGN sh s) := by rw [hs1]
  intro id nd1 hnd1
  have hlt : id < s.Ln.length := by
    by_contra hc
    rw [List.getElem?_eq_none (by rw [hlen]; exact not_lt.mp hc)] at hnd1
    cases hnd1
  have hbase := hall id s.Ln[id] (List.getElem?_eq_getElem hlt)
  rw [hnd1] at hbase
  have hnd := Option.some.inj hbase
  have hz : (if id ∈ s.LAn then s.Ln[id].Reset else s.Ln[id]).M = 0 := by
    by_cases hin : id ∈ s.LAn
    · simp [hin, MPM_NODE.Reset]
    · simpa [hin] using hreset id s.Ln[id] (List.getElem?_eq_getElem hlt) hin
  rw [hnd, hLp]
  simp only [accNode, pairsAt, hz, zero_add]

theorem mem_pairsAt (Lp : List MPM_PARTICLE) (id : ℕ) (pe : MPM_PARTICLE × ℕ × ℚ × Vector3d) :
    pe ∈ pairsAt Lp id ↔ pe.1 ∈ Lp ∧ pe.2 ∈ entries pe.1 ∧ pe.2.1 = id := by
  unfold pairsAt pairs
  simp only [List.mem_filter, List.mem_flatMap, List.mem_map, decide_eq_true_eq]
  constructor
  · rintro ⟨⟨p, hp, e, he, rfl⟩, hid⟩
    exact ⟨hp, he, hid⟩
  · rintro ⟨hp, he, hid⟩
    exact ⟨⟨pe.1, hp, pe.2, he, rfl⟩, hid⟩

/-- C31. The node masses the gather divides by.  Started from nodes that exist
where needed and have zero mass outside the previous active-node list: if every
particle has mass `> 0`, `ParticleToNode` returns and every node named in the
influence list of a particle has accumulated a mass `> 0`, at least the
contribution `w*M` of each entry naming it, and it still has that positive mass
after `CalVOnNode` when the boundary-condition methods keep the mass, so the
divisor of `F/M` in `NodeToParticle` is not zero; if the particles have mass
`0`, `ParticleToNode` returns as well and every node named in an influence list
has mass `0`. -/
theorem ParticleToNode_positive_mass (sh : SHAPE) (sched : ℕ → ℕ) (bc : NODE_BC)
    (sqrt : ℚ → ℚ) (s : MPM) (hLAn : ∀ id ∈ s.LAn, id < s.Ln.length)
    (hid : InfluenceValid sh s)
    (hreset : ∀ (id : ℕ) (nd : MPM_NODE), s.Ln[id]? = some nd → id ∉ s.LAn → nd.M = 0) :
    ((∀ p ∈ s.Lp, 0 < p.M) →
      ∃ s1, ParticleToNode sh sched s = .ok s1 ∧
        (∀ p ∈ s1.Lp, ∀ id ∈ p.Lni, ∃ nd1 : MPM_NODE, s1.Ln[id]? = some nd1 ∧ 0 < nd1.M) ∧
        (∀ p ∈ s1.Lp, ∀ e ∈ entries p, ∃ nd1 : MPM_NODE, s1.Ln[e.1]? = some nd1 ∧
          e.2.1 * p.M ≤ nd1.M) ∧
        (bc.KeepsMass → ∀ s2, CalVOnNode bc sqrt s1 = .ok s2 →
          ∀ p ∈ s2.Lp, ∀ id ∈ p.Lni, ∃ nd2 : MPM_NODE, s2.Ln[id]? = some nd2 ∧ 0 < nd2.M)) ∧
    ((∀ p ∈ s.Lp, p.M = 0) →
      ∃ s1, ParticleToNode sh sched s = .ok s1 ∧
        ∀ p ∈ s1.Lp, ∀ id ∈ p.Lni, ∃ nd1 : MPM_NODE, s1.Ln[id]? = some nd1 ∧ nd1.M = 0) := by
  have hrun : (∀ p ∈ s.Lp, 0 ≤ p.M) → ∃ s1, ParticleToNode sh sched s = .ok s1 ∧
      s1.Lp = s.Lp.map (CalNGN sh s) ∧
      (∀ p ∈ s1.Lp, ∀ id ∈ p.Lni, ∃ nd1 : MPM_NODE, s1.Ln[id]? = some nd1 ∧
        nd1.M = ((pairsAt s1.Lp id).map fun pe => pe.2.2.1 * pe.1.M).sum) := by
    intro hM
    obtain ⟨s1, h1⟩ := ParticleToNode_ok sh sched s hLAn (CalNGN_valid sh s s.Ln.length hM hid)
    obtain ⟨hs1, -, -, hlen, -⟩ := ParticleToNode_spec sh sched s s1 h1
    have hLp : s1.Lp = s.Lp.map (CalNGN sh s) := by rw [hs1]
    refine ⟨s1, h1, hLp, ?_⟩
    intro p hp id hidp
    rw [hLp] at hp
    obtain ⟨p0, hp0, rfl⟩ := List.mem_map.mp hp
    have hlt : id < s1.Ln.length := by
      rw [hlen]
      exact hid p0 hp0 id hidp
    exact ⟨s1.Ln[id], List.getElem?_eq_getElem hlt,
      ParticleToNode_mass sh sched s s1 hreset h1 id _ (List.getElem?_eq_getElem hlt)⟩
  constructor
  · intro hM
    obtain ⟨s1, h1, hLp, hnodes⟩ := hrun fun p hp => (hM p hp).le
    have hMs1 : ∀ p ∈ s1.Lp, 0 < p.M := by
      intro p hp
      rw [hLp] at hp
      obtain ⟨p0, hp0, rfl⟩ := List.mem_map.mp hp
      exact hM p0 hp0
    have hwpos : ∀ p ∈ s1.Lp, ∀ e ∈ entries p, 0 < e.2.1 := by
      intro p hp e he
      rw [hLp] at hp
      obtain ⟨p0, hp0, rfl⟩ := List.mem_map.mp hp
      exact CalNGN_pos sh s p0 e he
    have hterm : ∀ id, ∀ x ∈ (pairsAt s1.Lp id).map fun pe => pe.2.2.1 * pe.1.M, 0 < x := by
      intro id x hx
      obtain ⟨pe, hpe, rfl⟩ := List.mem_map.mp hx
      obtain ⟨a, b, -⟩ := (mem_pairsAt s1.Lp id pe).mp hpe
      exact mul_pos (hwpos pe.1 a pe.2 b) (hMs1 pe.1 a)
    have hbound : ∀ p ∈ s1.Lp, ∀ e ∈ entries p, ∃ nd1 : MPM_NODE, s1.Ln[e.1]? = some nd1 ∧
        e.2.1 * p.M ≤ nd1.M ∧ 0 < nd1.M := by
      intro p hp e he
      have hmemLni : e.1 ∈ p.Lni := by
        have hz := List.of_mem_zip he
        exact hz.1
      obtain ⟨nd1, hnd1, hsum⟩ := hnodes p hp e.1 hmemLni
      have hin : e.2.1 * p.M ∈ (pairsAt s1.Lp e.1).map fun pe => pe.2.2.1 * pe.1.M :=
        List.mem_map.mpr ⟨(p, e), (mem_pairsAt s1.Lp e.1 (p, e)).mpr ⟨hp, he, rfl⟩, rfl⟩
      have hle := List.single_le_sum (fun x hx => (hterm e.1 x hx).le) _ hin
      refine ⟨nd1, hnd1, by rw [hsum]; exact hle, ?_⟩
      rw [hsum]
      exact lt_of_lt_of_le (hterm e.1 _ hin) hle
    have hposLni : ∀ p ∈ s1.Lp, ∀ id ∈ p.Lni, ∃ nd1 : MPM_NODE, s1.Ln[id]? = some nd1 ∧
        0 < nd1.M := by
      intro p hp id hidp
      have hp1 := hp
      rw [hLp] at hp1
      obtain ⟨p0, hp0, hpe⟩ := List.mem_map.mp hp1
      have hidp1 := hidp
      rw [← hpe, ← (CalNGN_weights sh s p0).2.2] at hidp1
      obtain ⟨e, he, rfl⟩ := List.mem_map.mp hidp1
      rw [hpe] at he
      obtain ⟨nd1, hnd1, -, hpos⟩ := hbound p hp e he
      exact ⟨nd1, hnd1, hpos⟩
    refine ⟨s1, h1, hposLni, fun p hp e he => ?_, ?_⟩
    · obtain ⟨nd1, hnd1, hle, -⟩ := hbound p hp e he
      exact ⟨nd1, hnd1, hle⟩
    · intro hbc s2 h2 p hp id hidp
      rw [CalVOnNode_Lp bc sqrt s1 s2 h2] at hp
      obtain ⟨nd1, hnd1, hpos⟩ := hposLni p hp id hidp
      unfold CalVOnNode at h2
      split at h2
      · cases h2
      · next Ln2 hL =>
        have hs2 := (Option.some.inj (congrArg Except.toOption h2)).symm
        obtain ⟨-, -, hall⟩ := resolveNodes_spec bc hbc sqrt s1.Dt s1.Dc s1.LAn s1.Ln Ln2 hL
        obtain ⟨nd2, hnd2, hM2, -⟩ := hall id nd1 hnd1
        refine ⟨nd2, by rw [hs2]; exact hnd2, by rw [hM2]; exact hpos⟩
  · intro hM
    obtain ⟨s1, h1, hLp, hnodes⟩ := hrun fun p hp => (hM p hp).ge
    refine ⟨s1, h1, fun p hp id hidp => ?_⟩
    obtain ⟨nd1, hnd1, hsum⟩ := hnodes p hp id hidp
    refine ⟨nd1, hnd1, ?_⟩
    rw [hsum]
    apply List.sum_eq_zero
    intro x hx
    obtain ⟨pe, hpe, rfl⟩ := List.mem_map.mp hx
    obtain ⟨a, -, -⟩ := (mem_pairsAt s1.Lp id pe).mp hpe
    rw [hLp] at a
    obtain ⟨p0, hp0, hpe0⟩ := List.mem_map.mp a
    have : pe.1.M = 0 := by
      rw [← hpe0]
      exact hM p0 hp0
    rw [this, mul_zero]
theorem exMassless_Lni :
    (CalNGN exShape exMassless { exParticle with M := 0 }).Lni = [0, 1] :=
  (exHat exMassless { exParticle with M := 0 } (1 / 2) rfl rfl
    (by simp [exParticle]) (by simp [exParticle, MPM_PARTICLE.zero]) (by norm_num)
    (by norm_num)).1

theorem exMassless_valid : InfluenceValid exShape exMassless := by
  intro p hp id hid
  simp only [exMassless, List.mem_singleton] at hp
  subst hp
  rw [exMassless_Lni] at hid
  simp only [List.mem_cons, List.mem_singleton, List.not_mem_nil, or_false] at hid
  rcases hid with rfl | rfl <;> simp [exMassless, exMPM]

/-- Witness of `ParticleToNode_positive_mass`: the solver `exMPM`, whose
particle has mass `2`, and the solver `exMassless`, whose particle has mass `0`
and names the nodes `0` and `1`, which end with mass `0`. -/
theorem ParticleToNode_positive_mass_witness :
    ((∀ id ∈ exMPM.LAn, id < exMPM.Ln.length) ∧ InfluenceValid exShape exMPM ∧
      (∀ (id : ℕ) (nd : MPM_NODE), exMPM.Ln[id]? = some nd → id ∉ exMPM.LAn → nd.M = 0) ∧
      (∀ p ∈ exMPM.Lp, 0 < p.M) ∧
      ∃ s1, ParticleToNode exShape (fun _ => 0) exMPM = .ok s1 ∧
        (∀ p ∈ s1.Lp, ∀ id ∈ p.Lni, ∃ nd1 : MPM_NODE, s1.Ln[id]? = some nd1 ∧ 0 < nd1.M) ∧
        (∀ p ∈ s1.Lp, ∀ e ∈ entries p, ∃ nd1 : MPM_NODE, s1.Ln[e.1]? = some nd1 ∧
          e.2.1 * p.M ≤ nd1.M) ∧
        (exBC.KeepsMass → ∀ s2, CalVOnNode exBC exSqrt s1 = .ok s2 →
          ∀ p ∈ s2.Lp, ∀ id ∈ p.Lni, ∃ nd2 : MPM_NODE, s2.Ln[id]? = some nd2 ∧ 0 < nd2.M)) ∧
    ((∀ id ∈ exMassless.LAn, id < exMassless.Ln.length) ∧ InfluenceValid exShape exMassless ∧
      (∀ (id : ℕ) (nd : MPM_NODE), exMassless.Ln[id]? = some nd → id ∉ exMassless.LAn →
        nd.M = 0) ∧
      (∀ p ∈ exMassless.Lp, p.M = 0) ∧
      ∃ s1, ParticleToNode exShape (fun _ => 0) exMassless = .ok s1 ∧
        (∃ p ∈ s1.Lp, p.Lni = [0, 1]) ∧
        ∀ p ∈ s1.Lp, ∀ id ∈ p.Lni, ∃ nd1 : MPM_NODE, s1.Ln[id]? = some nd1 ∧ nd1.M = 0) := by
  have hLAn : ∀ id ∈ exMPM.LAn, id < exMPM.Ln.length := by simp [exMPM]
  have hreset : ∀ (id : ℕ) (nd : MPM_NODE), exMPM.Ln[id]? = some nd → id ∉ exMPM.LAn →
      nd.M = 0 := fun id nd h hn => (exMPM_zero id nd h hn).1
  have hM : ∀ p ∈ exMPM.Lp, 0 < p.M := by simp [exMPM, exParticle]
  have hM0 : ∀ p ∈ exMassless.Lp, p.M = 0 := by simp [exMassless]
  refine ⟨⟨hLAn, exMPM_ids, hreset, hM,
    (ParticleToNode_positive_mass exShape (fun _ => 0) exBC exSqrt exMPM hLAn exMPM_ids
      hreset).1 hM⟩, hLAn, exMassless_valid, hreset, hM0, ?_⟩
  obtain ⟨s1, h1, hz⟩ := (ParticleToNode_positive_mass exShape (fun _ => 0) exBC exSqrt
    exMassless hLAn exMassless_valid hreset).2 hM0
  refine ⟨s1, h1, ⟨CalNGN exShape exMassless { exParticle with M := 0 }, ?_, exMassless_Lni⟩,
    hz⟩
  rw [(ParticleToNode_spec exShape (fun _ => 0) exMassless s1 h1).1]
  exact List.mem_singleton_self _

/-! ## Comparisons of binary64 values -/

theorem coe_coe_lt_top (q : ℚ) : ((q : WithTop ℚ) : WithBot (WithTop ℚ)) < ⊤ :=
  lt_of_lt_of_le (WithBot.coe_lt_coe.mpr (WithTop.coe_lt_top q)) le_top

theorem double_lt_iff_place (a b : Double) (ha : a ≠ .nan) (hb : b ≠ .nan) :
    a.lt b = true ↔ a.place < b.place := by
  cases a with
  | nan => exact absurd rfl ha
  | zero s =>
    cases b with
    | nan => exact absurd rfl hb
    | zero t => simp [Double.lt, Double.place]
    | fin t u y => simp [Double.lt, Double.place]
    | inf t => cases t <;> simp [Double.lt, Double.place, coe_coe_lt_top]
  | fin s n x =>
    cases b with
    | nan => exact absurd rfl hb
    | zero t => simp [Double.lt, Double.place]
    | fin t u y => simp [Double.lt, Double.place]
    | inf t => cases t <;> simp [Double.lt, Double.place, coe_coe_lt_top]
  | inf s =>
    cases b with
    | nan => exact absurd rfl hb
    | zero t => cases s <;> simp [Double.lt, Double.place]
    | fin t u y => cases s <;> simp [Double.lt, Double.place]
    | inf t => cases s <;> cases t <;> simp [Double.lt, Double.place]

theorem double_eq_iff_place (a b : Double) (ha : a ≠ .nan) (hb : b ≠ .nan) :
    a.eq b = true ↔ a.place = b.place := by
  cases a with
  | nan => exact absurd rfl ha
  | zero s =>
    cases b with
    | nan => exact absurd rfl hb
    | zero t => simp [Double.eq, Double.place]
    | fin t u y => simp [Double.eq, Double.place]
    | inf t => cases t <;> simp [Double.eq, Double.place]
  | fin s n x =>
    cases b with
    | nan => exact absurd rfl hb
    | zero t => simp [Double.eq, Double.place]
    | fin t u y => simp [Double.eq, Double.place]
    | inf t => cases t <;> simp [Double.eq, Double.place]
  | inf s =>
    cases b with
    | nan => exact absurd rfl hb
    | zero t => cases s <;> simp [Double.eq, Double.place]
    | fin t u y => cases s <;> simp [Double.eq, Double.place]
    | inf t => cases s <;> cases t <;> simp [Double.eq, Double.place]

theorem double_le_iff_place (a b : Double) (ha : a ≠ .nan) (hb : b ≠ .nan) :
    a.le b = true ↔ a.place ≤ b.place := by
  simp only [Double.le, Bool.or_eq_true, double_lt_iff_place a b ha hb,
    double_eq_iff_place a b ha hb]
  exact le_iff_lt_or_eq.symm

theorem double_nan_lt (b : Double) : Double.nan.lt b = false := by
  cases b <;> rfl

theorem double_lt_nan (a : Double) : a.lt .nan = false := by
  cases a <;> rfl

theorem double_nan_eq (b : Double) : Double.nan.eq b = false := by
  cases b <;> rfl

theorem double_eq_nan (a : Double) : a.eq .nan = false := by
  cases a <;> rfl

/-- Every comparison with a NaN is false. -/
theorem double_nan_tests :
    Double.nan.gt0 = false ∧ Double.nan.lt0 = false ∧ Double.nan.ge0 = false ∧
    Double.nan.le0 = false ∧ Double.nan.eq0 = false := by
  refine ⟨rfl, rfl, rfl, rfl, rfl⟩

/-- For a value that is not a NaN, exactly one of `a<0.`, `a==0.`, `a>0.` holds,
`a>=0.` is the negation of `a<0.` and `a<=0.` the negation of `a>0.`. -/
theorem double_sign (a : Double) (ha : a ≠ .nan) :
    (a.ge0 = true ↔ a.lt0 = false) ∧ (a.le0 = true ↔ a.gt0 = false) ∧
    (a.eq0 = true ↔ a.lt0 = false ∧ a.gt0 = false) ∧ (a.lt0 = true → a.gt0 = false) := by
  have hz : (Double.zero false) ≠ .nan := by simp
  have h1 := double_lt_iff_place a (.zero false) ha hz
  have h2 := double_lt_iff_place (.zero false) a hz ha
  have h3 := double_le_iff_place a (.zero false) ha hz
  have h4 := double_le_iff_place (.zero false) a hz ha
  have h5 := double_eq_iff_place a (.zero false) ha hz
  simp only [Double.ge0, Double.le0, Double.eq0, Double.lt0, Double.gt0, ← Bool.not_eq_true,
    h1, h2, h3, h4, h5]
  refine ⟨not_lt.symm, not_lt.symm, ?_, fun h => not_lt.mpr h.le⟩
  constructor
  · intro h
    rw [h]
    exact ⟨lt_irrefl _, lt_irrefl _⟩
  · rintro ⟨h6, h7⟩
    exact le_antisymm (not_lt.mp h7) (not_lt.mp h6)

/-! ## Mohr-Coulomb in binary64: the branches of the return mapping -/

theorem MohrCoulomb64_error (m : LIBM64) (eig : Matrix3d64 → Vector3d64 × Matrix3d64)
    (p : MPM_PARTICLE64) (de : Matrix3d64) (e : Fault) :
    p.MohrCoulomb m eig de = .error e ↔
      ((((eig (p.Elastic de).S).1.c2.lt (eig (p.Elastic de).S).1.c1 ||
          (eig (p.Elastic de).S).1.c2.lt (eig (p.Elastic de).S).1.c0 ||
          (eig (p.Elastic de).S).1.c1.lt (eig (p.Elastic de).S).1.c0) = true ∧
        e = .wrongOrderOfS) ∨
      (((eig (p.Elastic de).S).1.c2.lt (eig (p.Elastic de).S).1.c1 ||
          (eig (p.Elastic de).S).1.c2.lt (eig (p.Elastic de).S).1.c0 ||
          (eig (p.Elastic de).S).1.c1.lt (eig (p.Elastic de).S).1.c0) = false ∧
        (yieldF64 m (p.Elastic de)
          ⟨(eig (p.Elastic de).S).1.c2, (eig (p.Elastic de).S).1.c1,
            (eig (p.Elastic de).S).1.c0⟩).gt0 = true ∧
        returnMap64 m (p.Elastic de)
          ⟨(eig (p.Elastic de).S).1.c2, (eig (p.Elastic de).S).1.c1, (eig (p.Elastic de).S).1.c0⟩
          (yieldF64 m (p.Elastic de)
            ⟨(eig (p.Elastic de).S).1.c2, (eig (p.Elastic de).S).1.c1,
              (eig (p.Elastic de).S).1.c0⟩) = .error e)) := by
  unfold MPM_PARTICLE64.MohrCoulomb
  simp only []
  cases hord : ((eig (p.Elastic de).S).1.c2.lt (eig (p.Elastic de).S).1.c1 ||
      (eig (p.Elastic de).S).1.c2.lt (eig (p.Elastic de).S).1.c0 ||
      (eig (p.Elastic de).S).1.c1.lt (eig (p.Elastic de).S).1.c0)
  · cases hf : (yieldF64 m (p.Elastic de)
        ⟨(eig (p.Elastic de).S).1.c2, (eig (p.Elastic de).S).1.c1,
          (eig (p.Elastic de).S).1.c0⟩).gt0
    · simp
    · simp only [if_true, Bool.false_eq_true, if_false, false_and, true_and, false_or]
      constructor
      · intro h
        split at h
        · next e1 he => cases h; exact he
        · cases h
      · intro h
        rw [h]
  · simp only [if_true, true_and, Bool.true_eq_false, false_and, or_false]
    constructor
    · intro h
      cases h
      rfl
    · rintro rfl
      rfl

theorem returnMap64_eq (m : LIBM64) (p : MPM_PARTICLE64) (sb : Vector3d64) (f : Double) :
    returnMap64 m p sb f =
      if (mcT1_64 m p sb).gt0 = true ∧ (mcT2_64 m p sb).gt0 = true then .ok (mcSa64 m p)
      else if (mcP12_64 m p sb).ge0 = true ∧ (mcP13_64 m p sb).le0 = true then
        .ok (Vector3d64.zipWith Double.sub sb ((mcRp64 m p).map fun a => f.mul a))
      else if (mcP12_64 m p sb).lt0 = true ∧ (mcP13_64 m p sb).lt0 = true then
        .ok (Vector3d64.zipWith Double.add
          ((⟨Double.ofInt 1, Double.ofInt 1, mcK64 m p⟩ : Vector3d64).map fun a =>
            (mcT1_64 m p sb).mul a) (mcSa64 m p))
      else if (mcP12_64 m p sb).gt0 = true ∧ (mcP13_64 m p sb).gt0 = true then
        .ok (Vector3d64.zipWith Double.add
          ((⟨Double.ofInt 1, mcK64 m p, mcK64 m p⟩ : Vector3d64).map fun a =>
            (mcT2_64 m p sb).mul a) (mcSa64 m p))
      else .error .undefinedReturn := by
  unfold returnMap64
  simp only [Bool.and_eq_true]

theorem returnMap64_error (m : LIBM64) (p : MPM_PARTICLE64) (sb : Vector3d64) (f : Double)
    (e : Fault) (h : returnMap64 m p sb f = .error e) : e = .undefinedReturn := by
  rw [returnMap64_eq] at h
  split_ifs at h
  cases h
  rfl

theorem double_regions (a b : Double) (ha : a ≠ .nan) (hb : b ≠ .nan) :
    (¬(a.ge0 = true ∧ b.le0 = true) ∧ ¬(a.lt0 = true ∧ b.lt0 = true) ∧
      ¬(a.gt0 = true ∧ b.gt0 = true)) ↔
    ((a.lt0 = true ∧ b.ge0 = true) ∨ (a.eq0 = true ∧ b.gt0 = true)) := by
  obtain ⟨a1, -, a3, a4⟩ := double_sign a ha
  obtain ⟨b1, b2, -, b4⟩ := double_sign b hb
  rw [a1, a3, b1, b2]
  revert a4 b4
  cases a.lt0 <;> cases a.gt0 <;> cases b.lt0 <;> cases b.gt0 <;> simp

theorem double_order (s1 s2 s3 : Double) (h1 : s1 ≠ .nan) (h2 : s2 ≠ .nan) (h3 : s3 ≠ .nan) :
    (s1.lt s2 = true ∨ s1.lt s3 = true ∨ s2.lt s3 = true) ↔
      ¬(s2.le s1 = true ∧ s3.le s2 = true) := by
  rw [double_lt_iff_place s1 s2 h1 h2, double_lt_iff_place s1 s3 h1 h3,
    double_lt_iff_place s2 s3 h2 h3, double_le_iff_place s2 s1 h2 h1,
    double_le_iff_place s3 s2 h3 h2]
  constructor
  · rintro (h | h | h) ⟨a, b⟩
    · exact absurd a (not_le.mpr h)
    · exact absurd (b.trans a) (not_le.mpr h)
    · exact absurd b (not_le.mpr h)
  · intro h
    by_cases a : s2.place ≤ s1.place
    · exact Or.inr (Or.inr (not_le.mp fun b => h ⟨a, b⟩))
    · exact Or.inl (not_le.mp a)

/-- C28 (amended). Branch selection of the return mapping in binary64 (entered
when `f>0.`), with `t1`, `t2`, `p12`, `p13`, `sa`, `rp`, `k` as the code
computes them, for all values of the operands, NaN and infinities included: the
apex `sc = sa` when `t1>0.` and `t2>0.`; otherwise the plane `sc = sb - f*rp`
when `p12>=0.` and `p13<=0.`; otherwise the edge `sc = t1*rl1 + sa` when
`p12<0.` and `p13<0.`; otherwise the edge `sc = t2*rl2 + sa` when `p12>0.` and
`p13>0.`; and "undefined" exactly when none of the four tests holds.  When
neither `p12` nor `p13` is a NaN that is: not the apex, and `p12<0.` with
`p13>=0.` or `p12==0.` with `p13>0.`; when one of them is a NaN it is every case
that is not the apex.  `MohrCoulomb` aborts with "wrong order of s" exactly when
`s1<s2 || s1<s3 || s2<s3`, which for eigenvalues that are not NaN is: not
`s1 >= s2 >= s3`; and with "undefined" exactly when the order test fails, `f>0.`
and the return mapping is undefined. -/
theorem MohrCoulomb64_branches (m : LIBM64) (eig : Matrix3d64 → Vector3d64 × Matrix3d64)
    (p : MPM_PARTICLE64) (de : Matrix3d64) (q : MPM_PARTICLE64) (sb : Vector3d64) (f : Double) :
    ((mcT1_64 m q sb).gt0 = true ∧ (mcT2_64 m q sb).gt0 = true →
      returnMap64 m q sb f = .ok (mcSa64 m q)) ∧
    (¬((mcT1_64 m q sb).gt0 = true ∧ (mcT2_64 m q sb).gt0 = true) →
      (mcP12_64 m q sb).ge0 = true ∧ (mcP13_64 m q sb).le0 = true →
      returnMap64 m q sb f =
        .ok (Vector3d64.zipWith Double.sub sb ((mcRp64 m q).map fun a => f.mul a))) ∧
    (¬((mcT1_64 m q sb).gt0 = true ∧ (mcT2_64 m q sb).gt0 = true) →
      ¬((mcP12_64 m q sb).ge0 = true ∧ (mcP13_64 m q sb).le0 = true) →
      (mcP12_64 m q sb).lt0 = true ∧ (mcP13_64 m q sb).lt0 = true →
      returnMap64 m q sb f =
        .ok (Vector3d64.zipWith Double.add
          ((⟨Double.ofInt 1, Double.ofInt 1, mcK64 m q⟩ : Vector3d64).map fun a =>
            (mcT1_64 m q sb).mul a) (mcSa64 m q))) ∧
    (¬((mcT1_64 m q sb).gt0 = true ∧ (mcT2_64 m q sb).gt0 = true) →
      ¬((mcP12_64 m q sb).ge0 = true ∧ (mcP13_64 m q sb).le0 = true) →
      ¬((mcP12_64 m q sb).lt0 = true ∧ (mcP13_64 m q sb).lt0 = true) →
      (mcP12_64 m q sb).gt0 = true ∧ (mcP13_64 m q sb).gt0 = true →
      returnMap64 m q sb f =
        .ok (Vector3d64.zipWith Double.add
          ((⟨Double.ofInt 1, mcK64 m q, mcK64 m q⟩ : Vector3d64).map fun a =>
            (mcT2_64 m q sb).mul a) (mcSa64 m q))) ∧
    (returnMap64 m q sb f = .error .undefinedReturn ↔
      ¬((mcT1_64 m q sb).gt0 = true ∧ (mcT2_64 m q sb).gt0 = true) ∧
      ¬((mcP12_64 m q sb).ge0 = true ∧ (mcP13_64 m q sb).le0 = true) ∧
      ¬((mcP12_64 m q sb).lt0 = true ∧ (mcP13_64 m q sb).lt0 = true) ∧
      ¬((mcP12_64 m q sb).gt0 = true ∧ (mcP13_64 m q sb).gt0 = true)) ∧
    (mcP12_64 m q sb ≠ .nan → mcP13_64 m q sb ≠ .nan →
      (returnMap64 m q sb f = .error .undefinedReturn ↔
        ¬((mcT1_64 m q sb).gt0 = true ∧ (mcT2_64 m q sb).gt0 = true) ∧
        (((mcP12_64 m q sb).lt0 = true ∧ (mcP13_64 m q sb).ge0 = true) ∨
          ((mcP12_64 m q sb).eq0 = true ∧ (mcP13_64 m q sb).gt0 = true)))) ∧
    (mcP12_64 m q sb = .nan ∨ mcP13_64 m q sb = .nan →
      (returnMap64 m q sb f = .error .undefinedReturn ↔
        ¬((mcT1_64 m q sb).gt0 = true ∧ (mcT2_64 m q sb).gt0 = true))) ∧
    (p.MohrCoulomb m eig de = .error .wrongOrderOfS ↔
      ((eig (p.Elastic de).S).1.c2.lt (eig (p.Elastic de).S).1.c1 = true ∨
        (eig (p.Elastic de).S).1.c2.lt (eig (p.Elastic de).S).1.c0 = true ∨
        (eig (p.Elastic de).S).1.c1.lt (eig (p.Elastic de).S).1.c0 = true)) ∧
    ((eig (p.Elastic de).S).1.c2 ≠ .nan → (eig (p.Elastic de).S).1.c1 ≠ .nan →
      (eig (p.Elastic de).S).1.c0 ≠ .nan →
      (p.MohrCoulomb m eig de = .error .wrongOrderOfS ↔
        ¬((eig (p.Elastic de).S).1.c1.le (eig (p.Elastic de).S).1.c2 = true ∧
          (eig (p.Elastic de).S).1.c0.le (eig (p.Elastic de).S).1.c1 = true))) ∧
    (p.MohrCoulomb m eig de = .error .undefinedReturn ↔
      ¬((eig (p.Elastic de).S).1.c2.lt (eig (p.Elastic de).S).1.c1 = true ∨
        (eig (p.Elastic de).S).1.c2.lt (eig (p.Elastic de).S).1.c0 = true ∨
        (eig (p.Elastic de).S).1.c1.lt (eig (p.Elastic de).S).1.c0 = true) ∧
      (yieldF64 m (p.Elastic de)
        ⟨(eig (p.Elastic de).S).1.c2, (eig (p.Elastic de).S).1.c1,
          (eig (p.Elastic de).S).1.c0⟩).gt0 = true ∧
      returnMap64 m (p.Elastic de)
        ⟨(eig (p.Elastic de).S).1.c2, (eig (p.Elastic de).S).1.c1, (eig (p.Elastic de).S).1.c0⟩
        (yieldF64 m (p.Elastic de)
          ⟨(eig (p.Elastic de).S).1.c2, (eig (p.Elastic de).S).1.c1,
            (eig (p.Elastic de).S).1.c0⟩) = .error .undefinedReturn) := by
  have hE : returnMap64 m q sb f = .error .undefinedReturn ↔
      ¬((mcT1_64 m q sb).gt0 = true ∧ (mcT2_64 m q sb).gt0 = true) ∧
      ¬((mcP12_64 m q sb).ge0 = true ∧ (mcP13_64 m q sb).le0 = true) ∧
      ¬((mcP12_64 m q sb).lt0 = true ∧ (mcP13_64 m q sb).lt0 = true) ∧
      ¬((mcP12_64 m q sb).gt0 = true ∧ (mcP13_64 m q sb).gt0 = true) := by
    rw [returnMap64_eq]
    constructor
    · intro h
      split_ifs at h with h1 h2 h3 h4
      exact ⟨h1, h2, h3, h4⟩
    · rintro ⟨h1, h2, h3, h4⟩
      rw [if_neg h1, if_neg h2, if_neg h3, if_neg h4]
  have hH : p.MohrCoulomb m eig de = .error .wrongOrderOfS ↔
      ((eig (p.Elastic de).S).1.c2.lt (eig (p.Elastic de).S).1.c1 = true ∨
        (eig (p.Elastic de).S).1.c2.lt (eig (p.Elastic de).S).1.c0 = true ∨
        (eig (p.Elastic de).S).1.c1.lt (eig (p.Elastic de).S).1.c0 = true) := by
    rw [MohrCoulomb64_error]
    constructor
    · rintro (⟨h, -⟩ | ⟨-, -, h⟩)
      · simpa [Bool.or_eq_true, or_assoc] using h
      · exact absurd (returnMap64_error _ _ _ _ _ h) (by simp)
    · intro h
      exact Or.inl ⟨by simpa [Bool.or_eq_true, or_assoc] using h, rfl⟩
  refine ⟨?_, ?_, ?_, ?_, hE, ?_, ?_, hH, ?_, ?_⟩
  · intro h
    rw [returnMap64_eq, if_pos h]
  · intro h1 h2
    rw [returnMap64_eq, if_neg h1, if_pos h2]
  · intro h1 h2 h3
    rw [returnMap64_eq, if_neg h1, if_neg h2, if_pos h3]
  · intro h1 h2 h3 h4
    rw [returnMap64_eq, if_neg h1, if_neg h2, if_neg h3, if_pos h4]
  · intro ha hb
    rw [hE, double_regions _ _ ha hb]
  · intro h
    rw [hE]
    constructor
    · intro h1
      exact h1.1
    · intro h1
      refine ⟨h1, ?_⟩
      rcases h with h | h <;> rw [h] <;>
        simp [double_nan_tests.1, double_nan_tests.2.1, double_nan_tests.2.2.1,
          double_nan_tests.2.2.2.1]
  · intro h1 h2 h3
    rw [hH, double_order _ _ _ h1 h2 h3]
  · rw [MohrCoulomb64_error]
    simp only [Bool.or_eq_true, Bool.or_eq_false_iff, or_assoc, not_or, Bool.not_eq_true]
    constructor
    · rintro (⟨-, h⟩ | ⟨⟨⟨h1, h2⟩, h3⟩, h4, h5⟩)
      · cases h
      · exact ⟨⟨h1, h2, h3⟩, h4, h5⟩
    · rintro ⟨⟨h1, h2, h3⟩, h4, h5⟩
      exact Or.inr ⟨⟨⟨h1, h2⟩, h3⟩, h4, h5⟩

set_option maxRecDepth 1000000 in
/-- Witness of `MohrCoulomb64_branches`: for the trial principal stresses
`(-1,-2,-6)` of the example particle with the friction angle of 30 degrees and
its yield value `f`, `t1 < 0`, `p12 > 0` and `p13 < 0`, so the plane branch is
taken. -/
theorem MohrCoulomb64_branches_witness :
    ¬((mcT1_64 exLibm64 exSlope64 exTrial64).gt0 = true ∧
        (mcT2_64 exLibm64 exSlope64 exTrial64).gt0 = true) ∧
    ((mcP12_64 exLibm64 exSlope64 exTrial64).ge0 = true ∧
        (mcP13_64 exLibm64 exSlope64 exTrial64).le0 = true) ∧
    returnMap64 exLibm64 exSlope64 exTrial64 (yieldF64 exLibm64 exSlope64 exTrial64) =
      .ok (Vector3d64.zipWith Double.sub exTrial64
        ((mcRp64 exLibm64 exSlope64).map fun a =>
          (yieldF64 exLibm64 exSlope64 exTrial64).mul a)) :=
  ⟨by decide!, by decide!,
    (MohrCoulomb64_branches exLibm64 exEig64 exSlope64 Matrix3d64.zero exSlope64 exTrial64
      (yieldF64 exLibm64 exSlope64 exTrial64)).2.1 (by decide!) (by decide!)⟩

set_option maxRecDepth 1000000 in
/-- C28 (counterexample). With the friction angle `Phi = 0` and `C = 0` the
code computes `k = 1`, `k-1. = 0` and `sa = 0/0`, a NaN, so `t1`, `t2`, `p12`
and `p13` are NaN, every test is false and the return mapping aborts with
"undefined", although neither `p12<0.` with `p13>=0.` nor `p12==0.` with
`p13>0.` holds; `MohrCoulomb` on the stress `diag(-1,-2,-6)` (`f = 5`) aborts
with "undefined". -/
theorem MohrCoulomb64_nan_counterexample :
    exFlat64.Phi = .zero false ∧ exFlat64.C = .zero false ∧
    mcK64 exLibm64 exFlat64 = Double.ofInt 1 ∧
    mcSa64 exLibm64 exFlat64 = ⟨.nan, .nan, .nan⟩ ∧
    mcT1_64 exLibm64 exFlat64 exTrial64 = .nan ∧
    mcT2_64 exLibm64 exFlat64 exTrial64 = .nan ∧
    mcP12_64 exLibm64 exFlat64 exTrial64 = .nan ∧
    mcP13_64 exLibm64 exFlat64 exTrial64 = .nan ∧
    yieldF64 exLibm64 exFlat64 exTrial64 = Double.ofInt 5 ∧
    returnMap64 exLibm64 exFlat64 exTrial64 (Double.ofInt 5) = .error .undefinedReturn ∧
    ¬(((mcP12_64 exLibm64 exFlat64 exTrial64).lt0 = true ∧
          (mcP13_64 exLibm64 exFlat64 exTrial64).ge0 = true) ∨
        ((mcP12_64 exLibm64 exFlat64 exTrial64).eq0 = true ∧
          (mcP13_64 exLibm64 exFlat64 exTrial64).gt0 = true)) ∧
    (exEig64 (exFlat64.Elastic Matrix3d64.zero).S).1 =
      ⟨Double.ofInt (-6), Double.ofInt (-2), Double.ofInt (-1)⟩ ∧
    exFlat64.MohrCoulomb exLibm64 exEig64 Matrix3d64.zero = .error .undefinedReturn := by
  and_intros <;> decide!

/-! ## The solver in binary64: rounding -/

set_option maxRecDepth 1000000 in
/-- C1 (counterexample). Three particles of masses `0.1`, `0.2`, `0.3` sit on
node `1` (weight `1` each).  `ParticleToNode` in the order of the list leaves
the node with the mass `(0.1 + 0.2) + 0.3 = 0.6000000000000001`, and in the
reversed order with `(0.3 + 0.2) + 0.1 = 0.6`: the accumulated mass depends on
the order of the particles. -/
theorem ParticleToNode_order_counterexample :
    exOrder64.Ln = [exNode64, exNode64, exNode64] ∧ exOrder64.LAn = [] ∧
    exOrder64.Lp.reverse.Perm exOrder64.Lp ∧
    ((ParticleToNode64 exHat64 (fun _ => 0) exOrder64).toOption.map fun s =>
        (s.Lp.map fun p => (p.Lni, p.LnN), s.Ln.map fun nd => nd.M)) =
      some ([([1], [Double.ofInt 1]), ([1], [Double.ofInt 1]), ([1], [Double.ofInt 1])],
        [.zero false, Double.ofFrac 6000000000000001 (10 ^ 16), .zero false]) ∧
    ((ParticleToNode64 exHat64 (fun _ => 0)
          { exOrder64 with Lp := exOrder64.Lp.reverse }).toOption.map fun s =>
        (s.Lp.map fun p => (p.Lni, p.LnN), s.Ln.map fun nd => nd.M)) =
      some ([([1], [Double.ofInt 1]), ([1], [Double.ofInt 1]), ([1], [Double.ofInt 1])],
        [.zero false, Double.ofFrac 6 10, .zero false]) ∧
    Double.ofFrac 6000000000000001 (10 ^ 16) ≠ Double.ofFrac 6 10 ∧
    (Double.ofFrac 6000000000000001 (10 ^ 16)).eq (Double.ofFrac 6 10) = false := by
  and_intros <;> decide!

set_option maxRecDepth 1000000 in
/-- C2 (counterexample). One particle of mass `0.9` at `x = 0.3` has the
weights `0.7` and `0.30000000000000004`, whose sum is exactly `1`.
`ParticleToNode` leaves the nodes with the masses `0.63` and
`0.2700000000000001`: their sum is `0.9000000000000001` when it is formed in
`double`, and differs from the particle mass as a sum of real numbers too. -/
theorem ParticleToNode_mass_counterexample :
    exMass64.Ln = [exNode64, exNode64, exNode64] ∧ exMass64.LAn = [] ∧
    ((ParticleToNode64 exHat64 (fun _ => 0) exMass64).toOption.map fun s =>
        (s.Lp.map fun p => (p.Lni, p.LnN, (p.LnN.map Double.toRat).sum),
          s.Ln.map fun nd => nd.M)) =
      some ([([0, 1], [Double.ofFrac 7 10, Double.ofFrac 30000000000000004 (10 ^ 17)], 1)],
        [Double.ofFrac 63 100, Double.ofFrac 2700000000000001 (10 ^ 16), .zero false]) ∧
    (Double.ofFrac 7 10).add (Double.ofFrac 30000000000000004 (10 ^ 17)) = Double.ofInt 1 ∧
    ((Double.ofFrac 63 100).add (Double.ofFrac 2700000000000001 (10 ^ 16))).add (.zero false) =
      Double.ofFrac 9000000000000001 (10 ^ 16) ∧
    (Double.ofFrac 9000000000000001 (10 ^ 16)).eq (Double.ofFrac 9 10) = false ∧
    (Double.ofFrac 63 100).toRat + (Double.ofFrac 2700000000000001 (10 ^ 16)).toRat + 0 ≠
      (Double.ofFrac 9 10).toRat ∧
    exMass64.Lp.map (fun p => p.M) = [Double.ofFrac 9 10] := by
  and_intros <;> decide!

set_option maxRecDepth 1000000 in
/-- C3 (counterexample). One free particle of mass `0.1` at rest at `x = 0.125`
(weights `0.875` and `0.125`, gradients `-1` and `1`), body acceleration `10`,
`Dt = 0.5`, `Dc = 0`, no boundary condition.  After `ParticleToNode`,
`CalVOnNode`, `NodeToParticle` its velocity is `4.999999999999999`: the momentum
`M*V` is `0.49999999999999994` in `double`, whereas `Dt*(M*B + Fh)` is `0.5`;
the two differ as products of real numbers too. -/
theorem momentum_round_trip_counterexample :
    exPush64.Lp.map (fun p => (p.M, p.V, p.B, p.Fh, p.FixV)) =
      [(Double.ofFrac 1 10, Vector3d64.zero, ⟨Double.ofInt 10, .zero false, .zero false⟩,
        Vector3d64.zero, false)] ∧
    exPush64.Dc = .zero false ∧ exPush64.Ln = [exNode64, exNode64, exNode64] ∧
    exNode64.BCTypes = [] ∧
    ((scatterResolveGather64 exHat64 exBC64 exSqrt64 (fun _ => 0) exPush64).toOption.map
        fun s => s.Lp.map fun p => (p.Lni, p.LnN, p.LnGN.map fun g => g.c0, p.V)) =
      some [([0, 1], [Double.ofFrac 7 8, Double.ofFrac 1 8],
        [Double.ofInt (-1), Double.ofInt 1],
        ⟨Double.ofFrac 4999999999999999 (10 ^ 15), .zero false, .zero false⟩)] ∧
    (Double.ofFrac 1 10).mul (Double.ofFrac 4999999999999999 (10 ^ 15)) =
      Double.ofFrac 49999999999999994 (10 ^ 17) ∧
    exPush64.Dt.mul (((Double.ofFrac 1 10).mul (Double.ofInt 10)).add (.zero false)) =
      Double.ofFrac 1 2 ∧
    (Double.ofFrac 49999999999999994 (10 ^ 17)).eq (Double.ofFrac 1 2) = false ∧
    (Double.ofFrac 1 10).toRat * (Double.ofFrac 4999999999999999 (10 ^ 15)).toRat ≠
      exPush64.Dt.toRat * ((Double.ofFrac 1 10).toRat * (Double.ofInt 10).toRat + 0) := by
  and_intros <;> decide!

set_option maxRecDepth 1000000 in
/-- C22 (counterexample). One free, unstressed particle of mass `0.1` at rest at
`x = 0.5` (weights `0.5` and `0.5`, gradients `-1` and `1`, node masses `0.05`),
body acceleration `g = 3`, `Dt = 0.5`, `Dc = 0`, no boundary condition, elastic
model.  After the first step (`ParticleToNode`, `CalVOnNode`, `NodeToParticle`,
`CalStressOnParticleElastic`) its velocity is `1.5000000000000002`, not
`1*g*Dt = 1.5` (the product `3*0.5` is exact); the position `1.25` and the zero
stress are those of the closed form. -/
theorem SolveMUSL_free_fall_counterexample :
    exFall64.Lp.map (fun p => (p.M, p.X, p.V, p.B, p.Fh, p.FixV)) =
      [(Double.ofFrac 1 10, ⟨Double.ofFrac 1 2, .zero false, .zero false⟩, Vector3d64.zero,
        ⟨Double.ofInt 3, .zero false, .zero false⟩, Vector3d64.zero, false)] ∧
    exFall64.Lp.map (fun p => p.S) = [Matrix3d64.zero] ∧
    exFall64.Dc = .zero false ∧ exFall64.Ln = [exNode64, exNode64, exNode64] ∧
    exNode64.BCTypes = [] ∧
    ((ParticleToNode64 exHat64 (fun _ => 0) exFall64).toOption.map
        fun s => s.Ln.map fun nd => nd.M) =
      some [Double.ofFrac 5 100, Double.ofFrac 5 100, .zero false] ∧
    ((stepElastic64 exHat64 exBC64 exSqrt64 (fun _ => 0) exFall64).toOption.map
        fun s => s.Lp.map fun p => (p.Lni, p.LnN, p.LnGN.map fun g => g.c0)) =
      some [([0, 1], [Double.ofFrac 1 2, Double.ofFrac 1 2],
        [Double.ofInt (-1), Double.ofInt 1])] ∧
    ((stepElastic64 exHat64 exBC64 exSqrt64 (fun _ => 0) exFall64).toOption.map
        fun s => s.Lp.map fun p => (p.V, p.X)) =
      some [(⟨Double.ofFrac 15000000000000002 (10 ^ 16), .zero false, .zero false⟩,
        ⟨Double.ofFrac 5 4, .zero false, .zero false⟩)] ∧
    ((stepElastic64 exHat64 exBC64 exSqrt64 (fun _ => 0) exFall64).toOption.map
        fun s => s.Lp.map fun p => p.S) = some [Matrix3d64.zero] ∧
    (Double.ofInt 1).mul ((Double.ofInt 3).mul exFall64.Dt) = Double.ofFrac 3 2 ∧
    (Double.ofFrac 15000000000000002 (10 ^ 16)).eq (Double.ofFrac 3 2) = false ∧
    (Double.ofFrac 15000000000000002 (10 ^ 16)).toRat ≠ 1 * 3 * exFall64.Dt.toRat ∧
    exFall64.Dt.toRat = 1 / 2 := by
  and_intros <;> decide!

set_option maxRecDepth 1000000 in
/-- C10 (counterexample). For `Mu = 1`, `La = 0`, the stress `diag(1,0,0)` and
the strain increment `de = diag(2^-54, 0, 0)`: `Elastic(de)` adds `2^-53` to
`S(0,0) = 1`, which rounds to `1`, and `Elastic(-de)` then subtracts `2^-53`,
which is exact: the stress comes back as `1 - 2^-53 = 0.9999999999999999`, not
`1`. -/
theorem Elastic_round_trip_counterexample :
    exUnit64.S.r0.c0 = Double.ofInt 1 ∧
    (exUnit64.Elastic (diag64 (Double.ofFrac 1 (2 ^ 54)) (.zero false) (.zero false))).S.r0.c0 =
      Double.ofInt 1 ∧
    ((exUnit64.Elastic (diag64 (Double.ofFrac 1 (2 ^ 54)) (.zero false) (.zero false))).Elastic
      ((diag64 (Double.ofFrac 1 (2 ^ 54)) (.zero false) (.zero false)).map Double.neg)).S.r0.c0 =
      Double.ofFrac 9999999999999999 (10 ^ 16) ∧
    (Double.ofFrac 9999999999999999 (10 ^ 16)).eq (Double.ofInt 1) = false ∧
    (Double.ofFrac 9999999999999999 (10 ^ 16)).toRat = 1 - 1 / 2 ^ 53 := by
  and_intros <;> decide!

end ComFluSoM
